import Mathlib

/-!
# Deferred registration and fixed-point materialisation of compiled-in types

A shallow embedding of `Runtime/CoreUObject/Private/UObject/UObjectBase.cpp`.

* The process-wide singletons of the file (the pending-registrant dictionary, the
  linked list `GFirstPendingRegistrant .. GLastPendingRegistrant`, the per-module
  holding map, the three descriptor queues, the object table) are the fields of one
  explicit `State` record that every function takes and returns.
* `FPendingRegistrant` nodes live in a heap `State.Nodes`; a pointer to a node is its
  index, `new` appends a cell and `delete` empties it.
* `check(...)` is a fatal assertion: the function returns `Err.check`.
* Code that the file calls but does not define (descriptor factories, `GetDefaultObject`,
  `CreatePackage`, `FFieldCompiledInInfo::Register`) is a field of `Env`.  Such a callback
  is described by the list of calls it makes back into the entry points of this file
  (`Action`), which is the only way it can reach the file-local queues.
* Loops whose trip count the callbacks control are bounded by a `fuel` argument;
  running out of fuel is the distinguished result `Err.fuel`.
* The blocks under `WITH_HOT_RELOAD` inside `ProcessNewlyLoadedUObjects`,
  `UClassRegisterAllCompiledInClasses` and `UObjectCompiledInDefer` are outside the
  configuration modelled here; `USE_PER_MODULE_UOBJECT_BOOTSTRAP` is a field of `Env`.
  The two functions that compare fingerprints under `WITH_HOT_RELOAD`, `UClassCompiledInDefer`
  and `FindExistingObjectIfHotReload`, are embedded over a state of their own (section
  "Hot reload").
* The log `State.Trace` and the nesting depth `State.Depth` are bookkeeping of the model:
  they record which calls were made, in which order, and by which level of re-entrancy.
-/

namespace UObjectBootstrap

/-! ## Data model -/

/-- Names are compared as `FName` values; the embedding identifies a name with its `FName`. -/
abbrev FName := String

/-- The `FName` constant `NAME_None`. -/
def NAME_None : FName := "None"

/-- Address of a `UObjectBase`: its index in `State.Objects`. -/
abbrev ObjId := Nat

/-- Address of an `FPendingRegistrant` list node: its index in `State.Nodes`. -/
abbrev NodeAddr := Nat

/-- Identity of a function pointer (`RegisterFn`, `UClass *(*)()`). -/
abbrev FnId := Nat

/-- Results of the embedded functions. -/
inductive Err where
  /-- A `check`/`checkf` assertion failed: the process aborts. -/
  | check
  /-- A pointer to a freed list node or to no object was dereferenced. -/
  | memory
  /-- The evaluation budget of the model was exhausted. -/
  | fuel
deriving DecidableEq, Repr

/-- The value type of the pending-registrant dictionary, `struct FPendingRegistrantInfo`. -/
structure FPendingRegistrantInfo where
  Name : FName
  PackageName : FName
deriving DecidableEq, Repr

/-- A node of the pending-registrant list, `struct FPendingRegistrant`. -/
structure FPendingRegistrant where
  Object : ObjId
  NextAutoRegister : Option NodeAddr
deriving DecidableEq, Repr

/-- Modelled from the spec: the lookup dictionary. `TMap` is an engine container declared
outside the sources at hand; it keeps one value per key, in insertion order. -/
abbrev TMap (κ ν : Type) := List (κ × ν)

/-- The call `TMap::Find`: the value stored under the key, if any. -/
def TMap.Find {κ ν : Type} [DecidableEq κ] (m : TMap κ ν) (k : κ) : Option ν :=
  List.lookup k m

/-- The call `TMap::Remove`: drops every association of the key. -/
def TMap.Remove {κ ν : Type} [DecidableEq κ] (m : TMap κ ν) (k : κ) : TMap κ ν :=
  List.filter (fun e => decide (e.1 ≠ k)) m

/-- The call `TMap::Add`: sets the value of the key, replacing an existing association. -/
def TMap.Add {κ ν : Type} [DecidableEq κ] (m : TMap κ ν) (k : κ) (v : ν) : TMap κ ν :=
  TMap.Remove m k ++ [(k, v)]

/-- What a pointer to a `UObject` can point at in this file. -/
inductive UObjectRef where
  /-- An object of `State.Objects`. -/
  | object (o : ObjId)
  /-- The `UPackage` that `CreatePackage` returns for a name. -/
  | package (name : FName)
  /-- The result of `UClass::StaticClass()`. -/
  | UClassStaticClass
deriving DecidableEq, Repr

/-- The members of `UObjectBase`. -/
structure UObjectBase where
  ObjectFlags : Nat
  InternalIndex : Int
  ClassPrivate : Option UObjectRef
  OuterPrivate : Option UObjectRef
  NamePrivate : FName
deriving DecidableEq, Repr

/-- A slot of `GUObjectArray`. -/
structure FUObjectItem where
  Object : ObjId
  Flags : Nat
deriving DecidableEq, Repr

/-- Entry of the deferred enum queue, `struct FPendingEnumRegistrant`. -/
structure FPendingEnumRegistrant where
  RegisterFn : FnId
  PackageName : FName
deriving DecidableEq, Repr

/-- Entry of the deferred struct queue, `struct FPendingStructRegistrant`. -/
structure FPendingStructRegistrant where
  RegisterFn : FnId
  PackageName : FName
deriving DecidableEq, Repr

/-- The argument `ENotifyRegistrationType` of `NotifyRegistrationEvent`. -/
inductive ENotifyRegistrationType where
  | NRT_Class
  | NRT_ClassCDO
  | NRT_Struct
  | NRT_Enum
deriving DecidableEq, Repr

/-- Calls to code outside the file, and the milestones of the file, in program order. -/
inductive Call where
  /-- The call `NotifyRegistrationEvent(.., NRP_Added, InRegister, bDynamic)`. -/
  | NotifyAdded (PackageName Name : FName) (type : ENotifyRegistrationType) (fn : FnId)
      (bDynamic : Bool)
  /-- Entry into `UObjectBase::DeferredRegister`. -/
  | DeferredRegister (o : ObjId) (PackageName Name : FName)
  /-- The call `CreatePackage(PackageName)`. -/
  | CreatePackage (PackageName : FName)
  /-- The call `EnumRegistrant.RegisterFn()`. -/
  | EnumRegisterFn (fn : FnId)
  /-- The call `StructRegistrant.RegisterFn()`. -/
  | StructRegisterFn (fn : FnId)
  /-- The call `Registrant()` of a class descriptor, with the class it returned. -/
  | ClassRegistrant (fn : FnId) (cls : ObjId)
  /-- The call `Class->GetDefaultObject()`. -/
  | GetDefaultObject (cls : ObjId)
  /-- The call `Class->Register()` of `UClassRegisterAllCompiledInClasses`. -/
  | ClassRegister (info : FnId)
  /-- The call `UClass::AssembleReferenceTokenStreams()`. -/
  | AssembleReferenceTokenStreams
deriving DecidableEq, Repr

/-- A logged call together with the nesting depth of the callback that made it:
the code of an entry point called by the host logs at depth 0, code called back from
inside a callback of that entry point at depth 1, and so on. -/
structure Event where
  depth : Nat
  call : Call
deriving DecidableEq, Repr

/-- The global state of the file. -/
structure State where
  /-- The flag behind `UObjectInitialized()`. -/
  ObjInitialized : Bool
  GIsInitialLoad : Bool
  /-- The dictionary `FPendingRegistrantInfo::GetMap()`. -/
  PendingRegistrantInfo : TMap ObjId FPendingRegistrantInfo
  /-- Heap of list nodes; `none` is a freed cell. -/
  Nodes : List (Option FPendingRegistrant)
  GFirstPendingRegistrant : Option NodeAddr
  GLastPendingRegistrant : Option NodeAddr
  /-- The map `GetPerModuleBootstrapMap()`. -/
  PerModuleBootstrapMap : TMap FName (List NodeAddr)
  /-- The array `GetDeferredCompiledInEnumRegistration()`. -/
  DeferredCompiledInEnumRegistration : List FPendingEnumRegistrant
  /-- The array `GetDeferredCompiledInStructRegistration()`. -/
  DeferredCompiledInStructRegistration : List FPendingStructRegistrant
  /-- The array `GetDeferredCompiledInRegistration()`. -/
  DeferredCompiledInRegistration : List FnId
  /-- The array `GetDeferredClassRegistration()`. -/
  DeferredClassRegistration : List FnId
  DynamicEnumMap : TMap FName FnId
  DynamicStructMap : TMap FName FnId
  DynamicClassMap : TMap FName (FnId × FnId)
  /-- Every `UObjectBase` constructed so far. -/
  Objects : List UObjectBase
  /-- The table `GUObjectArray`. -/
  ObjObjects : List FUObjectItem
  /-- Packages made by `CreatePackage`, with their `PKG_CompiledIn` flag. -/
  Packages : TMap FName Bool
  /-- Log of calls. -/
  Trace : List Event
  /-- Current callback nesting depth. -/
  Depth : Nat
deriving Repr

/-- A call that a callback makes back into this file. -/
inductive Action where
  /-- Construct a `UObjectBase` with the bootstrap constructor and call `Register` on it, as
  `GetPrivateStaticClassBody` does for the class object it creates (see the note above
  `UClassRegisterAllCompiledInClasses` in the source): a callback registers the objects it
  brings into being, never one that exists already. -/
  | ConstructAndRegister (InFlags : Nat) (PackageName InName : FName)
  | UObjectCompiledInDeferEnum (InRegister : FnId) (PackageName ObjectName : FName)
      (bDynamic : Bool) (DynamicPathName : FName)
  | UObjectCompiledInDeferStruct (InRegister : FnId) (PackageName ObjectName : FName)
      (bDynamic : Bool) (DynamicPathName : FName)
  | UObjectCompiledInDefer (InRegister InStaticClass : FnId) (Name PackageName : FName)
      (bDynamic : Bool) (DynamicPathName : FName)
  | UClassCompiledInDefer (ClassInfo : FnId)
  | UObjectForceRegistration (Object : ObjId) (bCheckForModuleRelease : Bool)
  | ProcessNewlyLoadedUObjects (Package : FName) (bCanProcessNewlyLoadedObjects : Bool)
deriving DecidableEq, Repr

/-- Build configuration, constants and callbacks that the file takes from elsewhere. -/
structure Env where
  USE_PER_MODULE_UOBJECT_BOOTSTRAP : Bool
  /-- Result of `IsInGameThread()`. -/
  IsInGameThread : Bool
  RF_MarkAsRootSet : Nat
  RF_MarkAsNative : Nat
  /-- The constant `EInternalObjectFlags::Async`. -/
  InternalFlag_Async : Nat
  /-- The constant `EInternalObjectFlags::RootSet`. -/
  InternalFlag_RootSet : Nat
  /-- The constant `EInternalObjectFlags::Native`. -/
  InternalFlag_Native : Nat
  GLongCoreUObjectPackageName : FName
  DEFAULT_OBJECT_PREFIX : String
  /-- The call `FString::StartsWith(text, prefix)`. -/
  FString_StartsWith : String → String → Bool
  /-- The call `FString::EndsWith(text, suffix)`. -/
  FString_EndsWith : String → String → Bool
  /-- The call `IPluginManager::Get().PackageNameFromModuleName`. -/
  PackageNameFromModuleName : FName → FName
  /-- The call `GUObjectArray.IsDisregardForGC`, on the object's index. -/
  IsDisregardForGC : Nat → Bool
  /-- The value `Class->GetOutermost()->GetFName()`. -/
  GetOutermostFName : ObjId → FName
  /-- What `CreatePackage` calls back. -/
  CreatePackage : FName → State → List Action
  /-- What an enum descriptor factory calls back. -/
  EnumRegisterFn : FnId → State → List Action
  /-- What a struct descriptor factory calls back. -/
  StructRegisterFn : FnId → State → List Action
  /-- What a class descriptor factory calls back, and the class it returns. -/
  ClassRegistrant : FnId → State → List Action × ObjId
  /-- What `Class->GetDefaultObject()` calls back. -/
  GetDefaultObject : ObjId → State → List Action
  /-- What `FFieldCompiledInInfo::Register` calls back. -/
  ClassRegister : FnId → State → List Action

/-! ## Operations -/

/-- Appends an event for a call made at the current depth. -/
def logCall (s : State) (c : Call) : State :=
  { s with Trace := s.Trace ++ [⟨s.Depth, c⟩] }

/-- Runs the calls a callback makes back into this file, one level deeper. -/
def invoke (run : List Action → State → Except Err State) (acts : List Action) (s : State) :
    Except Err State := do
  let s1 ← run acts { s with Depth := s.Depth + 1 }
  pure { s1 with Depth := s.Depth }

/-- Runs the body of a range-based `for` over a snapshot of an array. -/
def forEach {α : Type} (body : α → State → Except Err State) :
    List α → State → Except Err State
  | [], s => pure s
  | x :: xs, s => do
    let s1 ← body x s
    forEach body xs s1

/-- The statement block that `Register`, `UObjectReleaseModuleRegistrants` and
`UObjectReleaseAllModuleRegistrants` share: link a node behind `GLastPendingRegistrant`. -/
def linkPendingRegistrant (s : State) (PendingRegistration : NodeAddr) : Except Err State :=
  match s.GLastPendingRegistrant with
  | some last =>
    match s.Nodes[last]? with
    | some (some n) =>
      pure { s with
        Nodes := s.Nodes.set last (some { n with NextAutoRegister := some PendingRegistration })
        GLastPendingRegistrant := some PendingRegistration }
    | _ => throw Err.memory
  | none =>
    if s.GFirstPendingRegistrant.isSome then throw Err.check
    else pure { s with
      GFirstPendingRegistrant := some PendingRegistration
      GLastPendingRegistrant := some PendingRegistration }

/-- The expression `PerModuleMap.FindOrAdd(Key).Add(PendingRegistration)`. -/
def bucketAdd (m : TMap FName (List NodeAddr)) (Key : FName) (p : NodeAddr) :
    TMap FName (List NodeAddr) :=
  match TMap.Find m Key with
  | some _ => List.map (fun e => if e.1 = Key then (e.1, e.2 ++ [p]) else e) m
  | none => m ++ [(Key, [p])]

/-- The member `UObjectBase::Register`, called on `this`. -/
def Register (env : Env) (s : State) (this : ObjId) (PackageName InName : FName) :
    Except Err State :=
  let s1 := { s with
    PendingRegistrantInfo := TMap.Add s.PendingRegistrantInfo this ⟨InName, PackageName⟩ }
  let PendingRegistration : NodeAddr := s1.Nodes.length
  let s2 := { s1 with Nodes := s1.Nodes ++ [some ⟨this, none⟩] }
  if env.USE_PER_MODULE_UOBJECT_BOOTSTRAP && PackageName != "/Script/CoreUObject" then
    pure { s2 with
      PerModuleBootstrapMap := bucketAdd s2.PerModuleBootstrapMap PackageName PendingRegistration }
  else
    linkPendingRegistrant s2 PendingRegistration

/-- The function `UObjectReleaseModuleRegistrants`. -/
def UObjectReleaseModuleRegistrants (env : Env) (s : State) (Module : FName) :
    Except Err State :=
  let Package := env.PackageNameFromModuleName Module
  let ScriptName : FName := "/Script/" ++ Package
  match TMap.Find s.PerModuleBootstrapMap ScriptName with
  | some Array => do
    let s1 ← forEach (fun p st => linkPendingRegistrant st p) Array s
    pure { s1 with PerModuleBootstrapMap := TMap.Remove s1.PerModuleBootstrapMap ScriptName }
  | none => pure s

/-- The `while` loop of `DequeuePendingAutoRegistrants`. -/
def dequeueLoop : Nat → List (Option FPendingRegistrant) → Option NodeAddr →
    List FPendingRegistrant → Except Err (List (Option FPendingRegistrant) × List FPendingRegistrant)
  | _, nodes, none, out => pure (nodes, out)
  | 0, _, some _, _ => throw Err.fuel
  | fuel + 1, nodes, some p, out =>
    match nodes[p]? with
    | some (some PendingRegistrant) =>
      dequeueLoop fuel (nodes.set p none) PendingRegistrant.NextAutoRegister
        (out ++ [PendingRegistrant])
    | _ => throw Err.memory

/-- The function `DequeuePendingAutoRegistrants`; every iteration frees a live node, so
one more step than there are cells is enough. -/
def DequeuePendingAutoRegistrants (s : State) (OutPendingRegistrants : List FPendingRegistrant) :
    Except Err (State × List FPendingRegistrant) := do
  let NextPendingRegistrant := s.GFirstPendingRegistrant
  let s1 := { s with GFirstPendingRegistrant := none, GLastPendingRegistrant := none }
  let (nodes, out) ←
    dequeueLoop (s1.Nodes.length + 1) s1.Nodes NextPendingRegistrant OutPendingRegistrants
  pure ({ s1 with Nodes := nodes }, out)

/-- The expression `a & ~b` on flag words. -/
def clearFlags (a b : Nat) : Nat := a ^^^ (a &&& b)

/-- Modelled from the spec: `IsValidIndex` of the storage collaborator, as used by
`GUObjectArray.IsValid(Object)`: the index of the object is a slot of the table and that
slot holds the object. -/
def GUObjectArray_IsValid (ObjObjects : List FUObjectItem) (Objects : List UObjectBase)
    (Object : ObjId) : Bool :=
  match Objects[Object]? with
  | none => false
  | some obj =>
    match ObjObjects[obj.InternalIndex.toNat]? with
    | some item => decide (0 ≤ obj.InternalIndex) && decide (item.Object = Object)
    | none => false

/-- Modelled from the spec: `AllocateIndex(object) -> index` of the storage collaborator
(`AllocateUObjectIndexForCurrentThread`): the object gets the next slot of the table, with
no flag set. -/
def AllocateUObjectIndex (ObjObjects : List FUObjectItem) (Object : ObjId) :
    List FUObjectItem × Nat :=
  (ObjObjects ++ [⟨Object, 0⟩], ObjObjects.length)

/-- The call `GUObjectArray.IndexToObject(Index)->SetFlags(FlagsToSet)`. -/
def IndexToObject_SetFlags (ObjObjects : List FUObjectItem) (Index : Nat) (FlagsToSet : Nat) :
    List FUObjectItem :=
  match ObjObjects[Index]? with
  | some item => ObjObjects.set Index { item with Flags := item.Flags ||| FlagsToSet }
  | none => ObjObjects

/-- The member `UObjectBase::IsValidLowLevel`, for a non-null `this`. -/
def IsValidLowLevel (s : State) (this : ObjId) : Bool :=
  match s.Objects[this]? with
  | none => false
  | some obj =>
    if obj.ClassPrivate.isNone then false
    else GUObjectArray_IsValid s.ObjObjects s.Objects this

/-- The flag translation in the middle of `UObjectBase::AddObject`: the internal flags to
set on the slot and the remaining `ObjectFlags`. -/
def addObjectFlags (env : Env) (ObjectFlags InSetInternalFlags : Nat) : Nat × Nat :=
  let InternalFlagsToSet := InSetInternalFlags
  let InternalFlagsToSet :=
    if !env.IsInGameThread then InternalFlagsToSet ||| env.InternalFlag_Async
    else InternalFlagsToSet
  let rootSet := decide (ObjectFlags &&& env.RF_MarkAsRootSet ≠ 0)
  let InternalFlagsToSet :=
    if rootSet then InternalFlagsToSet ||| env.InternalFlag_RootSet else InternalFlagsToSet
  let ObjectFlags := if rootSet then clearFlags ObjectFlags env.RF_MarkAsRootSet else ObjectFlags
  let native := decide (ObjectFlags &&& env.RF_MarkAsNative ≠ 0)
  let InternalFlagsToSet :=
    if native then InternalFlagsToSet ||| env.InternalFlag_Native else InternalFlagsToSet
  let ObjectFlags := if native then clearFlags ObjectFlags env.RF_MarkAsNative else ObjectFlags
  (InternalFlagsToSet, ObjectFlags)

/-- The member `UObjectBase::AddObject`; the name hash (`HashObject`) is not represented. -/
def AddObject (env : Env) (s : State) (this : ObjId) (InName : FName) (InSetInternalFlags : Nat) :
    Except Err State :=
  match s.Objects[this]? with
  | none => throw Err.memory
  | some obj =>
    let flags := addObjectFlags env obj.ObjectFlags InSetInternalFlags
    let InternalFlagsToSet := flags.1
    let allocated := AllocateUObjectIndex s.ObjObjects this
    let obj1 : UObjectBase := { obj with
      NamePrivate := InName, ObjectFlags := flags.2, InternalIndex := allocated.2 }
    if InName = NAME_None ∨ obj1.InternalIndex < 0 then throw Err.check
    else
      let ObjObjects :=
        if InternalFlagsToSet ≠ 0 then
          IndexToObject_SetFlags allocated.1 allocated.2 InternalFlagsToSet
        else allocated.1
      let s1 := { s with Objects := s.Objects.set this obj1, ObjObjects := ObjObjects }
      if IsValidLowLevel s1 this then pure s1 else throw Err.check

/-- Modelled from the spec: `GetOrCreateContainer(name) -> container`, idempotent. The
function `CreatePackage` is defined outside these sources; the container of a name is
`UObjectRef.package name`, and the calls that creating it sets off come first. -/
def CreatePackage (env : Env) (run : List Action → State → Except Err State) (s : State)
    (PackageName : FName) : Except Err State := do
  let s1 := logCall s (Call.CreatePackage PackageName)
  let s2 ← invoke run (env.CreatePackage PackageName s1) s1
  match TMap.Find s2.Packages PackageName with
  | some _ => pure s2
  | none => pure { s2 with Packages := TMap.Add s2.Packages PackageName false }

/-- The member `UObjectBase::DeferredRegister`, called on `this`. -/
def DeferredRegister (env : Env) (run : List Action → State → Except Err State) (s : State)
    (this : ObjId) (UClassStaticClass : Option UObjectRef) (PackageName InName : FName) :
    Except Err State := do
  let s := logCall s (Call.DeferredRegister this PackageName InName)
  if !s.ObjInitialized then throw Err.check
  let s ← CreatePackage env run s PackageName
  let Package := UObjectRef.package PackageName
  let s := { s with Packages := TMap.Add s.Packages PackageName true }
  match s.Objects[this]? with
  | none => throw Err.memory
  | some obj =>
    let obj := { obj with OuterPrivate := some Package }
    if UClassStaticClass.isNone then throw Err.check
    if obj.ClassPrivate.isSome then throw Err.check
    let obj := { obj with ClassPrivate := UClassStaticClass }
    let s := { s with Objects := s.Objects.set this obj }
    let s ← AddObject env s this InName 0
    match s.Objects[this]? with
    | none => throw Err.memory
    | some obj =>
      let IsRootSet :=
        match s.ObjObjects[obj.InternalIndex.toNat]? with
        | some item => decide (item.Flags &&& env.InternalFlag_RootSet ≠ 0)
        | none => false
      if !env.IsDisregardForGC obj.InternalIndex.toNat || IsRootSet then pure s
      else throw Err.check

/-- The function `UObjectForceRegistration`. -/
def UObjectForceRegistration (env : Env) (run : List Action → State → Except Err State)
    (s : State) (Object : ObjId) (bCheckForModuleRelease : Bool) : Except Err State :=
  match TMap.Find s.PendingRegistrantInfo Object with
  | none => pure s
  | some Info => do
    let PackageName := Info.PackageName
    let s ←
      (if env.USE_PER_MODULE_UOBJECT_BOOTSTRAP && bCheckForModuleRelease then
        UObjectReleaseModuleRegistrants env s PackageName
      else pure s)
    let Name := Info.Name
    let s := { s with PendingRegistrantInfo := TMap.Remove s.PendingRegistrantInfo Object }
    DeferredRegister env run s Object (some UObjectRef.UClassStaticClass) PackageName Name

/-- The `for` loop of `UObjectProcessRegistrants` over the growing array. -/
def processRegistrantsLoop (env : Env) (run : List Action → State → Except Err State) :
    Nat → State → List FPendingRegistrant → Nat → Except Err State
  | 0, s, PendingRegistrants, RegistrantIndex =>
    if RegistrantIndex < PendingRegistrants.length then throw Err.fuel else pure s
  | fuel + 1, s, PendingRegistrants, RegistrantIndex =>
    match PendingRegistrants[RegistrantIndex]? with
    | none => pure s
    | some PendingRegistrant => do
      let s ← UObjectForceRegistration env run s PendingRegistrant.Object false
      match s.Objects[PendingRegistrant.Object]? with
      | none => throw Err.memory
      | some obj =>
        if obj.ClassPrivate.isNone then throw Err.check
        let (s, PendingRegistrants) ← DequeuePendingAutoRegistrants s PendingRegistrants
        processRegistrantsLoop env run fuel s PendingRegistrants (RegistrantIndex + 1)

/-- The function `UObjectProcessRegistrants`. -/
def UObjectProcessRegistrants (env : Env) (run : List Action → State → Except Err State)
    (fuel : Nat) (s : State) : Except Err State := do
  if !s.ObjInitialized then throw Err.check
  let (s, PendingRegistrants) ← DequeuePendingAutoRegistrants s []
  processRegistrantsLoop env run fuel s PendingRegistrants 0

/-- The member `UObjectBase::RemoveClassPrefix`. -/
def RemoveClassPrefix (env : Env) (ClassName : String) : String :=
  let DeprecatedPrefix := "DEPRECATED_"
  let NameWithoutPrefix := ClassName.drop 1
  if env.FString_StartsWith NameWithoutPrefix DeprecatedPrefix then
    NameWithoutPrefix.drop DeprecatedPrefix.length
  else NameWithoutPrefix

/-- The function `UObjectCompiledInDeferStruct`; `checkSlow` is compiled out. -/
def UObjectCompiledInDeferStruct (s : State) (InRegister : FnId) (PackageName ObjectName : FName)
    (bDynamic : Bool) (DynamicPathName : FName) : State :=
  let s :=
    if !bDynamic then
      { s with DeferredCompiledInStructRegistration :=
          s.DeferredCompiledInStructRegistration ++ [⟨InRegister, PackageName⟩] }
    else { s with DynamicStructMap := TMap.Add s.DynamicStructMap DynamicPathName InRegister }
  logCall s (Call.NotifyAdded PackageName ObjectName .NRT_Struct InRegister bDynamic)

/-- The function `UObjectCompiledInDeferEnum`; `checkSlow` is compiled out. -/
def UObjectCompiledInDeferEnum (s : State) (InRegister : FnId) (PackageName ObjectName : FName)
    (bDynamic : Bool) (DynamicPathName : FName) : State :=
  let s :=
    if !bDynamic then
      { s with DeferredCompiledInEnumRegistration :=
          s.DeferredCompiledInEnumRegistration ++ [⟨InRegister, PackageName⟩] }
    else { s with DynamicEnumMap := TMap.Add s.DynamicEnumMap DynamicPathName InRegister }
  logCall s (Call.NotifyAdded PackageName ObjectName .NRT_Enum InRegister bDynamic)

/-- The function `UObjectCompiledInDefer`; `InInitSearchableValues` fills a table that this
file does not read again and is left out. -/
def UObjectCompiledInDefer (env : Env) (s : State) (InRegister InStaticClass : FnId)
    (Name PackageName : FName) (bDynamic : Bool) (DynamicPathName : FName) : Except Err State :=
  if !bDynamic then
    let NoPrefix := RemoveClassPrefix env Name
    let s := logCall s (Call.NotifyAdded PackageName NoPrefix .NRT_Class InRegister false)
    let s := logCall s
      (Call.NotifyAdded PackageName (env.DEFAULT_OBJECT_PREFIX ++ NoPrefix) .NRT_ClassCDO
        InRegister false)
    pure { s with DeferredCompiledInRegistration := s.DeferredCompiledInRegistration ++ [InRegister] }
  else
    let s := { s with
      DynamicClassMap := TMap.Add s.DynamicClassMap DynamicPathName (InRegister, InStaticClass) }
    let OriginalPackageName : String := DynamicPathName
    if !env.FString_EndsWith OriginalPackageName Name then throw Err.check
    else
      let OriginalPackageName := OriginalPackageName.dropRight Name.length
      if !env.FString_EndsWith OriginalPackageName "." then throw Err.check
      else
        let OriginalPackageName := OriginalPackageName.dropRight 1
        let s := logCall s (Call.NotifyAdded OriginalPackageName Name .NRT_Class InRegister true)
        pure (logCall s
          (Call.NotifyAdded OriginalPackageName (env.DEFAULT_OBJECT_PREFIX ++ Name) .NRT_ClassCDO
            InRegister true))

/-- The function `UClassRegisterAllCompiledInClasses`. -/
def UClassRegisterAllCompiledInClasses (env : Env) (run : List Action → State → Except Err State)
    (s : State) : Except Err State := do
  let s ← forEach
    (fun Class st =>
      let st := logCall st (Call.ClassRegister Class)
      invoke run (env.ClassRegister Class st) st)
    s.DeferredClassRegistration s
  pure { s with DeferredClassRegistration := [] }

/-- The function `UObjectLoadAllCompiledInStructs`. -/
def UObjectLoadAllCompiledInStructs (env : Env) (run : List Action → State → Except Err State)
    (s : State) : Except Err State := do
  let PendingEnumRegistrants := s.DeferredCompiledInEnumRegistration
  let s := { s with DeferredCompiledInEnumRegistration := [] }
  let PendingStructRegistrants := s.DeferredCompiledInStructRegistration
  let s := { s with DeferredCompiledInStructRegistration := [] }
  let s ← forEach (fun (EnumRegistrant : FPendingEnumRegistrant) st =>
    CreatePackage env run st EnumRegistrant.PackageName) PendingEnumRegistrants s
  let s ← forEach (fun (StructRegistrant : FPendingStructRegistrant) st =>
    CreatePackage env run st StructRegistrant.PackageName) PendingStructRegistrants s
  let s ← forEach (fun (EnumRegistrant : FPendingEnumRegistrant) st =>
    let st := logCall st (Call.EnumRegisterFn EnumRegistrant.RegisterFn)
    invoke run (env.EnumRegisterFn EnumRegistrant.RegisterFn st) st) PendingEnumRegistrants s
  forEach (fun (StructRegistrant : FPendingStructRegistrant) st =>
    let st := logCall st (Call.StructRegisterFn StructRegistrant.RegisterFn)
    invoke run (env.StructRegisterFn StructRegistrant.RegisterFn st) st) PendingStructRegistrants s

/-- The name `/Script/Engine` of `UObjectLoadAllCompiledInDefaultProperties`. -/
def LongEnginePackageName : FName := "/Script/Engine"

/-- The three local arrays of `UObjectLoadAllCompiledInDefaultProperties`. -/
structure NewClassArrays where
  NewClasses : List ObjId
  NewClassesInCoreUObject : List ObjId
  NewClassesInEngine : List ObjId
deriving DecidableEq, Repr

/-- The first loop of `UObjectLoadAllCompiledInDefaultProperties`: run every factory and
sort the class it returns into one of the three arrays. -/
def registrantLoop (env : Env) (run : List Action → State → Except Err State) :
    List FnId → State → NewClassArrays → Except Err (State × NewClassArrays)
  | [], s, a => pure (s, a)
  | Registrant :: rest, s, a => do
    let Class := (env.ClassRegistrant Registrant s).2
    let s1 := logCall s (Call.ClassRegistrant Registrant Class)
    let s2 ← invoke run (env.ClassRegistrant Registrant s).1 s1
    let a :=
      if env.GetOutermostFName Class = env.GLongCoreUObjectPackageName then
        { a with NewClassesInCoreUObject := a.NewClassesInCoreUObject ++ [Class] }
      else if env.GetOutermostFName Class = LongEnginePackageName then
        { a with NewClassesInEngine := a.NewClassesInEngine ++ [Class] }
      else { a with NewClasses := a.NewClasses ++ [Class] }
    registrantLoop env run rest s2 a

/-- The call `Class->GetDefaultObject()` with what it calls back. -/
def GetDefaultObject (env : Env) (run : List Action → State → Except Err State)
    (Class : ObjId) (s : State) : Except Err State :=
  let s := logCall s (Call.GetDefaultObject Class)
  invoke run (env.GetDefaultObject Class s) s

/-- The function `UObjectLoadAllCompiledInDefaultProperties`; the closing report of
default-property warnings writes to the log and a dialog only and is left out. -/
def UObjectLoadAllCompiledInDefaultProperties (env : Env)
    (run : List Action → State → Except Err State) (s : State) : Except Err State := do
  let bHaveRegistrants := decide (s.DeferredCompiledInRegistration.length ≠ 0)
  if bHaveRegistrants then
    let PendingRegistrants := s.DeferredCompiledInRegistration
    let s := { s with DeferredCompiledInRegistration := [] }
    let (s, a) ← registrantLoop env run PendingRegistrants s ⟨[], [], []⟩
    let s ← forEach (GetDefaultObject env run) a.NewClassesInCoreUObject s
    let s ← forEach (GetDefaultObject env run) a.NewClassesInEngine s
    forEach (GetDefaultObject env run) a.NewClasses s
  else pure s

/-- The condition of the `while` loop of `ProcessNewlyLoadedUObjects`. -/
def hasPendingWork (s : State) : Bool :=
  s.GFirstPendingRegistrant.isSome || decide (s.DeferredCompiledInRegistration.length ≠ 0) ||
    decide (s.DeferredCompiledInStructRegistration.length ≠ 0) ||
    decide (s.DeferredCompiledInEnumRegistration.length ≠ 0)

/-- One pass of the `while` loop of `ProcessNewlyLoadedUObjects`. -/
def materializePass (env : Env) (run : List Action → State → Except Err State) (fuel : Nat)
    (s : State) : Except Err State := do
  let s ← UObjectProcessRegistrants env run fuel s
  let s ← UObjectLoadAllCompiledInStructs env run s
  UObjectLoadAllCompiledInDefaultProperties env run s

/-- The `while` loop of `ProcessNewlyLoadedUObjects`, returning the state and `bNewUObjects`. -/
def materializeLoop (env : Env) (run : List Action → State → Except Err State) (passFuel : Nat) :
    Nat → State → Bool → Except Err (State × Bool)
  | 0, s, bNewUObjects => if hasPendingWork s then throw Err.fuel else pure (s, bNewUObjects)
  | fuel + 1, s, bNewUObjects =>
    if hasPendingWork s then do
      let s ← materializePass env run passFuel s
      materializeLoop env run passFuel fuel s true
    else pure (s, bNewUObjects)

/-- The function `ProcessNewlyLoadedUObjects`. -/
def ProcessNewlyLoadedUObjects (env : Env) (run : List Action → State → Except Err State)
    (fuel : Nat) (s : State) (Package : FName) (bCanProcessNewlyLoadedObjects : Bool) :
    Except Err State := do
  let s ←
    (if env.USE_PER_MODULE_UOBJECT_BOOTSTRAP && Package != NAME_None then
      UObjectReleaseModuleRegistrants env s Package
    else pure s)
  if !bCanProcessNewlyLoadedObjects then pure s
  else
    let s ← UClassRegisterAllCompiledInClasses env run s
    let (s, bNewUObjects) ← materializeLoop env run fuel fuel s false
    if bNewUObjects && !s.GIsInitialLoad then
      pure (logCall s Call.AssembleReferenceTokenStreams)
    else pure s

/-- Modelled from the spec: the default arguments of `ProcessNewlyLoadedUObjects`. The
declaration that carries them is in a header outside these sources; `ReleaseAll()` "then
triggers one `MaterializeAll()` pass", so the call without arguments names no package and
may materialise. -/
def ProcessNewlyLoadedUObjects_defaultArgs : FName × Bool := (NAME_None, true)

/-- The function `UObjectReleaseAllModuleRegistrants`. -/
def UObjectReleaseAllModuleRegistrants (env : Env) (run : List Action → State → Except Err State)
    (fuel : Nat) (s : State) : Except Err State := do
  let s ← forEach (fun (Pair : FName × List NodeAddr) st =>
    forEach (fun PendingRegistration st1 => linkPendingRegistrant st1 PendingRegistration)
      Pair.2 st) s.PerModuleBootstrapMap s
  let s := { s with PerModuleBootstrapMap := [] }
  ProcessNewlyLoadedUObjects env run fuel s ProcessNewlyLoadedUObjects_defaultArgs.1
    ProcessNewlyLoadedUObjects_defaultArgs.2

/-- The bootstrap constructor `UObjectBase::UObjectBase(EObjectFlags InFlags)`: the new object
and its address. -/
def constructUObjectBase (s : State) (InFlags : Nat) : State × ObjId :=
  ({ s with Objects := s.Objects ++ [⟨InFlags, -1, none, none, NAME_None⟩] }, s.Objects.length)

/-- One call of a callback into this file. -/
def execAction (env : Env) (run : List Action → State → Except Err State) (fuel : Nat) :
    Action → State → Except Err State
  | .ConstructAndRegister InFlags PackageName InName, s =>
    let (s1, this) := constructUObjectBase s InFlags
    Register env s1 this PackageName InName
  | .UObjectCompiledInDeferEnum InRegister PackageName ObjectName bDynamic DynamicPathName, s =>
    pure (UObjectCompiledInDeferEnum s InRegister PackageName ObjectName bDynamic DynamicPathName)
  | .UObjectCompiledInDeferStruct InRegister PackageName ObjectName bDynamic DynamicPathName, s =>
    pure (UObjectCompiledInDeferStruct s InRegister PackageName ObjectName bDynamic DynamicPathName)
  | .UObjectCompiledInDefer InRegister InStaticClass Name PackageName bDynamic DynamicPathName, s =>
    UObjectCompiledInDefer env s InRegister InStaticClass Name PackageName bDynamic DynamicPathName
  | .UClassCompiledInDefer ClassInfo, s =>
    pure { s with DeferredClassRegistration := s.DeferredClassRegistration ++ [ClassInfo] }
  | .UObjectForceRegistration Object bCheckForModuleRelease, s =>
    UObjectForceRegistration env run s Object bCheckForModuleRelease
  | .ProcessNewlyLoadedUObjects Package bCanProcessNewlyLoadedObjects, s =>
    ProcessNewlyLoadedUObjects env run fuel s Package bCanProcessNewlyLoadedObjects

/-- Runs a list of calls in order. -/
def runActions (step : Action → State → Except Err State) :
    List Action → State → Except Err State
  | [], s => pure s
  | a :: rest, s => do
    let s1 ← step a s
    runActions step rest s1

/-- The calls of a callback, with `fuel` bounding both the nesting of callbacks and the
trip count of every loop they reach. -/
def exec (env : Env) : Nat → List Action → State → Except Err State
  | 0, acts, s => if acts.isEmpty then pure s else throw Err.fuel
  | fuel + 1, acts, s => runActions (execAction env (exec env fuel) fuel) acts s

/-! ## Specification vocabulary -/

/-- The cells `addrs`, holding the objects `objs`, are linked in this order from pointer `p`
up to a null `NextAutoRegister`. -/
def IsChain (nodes : List (Option FPendingRegistrant)) :
    Option NodeAddr → List NodeAddr → List ObjId → Prop
  | p, [], [] => p = none
  | p, a :: addrs, o :: objs =>
    p = some a ∧ a ∉ addrs ∧
      ∃ nxt, nodes[a]? = some (some ⟨o, nxt⟩) ∧ IsChain nodes nxt addrs objs
  | _, _, _ => False

/-- The global pending-registrant list consists of the cells `addrs` holding `objs`. -/
def GlobalList (s : State) (addrs : List NodeAddr) (objs : List ObjId) : Prop :=
  IsChain s.Nodes s.GFirstPendingRegistrant addrs objs ∧
    s.GLastPendingRegistrant = addrs.getLast?

/-- A sequence of `Register` calls, one per entry `(object, PackageName, InName)`. -/
def registerAll (env : Env) : List (ObjId × FName × FName) → State → Except Err State
  | [], s => pure s
  | r :: rest, s => do
    let s1 ← Register env s r.1 r.2.1 r.2.2
    registerAll env rest s1

/-- The call is routed to the global list rather than to a per-module bucket. -/
def routedToGlobalList (env : Env) (PackageName : FName) : Prop :=
  env.USE_PER_MODULE_UOBJECT_BOOTSTRAP = false ∨ PackageName = "/Script/CoreUObject"

/-- The event records that a non-dynamic descriptor with this factory was enqueued
(`NotifyRegistrationEvent(.., NRP_Added, ..)` of the three `Defer` functions). -/
def isAdded (type : ENotifyRegistrationType) (fn : FnId) (e : Event) : Bool :=
  match e.call with
  | .NotifyAdded _ _ t f d => decide (t = type ∧ f = fn ∧ d = false)
  | _ => false

/-- The calls that the code running at depth `d` made itself, leaving out what its
callbacks did one or more levels deeper. -/
def directCalls (d : Nat) (evs : List Event) : List Call :=
  (evs.filter (fun e => decide (e.depth = d))).map (·.call)

/-- The events logged on the way from `s` to `s'`. -/
def newEvents (s s' : State) : List Event := s'.Trace.drop s.Trace.length

/-- Frame conditions of a run from `s` to `s'` that logged `evs`, at depth `s.Depth`. -/
structure Steps (s s' : State) (evs : List Event) : Prop where
  trace : s'.Trace = s.Trace ++ evs
  depth : s'.Depth = s.Depth
  deep : ∀ e ∈ evs, s.Depth ≤ e.depth
  initialLoad : s'.GIsInitialLoad = s.GIsInitialLoad
  noAssemble : s.GIsInitialLoad = true →
    ∀ e ∈ evs, e.call ≠ Call.AssembleReferenceTokenStreams
  objects : s.Objects.length ≤ s'.Objects.length
  registered : ∀ o, o < s.Objects.length → TMap.Find s.PendingRegistrantInfo o = none →
    TMap.Find s'.PendingRegistrantInfo o = none
  enums : ∀ r, s'.DeferredCompiledInEnumRegistration.count r ≤
    s.DeferredCompiledInEnumRegistration.count r +
      evs.countP (isAdded .NRT_Enum r.RegisterFn)
  structs : ∀ r, s'.DeferredCompiledInStructRegistration.count r ≤
    s.DeferredCompiledInStructRegistration.count r +
      evs.countP (isAdded .NRT_Struct r.RegisterFn)
  classes : ∀ fn, s'.DeferredCompiledInRegistration.count fn ≤
    s.DeferredCompiledInRegistration.count fn + evs.countP (isAdded .NRT_Class fn)

/-- A run from `s` to `s'` whose own calls, in order, were `calls`. -/
def Direct (s s' : State) (calls : List Call) : Prop :=
  ∃ evs, Steps s s' evs ∧ directCalls s.Depth evs = calls

/-- Every successful run of callback code obeys the frame conditions. -/
def RunOK (run : List Action → State → Except Err State) : Prop :=
  ∀ acts s s', run acts s = .ok s' → ∃ evs, Steps s s' evs

/-- The fields that the list and table operations leave alone. -/
structure SameLedger (s s' : State) : Prop where
  trace : s'.Trace = s.Trace
  depth : s'.Depth = s.Depth
  initialLoad : s'.GIsInitialLoad = s.GIsInitialLoad
  initialized : s'.ObjInitialized = s.ObjInitialized
  objects : s'.Objects = s.Objects
  info : s'.PendingRegistrantInfo = s.PendingRegistrantInfo
  enums : s'.DeferredCompiledInEnumRegistration = s.DeferredCompiledInEnumRegistration
  structs : s'.DeferredCompiledInStructRegistration = s.DeferredCompiledInStructRegistration
  classes : s'.DeferredCompiledInRegistration = s.DeferredCompiledInRegistration
  classInfos : s'.DeferredClassRegistration = s.DeferredClassRegistration



/-- The calls that `UObjectProcessRegistrants` makes itself. -/
def Call.isRegistration : Call → Bool
  | .DeferredRegister _ _ _ => true
  | .CreatePackage _ => true
  | _ => false

/-- The calls of descriptor factories. -/
def Call.isFactory : Call → Bool
  | .EnumRegisterFn _ => true
  | .StructRegisterFn _ => true
  | .ClassRegistrant _ _ => true
  | _ => false

/-- The calls that one pass of the materialisation loop makes itself. -/
def Call.isPassCall : Call → Bool
  | .DeferredRegister _ _ _ => true
  | .CreatePackage _ => true
  | .EnumRegisterFn _ => true
  | .StructRegisterFn _ => true
  | .ClassRegistrant _ _ => true
  | .GetDefaultObject _ => true
  | _ => false

/-- The direct calls of `UObjectLoadAllCompiledInStructs` for the two snapshots. -/
def structsCalls (enums : List FPendingEnumRegistrant) (structs : List FPendingStructRegistrant) :
    List Call :=
  enums.map (fun r => Call.CreatePackage r.PackageName) ++
    structs.map (fun r => Call.CreatePackage r.PackageName) ++
    enums.map (fun r => Call.EnumRegisterFn r.RegisterFn) ++
    structs.map (fun r => Call.StructRegisterFn r.RegisterFn)

/-- The classes of a list whose outermost package is `/Script/CoreUObject`. -/
def classesInCoreUObject (env : Env) (classes : List ObjId) : List ObjId :=
  classes.filter (fun c => decide (env.GetOutermostFName c = env.GLongCoreUObjectPackageName))

/-- The classes of a list whose outermost package is `/Script/Engine` (and not the first). -/
def classesInEngine (env : Env) (classes : List ObjId) : List ObjId :=
  classes.filter (fun c =>
    decide (env.GetOutermostFName c ≠ env.GLongCoreUObjectPackageName) &&
      decide (env.GetOutermostFName c = LongEnginePackageName))

/-- The classes of a list in neither of the two named packages. -/
def classesElsewhere (env : Env) (classes : List ObjId) : List ObjId :=
  classes.filter (fun c =>
    decide (env.GetOutermostFName c ≠ env.GLongCoreUObjectPackageName) &&
      decide (env.GetOutermostFName c ≠ LongEnginePackageName))

/-- The direct calls of `UObjectLoadAllCompiledInDefaultProperties` when the factories
`fns` returned `classes`. -/
def defaultPropertiesCalls (env : Env) (fns : List FnId) (classes : List ObjId) : List Call :=
  List.zipWith Call.ClassRegistrant fns classes ++
    (classesInCoreUObject env classes ++ classesInEngine env classes ++
      classesElsewhere env classes).map Call.GetDefaultObject

/-- The calls of struct and of class descriptor factories. -/
def Call.isStructOrClassFactory : Call → Bool
  | .StructRegisterFn _ => true
  | .ClassRegistrant _ _ => true
  | _ => false

/-- The calls of enum descriptor factories. -/
def Call.isEnumFactory : Call → Bool
  | .EnumRegisterFn _ => true
  | _ => false

/-- Every enum factory call comes before every struct and class factory call: from the
first struct or class factory call on, no enum factory is called. -/
def enumFactoriesFirst (calls : List Call) : Bool :=
  (calls.dropWhile (fun c => !c.isStructOrClassFactory)).all (fun c => !c.isEnumFactory)

/-- The cells `bucket` are live, hold the objects `objs` and have a null
`NextAutoRegister`: the condition of the nodes that `Register` puts into a holding bucket. -/
def Held (nodes : List (Option FPendingRegistrant)) : List NodeAddr → List ObjId → Prop
  | [], [] => True
  | a :: bucket, o :: objs => nodes[a]? = some (some ⟨o, none⟩) ∧ Held nodes bucket objs
  | _, _ => False

/-- All nodes of the holding map, bucket after bucket in the order of the map. -/
def heldNodes (m : TMap FName (List NodeAddr)) : List NodeAddr := m.flatMap (·.2)

/-- The object of every cell of the heap, `none` for a freed cell. -/
def cellObjects (nodes : List (Option FPendingRegistrant)) : List (Option ObjId) :=
  nodes.map (fun c => c.map (·.Object))

/-- The correspondence between the two representations of the pending registrants: the
objects of the live cells are, up to order, the keys of the dictionary. -/
def ledgerCorrespondence (s : State) : Prop :=
  ((cellObjects s.Nodes).reduceOption).Perm (s.PendingRegistrantInfo.map (·.1))

/-- Well-formedness of the ledger: the global list is the chain `addrs` holding `objs` with
`GLastPendingRegistrant` at its last cell, the holding map has one bucket per key, every
cell held in a bucket is live with a null link, and no cell occurs twice in the list and
the buckets together. -/
def LedgerOK (s : State) (addrs : List NodeAddr) (objs : List ObjId) : Prop :=
  GlobalList s addrs objs ∧ (s.PerModuleBootstrapMap.map (·.1)).Nodup ∧
    (∀ a ∈ heldNodes s.PerModuleBootstrapMap, ∃ o, s.Nodes[a]? = some (some ⟨o, none⟩)) ∧
    (addrs ++ heldNodes s.PerModuleBootstrapMap).Nodup

/-! ## Sample configuration

A concrete environment and concrete states on which the statements are instantiated. -/

/-- The name `/Script/CoreUObject`. -/
def coreUObjectPackage : FName := "/Script/CoreUObject"

/-- The engine's `FString::StartsWith(Prefix)` as the call with one argument in
`RemoveClassPrefix` reaches it; the function is declared outside these sources. Its search
case defaults to `ESearchCase::IgnoreCase`: the letters `A` to `Z` are compared without
regard to case, and an empty prefix starts nothing. -/
def FString_StartsWith_IgnoreCase (text pre : String) : Bool :=
  !pre.data.isEmpty && List.isPrefixOf (pre.data.map Char.toLower) (text.data.map Char.toLower)

/-- The engine's `FString::EndsWith(Suffix)` with one argument, declared outside these
sources; like `StartsWith` it ignores the case of the letters `A` to `Z` by default, and an
empty suffix ends nothing. -/
def FString_EndsWith_IgnoreCase (text suffix : String) : Bool :=
  !suffix.data.isEmpty &&
    List.isSuffixOf (suffix.data.map Char.toLower) (text.data.map Char.toLower)

/-- A configuration with per-module bootstrap compiled in. Class `0` lives in
`/Script/CoreUObject`, class `1` in `/Script/Engine`, every other class in `/Script/Game`;
the factory of descriptor `fn` returns class `fn`; building the default object of class `2`
loads a module that defers enum descriptor `7`. -/
def sampleEnv : Env where
  USE_PER_MODULE_UOBJECT_BOOTSTRAP := true
  IsInGameThread := true
  RF_MarkAsRootSet := 0x80
  RF_MarkAsNative := 0x04
  InternalFlag_Async := 0x04000000
  InternalFlag_RootSet := 0x40000000
  InternalFlag_Native := 0x02000000
  GLongCoreUObjectPackageName := coreUObjectPackage
  DEFAULT_OBJECT_PREFIX := "Default__"
  FString_StartsWith := FString_StartsWith_IgnoreCase
  FString_EndsWith := FString_EndsWith_IgnoreCase
  PackageNameFromModuleName := fun m => m
  IsDisregardForGC := fun _ => false
  GetOutermostFName := fun c =>
    if c = 0 then coreUObjectPackage else if c = 1 then LongEnginePackageName else "/Script/Game"
  CreatePackage := fun _ _ => []
  EnumRegisterFn := fun _ _ => []
  StructRegisterFn := fun _ _ => []
  ClassRegistrant := fun fn _ => ([], fn)
  GetDefaultObject := fun c _ =>
    if c = 2 then [Action.UObjectCompiledInDeferEnum 7 "/Script/Game" "E7" false ""] else []
  ClassRegister := fun _ _ => []

/-- The state after `UObjectBaseInit` and the initial load, with nothing pending. -/
def idleState : State where
  ObjInitialized := true
  GIsInitialLoad := false
  PendingRegistrantInfo := []
  Nodes := []
  GFirstPendingRegistrant := none
  GLastPendingRegistrant := none
  PerModuleBootstrapMap := []
  DeferredCompiledInEnumRegistration := []
  DeferredCompiledInStructRegistration := []
  DeferredCompiledInRegistration := []
  DeferredClassRegistration := []
  DynamicEnumMap := []
  DynamicStructMap := []
  DynamicClassMap := []
  Objects := []
  ObjObjects := []
  Packages := []
  Trace := []
  Depth := 0

/-- The state of a successful result; `idleState` stands in for a failed one. -/
def resultState (r : Except Err State) : State :=
  match r with
  | .ok s => s
  | .error _ => idleState

/-- One constructed object that has called `Register` with name `A`. -/
def oneRegistered : State :=
  resultState (exec sampleEnv 1 [Action.ConstructAndRegister 0x84 coreUObjectPackage "A"] idleState)

/-- The state `oneRegistered` after `UObjectForceRegistration` of its object. -/
def oneForced : State :=
  resultState (UObjectForceRegistration sampleEnv (exec sampleEnv 2) oneRegistered 0 false)

/-- An enum, a struct and three class descriptors are deferred, and one object is
registered. -/
def busyState : State :=
  { oneRegistered with
    DeferredCompiledInEnumRegistration := [⟨3, "/Script/Game"⟩]
    DeferredCompiledInStructRegistration := [⟨4, "/Script/Game"⟩]
    DeferredCompiledInRegistration := [2, 1, 0] }

/-- The state `busyState` after one `ProcessNewlyLoadedUObjects`. -/
def busyDone : State :=
  resultState (ProcessNewlyLoadedUObjects sampleEnv (exec sampleEnv 4) 4 busyState NAME_None true)

/-- Only class descriptor `2` is deferred; its default object defers enum `7`. -/
def lateEnumState : State :=
  { idleState with DeferredCompiledInRegistration := [2] }

/-- The state `lateEnumState` after one `ProcessNewlyLoadedUObjects`. -/
def lateEnumDone : State :=
  resultState
    (ProcessNewlyLoadedUObjects sampleEnv (exec sampleEnv 3) 3 lateEnumState NAME_None true)

/-- The state `busyState` after one pass of the materialisation loop. -/
def busyPassed : State :=
  resultState (materializePass sampleEnv (exec sampleEnv 4) 4 busyState)

/-- The state `busyState` after `UObjectLoadAllCompiledInStructs`. -/
def busyStructsLoaded : State :=
  resultState (UObjectLoadAllCompiledInStructs sampleEnv (exec sampleEnv 4) busyState)

/-- The state `busyStructsLoaded` after `UObjectLoadAllCompiledInDefaultProperties`. -/
def busyDefaultsLoaded : State :=
  resultState
    (UObjectLoadAllCompiledInDefaultProperties sampleEnv (exec sampleEnv 4) busyStructsLoaded)

/-- Only enum descriptor `3` is deferred: no class is pending. -/
def enumOnlyState : State :=
  { idleState with DeferredCompiledInEnumRegistration := [⟨3, "/Script/Game"⟩] }

/-- The state `enumOnlyState` after one `ProcessNewlyLoadedUObjects`. -/
def enumOnlyDone : State :=
  resultState
    (ProcessNewlyLoadedUObjects sampleEnv (exec sampleEnv 3) 3 enumOnlyState NAME_None true)

/-- The state `busyState` during the initial load. -/
def busyInitialLoad : State :=
  { busyState with GIsInitialLoad := true }

/-- The state `busyInitialLoad` after one `ProcessNewlyLoadedUObjects`. -/
def busyInitialLoadDone : State :=
  resultState
    (ProcessNewlyLoadedUObjects sampleEnv (exec sampleEnv 4) 4 busyInitialLoad NAME_None true)

/-- The state `oneRegistered` after a second `Register` of its object, under name `B`. -/
def registeredTwice : State :=
  resultState (Register sampleEnv oneRegistered 0 coreUObjectPackage "B")

/-- Two constructed objects that have called `Register` under `/Script/CoreUObject`. -/
def twoRegistered : State :=
  resultState (exec sampleEnv 1
    [Action.ConstructAndRegister 0x84 coreUObjectPackage "A",
      Action.ConstructAndRegister 0x84 coreUObjectPackage "B"] idleState)

/-- Four constructed objects: object `0` registered under `/Script/CoreUObject`, objects `1`
and `3` under `/Script/Game`, object `2` under `/Script/Engine`. -/
def heldState : State :=
  resultState (exec sampleEnv 1
    [Action.ConstructAndRegister 0x84 coreUObjectPackage "A",
      Action.ConstructAndRegister 0x84 "/Script/Game" "G1",
      Action.ConstructAndRegister 0x84 LongEnginePackageName "E1",
      Action.ConstructAndRegister 0x84 "/Script/Game" "G2"] idleState)

/-- The state `heldState` after the release of module `Game`. -/
def heldReleased : State :=
  resultState (UObjectReleaseModuleRegistrants sampleEnv heldState "Game")

/-- The state `heldState` after `UObjectReleaseAllModuleRegistrants`. -/
def heldAllDone : State :=
  resultState (UObjectReleaseAllModuleRegistrants sampleEnv (exec sampleEnv 6) 6 heldState)

/-- The state `heldState` after `UObjectForceRegistration` of object `1`, with the check for
a module release. -/
def heldForced : State :=
  resultState (UObjectForceRegistration sampleEnv (exec sampleEnv 2) heldState 1 true)

/-- The state `oneRegistered` after `DequeuePendingAutoRegistrants`. -/
def oneDequeued : State :=
  match DequeuePendingAutoRegistrants oneRegistered [] with
  | .ok r => r.1
  | .error _ => idleState

/-- The state `heldState` with an enum, a struct and a class descriptor deferred and one
class info waiting. -/
def heldBusy : State :=
  { heldState with
    DeferredCompiledInEnumRegistration := [⟨3, "/Script/Game"⟩]
    DeferredCompiledInStructRegistration := [⟨4, "/Script/Game"⟩]
    DeferredCompiledInRegistration := [2]
    DeferredClassRegistration := [9] }

/-- The state `heldBusy` after `ProcessNewlyLoadedUObjects` for module `Game` that may not
materialise. -/
def heldBusyReleased : State :=
  resultState (ProcessNewlyLoadedUObjects sampleEnv (exec sampleEnv 4) 4 heldBusy "Game" false)

/-! ### A synthetic self-referential chain of descriptors -/

/-- The kinds of compiled-in type descriptors. -/
inductive DescriptorKind where
  | Enum
  | Struct
  | Class
deriving DecidableEq, Repr

/-- The package of the links of the synthetic chain. -/
def chainPackage : FName := "/Script/Chain"

/-- The `Defer` call by which a module that is being loaded enqueues the descriptor with
factory `k` of the given kind. -/
def deferAction (kind : DescriptorKind) (k : FnId) : Action :=
  match kind with
  | .Enum => Action.UObjectCompiledInDeferEnum k chainPackage "EChainLink" false ""
  | .Struct => Action.UObjectCompiledInDeferStruct k chainPackage "FChainLink" false ""
  | .Class => Action.UObjectCompiledInDefer k k "UChainLink" chainPackage false ""

/-- What materialising link `k` of a chain of depth `N` sets off: the module that holds
link `k + 1` is loaded and enqueues it; the last link sets off nothing. -/
def chainNext (N : Nat) (kind : Nat → DescriptorKind) (k : FnId) : List Action :=
  if k + 1 < N then [deferAction (kind (k + 1)) (k + 1)] else []

/-- The environment of a chain of depth `N` whose link `k` is a descriptor of kind `kind k`
with factory `k`. The factory of an enum or struct link, and the construction of the default
object of a class link (whose factory returns class `k`), set off the next link. -/
def chainEnv (N : Nat) (kind : Nat → DescriptorKind) : Env where
  USE_PER_MODULE_UOBJECT_BOOTSTRAP := true
  IsInGameThread := true
  RF_MarkAsRootSet := 0x80
  RF_MarkAsNative := 0x04
  InternalFlag_Async := 0x04000000
  InternalFlag_RootSet := 0x40000000
  InternalFlag_Native := 0x02000000
  GLongCoreUObjectPackageName := coreUObjectPackage
  DEFAULT_OBJECT_PREFIX := "Default__"
  FString_StartsWith := FString_StartsWith_IgnoreCase
  FString_EndsWith := FString_EndsWith_IgnoreCase
  PackageNameFromModuleName := fun m => m
  IsDisregardForGC := fun _ => false
  GetOutermostFName := fun _ => chainPackage
  CreatePackage := fun _ _ => []
  EnumRegisterFn := fun k _ => chainNext N kind k
  StructRegisterFn := fun k _ => chainNext N kind k
  ClassRegistrant := fun k _ => ([], k)
  GetDefaultObject := fun k _ => chainNext N kind k
  ClassRegister := fun _ _ => []

/-- The factory call of link `k`. -/
def factoryCall (kind : DescriptorKind) (k : FnId) : Call :=
  match kind with
  | .Enum => Call.EnumRegisterFn k
  | .Struct => Call.StructRegisterFn k
  | .Class => Call.ClassRegistrant k k

/-- The three descriptor queues when link `k` of the chain is pending and nothing else;
all empty once the chain is exhausted. -/
def chainQueues (N : Nat) (kind : Nat → DescriptorKind) (k : Nat) :
    List FPendingEnumRegistrant × List FPendingStructRegistrant × List FnId :=
  if k < N then
    match kind k with
    | .Enum => ([⟨k, chainPackage⟩], [], [])
    | .Struct => ([], [⟨k, chainPackage⟩], [])
    | .Class => ([], [], [k])
  else ([], [], [])

/-- The state in which the first link of the chain has been enqueued and the object system
is otherwise idle. -/
def chainStart (N : Nat) (kind : Nat → DescriptorKind) : State :=
  { idleState with
    DeferredCompiledInEnumRegistration := (chainQueues N kind 0).1
    DeferredCompiledInStructRegistration := (chainQueues N kind 0).2.1
    DeferredCompiledInRegistration := (chainQueues N kind 0).2.2 }

/-- The factory calls of the first `n` links, in chain order. -/
def chainLog (kind : Nat → DescriptorKind) (n : Nat) : List Call :=
  (List.range n).map (fun k => factoryCall (kind k) k)

/-- The factory calls that the code at depth 0 has made so far. -/
def factoryLog (s : State) : List Call :=
  (directCalls 0 s.Trace).filter Call.isFactory

/-- The condition of the state between the steps of an epoch on the chain, at depth 0: no
registrant is pending, the queues are `q`, and the factories of the first `n` links have
been called, once each and in chain order. -/
structure ChainInv (kind : Nat → DescriptorKind) (s : State)
    (q : List FPendingEnumRegistrant × List FPendingStructRegistrant × List FnId) (n : Nat) :
    Prop where
  initialized : s.ObjInitialized = true
  first : s.GFirstPendingRegistrant = none
  depth : s.Depth = 0
  enums : s.DeferredCompiledInEnumRegistration = q.1
  structs : s.DeferredCompiledInStructRegistration = q.2.1
  classes : s.DeferredCompiledInRegistration = q.2.2
  log : factoryLog s = chainLog kind n

/-- A chain whose first link is an enum, whose second link is a class and whose further
links are structs. -/
def sampleKinds : Nat → DescriptorKind
  | 0 => DescriptorKind.Enum
  | 1 => DescriptorKind.Class
  | _ => DescriptorKind.Struct

/-- The state `chainStart 3 sampleKinds` after one `ProcessNewlyLoadedUObjects`. -/
def chainDone : State :=
  resultState (ProcessNewlyLoadedUObjects (chainEnv 3 sampleKinds)
    (exec (chainEnv 3 sampleKinds) 3) 3 (chainStart 3 sampleKinds) NAME_None true)

/-! ## Vocabulary and samples of the claims on single functions and on hot reload -/

/-- The configuration `sampleEnv` for a caller that is not on the game thread. -/
def offThreadEnv : Env := { sampleEnv with IsInGameThread := false }

/-- One object with a class that carries `RF_Public`, `RF_MarkAsNative` and
`RF_MarkAsRootSet` and has no index yet. -/
def markedState : State :=
  { idleState with
    Objects := [⟨0x85, -1, some UObjectRef.UClassStaticClass, none, NAME_None⟩] }

/-- The state `oneRegistered` before `UObjectBaseInit` has run. -/
def uninitializedState : State := { oneRegistered with ObjInitialized := false }

/-- The order of work of a re-entrant drain, in the words of the claim on
`UObjectProcessRegistrants`. In `Drains env run s processed todo s' all` the registrants
`processed` have been force-registered and the registrants `todo` have been dequeued and
wait. The first waiting registrant is force-registered, once, and moves to the end of
`processed`; what the global list holds afterwards is dequeued and put behind the waiting
ones, in the order of the list. When nobody waits the state is `s'` and `all` are the
registrants processed. -/
inductive Drains (env : Env) (run : List Action → State → Except Err State) :
    State → List FPendingRegistrant → List FPendingRegistrant → State →
      List FPendingRegistrant → Prop
  | finished (s : State) (processed : List FPendingRegistrant) :
      Drains env run s processed [] s processed
  | step {s s1 s2 s' : State} {processed todo arrived all : List FPendingRegistrant}
      (r : FPendingRegistrant)
      (hforce : UObjectForceRegistration env run s r.Object false = .ok s1)
      (hdequeue : DequeuePendingAutoRegistrants s1 [] = .ok (s2, arrived))
      (hrest : Drains env run s2 (processed ++ [r]) (todo ++ arrived) s' all) :
      Drains env run s processed (r :: todo) s' all

/-- A configuration in which creating the package of the first registrant brings a second
object into being, which registers itself. -/
def reentrantEnv : Env :=
  { sampleEnv with
    CreatePackage := fun _ st =>
      if st.Objects.length < 2 then [Action.ConstructAndRegister 0 coreUObjectPackage "B"]
      else [] }

/-- The state `oneRegistered` after `UObjectProcessRegistrants` in `reentrantEnv`. -/
def reentrantDone : State :=
  resultState (UObjectProcessRegistrants reentrantEnv (exec reentrantEnv 3) 3 oneRegistered)

/-- The number of times `DeferredRegister` was entered on object `o` according to a log,
at any depth of nesting. -/
def registrations (o : ObjId) (tr : List Event) : Nat :=
  tr.countP (fun e =>
    match e.call with
    | .DeferredRegister o' _ _ => decide (o' = o)
    | _ => false)

/-- A property of states that every step of the file keeps: it depends only on the log, the
number of objects, the dictionary and the ledger; it survives every logged call other than
an entry into `DeferredRegister`; it survives the registration of a new object, module
release and dequeuing; and it survives the step from `UObjectForceRegistration` into
`DeferredRegister` for an object with a dictionary entry. -/
structure Invariant (env : Env) (I : State → Prop) : Prop where
  frame : ∀ s s', I s → s'.Trace = s.Trace → s'.Objects.length = s.Objects.length →
    s'.PendingRegistrantInfo = s.PendingRegistrantInfo → s'.Nodes = s.Nodes →
    s'.GFirstPendingRegistrant = s.GFirstPendingRegistrant →
    s'.GLastPendingRegistrant = s.GLastPendingRegistrant →
    s'.PerModuleBootstrapMap = s.PerModuleBootstrapMap → I s'
  log : ∀ s c, I s → (∀ o p n, c ≠ Call.DeferredRegister o p n) → I (logCall s c)
  register : ∀ s InFlags PackageName InName s', I s →
    Register env (constructUObjectBase s InFlags).1 (constructUObjectBase s InFlags).2
      PackageName InName = .ok s' → I s'
  release : ∀ s Module s', I s → UObjectReleaseModuleRegistrants env s Module = .ok s' → I s'
  dequeue : ∀ s out s' out', I s → DequeuePendingAutoRegistrants s out = .ok (s', out') → I s'
  force : ∀ s Object Info, I s → TMap.Find s.PendingRegistrantInfo Object = some Info →
    I (logCall { s with PendingRegistrantInfo := TMap.Remove s.PendingRegistrantInfo Object }
      (Call.DeferredRegister Object Info.PackageName Info.Name))

/-- Every successful run of callback code keeps the property. -/
def Keeps (I : State → Prop) (run : List Action → State → Except Err State) : Prop :=
  ∀ acts s s', run acts s = .ok s' → I s → I s'

/-- Object `o` exists, has no entry in the dictionary, and `DeferredRegister` has been
entered on it `n` times. -/
def Settled (o : ObjId) (n : Nat) (s : State) : Prop :=
  o < s.Objects.length ∧ TMap.Find s.PendingRegistrantInfo o = none ∧
    registrations o s.Trace = n

/-- A configuration in which creating a package force-registers object `0` again, from
inside its own `DeferredRegister`. -/
def nestedEnv : Env :=
  { sampleEnv with CreatePackage := fun _ _ => [Action.UObjectForceRegistration 0 true] }

/-- The state `oneRegistered` after `UObjectForceRegistration` of its object in
`nestedEnv`. -/
def nestedForced : State :=
  resultState (UObjectForceRegistration nestedEnv (exec nestedEnv 2) oneRegistered 0 true)

/-- The states of the ledger that the file reaches: from a state with an empty list and an
empty holding map, by `Register`, by `UObjectReleaseModuleRegistrants`, by
`UObjectReleaseAllModuleRegistrants`, by `DequeuePendingAutoRegistrants`, and by any calls
into the other entry points of the file. -/
inductive Reachable (env : Env) : State → Prop
  | start (s : State) (hfirst : s.GFirstPendingRegistrant = none)
      (hlast : s.GLastPendingRegistrant = none) (hmap : s.PerModuleBootstrapMap = []) :
      Reachable env s
  | register {s s' : State} (this : ObjId) (PackageName InName : FName)
      (hs : Reachable env s) (h : Register env s this PackageName InName = .ok s') :
      Reachable env s'
  | releaseModule {s s' : State} (Module : FName) (hs : Reachable env s)
      (h : UObjectReleaseModuleRegistrants env s Module = .ok s') : Reachable env s'
  | releaseAll {s s' : State} (fuel passFuel : Nat) (hs : Reachable env s)
      (h : UObjectReleaseAllModuleRegistrants env (exec env fuel) passFuel s = .ok s') :
      Reachable env s'
  | dequeue {s s' : State} (out out' : List FPendingRegistrant) (hs : Reachable env s)
      (h : DequeuePendingAutoRegistrants s out = .ok (s', out')) : Reachable env s'
  | calls {s s' : State} (fuel : Nat) (acts : List Action) (hs : Reachable env s)
      (h : exec env fuel acts s = .ok s') : Reachable env s'

/-- The ledger of the state is well formed, for some cells and objects of the list. -/
def WellFormed (s : State) : Prop := ∃ addrs objs, LedgerOK s addrs objs

/-! ## Hot reload

The two functions of the source that exist only when `WITH_HOT_RELOAD` is compiled in and
that compare fingerprints, `UClassCompiledInDefer` and `FindExistingObjectIfHotReload`, over
a state of their own: the two registries, the list of classes to re-instance, and the
objects that the functions reach through `FindObject`. The methods of `UObject` that they
call are defined outside these sources; a call to one of them is logged in program order,
and its effect on the object is the one the specification names. `UE_LOG` output is not
represented. -/

/-- Modelled from the spec: the Hot-Update Record, a (checksum, size) fingerprint. The
struct `FFieldCompiledInInfo` is declared in a header outside these sources; these are the
members that `UClassCompiledInDefer` reads and writes. -/
structure FFieldCompiledInInfo where
  Size : Nat
  Crc : Nat
  bHasChanged : Bool
  OldClass : Option ObjId
deriving DecidableEq, Repr

/-- The value type of the fingerprint registry, `struct FObjectCompiledInfo`. -/
structure FObjectCompiledInfo where
  Size : Nat
  Crc : Nat
deriving DecidableEq, Repr

/-- Modelled from the spec: what the reconciler sees of a runtime type object or of a
default instance: its name, its container, its flags and the "keep alive" marker, which is
membership in the root set. -/
structure UObject where
  NamePrivate : FName
  OuterPrivate : UObjectRef
  ObjectFlags : Nat
  bRootSet : Bool
deriving DecidableEq, Repr

/-- The calls of the hot-reload code that change an object, in program order. -/
inductive ObjectCall where
  | RemoveFromRoot (o : ObjId)
  | ClearFlags (o : ObjId) (Flags : Nat)
  | Rename (o : ObjId) (NewName : FName) (NewOuter : UObjectRef)
  | SetFlags (o : ObjId) (Flags : Nat)
  | AddToRoot (o : ObjId)
  | RemoveNamesFromMasterList (o : ObjId)
deriving DecidableEq, Repr

/-- The state of the hot-reload functions. -/
structure HotReloadState where
  GIsHotReload : Bool
  /-- Every `FFieldCompiledInInfo`; a pointer to one is its index. -/
  ClassInfos : List FFieldCompiledInInfo
  /-- The map `GetDeferRegisterClassMap()`. -/
  DeferRegisterClassMap : TMap FName FnId
  /-- The array `GetHotReloadClasses()`. -/
  HotReloadClasses : List FnId
  /-- The array `GetDeferredClassRegistration()`. -/
  DeferredClassRegistration : List FnId
  /-- The map `FObjectCompiledInfo::GetRegisteredInfo()`. -/
  RegisteredInfo : TMap (UObjectRef × FName) FObjectCompiledInfo
  /-- The objects that exist; a pointer to one is its index. -/
  UObjects : List UObject
  /-- Log of the calls that change an object. -/
  ObjectCalls : List ObjectCall
deriving Repr

/-- Constants and functions that the hot-reload code takes from elsewhere. -/
structure HotReloadEnv extends Env where
  RF_Public : Nat
  RF_Standalone : Nat
  RF_Transient : Nat
  /-- The result of `GetTransientPackage()`. -/
  TransientPackage : UObjectRef
  /-- The call `FindObject<T>(Outer, Name)` on the objects that exist; no outer stands for
  `ANY_PACKAGE`. -/
  FindObject : List UObject → Option UObjectRef → FName → Option ObjId
  /-- The value `Class->GetDefaultObject()` of a class that exists. -/
  ClassDefaultObject : ObjId → Option ObjId
  /-- The call `MakeUniqueObjectName(Outer, Class, BaseName)` on the objects that exist; the
  class argument is not represented. -/
  MakeUniqueObjectName : List UObject → UObjectRef → FName → FName
  /-- The call `GetObjectsWithOuter(Outer, Results)`. -/
  GetObjectsWithOuter : List UObject → ObjId → List ObjId
  /-- Whether `dynamic_cast<UEnum*>` of the object succeeds. -/
  IsEnum : ObjId → Bool

/-- Assignment through the pointer that `TMap::Find` returned: the value stored under the
key is replaced in place. -/
def TMap.Assign {κ ν : Type} [DecidableEq κ] (m : TMap κ ν) (k : κ) (v : ν) : TMap κ ν :=
  List.map (fun e => if e.1 = k then (e.1, v) else e) m

/-- A call of a method of object `o`: the call is logged and the object, if there is one,
is changed by `f`. -/
def callMethod (s : HotReloadState) (o : ObjId) (f : UObject → UObject) (c : ObjectCall) :
    HotReloadState :=
  { s with
    UObjects :=
      (match s.UObjects[o]? with
      | some obj => s.UObjects.set o (f obj)
      | none => s.UObjects)
    ObjectCalls := s.ObjectCalls ++ [c] }

/-- Modelled from the spec: `RemoveFromRoot` strips the "keep alive" marker. -/
def RemoveFromRoot (s : HotReloadState) (o : ObjId) : HotReloadState :=
  callMethod s o (fun obj => { obj with bRootSet := false }) (ObjectCall.RemoveFromRoot o)

/-- Modelled from the spec: `AddToRoot` adds the "keep alive" marker. -/
def AddToRoot (s : HotReloadState) (o : ObjId) : HotReloadState :=
  callMethod s o (fun obj => { obj with bRootSet := true }) (ObjectCall.AddToRoot o)

/-- Modelled from the spec: `ClearFlags` strips markers from the flags of the object. -/
def ClearFlags (s : HotReloadState) (o : ObjId) (Flags : Nat) : HotReloadState :=
  callMethod s o (fun obj => { obj with ObjectFlags := clearFlags obj.ObjectFlags Flags })
    (ObjectCall.ClearFlags o Flags)

/-- Modelled from the spec: `SetFlags` marks the object. -/
def SetFlags (s : HotReloadState) (o : ObjId) (Flags : Nat) : HotReloadState :=
  callMethod s o (fun obj => { obj with ObjectFlags := obj.ObjectFlags ||| Flags })
    (ObjectCall.SetFlags o Flags)

/-- Modelled from the spec: `Rename` gives the object it is called on a new name in a new
container. What the method does to other objects is not represented. -/
def Rename (s : HotReloadState) (o : ObjId) (NewName : FName) (NewOuter : UObjectRef) :
    HotReloadState :=
  callMethod s o (fun obj => { obj with NamePrivate := NewName, OuterPrivate := NewOuter })
    (ObjectCall.Rename o NewName NewOuter)

/-- The call `Enum->RemoveNamesFromMasterList()`, which changes no member of `UObject`. -/
def RemoveNamesFromMasterList (s : HotReloadState) (o : ObjId) : HotReloadState :=
  callMethod s o (fun obj => obj) (ObjectCall.RemoveNamesFromMasterList o)

/-- The block of `UClassCompiledInDefer` under `if (ClassInfo->bHasChanged)`. A null default
object is dereferenced. -/
def retireChangedClass (env : HotReloadEnv) (s : HotReloadState) (ExistingClass : ObjId)
    (NameWithoutPrefix : String) : Except Err HotReloadState :=
  let s := RemoveFromRoot s ExistingClass
  let s := ClearFlags s ExistingClass (env.RF_Standalone ||| env.RF_Public)
  match env.ClassDefaultObject ExistingClass with
  | none => throw Err.memory
  | some DefaultObject =>
    let s := RemoveFromRoot s DefaultObject
    let s := ClearFlags s DefaultObject (env.RF_Standalone ||| env.RF_Public)
    let OldClassRename := env.MakeUniqueObjectName s.UObjects env.TransientPackage
      ("HOTRELOADED_" ++ NameWithoutPrefix)
    let s := Rename s ExistingClass OldClassRename env.TransientPackage
    let s := SetFlags s ExistingClass env.RF_Transient
    let s := AddToRoot s ExistingClass
    let ClassSubobjects := env.GetObjectsWithOuter s.UObjects ExistingClass
    pure (ClassSubobjects.foldl
      (fun st ClassSubobject =>
        if env.IsEnum ClassSubobject then RemoveNamesFromMasterList st ClassSubobject else st) s)

/-- The function `UClassCompiledInDefer` with `WITH_HOT_RELOAD` compiled in. Its body does
not read the arguments `ClassSize` and `Crc`: the fingerprint it compares is the one stored in
`ClassInfo`. -/
def UClassCompiledInDefer (env : HotReloadEnv) (s : HotReloadState) (ClassInfo : FnId)
    (Name : String) (_ClassSize _Crc : Nat) : Except Err HotReloadState :=
  let CPPClassName : FName := Name
  match s.ClassInfos[ClassInfo]? with
  | none => throw Err.memory
  | some Info =>
    match TMap.Find s.DeferRegisterClassMap CPPClassName with
    | some ExistingClassInfo =>
      match s.ClassInfos[ExistingClassInfo]? with
      | none => throw Err.memory
      | some Existing =>
        let bHasChanged := decide (Existing.Size ≠ Info.Size) || decide (Existing.Crc ≠ Info.Crc)
        let Info := { Info with bHasChanged := bHasChanged }
        let s := { s with ClassInfos := s.ClassInfos.set ClassInfo Info }
        if !s.GIsHotReload then throw Err.check
        else
          let NameWithoutPrefix := RemoveClassPrefix env.toEnv Name
          match env.FindObject s.UObjects none NameWithoutPrefix with
          | none => throw Err.check
          | some ExistingClass => do
            let s ←
              (if bHasChanged then retireChangedClass env s ExistingClass NameWithoutPrefix
              else pure s)
            let s := { s with
              ClassInfos := s.ClassInfos.set ClassInfo { Info with OldClass := some ExistingClass }
              HotReloadClasses := s.HotReloadClasses ++ [ClassInfo]
              DeferRegisterClassMap := TMap.Assign s.DeferRegisterClassMap CPPClassName ClassInfo }
            pure { s with DeferredClassRegistration := s.DeferredClassRegistration ++ [ClassInfo] }
    | none =>
      let s := { s with
        ClassInfos := s.ClassInfos.set ClassInfo { Info with bHasChanged := true }
        DeferRegisterClassMap := TMap.Add s.DeferRegisterClassMap CPPClassName ClassInfo }
      pure { s with DeferredClassRegistration := s.DeferredClassRegistration ++ [ClassInfo] }

/-- The block of `FindExistingObjectIfHotReload` under `if (bChanged)`. -/
def retireChangedObject (env : HotReloadEnv) (s : HotReloadState) (Existing : ObjId)
    (Name : String) : HotReloadState :=
  let s := ClearFlags s Existing (env.RF_Standalone ||| env.RF_Public)
  let s := RemoveFromRoot s Existing
  let OldRename := env.MakeUniqueObjectName s.UObjects env.TransientPackage
    ("HOTRELOADED_" ++ Name)
  Rename s Existing OldRename env.TransientPackage

/-- The function template `FindExistingObjectIfHotReload`: the state and the pointer it
returns. -/
def FindExistingObjectIfHotReload (env : HotReloadEnv) (s : HotReloadState) (Outer : UObjectRef)
    (Name : String) (Size Crc : Nat) : HotReloadState × Option ObjId :=
  let Key : UObjectRef × FName := (Outer, Name)
  let Info := TMap.Find s.RegisteredInfo Key
  let bChanged :=
    match Info with
    | some Info => decide (Info.Size ≠ Size) || decide (Info.Crc ≠ Crc)
    | none => true
  let s := { s with
    RegisteredInfo :=
      (match Info with
      | some _ => TMap.Assign s.RegisteredInfo Key ⟨Size, Crc⟩
      | none => TMap.Add s.RegisteredInfo Key ⟨Size, Crc⟩) }
  if !s.GIsHotReload then (s, none)
  else
    match env.FindObject s.UObjects (some Outer) Name with
    | none => (s, none)
    | some Existing =>
      if bChanged then (retireChangedObject env s Existing Name, none)
      else (s, some Existing)

/-! ### Sample configuration of hot reload -/

/-- The package `/Script/Game`. -/
def gamePackage : UObjectRef := UObjectRef.package "/Script/Game"

/-- The index of the first object with the name, under the outer if one is given. -/
def findByName (table : List UObject) (Outer : Option UObjectRef) (Name : FName) :
    Option ObjId :=
  (List.range table.length).find? (fun i =>
    match table[i]? with
    | some obj =>
      decide (obj.NamePrivate = Name) &&
        (match Outer with
        | some p => decide (obj.OuterPrivate = p)
        | none => true)
    | none => false)

/-- A configuration of hot reload: object `1` is the default object of class `0`, a unique
name is made by appending `_0`, and object `2` is an enum. -/
def hotReloadEnv : HotReloadEnv where
  toEnv := sampleEnv
  RF_Public := 0x01
  RF_Standalone := 0x02
  RF_Transient := 0x40
  TransientPackage := UObjectRef.package "/Engine/Transient"
  FindObject := findByName
  ClassDefaultObject := fun c => if c = 0 then some 1 else none
  MakeUniqueObjectName := fun _ _ base => base ++ "_0"
  GetObjectsWithOuter := fun table c =>
    (List.range table.length).filter (fun i =>
      match table[i]? with
      | some obj => decide (obj.OuterPrivate = UObjectRef.object c)
      | none => false)
  IsEnum := fun o => decide (o = 2)

/-- A hot reload in progress. Class `UMyClass` was registered with record `0`; record `1`
is a recompiled version with another fingerprint and record `2` one with the same
fingerprint. The struct `MyStruct` has a fingerprint in the registry, the struct `Orphan`
exists without one. -/
def reloadingState : HotReloadState where
  GIsHotReload := true
  ClassInfos := [⟨16, 7, true, none⟩, ⟨24, 9, false, none⟩, ⟨16, 7, false, none⟩]
  DeferRegisterClassMap := [("UMyClass", 0)]
  HotReloadClasses := []
  DeferredClassRegistration := []
  RegisteredInfo := [((gamePackage, "MyStruct"), ⟨8, 3⟩)]
  UObjects := [
    ⟨"MyClass", gamePackage, 0x03, true⟩,
    ⟨"Default__MyClass", gamePackage, 0x13, true⟩,
    ⟨"MyEnum", UObjectRef.object 0, 0x01, false⟩,
    ⟨"MyStruct", gamePackage, 0x03, true⟩,
    ⟨"Orphan", gamePackage, 0x03, true⟩]
  ObjectCalls := []

/-- The state of a successful result; the unchanged state stands in for a failed one. -/
def hotResult (s : HotReloadState) (r : Except Err HotReloadState) : HotReloadState :=
  match r with
  | .ok s' => s'
  | .error _ => s

/-- The state `reloadingState` after the changed version of `UMyClass` was deferred. -/
def changedDeferred : HotReloadState :=
  hotResult reloadingState (UClassCompiledInDefer hotReloadEnv reloadingState 1 "UMyClass" 24 9)

/-- The state `reloadingState` after the unchanged version of `UMyClass` was deferred. -/
def unchangedDeferred : HotReloadState :=
  hotResult reloadingState (UClassCompiledInDefer hotReloadEnv reloadingState 2 "UMyClass" 16 7)

/-- The state `s'` is the state `s` after one logged call `c` of a method that changed
object `o` by `f`: the registries are the same and so is every other object. -/
def MethodCalled (s s' : HotReloadState) (o : ObjId) (f : UObject → UObject)
    (c : ObjectCall) : Prop :=
  s'.GIsHotReload = s.GIsHotReload ∧ s'.ClassInfos = s.ClassInfos ∧
    s'.DeferRegisterClassMap = s.DeferRegisterClassMap ∧
    s'.HotReloadClasses = s.HotReloadClasses ∧
    s'.DeferredClassRegistration = s.DeferredClassRegistration ∧
    s'.RegisteredInfo = s.RegisteredInfo ∧
    s'.ObjectCalls = s.ObjectCalls ++ [c] ∧
    ∀ i, s'.UObjects[i]? = if i = o then s.UObjects[i]?.map f else s.UObjects[i]?

/-! ## Vocabulary of runs without re-entry -/

/-- The call of a callback starts a nested run of the materialisation loop. -/
def Action.isEpoch : Action → Bool
  | .ProcessNewlyLoadedUObjects _ bCanProcessNewlyLoadedObjects => bCanProcessNewlyLoadedObjects
  | _ => false

/-- No callback re-enters the materialisation loop: none of the calls that the callbacks of
the configuration make is `ProcessNewlyLoadedUObjects` with permission to materialise. -/
def NoReentry (env : Env) : Prop :=
  (∀ p st, ∀ a ∈ env.CreatePackage p st, a.isEpoch = false) ∧
  (∀ fn st, ∀ a ∈ env.EnumRegisterFn fn st, a.isEpoch = false) ∧
  (∀ fn st, ∀ a ∈ env.StructRegisterFn fn st, a.isEpoch = false) ∧
  (∀ fn st, ∀ a ∈ (env.ClassRegistrant fn st).1, a.isEpoch = false) ∧
  (∀ c st, ∀ a ∈ env.GetDefaultObject c st, a.isEpoch = false) ∧
  (∀ c st, ∀ a ∈ env.ClassRegister c st, a.isEpoch = false)

/-- The calls that materialise a descriptor: the three kinds of factory and the
construction of a default object. -/
def Call.isMaterialization : Call → Bool
  | .EnumRegisterFn _ => true
  | .StructRegisterFn _ => true
  | .ClassRegistrant _ _ => true
  | .GetDefaultObject _ => true
  | _ => false

/-- All calls of a log, at every depth of nesting, in order. -/
def allCalls (evs : List Event) : List Call := evs.map (·.call)

/-- The enum factories called, in order. -/
def enumFactoryCalls (calls : List Call) : List FnId :=
  calls.filterMap (fun c =>
    match c with
    | .EnumRegisterFn fn => some fn
    | _ => none)

/-- The struct factories called, in order. -/
def structFactoryCalls (calls : List Call) : List FnId :=
  calls.filterMap (fun c =>
    match c with
    | .StructRegisterFn fn => some fn
    | _ => none)

/-- The class factories called, in order. -/
def classFactoryCalls (calls : List Call) : List FnId :=
  calls.filterMap (fun c =>
    match c with
    | .ClassRegistrant fn _ => some fn
    | _ => none)

/-- The enum descriptors that were enqueued according to a log, in the order of their
enqueueing: the non-dynamic calls of `UObjectCompiledInDeferEnum`. -/
def enumsDeferred (evs : List Event) : List FPendingEnumRegistrant :=
  evs.filterMap (fun e =>
    match e.call with
    | .NotifyAdded pkg _ .NRT_Enum fn false => some ⟨fn, pkg⟩
    | _ => none)

/-- The struct descriptors that were enqueued according to a log, in the order of their
enqueueing: the non-dynamic calls of `UObjectCompiledInDeferStruct`. -/
def structsDeferred (evs : List Event) : List FPendingStructRegistrant :=
  evs.filterMap (fun e =>
    match e.call with
    | .NotifyAdded pkg _ .NRT_Struct fn false => some ⟨fn, pkg⟩
    | _ => none)

/-- The class descriptors that were enqueued according to a log, in the order of their
enqueueing: the non-dynamic calls of `UObjectCompiledInDefer`. -/
def classesDeferred (evs : List Event) : List FnId :=
  evs.filterMap (fun e =>
    match e.call with
    | .NotifyAdded _ _ .NRT_Class fn false => some fn
    | _ => none)

/-- A run from `s` to `s'` that logged `evs` and took nothing out of the three descriptor
queues: each queue is the old one followed by what was enqueued, and every materialising
call of the log was made at the depth of the run itself. -/
structure Phase (s s' : State) (evs : List Event) : Prop where
  trace : s'.Trace = s.Trace ++ evs
  depth : s'.Depth = s.Depth
  own : ∀ e ∈ evs, e.call.isMaterialization = true → e.depth = s.Depth
  enums : s'.DeferredCompiledInEnumRegistration =
    s.DeferredCompiledInEnumRegistration ++ enumsDeferred evs
  structs : s'.DeferredCompiledInStructRegistration =
    s.DeferredCompiledInStructRegistration ++ structsDeferred evs
  classes : s'.DeferredCompiledInRegistration =
    s.DeferredCompiledInRegistration ++ classesDeferred evs

/-- No call of the log materialises a descriptor. -/
def Quiet (evs : List Event) : Prop := ∀ e ∈ evs, e.call.isMaterialization = false

/-- Every successful run of callback code that starts no nested run of the loop enqueues
only, and materialises nothing. -/
def Calm (run : List Action → State → Except Err State) : Prop :=
  ∀ acts s s', (∀ a ∈ acts, a.isEpoch = false) → run acts s = .ok s' →
    ∃ evs, Phase s s' evs ∧ Quiet evs

/-- A run from `s` to `s'` that logged `evs` and called, itself, the factory of every
descriptor it took out of a queue: for each kind, the factories called followed by the queue
afterwards are the queue before followed by what was enqueued during the run. -/
structure Balanced (s s' : State) (evs : List Event) : Prop where
  trace : s'.Trace = s.Trace ++ evs
  depth : s'.Depth = s.Depth
  own : ∀ e ∈ evs, e.call.isMaterialization = true → e.depth = s.Depth
  enums : enumFactoryCalls (allCalls evs) ++
      s'.DeferredCompiledInEnumRegistration.map (·.RegisterFn) =
    (s.DeferredCompiledInEnumRegistration ++ enumsDeferred evs).map (·.RegisterFn)
  structs : structFactoryCalls (allCalls evs) ++
      s'.DeferredCompiledInStructRegistration.map (·.RegisterFn) =
    (s.DeferredCompiledInStructRegistration ++ structsDeferred evs).map (·.RegisterFn)
  classes : classFactoryCalls (allCalls evs) ++ s'.DeferredCompiledInRegistration =
    s.DeferredCompiledInRegistration ++ classesDeferred evs

/-- A run from `s` to `s'` that logged `evs`, counted over every depth of nesting: for each
kind, the factories called together with the queue afterwards are, up to order, the
factories `E`, `S`, `C` that the run owed at its start together with the queue before and
what was enqueued during the run. -/
structure Tally (s s' : State) (evs : List Event) (E S C : List FnId) : Prop where
  trace : s'.Trace = s.Trace ++ evs
  enums : (enumFactoryCalls (allCalls evs) ++
      s'.DeferredCompiledInEnumRegistration.map (·.RegisterFn)).Perm
    (E ++ (s.DeferredCompiledInEnumRegistration.map (·.RegisterFn) ++
      (enumsDeferred evs).map (·.RegisterFn)))
  structs : (structFactoryCalls (allCalls evs) ++
      s'.DeferredCompiledInStructRegistration.map (·.RegisterFn)).Perm
    (S ++ (s.DeferredCompiledInStructRegistration.map (·.RegisterFn) ++
      (structsDeferred evs).map (·.RegisterFn)))
  classes : (classFactoryCalls (allCalls evs) ++ s'.DeferredCompiledInRegistration).Perm
    (C ++ (s.DeferredCompiledInRegistration ++ classesDeferred evs))

/-- Every successful run of callback code has called the factory of each descriptor that
it took out of a queue. -/
def Accounted (run : List Action → State → Except Err State) : Prop :=
  ∀ acts s s', run acts s = .ok s' → ∃ evs, Tally s s' evs [] [] []

/-- A configuration in which the factory of enum descriptor `1` loads a module: the module
defers enum descriptor `3` and the load ends, as module loads do, in a call of
`ProcessNewlyLoadedUObjects`. -/
def reenteringEnumEnv : Env :=
  { sampleEnv with
    EnumRegisterFn := fun fn _ =>
      if fn = 1 then
        [Action.UObjectCompiledInDeferEnum 3 "/Script/Game" "E3" false "",
          Action.ProcessNewlyLoadedUObjects NAME_None true]
      else [] }

/-- The enum descriptors `1` and `2` have been deferred, in this order. -/
def twoEnumsDeferred : State :=
  UObjectCompiledInDeferEnum
    (UObjectCompiledInDeferEnum idleState 1 "/Script/Game" "E1" false "")
    2 "/Script/Game" "E2" false ""

/-- The state `twoEnumsDeferred` after one `ProcessNewlyLoadedUObjects` in
`reenteringEnumEnv`. -/
def twoEnumsDone : State :=
  resultState (ProcessNewlyLoadedUObjects reenteringEnumEnv (exec reenteringEnumEnv 4) 4
    twoEnumsDeferred NAME_None true)

theorem IsChain.lt {nodes : List (Option FPendingRegistrant)} :
    ∀ {p : Option NodeAddr} {addrs : List NodeAddr} {objs : List ObjId},
      IsChain nodes p addrs objs → ∀ a ∈ addrs, a < nodes.length := by
  intro p addrs
  induction addrs generalizing p with
  | nil => intro objs _ a ha; simp at ha
  | cons b addrs ih =>
    intro objs h a ha
    cases objs with
    | nil => simp [IsChain] at h
    | cons o objs =>
      obtain ⟨_, _, nxt, hb, hrest⟩ := h
      rcases List.mem_cons.1 ha with rfl | ha
      · exact (List.getElem?_eq_some_iff.1 hb).1
      · exact ih hrest a ha

theorem IsChain.live {nodes : List (Option FPendingRegistrant)} :
    ∀ {p : Option NodeAddr} {addrs : List NodeAddr} {objs : List ObjId},
      IsChain nodes p addrs objs → ∀ a ∈ addrs, ∃ n, nodes[a]? = some (some n) := by
  intro p addrs
  induction addrs generalizing p with
  | nil => intro objs _ a ha; simp at ha
  | cons b addrs ih =>
    intro objs h a ha
    cases objs with
    | nil => simp [IsChain] at h
    | cons o objs =>
      obtain ⟨_, _, nxt, hb, hrest⟩ := h
      rcases List.mem_cons.1 ha with rfl | ha
      · exact ⟨_, hb⟩
      · exact ih hrest a ha

theorem IsChain.nodup {nodes : List (Option FPendingRegistrant)} :
    ∀ {p : Option NodeAddr} {addrs : List NodeAddr} {objs : List ObjId},
      IsChain nodes p addrs objs → addrs.Nodup := by
  intro p addrs
  induction addrs generalizing p with
  | nil => intro objs _; exact List.nodup_nil
  | cons b addrs ih =>
    intro objs h
    cases objs with
    | nil => simp [IsChain] at h
    | cons o objs =>
      obtain ⟨_, hb, nxt, _, hrest⟩ := h
      exact List.nodup_cons.2 ⟨hb, ih hrest⟩

theorem IsChain.length_le {nodes : List (Option FPendingRegistrant)} {p : Option NodeAddr}
    {addrs : List NodeAddr} {objs : List ObjId} (h : IsChain nodes p addrs objs) :
    addrs.length ≤ nodes.length := by
  have hsub : addrs ⊆ List.range nodes.length := fun a ha =>
    List.mem_range.2 (IsChain.lt h a ha)
  simpa using (List.subperm_of_subset (IsChain.nodup h) hsub).length_le

theorem IsChain.set_of_not_mem {nodes : List (Option FPendingRegistrant)} {b : NodeAddr}
    {v : Option FPendingRegistrant} :
    ∀ {p : Option NodeAddr} {addrs : List NodeAddr} {objs : List ObjId},
      IsChain nodes p addrs objs → b ∉ addrs → IsChain (nodes.set b v) p addrs objs := by
  intro p addrs
  induction addrs generalizing p with
  | nil => intro objs h _; cases objs <;> simp_all [IsChain]
  | cons a addrs ih =>
    intro objs h hb
    cases objs with
    | nil => simp [IsChain] at h
    | cons o objs =>
      obtain ⟨hp, hna, nxt, ha, hrest⟩ := h
      have hne : b ≠ a := fun e => hb (e ▸ List.mem_cons_self _ _)
      refine ⟨hp, hna, nxt, ?_, ih hrest (fun hm => hb (List.mem_cons_of_mem _ hm))⟩
      rw [List.getElem?_set_ne hne]; exact ha

theorem IsChain.snoc {nodes : List (Option FPendingRegistrant)} {o : ObjId} :
    ∀ {p : Option NodeAddr} {addrs : List NodeAddr} {objs : List ObjId} {last : NodeAddr}
      {n : FPendingRegistrant},
      IsChain nodes p addrs objs → addrs.getLast? = some last →
      nodes[last]? = some (some n) →
      IsChain ((nodes ++ [some (FPendingRegistrant.mk o none)]).set last
          (some { n with NextAutoRegister := some nodes.length }))
        p (addrs ++ [nodes.length]) (objs ++ [o]) := by
  intro p addrs
  induction addrs generalizing p with
  | nil => intro objs last n _ hl; simp at hl
  | cons a addrs ih =>
    intro objs last n h hl hn
    cases objs with
    | nil => simp [IsChain] at h
    | cons o' objs =>
      obtain ⟨hp, hna, nxt, ha, hrest⟩ := h
      have halt : a < nodes.length := (List.getElem?_eq_some_iff.1 ha).1
      have hlt : ∀ x ∈ addrs, x < nodes.length := IsChain.lt hrest
      have hnotin : a ∉ addrs ++ [nodes.length] := by
        simp only [List.mem_append, List.mem_singleton, not_or]
        exact ⟨hna, Nat.ne_of_lt halt⟩
      cases addrs with
      | nil =>
        cases objs with
        | cons _ _ => simp [IsChain] at hrest
        | nil =>
          simp only [IsChain] at hrest
          simp only [List.getLast?_singleton, Option.some.injEq] at hl
          subst hl
          rw [ha] at hn
          simp only [Option.some.injEq] at hn
          subst hn
          subst hrest
          refine ⟨hp, hnotin, some nodes.length, ?_, rfl, by simp, none, ?_, rfl⟩
          · rw [List.getElem?_set_self (by simpa using Nat.lt_succ_of_lt halt)]
          · rw [List.getElem?_set_ne (Nat.ne_of_lt halt), List.getElem?_concat_length]
      | cons b rest =>
        have hl' : (b :: rest).getLast? = some last := by simpa using hl
        have hlast_mem : last ∈ b :: rest := List.mem_of_getLast?_eq_some hl'
        have hne : last ≠ a := fun e => hna (e ▸ hlast_mem)
        refine ⟨hp, hnotin, nxt, ?_, ih hrest hl' hn⟩
        rw [List.getElem?_set_ne hne, List.getElem?_append_left halt]; exact ha

theorem Register_globalList {env : Env} {s : State} {addrs : List NodeAddr} {objs : List ObjId}
    (this : ObjId) (PackageName InName : FName) (h : GlobalList s addrs objs)
    (hr : routedToGlobalList env PackageName) :
    ∃ s1, Register env s this PackageName InName = .ok s1 ∧
      GlobalList s1 (addrs ++ [s.Nodes.length]) (objs ++ [this]) ∧
      s1.Nodes.length = s.Nodes.length + 1 := by
  obtain ⟨hc, hlast⟩ := h
  have hcond : (env.USE_PER_MODULE_UOBJECT_BOOTSTRAP && PackageName != "/Script/CoreUObject")
      = false := by
    rcases hr with h1 | h1 <;> simp [h1]
  unfold Register
  simp only [hcond, Bool.false_eq_true, if_false]
  unfold linkPendingRegistrant
  cases hadd : addrs with
  | nil =>
    subst hadd
    cases objs with
    | cons _ _ => simp [IsChain] at hc
    | nil =>
      simp only [IsChain] at hc
      simp only [List.getLast?_nil] at hlast
      simp only [hlast, hc, Option.isSome_none, Bool.false_eq_true, if_false]
      refine ⟨_, rfl, ⟨?_, by simp⟩, by simp⟩
      exact ⟨rfl, by simp, none, by simp, rfl⟩
  | cons a rest =>
    subst hadd
    obtain ⟨last, hl⟩ : ∃ last, (a :: rest).getLast? = some last := by
      cases hx : (a :: rest).getLast? with
      | none => simp at hx
      | some l => exact ⟨l, rfl⟩
    have hmem : last ∈ a :: rest := List.mem_of_getLast?_eq_some hl
    have hlt : last < s.Nodes.length := IsChain.lt hc last hmem
    obtain ⟨n, hn⟩ := IsChain.live hc last hmem
    rw [hl] at hlast
    simp only [hlast, List.getElem?_append_left hlt, hn]
    refine ⟨_, rfl, ⟨IsChain.snoc hc hl hn, ?_⟩, by simp⟩
    show _ = ((a :: rest) ++ [s.Nodes.length]).getLast?
    rw [List.getLast?_concat]

theorem registerAll_globalList {env : Env} :
    ∀ (regs : List (ObjId × FName × FName)) {s : State} {addrs : List NodeAddr}
      {objs : List ObjId},
      GlobalList s addrs objs → (∀ r ∈ regs, routedToGlobalList env r.2.1) →
      ∃ s1 addrs1, registerAll env regs s = .ok s1 ∧
        GlobalList s1 addrs1 (objs ++ regs.map (·.1)) := by
  intro regs
  induction regs with
  | nil => intro s addrs objs h _; exact ⟨s, addrs, rfl, by simpa using h⟩
  | cons r rest ih =>
    intro s addrs objs h hr
    obtain ⟨s1, h1, hg, _⟩ :=
      Register_globalList r.1 r.2.1 r.2.2 h (hr r (List.mem_cons_self _ _))
    obtain ⟨s2, addrs2, h2, hg2⟩ := ih hg (fun x hx => hr x (List.mem_cons_of_mem _ hx))
    refine ⟨s2, addrs2, ?_, by simpa using hg2⟩
    simp only [registerAll, h1, bind, Except.bind]
    exact h2

theorem dequeueLoop_chain :
    ∀ {addrs : List NodeAddr} {objs : List ObjId} {p : Option NodeAddr} {fuel : Nat}
      {nodes : List (Option FPendingRegistrant)} (out : List FPendingRegistrant),
      IsChain nodes p addrs objs → addrs.length ≤ fuel →
      ∃ nodes1 out1, dequeueLoop fuel nodes p out = .ok (nodes1, out ++ out1) ∧
        out1.map (·.Object) = objs ∧ nodes1.length = nodes.length := by
  intro addrs
  induction addrs with
  | nil =>
    intro objs p fuel nodes out h _
    cases objs with
    | cons _ _ => simp [IsChain] at h
    | nil =>
      simp only [IsChain] at h
      subst h
      refine ⟨nodes, [], ?_, rfl, rfl⟩
      cases fuel <;> simp [dequeueLoop, pure, Except.pure]
  | cons a addrs ih =>
    intro objs p fuel nodes out h hf
    cases objs with
    | nil => simp [IsChain] at h
    | cons o objs =>
      obtain ⟨hp, hna, nxt, ha, hrest⟩ := h
      subst hp
      cases fuel with
      | zero => simp at hf
      | succ fuel =>
        obtain ⟨nodes1, out1, h1, hobj, hlen⟩ :=
          ih (out ++ [⟨o, nxt⟩]) (IsChain.set_of_not_mem (b := a) (v := none) hrest hna)
            (Nat.le_of_succ_le_succ hf)
        refine ⟨nodes1, ⟨o, nxt⟩ :: out1, ?_, by simp [hobj], by simpa using hlen⟩
        simp only [dequeueLoop, ha]
        rw [h1]; simp


/-! ## Frame conditions -/

theorem Steps.nil (s : State) : Steps s s [] := by
  constructor <;> simp

theorem Steps.append {s s1 s2 : State} {e1 e2 : List Event} (h1 : Steps s s1 e1)
    (h2 : Steps s1 s2 e2) : Steps s s2 (e1 ++ e2) where
  trace := by rw [h2.trace, h1.trace, List.append_assoc]
  depth := by rw [h2.depth, h1.depth]
  deep := by
    intro e he
    rcases List.mem_append.1 he with h | h
    · exact h1.deep e h
    · have := h2.deep e h; rw [h1.depth] at this; exact this
  initialLoad := by rw [h2.initialLoad, h1.initialLoad]
  noAssemble := by
    intro hi e he
    rcases List.mem_append.1 he with h | h
    · exact h1.noAssemble hi e h
    · exact h2.noAssemble (by rw [h1.initialLoad]; exact hi) e h
  objects := Nat.le_trans h1.objects h2.objects
  registered := by
    intro o ho hn
    exact h2.registered o (Nat.lt_of_lt_of_le ho h1.objects) (h1.registered o ho hn)
  enums := by
    intro r
    have a := h1.enums r
    have b := h2.enums r
    rw [List.countP_append]; omega
  structs := by
    intro r
    have a := h1.structs r
    have b := h2.structs r
    rw [List.countP_append]; omega
  classes := by
    intro r
    have a := h1.classes r
    have b := h2.classes r
    rw [List.countP_append]; omega

theorem directCalls_append (d : Nat) (e1 e2 : List Event) :
    directCalls d (e1 ++ e2) = directCalls d e1 ++ directCalls d e2 := by
  simp [directCalls]

theorem directCalls_of_deeper {d : Nat} {evs : List Event} (h : ∀ e ∈ evs, d < e.depth) :
    directCalls d evs = [] := by
  simp only [directCalls, List.map_eq_nil_iff, List.filter_eq_nil_iff, decide_eq_true_eq]
  intro e he hd
  have := h e he
  omega

theorem Direct.idle (s : State) : Direct s s [] := ⟨[], Steps.nil s, rfl⟩

theorem Direct.seq {s s1 s2 : State} {c1 c2 : List Call} (h1 : Direct s s1 c1)
    (h2 : Direct s1 s2 c2) : Direct s s2 (c1 ++ c2) := by
  obtain ⟨e1, hs1, hd1⟩ := h1
  obtain ⟨e2, hs2, hd2⟩ := h2
  refine ⟨e1 ++ e2, hs1.append hs2, ?_⟩
  rw [directCalls_append, hd1, ← hs1.depth, hd2]

/-- A step that leaves the log, the depth, the load phase, the objects, the dictionary
and the three descriptor queues alone. -/
theorem Steps.silent {s s' : State} (ht : s'.Trace = s.Trace) (hd : s'.Depth = s.Depth)
    (hi : s'.GIsInitialLoad = s.GIsInitialLoad) (ho : s'.Objects.length = s.Objects.length)
    (hp : s'.PendingRegistrantInfo = s.PendingRegistrantInfo)
    (he : s'.DeferredCompiledInEnumRegistration = s.DeferredCompiledInEnumRegistration)
    (hs : s'.DeferredCompiledInStructRegistration = s.DeferredCompiledInStructRegistration)
    (hc : s'.DeferredCompiledInRegistration = s.DeferredCompiledInRegistration) :
    Steps s s' [] := by
  constructor <;> simp [ht, hd, hi, ho, hp, he, hs, hc]

theorem Direct.quiet {s s' : State} (ht : s'.Trace = s.Trace) (hd : s'.Depth = s.Depth)
    (hi : s'.GIsInitialLoad = s.GIsInitialLoad) (ho : s'.Objects.length = s.Objects.length)
    (hp : s'.PendingRegistrantInfo = s.PendingRegistrantInfo)
    (he : s'.DeferredCompiledInEnumRegistration = s.DeferredCompiledInEnumRegistration)
    (hs : s'.DeferredCompiledInStructRegistration = s.DeferredCompiledInStructRegistration)
    (hc : s'.DeferredCompiledInRegistration = s.DeferredCompiledInRegistration) :
    Direct s s' [] := ⟨[], Steps.silent ht hd hi ho hp he hs hc, rfl⟩

theorem Steps.logged (s : State) (c : Call)
    (hc : c ≠ Call.AssembleReferenceTokenStreams ∨ s.GIsInitialLoad = false) :
    Steps s (logCall s c) [⟨s.Depth, c⟩] := by
  constructor <;> simp [logCall]
  intro hi
  rcases hc with h | h
  · exact h
  · simp [hi] at h

theorem Direct.single (s : State) (c : Call)
    (hc : c ≠ Call.AssembleReferenceTokenStreams ∨ s.GIsInitialLoad = false) :
    Direct s (logCall s c) [c] := ⟨_, Steps.logged s c hc, by simp [directCalls]⟩

theorem invoke_steps {run : List Action → State → Except Err State} (hrun : RunOK run)
    {acts : List Action} {s s' : State} (h : invoke run acts s = .ok s') :
    ∃ evs, Steps s s' evs ∧ ∀ e ∈ evs, s.Depth < e.depth := by
  unfold invoke at h
  cases hr : run acts { s with Depth := s.Depth + 1 } with
  | error e => simp [hr, bind, Except.bind] at h
  | ok s1 =>
    simp only [hr, bind, Except.bind, pure, Except.pure, Except.ok.injEq] at h
    subst h
    obtain ⟨evs, hs⟩ := hrun _ _ _ hr
    refine ⟨evs, ?_, fun e he => hs.deep e he⟩
    exact {
      trace := hs.trace
      depth := rfl
      deep := fun e he => Nat.le_of_succ_le (hs.deep e he)
      initialLoad := hs.initialLoad
      noAssemble := hs.noAssemble
      objects := hs.objects
      registered := hs.registered
      enums := hs.enums
      structs := hs.structs
      classes := hs.classes }

theorem invoke_direct {run : List Action → State → Except Err State} (hrun : RunOK run)
    {acts : List Action} {s s' : State} (h : invoke run acts s = .ok s') :
    Direct s s' [] := by
  obtain ⟨evs, hs, hd⟩ := invoke_steps hrun h
  exact ⟨evs, hs, directCalls_of_deeper hd⟩

theorem forEach_direct {α : Type} {body : α → State → Except Err State} {f : α → List Call}
    (hbody : ∀ x s s', body x s = .ok s' → Direct s s' (f x)) :
    ∀ (xs : List α) (s s' : State), forEach body xs s = .ok s' →
      Direct s s' (xs.flatMap f) := by
  intro xs
  induction xs with
  | nil =>
    intro s s' h
    simp only [forEach, pure, Except.pure, Except.ok.injEq] at h
    subst h
    exact Direct.idle s
  | cons x xs ih =>
    intro s s' h
    simp only [forEach, bind, Except.bind] at h
    cases hb : body x s with
    | error e => simp [hb] at h
    | ok s1 =>
      simp only [hb] at h
      simpa using (hbody x s s1 hb).seq (ih s1 s' h)

theorem bind_ok {α β : Type} {x : Except Err α} {f : α → Except Err β} {b : β} :
    (x >>= f) = .ok b ↔ ∃ a, x = .ok a ∧ f a = .ok b := by
  cases x with
  | error e => simp [bind, Except.bind]
  | ok a => simp [bind, Except.bind]

theorem SameLedger.same (s : State) : SameLedger s s := by
  constructor <;> rfl

theorem SameLedger.comp {s s1 s2 : State} (h1 : SameLedger s s1) (h2 : SameLedger s1 s2) :
    SameLedger s s2 := by
  constructor
  · rw [h2.trace, h1.trace]
  · rw [h2.depth, h1.depth]
  · rw [h2.initialLoad, h1.initialLoad]
  · rw [h2.initialized, h1.initialized]
  · rw [h2.objects, h1.objects]
  · rw [h2.info, h1.info]
  · rw [h2.enums, h1.enums]
  · rw [h2.structs, h1.structs]
  · rw [h2.classes, h1.classes]
  · rw [h2.classInfos, h1.classInfos]

theorem SameLedger.steps {s s' : State} (h : SameLedger s s') : Steps s s' [] :=
  Steps.silent h.trace h.depth h.initialLoad (by rw [h.objects]) h.info h.enums h.structs
    h.classes

theorem SameLedger.direct {s s' : State} (h : SameLedger s s') : Direct s s' [] :=
  ⟨[], h.steps, rfl⟩

theorem linkPendingRegistrant_same {s s' : State} {p : NodeAddr}
    (h : linkPendingRegistrant s p = .ok s') : SameLedger s s' := by
  unfold linkPendingRegistrant at h
  split at h
  · split at h
    · simp only [pure, Except.pure, Except.ok.injEq] at h
      subst h
      constructor <;> rfl
    · simp [throw, throwThe, MonadExceptOf.throw] at h
  · split at h
    · simp [throw, throwThe, MonadExceptOf.throw] at h
    · simp only [pure, Except.pure, Except.ok.injEq] at h
      subst h
      constructor <;> rfl

theorem forEach_same {α : Type} {body : α → State → Except Err State}
    (hbody : ∀ x s s', body x s = .ok s' → SameLedger s s') :
    ∀ (xs : List α) (s s' : State), forEach body xs s = .ok s' → SameLedger s s' := by
  intro xs
  induction xs with
  | nil =>
    intro s s' h
    simp only [forEach, pure, Except.pure, Except.ok.injEq] at h
    subst h
    exact SameLedger.same s
  | cons x xs ih =>
    intro s s' h
    simp only [forEach] at h
    obtain ⟨s1, h1, h2⟩ := bind_ok.1 h
    exact (hbody x s s1 h1).comp (ih s1 s' h2)

theorem UObjectReleaseModuleRegistrants_same {env : Env} {s s' : State} {Module : FName}
    (h : UObjectReleaseModuleRegistrants env s Module = .ok s') : SameLedger s s' := by
  unfold UObjectReleaseModuleRegistrants at h
  simp only at h
  split at h
  · obtain ⟨s1, h1, h2⟩ := bind_ok.1 h
    simp only [pure, Except.pure, Except.ok.injEq] at h2
    subst h2
    have := forEach_same (fun p st st' hp => linkPendingRegistrant_same hp) _ _ _ h1
    constructor <;> simp [this.trace, this.depth, this.initialLoad, this.initialized,
      this.objects, this.info, this.enums, this.structs, this.classes, this.classInfos]
  · simp only [pure, Except.pure, Except.ok.injEq] at h
    subst h
    exact SameLedger.same s

theorem DequeuePendingAutoRegistrants_same {s s' : State} {out out' : List FPendingRegistrant}
    (h : DequeuePendingAutoRegistrants s out = .ok (s', out')) : SameLedger s s' := by
  unfold DequeuePendingAutoRegistrants at h
  obtain ⟨⟨nodes, o⟩, h1, h2⟩ := bind_ok.1 h
  simp only [pure, Except.pure, Except.ok.injEq, Prod.mk.injEq] at h2
  obtain ⟨h2, _⟩ := h2
  subst h2
  constructor <;> rfl

theorem DequeuePendingAutoRegistrants_first {s s' : State} {out out' : List FPendingRegistrant}
    (h : DequeuePendingAutoRegistrants s out = .ok (s', out')) :
    s'.GFirstPendingRegistrant = none ∧ s'.GLastPendingRegistrant = none := by
  unfold DequeuePendingAutoRegistrants at h
  obtain ⟨⟨nodes, o⟩, h1, h2⟩ := bind_ok.1 h
  simp only [pure, Except.pure, Except.ok.injEq, Prod.mk.injEq] at h2
  obtain ⟨h2, _⟩ := h2
  subst h2
  exact ⟨rfl, rfl⟩

/-! ### The dictionary -/

theorem TMap.Find_Remove_self {κ ν : Type} [DecidableEq κ] (m : TMap κ ν) (k : κ) :
    TMap.Find (TMap.Remove m k) k = none := by
  induction m with
  | nil => rfl
  | cons e m ih =>
    obtain ⟨k', v⟩ := e
    by_cases hk : k' = k
    · simpa [TMap.Remove, List.filter_cons, hk] using ih
    · have hk' : (k == k') = false := by simpa using fun e => hk e.symm
      simpa [TMap.Remove, TMap.Find, List.filter_cons, hk, List.lookup_cons, hk'] using ih

theorem TMap.Find_Remove_ne {κ ν : Type} [DecidableEq κ] (m : TMap κ ν) {k k' : κ}
    (h : k' ≠ k) : TMap.Find (TMap.Remove m k) k' = TMap.Find m k' := by
  induction m with
  | nil => rfl
  | cons e m ih =>
    obtain ⟨k0, v⟩ := e
    by_cases hk : k0 = k
    · subst hk
      have hk' : (k' == k0) = false := by simpa using h
      simpa [TMap.Remove, TMap.Find, List.filter_cons, List.lookup_cons, hk'] using ih
    · by_cases hq : k' = k0
      · simp [TMap.Remove, TMap.Find, List.filter_cons, hk, List.lookup_cons, hq]
      · have hk' : (k' == k0) = false := by simpa using hq
        simpa [TMap.Remove, TMap.Find, List.filter_cons, hk, List.lookup_cons, hk'] using ih

theorem TMap.Find_Remove_none {κ ν : Type} [DecidableEq κ] (m : TMap κ ν) {k k' : κ}
    (h : TMap.Find m k' = none) : TMap.Find (TMap.Remove m k) k' = none := by
  by_cases hk : k' = k
  · subst hk; exact TMap.Find_Remove_self m k'
  · rw [TMap.Find_Remove_ne m hk]; exact h

theorem TMap.Find_append {κ ν : Type} [DecidableEq κ] (m : TMap κ ν) (k k' : κ) (v : ν) :
    TMap.Find (m ++ [(k, v)]) k' =
      match TMap.Find m k' with
      | some w => some w
      | none => if k' = k then some v else none := by
  induction m with
  | nil =>
    by_cases h : k' = k
    · simp [TMap.Find, List.lookup_cons, h]
    · have : (k' == k) = false := by simpa using h
      simp [TMap.Find, List.lookup_cons, h, this]
  | cons e m ih =>
    obtain ⟨k0, w⟩ := e
    by_cases hq : k' = k0
    · simp [TMap.Find, List.lookup_cons, hq]
    · have hk' : (k' == k0) = false := by simpa using hq
      simpa [TMap.Find, List.lookup_cons, hk'] using ih

theorem TMap.Find_Add_self {κ ν : Type} [DecidableEq κ] (m : TMap κ ν) (k : κ) (v : ν) :
    TMap.Find (TMap.Add m k v) k = some v := by
  simp [TMap.Add, TMap.Find_append, TMap.Find_Remove_self]

theorem TMap.Find_Add_ne {κ ν : Type} [DecidableEq κ] (m : TMap κ ν) {k k' : κ} (v : ν)
    (h : k' ≠ k) : TMap.Find (TMap.Add m k v) k' = TMap.Find m k' := by
  simp only [TMap.Add, TMap.Find_append, TMap.Find_Remove_ne m h, h, if_false]
  cases TMap.Find m k' <;> rfl

/-! ### Frame conditions of the functions with callbacks -/

theorem throw_ne_ok {α : Type} {e : Err} {a : α} : (throw e : Except Err α) ≠ .ok a := by
  intro h; cases h

theorem AddObject_steps {env : Env} {s s' : State} {this : ObjId} {InName : FName} {fl : Nat}
    (h : AddObject env s this InName fl = .ok s') : Steps s s' [] := by
  unfold AddObject at h
  cases hobj : s.Objects[this]? with
  | none => simp only [hobj] at h; exact absurd h throw_ne_ok
  | some obj =>
    simp only [hobj] at h
    split_ifs at h
    all_goals
      first
      | exact absurd h throw_ne_ok
      | (cases h; exact Steps.silent rfl rfl rfl (by simp) rfl rfl rfl rfl)

theorem CreatePackage_direct {env : Env} {run : List Action → State → Except Err State}
    (hrun : RunOK run) {s s' : State} {PackageName : FName}
    (h : CreatePackage env run s PackageName = .ok s') :
    Direct s s' [Call.CreatePackage PackageName] := by
  unfold CreatePackage at h
  obtain ⟨s2, h2, h3⟩ := bind_ok.1 h
  have d1 := Direct.single s (Call.CreatePackage PackageName) (Or.inl (by simp))
  have d2 := invoke_direct hrun h2
  have d3 : Direct s2 s' [] := by
    split at h3
    · simp only [pure, Except.pure, Except.ok.injEq] at h3
      subst h3; exact Direct.idle _
    · simp only [pure, Except.pure, Except.ok.injEq] at h3
      subst h3; exact Direct.quiet rfl rfl rfl rfl rfl rfl rfl rfl
  simpa using (d1.seq d2).seq d3

theorem DeferredRegister_direct {env : Env} {run : List Action → State → Except Err State}
    (hrun : RunOK run) {s s' : State} {this : ObjId} {cls : Option UObjectRef}
    {PackageName InName : FName}
    (h : DeferredRegister env run s this cls PackageName InName = .ok s') :
    Direct s s' [Call.DeferredRegister this PackageName InName, Call.CreatePackage PackageName] := by
  unfold DeferredRegister at h
  have d1 := Direct.single s (Call.DeferredRegister this PackageName InName) (Or.inl (by simp))
  by_cases hinit : (logCall s (Call.DeferredRegister this PackageName InName)).ObjInitialized
  swap
  · simp [hinit, bind, Except.bind, throw, throwThe, MonadExceptOf.throw] at h
  simp only [hinit, Bool.not_true, Bool.false_eq_true, if_false] at h
  obtain ⟨u, hu, h⟩ := bind_ok.1 h
  cases hu
  obtain ⟨s1, hcp, h⟩ := bind_ok.1 h
  have d2 := CreatePackage_direct hrun hcp
  cases hobj : s1.Objects[this]? with
  | none => simp only [hobj] at h; exact absurd h throw_ne_ok
  | some obj =>
    simp only [hobj] at h
    by_cases hcls : cls.isNone
    · simp [hcls, bind, Except.bind, throw, throwThe, MonadExceptOf.throw] at h
    simp only [hcls, Bool.false_eq_true, if_false] at h
    obtain ⟨u, hu, h⟩ := bind_ok.1 h
    cases hu
    by_cases hcp2 : obj.ClassPrivate.isSome
    · simp [hcp2, bind, Except.bind, throw, throwThe, MonadExceptOf.throw] at h
    simp only [hcp2, Bool.false_eq_true, if_false] at h
    obtain ⟨u, hu, h⟩ := bind_ok.1 h
    cases hu
    obtain ⟨s2, hadd, h⟩ := bind_ok.1 h
    have hA := AddObject_steps hadd
    have d3 : Direct s1 s2 ([] ++ []) := by
      have hB : Direct _ s2 [] := ⟨[], hA, rfl⟩
      refine Direct.seq ?_ hB
      exact Direct.quiet rfl rfl rfl (by simp) rfl rfl rfl rfl
    have d4 : s' = s2 := by
      cases hobj2 : s2.Objects[this]? with
      | none => simp only [hobj2] at h; exact absurd h throw_ne_ok
      | some obj2 =>
        simp only [hobj2] at h
        split_ifs at h
        exact (Except.ok.inj h).symm
    subst d4
    simpa using (d1.seq d2).seq d3

theorem UObjectForceRegistration_none {env : Env}
    {run : List Action → State → Except Err State} {s : State} {Object : ObjId} (b : Bool)
    (h : TMap.Find s.PendingRegistrantInfo Object = none) :
    UObjectForceRegistration env run s Object b = .ok s := by
  simp only [UObjectForceRegistration, h]
  rfl

theorem UObjectForceRegistration_some {env : Env}
    {run : List Action → State → Except Err State} (hrun : RunOK run) {s s' : State}
    {Object : ObjId} {b : Bool} {Info : FPendingRegistrantInfo}
    (hfind : TMap.Find s.PendingRegistrantInfo Object = some Info)
    (h : UObjectForceRegistration env run s Object b = .ok s') :
    Direct s s' [Call.DeferredRegister Object Info.PackageName Info.Name,
        Call.CreatePackage Info.PackageName] ∧
      (Object < s.Objects.length → TMap.Find s'.PendingRegistrantInfo Object = none) := by
  simp only [UObjectForceRegistration, hfind] at h
  obtain ⟨sA, hA, h⟩ := bind_ok.1 h
  have same : SameLedger s sA := by
    split_ifs at hA
    · exact UObjectReleaseModuleRegistrants_same hA
    · cases hA; exact SameLedger.same s
  have hB : Steps sA
      { sA with PendingRegistrantInfo := TMap.Remove sA.PendingRegistrantInfo Object } [] := by
    constructor <;> simp
    intro o _ ho
    exact TMap.Find_Remove_none _ ho
  have dB : Direct sA _ [] := ⟨[], hB, rfl⟩
  have dC := DeferredRegister_direct hrun h
  refine ⟨by simpa using (same.direct.seq dB).seq dC, fun ho => ?_⟩
  obtain ⟨evs, hs, _⟩ := dC
  refine hs.registered Object ?_ (TMap.Find_Remove_self _ _)
  simpa [same.objects] using ho

theorem UObjectForceRegistration_direct {env : Env}
    {run : List Action → State → Except Err State} (hrun : RunOK run) {s s' : State}
    {Object : ObjId} {b : Bool} (h : UObjectForceRegistration env run s Object b = .ok s') :
    ∃ calls, Direct s s' calls ∧ ∀ c ∈ calls, c.isRegistration = true := by
  cases hfind : TMap.Find s.PendingRegistrantInfo Object with
  | none =>
    rw [UObjectForceRegistration_none b hfind] at h
    cases h
    exact ⟨[], Direct.idle s, by simp⟩
  | some Info =>
    refine ⟨_, (UObjectForceRegistration_some hrun hfind h).1, ?_⟩
    intro c hc
    simp only [List.mem_cons, List.mem_singleton, List.not_mem_nil, or_false] at hc
    rcases hc with rfl | rfl <;> rfl

theorem Register_fields {env : Env} {s s' : State} {this : ObjId} {PackageName InName : FName}
    (h : Register env s this PackageName InName = .ok s') :
    SameLedger
      ({ s with
        PendingRegistrantInfo := TMap.Add s.PendingRegistrantInfo this ⟨InName, PackageName⟩ } :
        State) s' := by
  unfold Register at h
  simp only at h
  split_ifs at h
  · cases h
    constructor <;> rfl
  · have := linkPendingRegistrant_same h
    constructor
    · exact this.trace
    · exact this.depth
    · exact this.initialLoad
    · exact this.initialized
    · exact this.objects
    · exact this.info
    · exact this.enums
    · exact this.structs
    · exact this.classes
    · exact this.classInfos

theorem constructAndRegister_steps {env : Env} {s s' : State} {InFlags : Nat}
    {PackageName InName : FName}
    (h : Register env (constructUObjectBase s InFlags).1 (constructUObjectBase s InFlags).2
      PackageName InName = .ok s') : Steps s s' [] := by
  have f := Register_fields h
  simp only [constructUObjectBase] at f
  constructor
  · simpa using f.trace
  · simpa using f.depth
  · simp
  · simpa using f.initialLoad
  · simp
  · rw [f.objects]; simp
  · intro o ho hn
    rw [f.info]
    simp only
    rw [TMap.Find_Add_ne _ _ (Nat.ne_of_lt ho)]
    exact hn
  · intro r; rw [f.enums]; simp
  · intro r; rw [f.structs]; simp
  · intro r; rw [f.classes]; simp

theorem UObjectCompiledInDeferEnum_steps (s : State) (fn : FnId) (pkg name : FName) (dyn : Bool)
    (path : FName) :
    Steps s (UObjectCompiledInDeferEnum s fn pkg name dyn path)
      [⟨s.Depth, Call.NotifyAdded pkg name .NRT_Enum fn dyn⟩] := by
  cases dyn <;>
    constructor <;>
    simp [UObjectCompiledInDeferEnum, logCall, isAdded, List.count_append, List.count_singleton]
  intro r
  split_ifs with hr
  · subst hr; simp [isAdded]
  · simp

theorem UObjectCompiledInDeferStruct_steps (s : State) (fn : FnId) (pkg name : FName)
    (dyn : Bool) (path : FName) :
    Steps s (UObjectCompiledInDeferStruct s fn pkg name dyn path)
      [⟨s.Depth, Call.NotifyAdded pkg name .NRT_Struct fn dyn⟩] := by
  cases dyn <;>
    constructor <;>
    simp [UObjectCompiledInDeferStruct, logCall, isAdded, List.count_append, List.count_singleton]
  intro r
  split_ifs with hr
  · subst hr; simp [isAdded]
  · simp

theorem UObjectCompiledInDefer_steps {env : Env} {s s' : State} {fn sc : FnId}
    {name pkg : FName} {dyn : Bool} {path : FName}
    (h : UObjectCompiledInDefer env s fn sc name pkg dyn path = .ok s') :
    ∃ evs, Steps s s' evs := by
  unfold UObjectCompiledInDefer at h
  cases dyn with
  | false =>
    simp only [Bool.not_false, if_true, pure, Except.pure, Except.ok.injEq] at h
    subst h
    refine ⟨[⟨s.Depth, Call.NotifyAdded pkg (RemoveClassPrefix env name) .NRT_Class fn false⟩,
      ⟨s.Depth, Call.NotifyAdded pkg (env.DEFAULT_OBJECT_PREFIX ++ RemoveClassPrefix env name)
        .NRT_ClassCDO fn false⟩], ?_⟩
    constructor <;> simp [logCall, isAdded, List.count_append, List.count_singleton]
    intro r
    split_ifs with hr
    · subst hr; simp [isAdded]
    · simp
  | true =>
    simp only [Bool.not_true, Bool.false_eq_true, if_false] at h
    split_ifs at h
    all_goals
      first
      | exact absurd h throw_ne_ok
      | (cases h
         refine ⟨[⟨s.Depth, Call.NotifyAdded ((path.dropRight name.length).dropRight 1) name
             .NRT_Class fn true⟩,
           ⟨s.Depth, Call.NotifyAdded ((path.dropRight name.length).dropRight 1)
             (env.DEFAULT_OBJECT_PREFIX ++ name) .NRT_ClassCDO fn true⟩], ?_⟩
         constructor <;> simp [logCall, isAdded])

theorem flatMap_single {α β : Type} (f : α → β) (l : List α) :
    l.flatMap (fun x => [f x]) = l.map f := by
  induction l with
  | nil => rfl
  | cons x l ih => simp [List.flatMap_cons, ih]

theorem processRegistrantsLoop_direct {env : Env}
    {run : List Action → State → Except Err State} (hrun : RunOK run) :
    ∀ (fuel : Nat) (s : State) (arr : List FPendingRegistrant) (i : Nat) (s' : State),
      processRegistrantsLoop env run fuel s arr i = .ok s' →
      ∃ calls, Direct s s' calls ∧ ∀ c ∈ calls, c.isRegistration = true := by
  intro fuel
  induction fuel with
  | zero =>
    intro s arr i s' h
    simp only [processRegistrantsLoop] at h
    split_ifs at h
    cases h
    exact ⟨[], Direct.idle _, by simp⟩
  | succ fuel ih =>
    intro s arr i s' h
    simp only [processRegistrantsLoop] at h
    cases hi : arr[i]? with
    | none => simp only [hi] at h; cases h; exact ⟨[], Direct.idle _, by simp⟩
    | some r =>
      simp only [hi] at h
      obtain ⟨s1, h1, h⟩ := bind_ok.1 h
      obtain ⟨c1, d1, p1⟩ := UObjectForceRegistration_direct hrun h1
      cases hobj : s1.Objects[r.Object]? with
      | none => simp only [hobj] at h; exact absurd h throw_ne_ok
      | some obj =>
        simp only [hobj] at h
        split_ifs at h
        · simp [bind, Except.bind, throw, throwThe, MonadExceptOf.throw] at h
        · obtain ⟨u, hu, h⟩ := bind_ok.1 h
          cases hu
          obtain ⟨⟨s2, arr2⟩, h2, h⟩ := bind_ok.1 h
          have d2 := (DequeuePendingAutoRegistrants_same h2).direct
          obtain ⟨c3, d3, p3⟩ := ih _ _ _ _ h
          refine ⟨c1 ++ ([] ++ c3), d1.seq (d2.seq d3), ?_⟩
          intro c hc
          simp only [List.nil_append, List.mem_append] at hc
          rcases hc with hc | hc
          · exact p1 c hc
          · exact p3 c hc

theorem UObjectProcessRegistrants_direct {env : Env}
    {run : List Action → State → Except Err State} (hrun : RunOK run) {fuel : Nat}
    {s s' : State} (h : UObjectProcessRegistrants env run fuel s = .ok s') :
    ∃ calls, Direct s s' calls ∧ ∀ c ∈ calls, c.isRegistration = true := by
  unfold UObjectProcessRegistrants at h
  split_ifs at h
  · simp [bind, Except.bind, throw, throwThe, MonadExceptOf.throw] at h
  · obtain ⟨u, hu, h⟩ := bind_ok.1 h
    cases hu
    obtain ⟨⟨s1, arr⟩, h1, h⟩ := bind_ok.1 h
    have d1 := (DequeuePendingAutoRegistrants_same h1).direct
    obtain ⟨c2, d2, p2⟩ := processRegistrantsLoop_direct hrun _ _ _ _ _ h
    exact ⟨[] ++ c2, d1.seq d2, by simpa using p2⟩

theorem UClassRegisterAllCompiledInClasses_direct {env : Env}
    {run : List Action → State → Except Err State} (hrun : RunOK run) {s s' : State}
    (h : UClassRegisterAllCompiledInClasses env run s = .ok s') :
    Direct s s' (s.DeferredClassRegistration.map Call.ClassRegister) := by
  unfold UClassRegisterAllCompiledInClasses at h
  obtain ⟨s1, h1, h⟩ := bind_ok.1 h
  cases h
  have d1 := forEach_direct (f := fun Class => [Call.ClassRegister Class])
    (fun Class st st' hb =>
      (Direct.single st (Call.ClassRegister Class) (Or.inl (by simp))).seq
        (invoke_direct hrun hb)) _ _ _ h1
  have d2 : Direct s1 { s1 with DeferredClassRegistration := [] } [] :=
    Direct.quiet rfl rfl rfl rfl rfl rfl rfl rfl
  have := d1.seq d2
  simpa [flatMap_single] using this

/-- Taking the contents of the three queues away is a step without events. -/
theorem Steps.moveTemp (s : State) (enums : List FPendingEnumRegistrant)
    (structs : List FPendingStructRegistrant) (classes : List FnId)
    (he : enums = [] ∨ enums = s.DeferredCompiledInEnumRegistration)
    (hs : structs = [] ∨ structs = s.DeferredCompiledInStructRegistration)
    (hc : classes = [] ∨ classes = s.DeferredCompiledInRegistration) :
    Steps s { s with
      DeferredCompiledInEnumRegistration := enums
      DeferredCompiledInStructRegistration := structs
      DeferredCompiledInRegistration := classes } [] := by
  constructor <;> simp
  · rcases he with h | h <;> simp [h]
  · rcases hs with h | h <;> simp [h]
  · rcases hc with h | h <;> simp [h]

theorem UObjectLoadAllCompiledInStructs_steps {env : Env}
    {run : List Action → State → Except Err State} (hrun : RunOK run) {s s' : State}
    (h : UObjectLoadAllCompiledInStructs env run s = .ok s') :
    ∃ evs, Steps { s with
        DeferredCompiledInEnumRegistration := []
        DeferredCompiledInStructRegistration := [] } s' evs ∧
      directCalls s.Depth evs =
        structsCalls s.DeferredCompiledInEnumRegistration
          s.DeferredCompiledInStructRegistration := by
  unfold UObjectLoadAllCompiledInStructs at h
  obtain ⟨s1, h1, h⟩ := bind_ok.1 h
  obtain ⟨s2, h2, h⟩ := bind_ok.1 h
  obtain ⟨s3, h3, h⟩ := bind_ok.1 h
  have d1 := forEach_direct
    (f := fun (r : FPendingEnumRegistrant) => [Call.CreatePackage r.PackageName])
    (fun r st st' hb => CreatePackage_direct hrun hb) _ _ _ h1
  have d2 := forEach_direct
    (f := fun (r : FPendingStructRegistrant) => [Call.CreatePackage r.PackageName])
    (fun r st st' hb => CreatePackage_direct hrun hb) _ _ _ h2
  have d3 := forEach_direct
    (f := fun (r : FPendingEnumRegistrant) => [Call.EnumRegisterFn r.RegisterFn])
    (fun r st st' hb =>
      (Direct.single st (Call.EnumRegisterFn r.RegisterFn) (Or.inl (by simp))).seq
        (invoke_direct hrun hb)) _ _ _ h3
  have d4 := forEach_direct
    (f := fun (r : FPendingStructRegistrant) => [Call.StructRegisterFn r.RegisterFn])
    (fun r st st' hb =>
      (Direct.single st (Call.StructRegisterFn r.RegisterFn) (Or.inl (by simp))).seq
        (invoke_direct hrun hb)) _ _ _ h
  obtain ⟨evs, hs, hd⟩ := ((d1.seq d2).seq d3).seq d4
  refine ⟨evs, hs, ?_⟩
  simpa [structsCalls, flatMap_single] using hd

theorem UObjectLoadAllCompiledInStructs_direct {env : Env}
    {run : List Action → State → Except Err State} (hrun : RunOK run) {s s' : State}
    (h : UObjectLoadAllCompiledInStructs env run s = .ok s') :
    Direct s s' (structsCalls s.DeferredCompiledInEnumRegistration
      s.DeferredCompiledInStructRegistration) := by
  obtain ⟨evs, hs, hd⟩ := UObjectLoadAllCompiledInStructs_steps hrun h
  have h0 := Steps.moveTemp s [] [] s.DeferredCompiledInRegistration (Or.inl rfl) (Or.inl rfl)
    (Or.inr rfl)
  exact ⟨[] ++ evs, h0.append hs, by simpa using hd⟩

theorem GetDefaultObject_direct {env : Env}
    {run : List Action → State → Except Err State} (hrun : RunOK run) {Class : ObjId}
    {s s' : State} (h : GetDefaultObject env run Class s = .ok s') :
    Direct s s' [Call.GetDefaultObject Class] :=
  (Direct.single s (Call.GetDefaultObject Class) (Or.inl (by simp))).seq
    (invoke_direct hrun h)

theorem classes_cons_core {env : Env} {c : ObjId} (cs : List ObjId)
    (h : env.GetOutermostFName c = env.GLongCoreUObjectPackageName) :
    classesInCoreUObject env (c :: cs) = c :: classesInCoreUObject env cs ∧
      classesInEngine env (c :: cs) = classesInEngine env cs ∧
      classesElsewhere env (c :: cs) = classesElsewhere env cs := by
  simp [classesInCoreUObject, classesInEngine, classesElsewhere, List.filter_cons, h]

theorem classes_cons_engine {env : Env} {c : ObjId} (cs : List ObjId)
    (h1 : env.GetOutermostFName c ≠ env.GLongCoreUObjectPackageName)
    (h2 : env.GetOutermostFName c = LongEnginePackageName) :
    classesInCoreUObject env (c :: cs) = classesInCoreUObject env cs ∧
      classesInEngine env (c :: cs) = c :: classesInEngine env cs ∧
      classesElsewhere env (c :: cs) = classesElsewhere env cs := by
  have h3 : LongEnginePackageName ≠ env.GLongCoreUObjectPackageName := h2 ▸ h1
  simp [classesInCoreUObject, classesInEngine, classesElsewhere, List.filter_cons, h2, h3]

theorem classes_cons_elsewhere {env : Env} {c : ObjId} (cs : List ObjId)
    (h1 : env.GetOutermostFName c ≠ env.GLongCoreUObjectPackageName)
    (h2 : env.GetOutermostFName c ≠ LongEnginePackageName) :
    classesInCoreUObject env (c :: cs) = classesInCoreUObject env cs ∧
      classesInEngine env (c :: cs) = classesInEngine env cs ∧
      classesElsewhere env (c :: cs) = c :: classesElsewhere env cs := by
  simp [classesInCoreUObject, classesInEngine, classesElsewhere, List.filter_cons, h1, h2]

theorem registrantLoop_direct {env : Env}
    {run : List Action → State → Except Err State} (hrun : RunOK run) :
    ∀ (fns : List FnId) (s : State) (a : NewClassArrays) (s' : State) (a' : NewClassArrays),
      registrantLoop env run fns s a = .ok (s', a') →
      ∃ classes, classes.length = fns.length ∧
        Direct s s' (List.zipWith Call.ClassRegistrant fns classes) ∧
        a'.NewClassesInCoreUObject =
          a.NewClassesInCoreUObject ++ classesInCoreUObject env classes ∧
        a'.NewClassesInEngine = a.NewClassesInEngine ++ classesInEngine env classes ∧
        a'.NewClasses = a.NewClasses ++ classesElsewhere env classes := by
  intro fns
  induction fns with
  | nil =>
    intro s a s' a' h
    simp only [registrantLoop, pure, Except.pure, Except.ok.injEq, Prod.mk.injEq] at h
    obtain ⟨rfl, rfl⟩ := h
    exact ⟨[], rfl, Direct.idle _, by simp [classesInCoreUObject],
      by simp [classesInEngine], by simp [classesElsewhere]⟩
  | cons fn fns ih =>
    intro s a s' a' h
    simp only [registrantLoop] at h
    obtain ⟨s2, h2, h⟩ := bind_ok.1 h
    have d1 := (Direct.single s (Call.ClassRegistrant fn (env.ClassRegistrant fn s).2)
      (Or.inl (by simp))).seq (invoke_direct hrun h2)
    by_cases c1 : env.GetOutermostFName (env.ClassRegistrant fn s).2
        = env.GLongCoreUObjectPackageName
    · rw [if_pos c1] at h
      obtain ⟨classes, hlen, d2, hc, he, ho⟩ := ih _ _ _ _ h
      obtain ⟨e1, e2, e3⟩ := classes_cons_core classes c1
      refine ⟨(env.ClassRegistrant fn s).2 :: classes, by simp [hlen], ?_, ?_, ?_, ?_⟩
      · simpa using d1.seq d2
      · rw [hc, e1]; simp
      · rw [he, e2]
      · rw [ho, e3]
    · by_cases c2 : env.GetOutermostFName (env.ClassRegistrant fn s).2 = LongEnginePackageName
      · rw [if_neg c1, if_pos c2] at h
        obtain ⟨classes, hlen, d2, hc, he, ho⟩ := ih _ _ _ _ h
        obtain ⟨e1, e2, e3⟩ := classes_cons_engine classes c1 c2
        refine ⟨(env.ClassRegistrant fn s).2 :: classes, by simp [hlen], ?_, ?_, ?_, ?_⟩
        · simpa using d1.seq d2
        · rw [hc, e1]
        · rw [he, e2]; simp
        · rw [ho, e3]
      · rw [if_neg c1, if_neg c2] at h
        obtain ⟨classes, hlen, d2, hc, he, ho⟩ := ih _ _ _ _ h
        obtain ⟨e1, e2, e3⟩ := classes_cons_elsewhere classes c1 c2
        refine ⟨(env.ClassRegistrant fn s).2 :: classes, by simp [hlen], ?_, ?_, ?_, ?_⟩
        · simpa using d1.seq d2
        · rw [hc, e1]
        · rw [he, e2]
        · rw [ho, e3]; simp

theorem UObjectLoadAllCompiledInDefaultProperties_steps {env : Env}
    {run : List Action → State → Except Err State} (hrun : RunOK run) {s s' : State}
    (h : UObjectLoadAllCompiledInDefaultProperties env run s = .ok s') :
    ∃ classes evs, classes.length = s.DeferredCompiledInRegistration.length ∧
      Steps { s with DeferredCompiledInRegistration := [] } s' evs ∧
      directCalls s.Depth evs =
        defaultPropertiesCalls env s.DeferredCompiledInRegistration classes := by
  unfold UObjectLoadAllCompiledInDefaultProperties at h
  by_cases hq : s.DeferredCompiledInRegistration.length ≠ 0
  · have hdec : decide (s.DeferredCompiledInRegistration.length ≠ 0) = true := by
      simpa using hq
    simp only [hdec, if_true] at h
    obtain ⟨⟨s1, a⟩, h1, h⟩ := bind_ok.1 h
    obtain ⟨s2, h2, h⟩ := bind_ok.1 h
    obtain ⟨s3, h3, h⟩ := bind_ok.1 h
    obtain ⟨classes, hlen, d1, hc, he, ho⟩ := registrantLoop_direct hrun _ _ _ _ _ h1
    have d2 := forEach_direct (f := fun c => [Call.GetDefaultObject c])
      (fun c st st' hb => GetDefaultObject_direct hrun hb) _ _ _ h2
    have d3 := forEach_direct (f := fun c => [Call.GetDefaultObject c])
      (fun c st st' hb => GetDefaultObject_direct hrun hb) _ _ _ h3
    have d4 := forEach_direct (f := fun c => [Call.GetDefaultObject c])
      (fun c st st' hb => GetDefaultObject_direct hrun hb) _ _ _ h
    obtain ⟨evs, hs, hd⟩ := ((d1.seq d2).seq d3).seq d4
    refine ⟨classes, evs, hlen, hs, ?_⟩
    simp only [hc, he, ho, List.nil_append, flatMap_single] at hd
    simpa [defaultPropertiesCalls] using hd
  · have hdec : decide (s.DeferredCompiledInRegistration.length ≠ 0) = false := by
      simpa using hq
    simp only [hdec, Bool.false_eq_true, if_false, pure, Except.pure, Except.ok.injEq] at h
    subst h
    have hnil : s.DeferredCompiledInRegistration = [] := by
      simpa using hq
    refine ⟨[], [], by simp [hnil], ?_, by simp [hnil, defaultPropertiesCalls, directCalls,
      classesInCoreUObject, classesInEngine, classesElsewhere]⟩
    constructor <;> simp [hnil]

theorem UObjectLoadAllCompiledInDefaultProperties_direct {env : Env}
    {run : List Action → State → Except Err State} (hrun : RunOK run) {s s' : State}
    (h : UObjectLoadAllCompiledInDefaultProperties env run s = .ok s') :
    ∃ classes, classes.length = s.DeferredCompiledInRegistration.length ∧
      Direct s s' (defaultPropertiesCalls env s.DeferredCompiledInRegistration classes) := by
  obtain ⟨classes, evs, hlen, hs, hd⟩ := UObjectLoadAllCompiledInDefaultProperties_steps hrun h
  have h0 := Steps.moveTemp s s.DeferredCompiledInEnumRegistration
    s.DeferredCompiledInStructRegistration [] (Or.inr rfl) (Or.inr rfl) (Or.inl rfl)
  exact ⟨classes, hlen, [] ++ evs, h0.append hs, by simpa using hd⟩

theorem Steps.newEvents_eq {s s' : State} {evs : List Event} (h : Steps s s' evs) :
    newEvents s s' = evs := by
  simp [newEvents, h.trace]

theorem Direct.newEvents {s s' : State} {calls : List Call} (h : Direct s s' calls) :
    directCalls s.Depth (newEvents s s') = calls := by
  obtain ⟨evs, hs, hd⟩ := h
  rw [hs.newEvents_eq, hd]

theorem structsCalls_isPassCall (enums : List FPendingEnumRegistrant)
    (structs : List FPendingStructRegistrant) :
    ∀ c ∈ structsCalls enums structs, c.isPassCall = true := by
  intro c hc
  simp only [structsCalls, List.mem_append, List.mem_map] at hc
  rcases hc with ((⟨r, _, rfl⟩ | ⟨r, _, rfl⟩) | ⟨r, _, rfl⟩) | ⟨r, _, rfl⟩ <;> rfl

theorem mem_zipWith_classRegistrant {fns : List FnId} {classes : List ObjId} {c : Call}
    (h : c ∈ List.zipWith Call.ClassRegistrant fns classes) :
    ∃ fn cls, c = Call.ClassRegistrant fn cls := by
  induction fns generalizing classes with
  | nil => simp at h
  | cons fn fns ih =>
    cases classes with
    | nil => simp at h
    | cons cls classes =>
      simp only [List.zipWith_cons_cons, List.mem_cons] at h
      rcases h with rfl | h
      · exact ⟨fn, cls, rfl⟩
      · exact ih h

theorem defaultPropertiesCalls_isPassCall (env : Env) (fns : List FnId) (classes : List ObjId) :
    ∀ c ∈ defaultPropertiesCalls env fns classes, c.isPassCall = true := by
  intro c hc
  simp only [defaultPropertiesCalls, List.mem_append, List.mem_map] at hc
  rcases hc with h | ⟨r, _, rfl⟩
  · obtain ⟨fn, cls, rfl⟩ := mem_zipWith_classRegistrant h
    rfl
  · rfl

theorem isPassCall_of_isRegistration {c : Call} (h : c.isRegistration = true) :
    c.isPassCall = true := by
  cases c <;> simp_all [Call.isRegistration, Call.isPassCall]

theorem materializePass_direct {env : Env}
    {run : List Action → State → Except Err State} (hrun : RunOK run) {fuel : Nat}
    {s s' : State} (h : materializePass env run fuel s = .ok s') :
    ∃ calls, Direct s s' calls ∧ ∀ c ∈ calls, c.isPassCall = true := by
  unfold materializePass at h
  obtain ⟨s1, h1, h⟩ := bind_ok.1 h
  obtain ⟨s2, h2, h⟩ := bind_ok.1 h
  obtain ⟨c1, d1, p1⟩ := UObjectProcessRegistrants_direct hrun h1
  have d2 := UObjectLoadAllCompiledInStructs_direct hrun h2
  obtain ⟨classes, _, d3⟩ := UObjectLoadAllCompiledInDefaultProperties_direct hrun h
  refine ⟨_, (d1.seq d2).seq d3, ?_⟩
  intro c hc
  simp only [List.mem_append] at hc
  rcases hc with (hc | hc) | hc
  · exact isPassCall_of_isRegistration (p1 c hc)
  · exact structsCalls_isPassCall _ _ c hc
  · exact defaultPropertiesCalls_isPassCall _ _ _ c hc

theorem materializeLoop_direct {env : Env}
    {run : List Action → State → Except Err State} (hrun : RunOK run) (passFuel : Nat) :
    ∀ (fuel : Nat) (s : State) (b : Bool) (s' : State) (b' : Bool),
      materializeLoop env run passFuel fuel s b = .ok (s', b') →
      hasPendingWork s' = false ∧
        ∃ calls, Direct s s' calls ∧ (∀ c ∈ calls, c.isPassCall = true) ∧
          (hasPendingWork s = true → b' = true) ∧
          (hasPendingWork s = false → b' = b ∧ calls = [] ∧ s' = s) := by
  intro fuel
  induction fuel with
  | zero =>
    intro s b s' b' h
    simp only [materializeLoop] at h
    cases hw : hasPendingWork s with
    | true => simp only [hw, if_true] at h; exact absurd h throw_ne_ok
    | false =>
      simp only [hw, Bool.false_eq_true, if_false, pure, Except.pure, Except.ok.injEq,
        Prod.mk.injEq] at h
      obtain ⟨rfl, rfl⟩ := h
      exact ⟨hw, [], Direct.idle _, by simp, by simp, fun _ => ⟨rfl, rfl, rfl⟩⟩
  | succ fuel ih =>
    intro s b s' b' h
    simp only [materializeLoop] at h
    cases hw : hasPendingWork s with
    | true =>
      simp only [hw, if_true] at h
      obtain ⟨s1, h1, h⟩ := bind_ok.1 h
      obtain ⟨c1, d1, p1⟩ := materializePass_direct hrun h1
      obtain ⟨hw', c2, d2, p2, hb1, hb2⟩ := ih _ _ _ _ h
      refine ⟨hw', c1 ++ c2, d1.seq d2, ?_, fun _ => ?_, by simp⟩
      · intro c hc
        rcases List.mem_append.1 hc with hc | hc
        · exact p1 c hc
        · exact p2 c hc
      · cases hw1 : hasPendingWork s1 with
        | true => exact hb1 hw1
        | false => exact (hb2 hw1).1
    | false =>
      simp only [hw, Bool.false_eq_true, if_false, pure, Except.pure, Except.ok.injEq,
        Prod.mk.injEq] at h
      obtain ⟨rfl, rfl⟩ := h
      exact ⟨hw, [], Direct.idle _, by simp, by simp, fun _ => ⟨rfl, rfl, rfl⟩⟩

/-- What a successful `ProcessNewlyLoadedUObjects` with `bCanProcessNewlyLoadedObjects` did:
the `Register` calls of deferred class infos, the calls of the loop, and then at most the
reference-token-stream assembly. -/
theorem ProcessNewlyLoadedUObjects_direct {env : Env}
    {run : List Action → State → Except Err State} (hrun : RunOK run) {fuel : Nat}
    {s s' : State} {Package : FName}
    (h : ProcessNewlyLoadedUObjects env run fuel s Package true = .ok s') :
    hasPendingWork s' = false ∧
    ∃ (sA sB : State) (pre loopCalls : List Call) (bNewUObjects : Bool),
      (if (env.USE_PER_MODULE_UOBJECT_BOOTSTRAP && Package != NAME_None) = true then
          UObjectReleaseModuleRegistrants env s Package
        else pure s) = .ok sA ∧
      UClassRegisterAllCompiledInClasses env run sA = .ok sB ∧
      bNewUObjects = hasPendingWork sB ∧
      Direct s s' (pre ++ loopCalls ++
        (if (bNewUObjects && !s.GIsInitialLoad) = true
          then [Call.AssembleReferenceTokenStreams] else [])) ∧
      (∀ c ∈ pre, ∃ info, c = Call.ClassRegister info) ∧
      (∀ c ∈ loopCalls, c.isPassCall = true) ∧
      (bNewUObjects = false → loopCalls = []) ∧
      ((bNewUObjects && !s.GIsInitialLoad) = true →
        s'.Trace.getLast? = some ⟨s.Depth, Call.AssembleReferenceTokenStreams⟩) := by
  unfold ProcessNewlyLoadedUObjects at h
  obtain ⟨sA, hA, h⟩ := bind_ok.1 h
  have same : SameLedger s sA := by
    split_ifs at hA
    · exact UObjectReleaseModuleRegistrants_same hA
    · cases hA; exact SameLedger.same s
  simp only [Bool.not_true, Bool.false_eq_true, if_false] at h
  obtain ⟨sB, hB, h⟩ := bind_ok.1 h
  obtain ⟨⟨sC, b⟩, hC, h⟩ := bind_ok.1 h
  have dB := UClassRegisterAllCompiledInClasses_direct hrun hB
  obtain ⟨hw, lc, dC, pC, hb1, hb2⟩ := materializeLoop_direct hrun fuel fuel sB false sC b hC
  have hbw : b = hasPendingWork sB := by
    cases hx : hasPendingWork sB with
    | true => exact hb1 hx
    | false => exact (hb2 hx).1
  have dAC := (same.direct.seq dB).seq dC
  have eI : sC.GIsInitialLoad = s.GIsInitialLoad := by
    obtain ⟨_, hs, _⟩ := dAC
    exact hs.initialLoad
  have eD : sC.Depth = s.Depth := by
    obtain ⟨_, hs, _⟩ := dAC
    exact hs.depth
  simp only at h
  rw [eI] at h
  have hpre : ∀ c ∈ List.map Call.ClassRegister sA.DeferredClassRegistration,
      ∃ info, c = Call.ClassRegister info := by
    intro c hc
    obtain ⟨i, _, rfl⟩ := List.mem_map.1 hc
    exact ⟨i, rfl⟩
  have hloop : b = false → lc = [] := by
    intro hbf
    rw [hbw] at hbf
    exact (hb2 hbf).2.1
  cases hcond : (b && !s.GIsInitialLoad) with
  | true =>
    simp only [hcond, if_true, pure, Except.pure, Except.ok.injEq] at h
    subst h
    have hI : sC.GIsInitialLoad = false := by
      rw [eI]
      cases hx : s.GIsInitialLoad with
      | false => rfl
      | true => simp [hx] at hcond
    have dD := Direct.single sC Call.AssembleReferenceTokenStreams (Or.inr hI)
    refine ⟨by simpa [hasPendingWork, logCall] using hw, sA, sB, _, lc, b, hA, hB, hbw, ?_,
      hpre, pC, hloop, ?_⟩
    · simpa [hcond] using dAC.seq dD
    · intro _
      simp [logCall, eD]
  | false =>
    simp only [hcond, Bool.false_eq_true, if_false, pure, Except.pure, Except.ok.injEq] at h
    subst h
    refine ⟨hw, sA, sB, _, lc, b, hA, hB, hbw, ?_, hpre, pC, hloop, ?_⟩
    · simpa [hcond] using dAC
    · intro hx; rw [hcond] at hx; cases hx

theorem ProcessNewlyLoadedUObjects_steps {env : Env}
    {run : List Action → State → Except Err State} (hrun : RunOK run) {fuel : Nat}
    {s s' : State} {Package : FName} {bCan : Bool}
    (h : ProcessNewlyLoadedUObjects env run fuel s Package bCan = .ok s') :
    ∃ evs, Steps s s' evs := by
  cases bCan with
  | true =>
    obtain ⟨_, _, _, _, _, _, _, _, _, ⟨evs, hs, _⟩, _⟩ :=
      ProcessNewlyLoadedUObjects_direct hrun h
    exact ⟨evs, hs⟩
  | false =>
    unfold ProcessNewlyLoadedUObjects at h
    obtain ⟨sA, hA, h⟩ := bind_ok.1 h
    simp only [Bool.not_false, if_true, pure, Except.pure, Except.ok.injEq] at h
    subst h
    split_ifs at hA
    · exact ⟨[], (UObjectReleaseModuleRegistrants_same hA).steps⟩
    · cases hA; exact ⟨[], Steps.nil s⟩

theorem execAction_steps {env : Env} {run : List Action → State → Except Err State}
    (hrun : RunOK run) {fuel : Nat} {a : Action} {s s' : State}
    (h : execAction env run fuel a s = .ok s') : ∃ evs, Steps s s' evs := by
  cases a with
  | ConstructAndRegister InFlags PackageName InName =>
    exact ⟨[], constructAndRegister_steps h⟩
  | UObjectCompiledInDeferEnum fn pkg name dyn path =>
    simp only [execAction, pure, Except.pure, Except.ok.injEq] at h
    subst h
    exact ⟨_, UObjectCompiledInDeferEnum_steps s fn pkg name dyn path⟩
  | UObjectCompiledInDeferStruct fn pkg name dyn path =>
    simp only [execAction, pure, Except.pure, Except.ok.injEq] at h
    subst h
    exact ⟨_, UObjectCompiledInDeferStruct_steps s fn pkg name dyn path⟩
  | UObjectCompiledInDefer fn sc name pkg dyn path =>
    exact UObjectCompiledInDefer_steps h
  | UClassCompiledInDefer info =>
    simp only [execAction, pure, Except.pure, Except.ok.injEq] at h
    subst h
    exact ⟨[], Steps.silent rfl rfl rfl rfl rfl rfl rfl rfl⟩
  | UObjectForceRegistration o b =>
    obtain ⟨_, ⟨evs, hs, _⟩, _⟩ := UObjectForceRegistration_direct hrun h
    exact ⟨evs, hs⟩
  | ProcessNewlyLoadedUObjects pkg b =>
    exact ProcessNewlyLoadedUObjects_steps hrun h

theorem runActions_steps {step : Action → State → Except Err State}
    (hstep : ∀ a s s', step a s = .ok s' → ∃ evs, Steps s s' evs) :
    ∀ (acts : List Action) (s s' : State), runActions step acts s = .ok s' →
      ∃ evs, Steps s s' evs := by
  intro acts
  induction acts with
  | nil =>
    intro s s' h
    simp only [runActions, pure, Except.pure, Except.ok.injEq] at h
    subst h
    exact ⟨[], Steps.nil s⟩
  | cons a acts ih =>
    intro s s' h
    simp only [runActions] at h
    obtain ⟨s1, h1, h⟩ := bind_ok.1 h
    obtain ⟨e1, hs1⟩ := hstep a s s1 h1
    obtain ⟨e2, hs2⟩ := ih s1 s' h
    exact ⟨e1 ++ e2, hs1.append hs2⟩

/-- Every successful run of callback code obeys the frame conditions, whatever the fuel. -/
theorem exec_runOK (env : Env) : ∀ fuel : Nat, RunOK (exec env fuel) := by
  intro fuel
  induction fuel with
  | zero =>
    intro acts s s' h
    simp only [exec] at h
    split_ifs at h
    cases h
    exact ⟨[], Steps.nil s⟩
  | succ fuel ih =>
    intro acts s s' h
    simp only [exec] at h
    exact runActions_steps (fun a st st' ha => execAction_steps ih ha) acts s s' h

/-! ## The claims -/

/-- C1 (FIFO law): a sequence of `Register` calls routed to the global list, started on an
empty list, succeeds, and one `DequeuePendingAutoRegistrants` into an empty array then
returns exactly the registered objects in registration order. -/
theorem C1_register_then_dequeue_is_fifo (env : Env) (s : State)
    (regs : List (ObjId × FName × FName))
    (hfirst : s.GFirstPendingRegistrant = none) (hlast : s.GLastPendingRegistrant = none)
    (hrouted : ∀ r ∈ regs, routedToGlobalList env r.2.1) :
    ∃ s1 s2 out, registerAll env regs s = .ok s1 ∧
      DequeuePendingAutoRegistrants s1 [] = .ok (s2, out) ∧
      out.map (·.Object) = regs.map (·.1) := by
  have h0 : GlobalList s [] [] := ⟨by simp [IsChain, hfirst], by simp [hlast]⟩
  obtain ⟨s1, addrs1, h1, hg⟩ := registerAll_globalList regs h0 hrouted
  have hlen : addrs1.length ≤ s1.Nodes.length + 1 := Nat.le_succ_of_le (IsChain.length_le hg.1)
  obtain ⟨nodes1, out1, hd, hobj, _⟩ := dequeueLoop_chain [] hg.1 hlen
  refine ⟨s1, ?_, out1, h1, ?_, by simpa using hobj⟩
  pick_goal 2
  simp only [DequeuePendingAutoRegistrants, bind, Except.bind, pure, Except.pure]
  simp only [List.nil_append] at hd
  rw [hd]
  exact rfl

/-- Instance of C1: two objects registered under `/Script/CoreUObject` with per-module
bootstrap compiled in come back as `[3, 1]`. -/
theorem C1_register_then_dequeue_is_fifo_witness :
    idleState.GFirstPendingRegistrant = none ∧ idleState.GLastPendingRegistrant = none ∧
    (∀ r ∈ [((3 : ObjId), coreUObjectPackage, ("A" : FName)), (1, coreUObjectPackage, "B")],
      routedToGlobalList sampleEnv r.2.1) ∧
    ∃ s1 s2 out,
      registerAll sampleEnv [(3, coreUObjectPackage, "A"), (1, coreUObjectPackage, "B")]
        idleState = .ok s1 ∧
      DequeuePendingAutoRegistrants s1 [] = .ok (s2, out) ∧
      out.map (·.Object) = [3, 1] :=
  have hr : ∀ r ∈ [((3 : ObjId), coreUObjectPackage, ("A" : FName)), (1, coreUObjectPackage, "B")],
      routedToGlobalList sampleEnv r.2.1 := by
    intro r hr
    simp only [List.mem_cons, List.mem_singleton, List.not_mem_nil, or_false] at hr
    rcases hr with rfl | rfl <;> exact Or.inr rfl
  ⟨rfl, rfl, hr, C1_register_then_dequeue_is_fifo sampleEnv idleState _ rfl rfl hr⟩

/-- C2: forced materialisation is idempotent. After a `UObjectForceRegistration` of an
existing object has returned, a second call on the same object returns the very same state
(so no `DeferredRegister` runs and dictionary, list, name, outer and class are untouched);
and a call for any object without a dictionary entry returns the state unchanged, without
error. -/
theorem C2_force_registration_idempotent (env : Env) (fuel fuel2 : Nat) (s : State)
    (Object : ObjId) (b b2 : Bool) :
    (∀ s1, Object < s.Objects.length →
      UObjectForceRegistration env (exec env fuel) s Object b = .ok s1 →
      UObjectForceRegistration env (exec env fuel2) s1 Object b2 = .ok s1) ∧
    (TMap.Find s.PendingRegistrantInfo Object = none →
      UObjectForceRegistration env (exec env fuel) s Object b = .ok s) := by
  refine ⟨fun s1 hlt h => ?_, fun hnone => UObjectForceRegistration_none b hnone⟩
  cases hfind : TMap.Find s.PendingRegistrantInfo Object with
  | none =>
    rw [UObjectForceRegistration_none b hfind] at h
    cases h
    exact UObjectForceRegistration_none b2 hfind
  | some Info =>
    exact UObjectForceRegistration_none b2
      ((UObjectForceRegistration_some (exec_runOK env fuel) hfind h).2 hlt)

/-- Instance of C2: the registered object `0` of `oneRegistered` is forced twice; the
state `idleState` has no entry for object `5`. -/
theorem C2_force_registration_idempotent_witness :
    (0 < oneRegistered.Objects.length ∧
      UObjectForceRegistration sampleEnv (exec sampleEnv 2) oneRegistered 0 false
        = .ok oneForced ∧
      oneForced.Objects.map (·.NamePrivate) = ["A"] ∧
      UObjectForceRegistration sampleEnv (exec sampleEnv 1) oneForced 0 true = .ok oneForced) ∧
    (TMap.Find idleState.PendingRegistrantInfo 5 = none ∧
      UObjectForceRegistration sampleEnv (exec sampleEnv 2) idleState 5 false = .ok idleState) :=
  ⟨⟨by decide, rfl, rfl,
      (C2_force_registration_idempotent sampleEnv 2 1 oneRegistered 0 false true).1 oneForced
        (by decide) rfl⟩,
    rfl, (C2_force_registration_idempotent sampleEnv 2 1 idleState 5 false true).2 rfl⟩

/-- C3: whenever `ProcessNewlyLoadedUObjects` is called with
`bCanProcessNewlyLoadedObjects = true` and returns, `GFirstPendingRegistrant` is null and
the deferred enum, struct and class queues are empty, whatever the queues held at the call
and whatever the callbacks did (in the configuration without the `WITH_HOT_RELOAD` block
that follows the loop). -/
theorem C3_returns_with_all_queues_empty (env : Env) (fuel : Nat) (s s' : State)
    (Package : FName)
    (h : ProcessNewlyLoadedUObjects env (exec env fuel) fuel s Package true = .ok s') :
    s'.GFirstPendingRegistrant = none ∧ s'.DeferredCompiledInEnumRegistration = [] ∧
      s'.DeferredCompiledInStructRegistration = [] ∧ s'.DeferredCompiledInRegistration = [] := by
  have hw := (ProcessNewlyLoadedUObjects_direct (exec_runOK env fuel) h).1
  simp only [hasPendingWork, Bool.or_eq_false_iff, decide_eq_false_iff_not, ne_eq,
    List.length_eq_zero, Decidable.not_not] at hw
  obtain ⟨⟨⟨h1, h2⟩, h3⟩, h4⟩ := hw
  refine ⟨?_, h4, h3, h2⟩
  cases hx : s'.GFirstPendingRegistrant with
  | none => rfl
  | some p => simp [hx] at h1

/-- Instance of C3: the run from `busyState`, where a default object defers a further enum
during the first pass. -/
theorem C3_returns_with_all_queues_empty_witness :
    ProcessNewlyLoadedUObjects sampleEnv (exec sampleEnv 4) 4 busyState NAME_None true
      = .ok busyDone ∧
    busyState.GFirstPendingRegistrant = some 0 ∧
    busyDone.GFirstPendingRegistrant = none ∧ busyDone.DeferredCompiledInEnumRegistration = [] ∧
      busyDone.DeferredCompiledInStructRegistration = [] ∧
      busyDone.DeferredCompiledInRegistration = [] :=
  ⟨rfl, rfl, C3_returns_with_all_queues_empty sampleEnv 4 busyState busyDone NAME_None rfl⟩

/-- C4, as stated, fails: in the epoch started from `lateEnumState` the class factory `2`
runs in the first pass, the default object of its class defers enum `7`, and the enum
factory `7` runs in the second pass of the same epoch, after the class factory. -/
theorem C4_enum_deferred_during_epoch_runs_after_class :
    ProcessNewlyLoadedUObjects sampleEnv (exec sampleEnv 3) 3 lateEnumState NAME_None true
      = .ok lateEnumDone ∧
    directCalls 0 (newEvents lateEnumState lateEnumDone) =
      [Call.ClassRegistrant 2 2, Call.GetDefaultObject 2, Call.CreatePackage "/Script/Game",
        Call.EnumRegisterFn 7, Call.AssembleReferenceTokenStreams] ∧
    enumFactoriesFirst (directCalls 0 (newEvents lateEnumState lateEnumDone)) = false :=
  ⟨rfl, rfl, rfl⟩

theorem filter_isFactory_of_isRegistration {calls : List Call}
    (h : ∀ c ∈ calls, c.isRegistration = true) : calls.filter Call.isFactory = [] := by
  rw [List.filter_eq_nil_iff]
  intro c hc
  have := h c hc
  cases c <;> simp_all [Call.isRegistration, Call.isFactory]

theorem filter_isFactory_structsCalls (enums : List FPendingEnumRegistrant)
    (structs : List FPendingStructRegistrant) :
    (structsCalls enums structs).filter Call.isFactory =
      enums.map (fun r => Call.EnumRegisterFn r.RegisterFn) ++
        structs.map (fun r => Call.StructRegisterFn r.RegisterFn) := by
  simp only [structsCalls, List.filter_append, List.filter_map]
  have e1 : (Call.isFactory ∘ fun (r : FPendingEnumRegistrant) =>
      Call.CreatePackage r.PackageName) = fun _ => false := rfl
  have e2 : (Call.isFactory ∘ fun (r : FPendingStructRegistrant) =>
      Call.CreatePackage r.PackageName) = fun _ => false := rfl
  have e3 : (Call.isFactory ∘ fun (r : FPendingEnumRegistrant) =>
      Call.EnumRegisterFn r.RegisterFn) = fun _ => true := rfl
  have e4 : (Call.isFactory ∘ fun (r : FPendingStructRegistrant) =>
      Call.StructRegisterFn r.RegisterFn) = fun _ => true := rfl
  rw [e1, e2, e3, e4]
  simp

theorem filter_isFactory_zipWith (fns : List FnId) (classes : List ObjId) :
    (List.zipWith Call.ClassRegistrant fns classes).filter Call.isFactory =
      List.zipWith Call.ClassRegistrant fns classes := by
  rw [List.filter_eq_self]
  intro c hc
  obtain ⟨fn, cls, rfl⟩ := mem_zipWith_classRegistrant hc
  rfl

theorem filter_isFactory_defaultPropertiesCalls (env : Env) (fns : List FnId)
    (classes : List ObjId) :
    (defaultPropertiesCalls env fns classes).filter Call.isFactory =
      List.zipWith Call.ClassRegistrant fns classes := by
  simp only [defaultPropertiesCalls, List.filter_append, filter_isFactory_zipWith,
    List.filter_map]
  have e : (Call.isFactory ∘ Call.GetDefaultObject) = fun _ => false := rfl
  rw [e]
  simp

theorem enumFactoriesFirst_append {front back : List Call}
    (hf : ∀ c ∈ front, c.isStructOrClassFactory = false)
    (hb : ∀ c ∈ back, c.isEnumFactory = false) : enumFactoriesFirst (front ++ back) = true := by
  unfold enumFactoriesFirst
  rw [List.dropWhile_append_of_pos (by intro c hc; simp [hf c hc])]
  rw [List.all_eq_true]
  intro c hc
  have := hb c ((List.dropWhile_sublist _).subset hc)
  simp [this]

/-- C4, amended to one pass of the loop: the factories that a pass itself calls are, in
this order, the enum factories of the enum queue as `UObjectLoadAllCompiledInStructs` found
it, the struct factories of the struct queue as it found it, and the class factories of the
class queue as `UObjectLoadAllCompiledInDefaultProperties` found it; so inside one pass
every enum factory runs before every struct and class factory. -/
theorem C4_pass_runs_enums_then_structs_then_classes (env : Env) (fuel passFuel : Nat)
    (s s' : State) (h : materializePass env (exec env fuel) passFuel s = .ok s') :
    ∃ (sA sB : State) (classes : List ObjId),
      UObjectProcessRegistrants env (exec env fuel) passFuel s = .ok sA ∧
      UObjectLoadAllCompiledInStructs env (exec env fuel) sA = .ok sB ∧
      classes.length = sB.DeferredCompiledInRegistration.length ∧
      (directCalls s.Depth (newEvents s s')).filter Call.isFactory =
        sA.DeferredCompiledInEnumRegistration.map (fun r => Call.EnumRegisterFn r.RegisterFn) ++
          sA.DeferredCompiledInStructRegistration.map
            (fun r => Call.StructRegisterFn r.RegisterFn) ++
          List.zipWith Call.ClassRegistrant sB.DeferredCompiledInRegistration classes ∧
      enumFactoriesFirst (directCalls s.Depth (newEvents s s')) = true := by
  have hrun := exec_runOK env fuel
  unfold materializePass at h
  obtain ⟨sA, hA, h⟩ := bind_ok.1 h
  obtain ⟨sB, hB, h⟩ := bind_ok.1 h
  obtain ⟨c1, d1, p1⟩ := UObjectProcessRegistrants_direct hrun hA
  have d2 := UObjectLoadAllCompiledInStructs_direct hrun hB
  obtain ⟨classes, hlen, d3⟩ := UObjectLoadAllCompiledInDefaultProperties_direct hrun h
  have hd := ((d1.seq d2).seq d3).newEvents
  refine ⟨sA, sB, classes, hA, hB, hlen, ?_, ?_⟩
  · rw [hd]
    simp only [List.filter_append, filter_isFactory_of_isRegistration p1,
      filter_isFactory_structsCalls, filter_isFactory_defaultPropertiesCalls, List.nil_append]
  · rw [hd]
    have e : c1 ++ structsCalls sA.DeferredCompiledInEnumRegistration
          sA.DeferredCompiledInStructRegistration ++
        defaultPropertiesCalls env sB.DeferredCompiledInRegistration classes =
        (c1 ++ (sA.DeferredCompiledInEnumRegistration.map
            (fun r => Call.CreatePackage r.PackageName) ++
          sA.DeferredCompiledInStructRegistration.map
            (fun r => Call.CreatePackage r.PackageName) ++
          sA.DeferredCompiledInEnumRegistration.map
            (fun r => Call.EnumRegisterFn r.RegisterFn))) ++
        (sA.DeferredCompiledInStructRegistration.map
            (fun r => Call.StructRegisterFn r.RegisterFn) ++
          defaultPropertiesCalls env sB.DeferredCompiledInRegistration classes) := by
      simp [structsCalls, List.append_assoc]
    rw [e]
    apply enumFactoriesFirst_append
    · intro c hc
      simp only [List.mem_append, List.mem_map] at hc
      rcases hc with hc | (⟨r, _, rfl⟩ | ⟨r, _, rfl⟩) | ⟨r, _, rfl⟩
      · have := p1 c hc
        cases c <;> simp_all [Call.isRegistration, Call.isStructOrClassFactory]
      · rfl
      · rfl
      · rfl
    · intro c hc
      simp only [List.mem_append, List.mem_map, defaultPropertiesCalls] at hc
      rcases hc with ⟨r, _, rfl⟩ | hc | ⟨r, _, rfl⟩
      · rfl
      · obtain ⟨fn, cls, rfl⟩ := mem_zipWith_classRegistrant hc
        rfl
      · rfl

/-- Instance of the amended C4: one pass from `busyState` calls the enum factory `3`, the
struct factory `4` and the class factories `2`, `1`, `0`, in this order. -/
theorem C4_pass_runs_enums_then_structs_then_classes_witness :
    materializePass sampleEnv (exec sampleEnv 4) 4 busyState = .ok busyPassed ∧
    (directCalls 0 (newEvents busyState busyPassed)).filter Call.isFactory =
      [Call.EnumRegisterFn 3, Call.StructRegisterFn 4, Call.ClassRegistrant 2 2,
        Call.ClassRegistrant 1 1, Call.ClassRegistrant 0 0] ∧
    ∃ (sA sB : State) (classes : List ObjId),
      UObjectProcessRegistrants sampleEnv (exec sampleEnv 4) 4 busyState = .ok sA ∧
      UObjectLoadAllCompiledInStructs sampleEnv (exec sampleEnv 4) sA = .ok sB ∧
      classes.length = sB.DeferredCompiledInRegistration.length ∧
      (directCalls busyState.Depth (newEvents busyState busyPassed)).filter Call.isFactory =
        sA.DeferredCompiledInEnumRegistration.map (fun r => Call.EnumRegisterFn r.RegisterFn) ++
          sA.DeferredCompiledInStructRegistration.map
            (fun r => Call.StructRegisterFn r.RegisterFn) ++
          List.zipWith Call.ClassRegistrant sB.DeferredCompiledInRegistration classes ∧
      enumFactoriesFirst (directCalls busyState.Depth (newEvents busyState busyPassed)) = true :=
  ⟨rfl, rfl,
    C4_pass_runs_enums_then_structs_then_classes sampleEnv 4 4 busyState busyPassed rfl⟩

theorem classes_partition_perm (env : Env) (classes : List ObjId) :
    (classesInCoreUObject env classes ++ classesInEngine env classes ++
      classesElsewhere env classes).Perm classes := by
  induction classes with
  | nil => simp [classesInCoreUObject, classesInEngine, classesElsewhere]
  | cons c cs ih =>
    by_cases c1 : env.GetOutermostFName c = env.GLongCoreUObjectPackageName
    · obtain ⟨e1, e2, e3⟩ := classes_cons_core cs c1
      rw [e1, e2, e3]
      simpa using ih
    · by_cases c2 : env.GetOutermostFName c = LongEnginePackageName
      · obtain ⟨e1, e2, e3⟩ := classes_cons_engine cs c1 c2
        rw [e1, e2, e3]
        refine List.Perm.trans ?_ (List.Perm.cons c ih)
        simp only [List.append_assoc]
        exact List.perm_middle
      · obtain ⟨e1, e2, e3⟩ := classes_cons_elsewhere cs c1 c2
        rw [e1, e2, e3]
        exact List.Perm.trans List.perm_middle (List.Perm.cons c ih)

/-- C6: one call of `UObjectLoadAllCompiledInDefaultProperties` first runs every class
factory of the queue, in queue order, and only then calls `GetDefaultObject`: on the
returned classes whose outermost package is `/Script/CoreUObject`, then on those in
`/Script/Engine`, then on all others, each group in factory order; this sequence is a
rearrangement of the returned classes, so each gets exactly one call. -/
theorem C6_default_objects_by_package_group (env : Env) (fuel : Nat) (s s' : State)
    (h : UObjectLoadAllCompiledInDefaultProperties env (exec env fuel) s = .ok s') :
    ∃ classes : List ObjId, classes.length = s.DeferredCompiledInRegistration.length ∧
      directCalls s.Depth (newEvents s s') =
        List.zipWith Call.ClassRegistrant s.DeferredCompiledInRegistration classes ++
          (classesInCoreUObject env classes ++ classesInEngine env classes ++
            classesElsewhere env classes).map Call.GetDefaultObject ∧
      (classesInCoreUObject env classes ++ classesInEngine env classes ++
        classesElsewhere env classes).Perm classes := by
  obtain ⟨classes, hlen, d⟩ :=
    UObjectLoadAllCompiledInDefaultProperties_direct (exec_runOK env fuel) h
  exact ⟨classes, hlen, d.newEvents, classes_partition_perm env classes⟩

/-- Instance of C6: the factories `2`, `1`, `0` return a class of `/Script/Game`, of
`/Script/Engine` and of `/Script/CoreUObject`; the default objects are built in the order
`0`, `1`, `2`. -/
theorem C6_default_objects_by_package_group_witness :
    UObjectLoadAllCompiledInDefaultProperties sampleEnv (exec sampleEnv 4) busyStructsLoaded
      = .ok busyDefaultsLoaded ∧
    directCalls 0 (newEvents busyStructsLoaded busyDefaultsLoaded) =
      [Call.ClassRegistrant 2 2, Call.ClassRegistrant 1 1, Call.ClassRegistrant 0 0,
        Call.GetDefaultObject 0, Call.GetDefaultObject 1, Call.GetDefaultObject 2] ∧
    ∃ classes : List ObjId,
      classes.length = busyStructsLoaded.DeferredCompiledInRegistration.length ∧
      directCalls busyStructsLoaded.Depth (newEvents busyStructsLoaded busyDefaultsLoaded) =
        List.zipWith Call.ClassRegistrant busyStructsLoaded.DeferredCompiledInRegistration
            classes ++
          (classesInCoreUObject sampleEnv classes ++ classesInEngine sampleEnv classes ++
            classesElsewhere sampleEnv classes).map Call.GetDefaultObject ∧
      (classesInCoreUObject sampleEnv classes ++ classesInEngine sampleEnv classes ++
        classesElsewhere sampleEnv classes).Perm classes :=
  ⟨rfl, rfl,
    C6_default_objects_by_package_group sampleEnv 4 busyStructsLoaded busyDefaultsLoaded rfl⟩

theorem count_assemble_of_isPassCall {calls : List Call}
    (h : ∀ c ∈ calls, c.isPassCall = true) :
    calls.count Call.AssembleReferenceTokenStreams = 0 := by
  rw [List.count_eq_zero]
  intro hm
  have := h _ hm
  simp [Call.isPassCall] at this

theorem count_assemble_of_classRegister {calls : List Call}
    (h : ∀ c ∈ calls, ∃ info, c = Call.ClassRegister info) :
    calls.count Call.AssembleReferenceTokenStreams = 0 := by
  rw [List.count_eq_zero]
  intro hm
  obtain ⟨info, hi⟩ := h _ hm
  cases hi

/-- C7: outside the initial load, a `ProcessNewlyLoadedUObjects` epoch whose loop called a
class factory (one class, or more) makes exactly one call of its own to
`UClass::AssembleReferenceTokenStreams`, as its last action, when no registrant and no
descriptor is pending any more. An epoch that a callback starts re-entrantly is an epoch of
its own, one level deeper. -/
theorem C7_assemble_once_after_class_materialized (env : Env) (fuel : Nat) (s s' : State)
    (Package : FName) (hload : s.GIsInitialLoad = false)
    (h : ProcessNewlyLoadedUObjects env (exec env fuel) fuel s Package true = .ok s')
    (hclass : ∃ fn cls, Call.ClassRegistrant fn cls ∈ directCalls s.Depth (newEvents s s')) :
    (directCalls s.Depth (newEvents s s')).count Call.AssembleReferenceTokenStreams = 1 ∧
      s'.Trace.getLast? = some ⟨s.Depth, Call.AssembleReferenceTokenStreams⟩ ∧
      hasPendingWork s' = false := by
  obtain ⟨hw, sA, sB, pre, lc, b, _, _, _, d, hpre, hlc, hloop, hlast⟩ :=
    ProcessNewlyLoadedUObjects_direct (exec_runOK env fuel) h
  have hd := d.newEvents
  obtain ⟨fn, cls, hmem⟩ := hclass
  rw [hd] at hmem ⊢
  have hb : b = true := by
    cases hb : b with
    | true => rfl
    | false =>
      have hnil := hloop hb
      subst hnil
      simp only [hb, Bool.false_and, Bool.false_eq_true, if_false, List.append_nil,
        List.mem_append, List.not_mem_nil, or_false] at hmem
      obtain ⟨info, hi⟩ := hpre _ hmem
      cases hi
  have hcond : (b && !s.GIsInitialLoad) = true := by simp [hb, hload]
  refine ⟨?_, hlast hcond, hw⟩
  simp only [hcond, if_true, List.count_append, count_assemble_of_classRegister hpre,
    count_assemble_of_isPassCall hlc]
  rfl

/-- Instance of C7: the epoch from `lateEnumState` materialises the one class `2`. -/
theorem C7_assemble_once_after_class_materialized_witness :
    lateEnumState.GIsInitialLoad = false ∧
    ProcessNewlyLoadedUObjects sampleEnv (exec sampleEnv 3) 3 lateEnumState NAME_None true
      = .ok lateEnumDone ∧
    (directCalls 0 (newEvents lateEnumState lateEnumDone)).filter Call.isFactory
      = [Call.ClassRegistrant 2 2, Call.EnumRegisterFn 7] ∧
    (directCalls lateEnumState.Depth (newEvents lateEnumState lateEnumDone)).count
        Call.AssembleReferenceTokenStreams = 1 ∧
      lateEnumDone.Trace.getLast? =
        some ⟨lateEnumState.Depth, Call.AssembleReferenceTokenStreams⟩ ∧
      hasPendingWork lateEnumDone = false :=
  ⟨rfl, rfl, rfl,
    C7_assemble_once_after_class_materialized sampleEnv 3 lateEnumState lateEnumDone NAME_None
      rfl rfl ⟨2, 2, by decide⟩⟩

/-- C8, as stated, fails: the epoch from `enumOnlyState` has an empty class queue, calls no
class factory and leaves the class queue empty, yet it calls
`UClass::AssembleReferenceTokenStreams` once, because `bNewUObjects` is set by the pass that
handles the deferred enum. -/
theorem C8_assemble_called_without_any_class :
    ProcessNewlyLoadedUObjects sampleEnv (exec sampleEnv 3) 3 enumOnlyState NAME_None true
      = .ok enumOnlyDone ∧
    enumOnlyState.DeferredCompiledInRegistration = [] ∧
    enumOnlyDone.DeferredCompiledInRegistration = [] ∧
    (newEvents enumOnlyState enumOnlyDone).map (·.call) =
      [Call.CreatePackage "/Script/Game", Call.EnumRegisterFn 3,
        Call.AssembleReferenceTokenStreams] ∧
    ((newEvents enumOnlyState enumOnlyDone).map (·.call)).count
      Call.AssembleReferenceTokenStreams = 1 :=
  ⟨rfl, rfl, rfl, rfl, rfl⟩

/-- C8, amended: `ProcessNewlyLoadedUObjects` itself calls
`UClass::AssembleReferenceTokenStreams` once if, when the loop condition is first tested,
a registrant or a descriptor of any kind is pending and the initial load is over, and not
at all otherwise; in particular not at all when the list and the three queues are empty
there. -/
theorem C8_assemble_exactly_when_loop_ran (env : Env) (fuel : Nat) (s s' : State)
    (Package : FName)
    (h : ProcessNewlyLoadedUObjects env (exec env fuel) fuel s Package true = .ok s') :
    ∃ sA sB : State,
      (if (env.USE_PER_MODULE_UOBJECT_BOOTSTRAP && Package != NAME_None) = true then
          UObjectReleaseModuleRegistrants env s Package
        else pure s) = .ok sA ∧
      UClassRegisterAllCompiledInClasses env (exec env fuel) sA = .ok sB ∧
      (directCalls s.Depth (newEvents s s')).count Call.AssembleReferenceTokenStreams =
        if (hasPendingWork sB && !s.GIsInitialLoad) = true then 1 else 0 := by
  obtain ⟨_, sA, sB, pre, lc, b, hA, hB, hb, d, hpre, hlc, _, _⟩ :=
    ProcessNewlyLoadedUObjects_direct (exec_runOK env fuel) h
  refine ⟨sA, sB, hA, hB, ?_⟩
  rw [d.newEvents, ← hb]
  simp only [List.count_append, count_assemble_of_classRegister hpre,
    count_assemble_of_isPassCall hlc]
  split_ifs <;> rfl

/-- Instance of the amended C8: from `idleState` nothing is pending and nothing is called;
from `enumOnlyState` the enum is pending and the assembly is called once. -/
theorem C8_assemble_exactly_when_loop_ran_witness :
    (ProcessNewlyLoadedUObjects sampleEnv (exec sampleEnv 3) 3 idleState NAME_None true
        = .ok idleState ∧
      ∃ sA sB : State,
        (if (sampleEnv.USE_PER_MODULE_UOBJECT_BOOTSTRAP && NAME_None != NAME_None) = true then
            UObjectReleaseModuleRegistrants sampleEnv idleState NAME_None
          else pure idleState) = .ok sA ∧
        UClassRegisterAllCompiledInClasses sampleEnv (exec sampleEnv 3) sA = .ok sB ∧
        (directCalls idleState.Depth (newEvents idleState idleState)).count
            Call.AssembleReferenceTokenStreams =
          if (hasPendingWork sB && !idleState.GIsInitialLoad) = true then 1 else 0) ∧
    (directCalls 0 (newEvents idleState idleState)).count Call.AssembleReferenceTokenStreams
      = 0 :=
  ⟨⟨rfl, C8_assemble_exactly_when_loop_ran sampleEnv 3 idleState idleState NAME_None rfl⟩, rfl⟩

/-- C9: while `GIsInitialLoad` is true, a `ProcessNewlyLoadedUObjects` call that returns has
not called `UClass::AssembleReferenceTokenStreams`, neither itself nor through a nested call
made by one of its callbacks, whatever it materialised. -/
theorem C9_no_assemble_during_initial_load (env : Env) (fuel : Nat) (s s' : State)
    (Package : FName) (bCanProcessNewlyLoadedObjects : Bool) (hload : s.GIsInitialLoad = true)
    (h : ProcessNewlyLoadedUObjects env (exec env fuel) fuel s Package
      bCanProcessNewlyLoadedObjects = .ok s') :
    ∀ e ∈ newEvents s s', e.call ≠ Call.AssembleReferenceTokenStreams := by
  obtain ⟨evs, hs⟩ := ProcessNewlyLoadedUObjects_steps (exec_runOK env fuel) h
  rw [hs.newEvents_eq]
  exact hs.noAssemble hload

/-- Instance of C9: the epoch from `busyInitialLoad` registers an object and materialises an
enum, a struct and three classes. -/
theorem C9_no_assemble_during_initial_load_witness :
    busyInitialLoad.GIsInitialLoad = true ∧
    ProcessNewlyLoadedUObjects sampleEnv (exec sampleEnv 4) 4 busyInitialLoad NAME_None true
      = .ok busyInitialLoadDone ∧
    (directCalls 0 (newEvents busyInitialLoad busyInitialLoadDone)).filter Call.isFactory =
      [Call.EnumRegisterFn 3, Call.StructRegisterFn 4, Call.ClassRegistrant 2 2,
        Call.ClassRegistrant 1 1, Call.ClassRegistrant 0 0, Call.EnumRegisterFn 7] ∧
    ∀ e ∈ newEvents busyInitialLoad busyInitialLoadDone,
      e.call ≠ Call.AssembleReferenceTokenStreams :=
  ⟨rfl, rfl, rfl,
    C9_no_assemble_during_initial_load sampleEnv 4 busyInitialLoad busyInitialLoadDone NAME_None
      true rfl rfl⟩

theorem TMap.filter_key_Add {κ ν : Type} [DecidableEq κ] (m : TMap κ ν) (k : κ) (v : ν) :
    (TMap.Add m k v).filter (fun e => decide (e.1 = k)) = [(k, v)] := by
  have h : (TMap.Remove m k).filter (fun e => decide (e.1 = k)) = [] := by
    simp [TMap.Remove, List.filter_filter]
  simp [TMap.Add, List.filter_append, h]

/-- C10, as stated, fails: `oneRegistered` already holds a dictionary entry for object `0`,
and a further `Register` on object `0` returns normally; it has overwritten the entry and
linked a second list node for the same object. -/
theorem C10_second_register_returns_normally :
    TMap.Find oneRegistered.PendingRegistrantInfo 0 = some ⟨"A", coreUObjectPackage⟩ ∧
    Register sampleEnv oneRegistered 0 coreUObjectPackage "B" = .ok registeredTwice ∧
    registeredTwice.PendingRegistrantInfo = [(0, ⟨"B", coreUObjectPackage⟩)] ∧
    registeredTwice.Nodes = [some ⟨0, some 1⟩, some ⟨0, none⟩] ∧
    registeredTwice.GFirstPendingRegistrant = some 0 ∧
    registeredTwice.GLastPendingRegistrant = some 1 :=
  ⟨rfl, rfl, rfl, rfl, rfl, rfl⟩

/-- C10, amended: `UObjectBase::Register` makes no check on the dictionary. On every state
with a well-formed global list it returns normally, whether or not the object already has
an entry; afterwards the dictionary holds exactly one entry for the object, with the new
name and package, the entries of other objects are as before, and, when the call is routed
to the global list, a new node for the object is at its tail. -/
theorem C10_register_overwrites_entry (env : Env) (s : State) (this : ObjId)
    (PackageName InName : FName) (addrs : List NodeAddr) (objs : List ObjId)
    (hlist : GlobalList s addrs objs) :
    ∃ s', Register env s this PackageName InName = .ok s' ∧
      TMap.Find s'.PendingRegistrantInfo this = some ⟨InName, PackageName⟩ ∧
      s'.PendingRegistrantInfo.filter (fun e => decide (e.1 = this)) =
        [(this, ⟨InName, PackageName⟩)] ∧
      (∀ o, o ≠ this →
        TMap.Find s'.PendingRegistrantInfo o = TMap.Find s.PendingRegistrantInfo o) ∧
      (routedToGlobalList env PackageName →
        GlobalList s' (addrs ++ [s.Nodes.length]) (objs ++ [this])) := by
  have hok : ∃ s', Register env s this PackageName InName = .ok s' := by
    by_cases hr : routedToGlobalList env PackageName
    · obtain ⟨s1, h1, _⟩ := Register_globalList this PackageName InName hlist hr
      exact ⟨s1, h1⟩
    · have hcond : (env.USE_PER_MODULE_UOBJECT_BOOTSTRAP &&
          PackageName != "/Script/CoreUObject") = true := by
        simp only [routedToGlobalList, not_or] at hr
        simpa using hr
      exact ⟨_, by simp only [Register, hcond, if_true]; rfl⟩
  obtain ⟨s', h⟩ := hok
  have f := (Register_fields h).info
  simp only at f
  refine ⟨s', h, ?_, ?_, ?_, ?_⟩
  · rw [f]; exact TMap.Find_Add_self _ _ _
  · rw [f]; exact TMap.filter_key_Add _ _ _
  · intro o ho
    rw [f]; exact TMap.Find_Add_ne _ _ ho
  · intro hr
    obtain ⟨s1, h1, hg, _⟩ := Register_globalList this PackageName InName hlist hr
    rw [h] at h1
    cases h1
    exact hg

/-- Instance of the amended C10: the second `Register` of object `0` in `oneRegistered`. -/
theorem C10_register_overwrites_entry_witness :
    GlobalList oneRegistered [0] [0] ∧
    TMap.Find oneRegistered.PendingRegistrantInfo 0 = some ⟨"A", coreUObjectPackage⟩ ∧
    ∃ s', Register sampleEnv oneRegistered 0 coreUObjectPackage "B" = .ok s' ∧
      TMap.Find s'.PendingRegistrantInfo 0 = some ⟨"B", coreUObjectPackage⟩ ∧
      s'.PendingRegistrantInfo.filter (fun e => decide (e.1 = 0)) =
        [(0, ⟨"B", coreUObjectPackage⟩)] ∧
      (∀ o, o ≠ 0 →
        TMap.Find s'.PendingRegistrantInfo o =
          TMap.Find oneRegistered.PendingRegistrantInfo o) ∧
      (routedToGlobalList sampleEnv coreUObjectPackage →
        GlobalList s' ([0] ++ [oneRegistered.Nodes.length]) ([0] ++ [0])) :=
  have hl : GlobalList oneRegistered [0] [0] :=
    ⟨⟨rfl, by simp, none, rfl, rfl⟩, rfl⟩
  ⟨hl, rfl, C10_register_overwrites_entry sampleEnv oneRegistered 0 coreUObjectPackage "B"
    [0] [0] hl⟩

/-! ## The ledger: list cells, buckets and the dictionary -/

theorem dequeueLoop_cells :
    ∀ {addrs : List NodeAddr} {objs : List ObjId} {p : Option NodeAddr} {fuel : Nat}
      {nodes : List (Option FPendingRegistrant)} (out : List FPendingRegistrant),
      IsChain nodes p addrs objs → addrs.length ≤ fuel →
      ∃ nodes1 out1, dequeueLoop fuel nodes p out = .ok (nodes1, out ++ out1) ∧
        out1.map (·.Object) = objs ∧ nodes1.length = nodes.length ∧
        (∀ a ∈ addrs, nodes1[a]? = some none) ∧
        (∀ a, a ∉ addrs → nodes1[a]? = nodes[a]?) := by
  intro addrs
  induction addrs with
  | nil =>
    intro objs p fuel nodes out h _
    cases objs with
    | cons _ _ => simp [IsChain] at h
    | nil =>
      simp only [IsChain] at h
      subst h
      refine ⟨nodes, [], ?_, rfl, rfl, by simp, fun _ _ => rfl⟩
      cases fuel <;> simp [dequeueLoop, pure, Except.pure]
  | cons a addrs ih =>
    intro objs p fuel nodes out h hf
    cases objs with
    | nil => simp [IsChain] at h
    | cons o objs =>
      obtain ⟨hp, hna, nxt, ha, hrest⟩ := h
      subst hp
      have halt : a < nodes.length := (List.getElem?_eq_some_iff.1 ha).1
      cases fuel with
      | zero => simp at hf
      | succ fuel =>
        obtain ⟨nodes1, out1, h1, hobj, hlen, hfree, hkeep⟩ :=
          ih (out ++ [⟨o, nxt⟩]) (IsChain.set_of_not_mem (b := a) (v := none) hrest hna)
            (Nat.le_of_succ_le_succ hf)
        refine ⟨nodes1, ⟨o, nxt⟩ :: out1, ?_, by simp [hobj], by simpa using hlen, ?_, ?_⟩
        · simp only [dequeueLoop, ha]
          rw [h1]; simp
        · intro b hb
          rcases List.mem_cons.1 hb with rfl | hb
          · rw [hkeep _ hna, List.getElem?_set_self halt]
          · exact hfree b hb
        · intro b hb
          have hne : a ≠ b := fun e => hb (e ▸ List.mem_cons_self _ _)
          rw [hkeep b (fun hm => hb (List.mem_cons_of_mem _ hm)), List.getElem?_set_ne hne]

theorem Held.congr {nodes nodes1 : List (Option FPendingRegistrant)} :
    ∀ {bucket : List NodeAddr} {objs : List ObjId},
      (∀ a ∈ bucket, nodes1[a]? = nodes[a]?) → Held nodes bucket objs →
      Held nodes1 bucket objs := by
  intro bucket
  induction bucket with
  | nil =>
    intro objs _ h
    cases objs with
    | nil => simp [Held]
    | cons _ _ => simp [Held] at h
  | cons a bucket ih =>
    intro objs hsame h
    cases objs with
    | nil => simp [Held] at h
    | cons o objs =>
      obtain ⟨ha, hrest⟩ := h
      exact ⟨by rw [hsame a (List.mem_cons_self _ _)]; exact ha,
        ih (fun b hb => hsame b (List.mem_cons_of_mem _ hb)) hrest⟩

/-- Linking an existing cell with a null link behind the last cell of a chain. -/
theorem IsChain.link {nodes : List (Option FPendingRegistrant)} {q : NodeAddr} {o : ObjId}
    (hq : nodes[q]? = some (some ⟨o, none⟩)) :
    ∀ {p : Option NodeAddr} {addrs : List NodeAddr} {objs : List ObjId} {last : NodeAddr}
      {n : FPendingRegistrant},
      IsChain nodes p addrs objs → addrs.getLast? = some last →
      nodes[last]? = some (some n) → q ∉ addrs →
      IsChain (nodes.set last (some { n with NextAutoRegister := some q }))
        p (addrs ++ [q]) (objs ++ [o]) := by
  intro p addrs
  induction addrs generalizing p with
  | nil => intro objs last n _ hl; simp at hl
  | cons a addrs ih =>
    intro objs last n h hl hn hnot
    cases objs with
    | nil => simp [IsChain] at h
    | cons o' objs =>
      obtain ⟨hp, hna, nxt, ha, hrest⟩ := h
      have halt : a < nodes.length := (List.getElem?_eq_some_iff.1 ha).1
      have hqa : q ≠ a := fun e => hnot (e ▸ List.mem_cons_self _ _)
      have hqn : q ∉ addrs := fun hm => hnot (List.mem_cons_of_mem _ hm)
      have hnotin : a ∉ addrs ++ [q] := by
        simp only [List.mem_append, List.mem_singleton, not_or]
        exact ⟨hna, fun e => hqa e.symm⟩
      cases addrs with
      | nil =>
        cases objs with
        | cons _ _ => simp [IsChain] at hrest
        | nil =>
          simp only [IsChain] at hrest
          simp only [List.getLast?_singleton, Option.some.injEq] at hl
          subst hl
          rw [ha] at hn
          simp only [Option.some.injEq] at hn
          subst hn
          subst hrest
          refine ⟨hp, hnotin, some q, ?_, rfl, by simp, none, ?_, rfl⟩
          · rw [List.getElem?_set_self halt]
          · rw [List.getElem?_set_ne (fun e => hqa e.symm)]; exact hq
      | cons b rest =>
        have hl' : (b :: rest).getLast? = some last := by simpa using hl
        have hlast_mem : last ∈ b :: rest := List.mem_of_getLast?_eq_some hl'
        have hne : last ≠ a := fun e => hna (e ▸ hlast_mem)
        refine ⟨hp, hnotin, nxt, ?_, ih hrest hl' hn hqn⟩
        rw [List.getElem?_set_ne hne]; exact ha

/-- The shared linking block, on a well-formed list and a held cell outside it. -/
theorem linkPendingRegistrant_globalList {s : State} {addrs : List NodeAddr}
    {objs : List ObjId} {q : NodeAddr} {o : ObjId} (h : GlobalList s addrs objs)
    (hq : s.Nodes[q]? = some (some ⟨o, none⟩)) (hnot : q ∉ addrs) :
    ∃ s', linkPendingRegistrant s q = .ok s' ∧
      GlobalList s' (addrs ++ [q]) (objs ++ [o]) ∧
      s'.PerModuleBootstrapMap = s.PerModuleBootstrapMap ∧
      (∀ a, a ∉ addrs → s'.Nodes[a]? = s.Nodes[a]?) := by
  obtain ⟨hc, hlast⟩ := h
  unfold linkPendingRegistrant
  cases hadd : addrs with
  | nil =>
    subst hadd
    cases objs with
    | cons _ _ => simp [IsChain] at hc
    | nil =>
      simp only [IsChain] at hc
      simp only [List.getLast?_nil] at hlast
      simp only [hlast, hc, Option.isSome_none, Bool.false_eq_true, if_false]
      refine ⟨_, rfl, ⟨?_, by simp⟩, rfl, fun _ _ => rfl⟩
      exact ⟨rfl, by simp, none, hq, rfl⟩
  | cons a rest =>
    subst hadd
    obtain ⟨last, hl⟩ : ∃ last, (a :: rest).getLast? = some last := by
      cases hx : (a :: rest).getLast? with
      | none => simp at hx
      | some l => exact ⟨l, rfl⟩
    have hmem : last ∈ a :: rest := List.mem_of_getLast?_eq_some hl
    obtain ⟨n, hn⟩ := IsChain.live hc last hmem
    rw [hl] at hlast
    simp only [hlast, hn]
    refine ⟨_, rfl, ⟨IsChain.link hq hc hl hn hnot, ?_⟩, rfl, ?_⟩
    · show _ = ((a :: rest) ++ [q]).getLast?
      rw [List.getLast?_concat]
    · intro b hb
      have hne : last ≠ b := fun e => hb (e ▸ hmem)
      exact List.getElem?_set_ne hne

/-- Linking a whole bucket of held cells behind a well-formed list. -/
theorem forEach_link_globalList :
    ∀ (bucket : List NodeAddr) (bobjs : List ObjId) (s : State) (addrs : List NodeAddr)
      (objs : List ObjId),
      GlobalList s addrs objs → Held s.Nodes bucket bobjs → (addrs ++ bucket).Nodup →
      ∃ s', forEach (fun p st => linkPendingRegistrant st p) bucket s = .ok s' ∧
        GlobalList s' (addrs ++ bucket) (objs ++ bobjs) ∧
        s'.PerModuleBootstrapMap = s.PerModuleBootstrapMap ∧
        (∀ a, a ∉ addrs ++ bucket → s'.Nodes[a]? = s.Nodes[a]?) := by
  intro bucket
  induction bucket with
  | nil =>
    intro bobjs s addrs objs h hh _
    cases bobjs with
    | cons _ _ => simp [Held] at hh
    | nil => exact ⟨s, rfl, by simpa using h, rfl, fun _ _ => rfl⟩
  | cons q rest ih =>
    intro bobjs s addrs objs h hh hnd
    cases bobjs with
    | nil => simp [Held] at hh
    | cons o robjs =>
      obtain ⟨hq, hrest⟩ := hh
      have hqa : q ∉ addrs := by
        intro hm
        have := (List.nodup_append.1 hnd).2.2
        exact this hm (List.mem_cons_self _ _)
      obtain ⟨s1, h1, hg1, hm1, hk1⟩ := linkPendingRegistrant_globalList h hq hqa
      have hnd1 : ((addrs ++ [q]) ++ rest).Nodup := by simpa using hnd
      have hheld1 : Held s1.Nodes rest robjs := by
        refine Held.congr (fun a ha => hk1 a ?_) hrest
        intro hm
        exact (List.nodup_append.1 hnd).2.2 hm (List.mem_cons_of_mem _ ha)
      obtain ⟨s2, h2, hg2, hm2, hk2⟩ := ih robjs s1 (addrs ++ [q]) (objs ++ [o]) hg1 hheld1 hnd1
      refine ⟨s2, ?_, by simpa using hg2, by rw [hm2, hm1], ?_⟩
      · simp only [forEach, h1, bind, Except.bind]
        exact h2
      · intro a ha
        have ha1 : a ∉ (addrs ++ [q]) ++ rest := by simpa using ha
        rw [hk2 a ha1]
        exact hk1 a (fun hm => ha (List.mem_append_left _ hm))

theorem bucketAdd_Find_self (m : TMap FName (List NodeAddr)) (k : FName) (p : NodeAddr) :
    TMap.Find (bucketAdd m k p) k = some ((TMap.Find m k).getD [] ++ [p]) := by
  unfold bucketAdd
  cases hf : TMap.Find m k with
  | none => simp [TMap.Find_append, hf]
  | some b =>
    simp only [Option.getD_some]
    induction m with
    | nil => simp [TMap.Find] at hf
    | cons e m ih =>
      obtain ⟨k0, v⟩ := e
      by_cases hk : k0 = k
      · subst hk
        simp only [TMap.Find, List.lookup_cons, beq_self_eq_true, Option.some.injEq] at hf
        subst hf
        simp [TMap.Find, List.lookup_cons]
      · have hk' : (k == k0) = false := by simpa using fun e => hk e.symm
        simp only [TMap.Find, List.lookup_cons, hk'] at hf
        simpa [TMap.Find, List.lookup_cons, hk', hk] using ih hf

theorem bucketAdd_Find_ne (m : TMap FName (List NodeAddr)) {k k' : FName} (p : NodeAddr)
    (h : k' ≠ k) : TMap.Find (bucketAdd m k p) k' = TMap.Find m k' := by
  unfold bucketAdd
  cases hf : TMap.Find m k with
  | none =>
    simp only [TMap.Find_append, h, if_false]
    cases TMap.Find m k' <;> rfl
  | some b =>
    simp only
    clear hf
    induction m with
    | nil => rfl
    | cons e m ih =>
      obtain ⟨k0, v⟩ := e
      by_cases hq : k' = k0
      · subst hq
        simp [TMap.Find, List.lookup_cons, h]
      · have hk' : (k' == k0) = false := by simpa using hq
        have hkk : (k' == k) = false := by simpa using h
        by_cases hk : k0 = k
        · simpa [TMap.Find, List.lookup_cons, hk', hk, hkk] using ih
        · simpa [TMap.Find, List.lookup_cons, hk', hk] using ih

/-- A chain stays a chain when new cells are allocated. -/
theorem IsChain.alloc {nodes : List (Option FPendingRegistrant)}
    (extra : List (Option FPendingRegistrant)) :
    ∀ {p : Option NodeAddr} {addrs : List NodeAddr} {objs : List ObjId},
      IsChain nodes p addrs objs → IsChain (nodes ++ extra) p addrs objs := by
  intro p addrs
  induction addrs generalizing p with
  | nil => intro objs h; cases objs <;> simp_all [IsChain]
  | cons a addrs ih =>
    intro objs h
    cases objs with
    | nil => simp [IsChain] at h
    | cons o objs =>
      obtain ⟨hp, hna, nxt, ha, hrest⟩ := h
      have halt : a < nodes.length := (List.getElem?_eq_some_iff.1 ha).1
      exact ⟨hp, hna, nxt, by rw [List.getElem?_append_left halt]; exact ha, ih hrest⟩

/-- What the shared linking block leaves alone, whenever it returns. -/
theorem linkPendingRegistrant_frame {s s' : State} {p : NodeAddr}
    (h : linkPendingRegistrant s p = .ok s') :
    s'.PerModuleBootstrapMap = s.PerModuleBootstrapMap ∧
      cellObjects s'.Nodes = cellObjects s.Nodes := by
  unfold linkPendingRegistrant at h
  split at h
  · rename_i last _
    split at h
    · rename_i n hn
      simp only [pure, Except.pure, Except.ok.injEq] at h
      subst h
      refine ⟨rfl, ?_⟩
      simp only [cellObjects]
      apply List.ext_getElem?
      intro i
      by_cases hi : last = i
      · subst hi
        have hlt : last < s.Nodes.length := (List.getElem?_eq_some_iff.1 hn).1
        rw [List.getElem?_map, List.getElem?_map, List.getElem?_set_self hlt, hn]
        rfl
      · rw [List.getElem?_map, List.getElem?_map, List.getElem?_set_ne hi]
    · simp [throw, throwThe, MonadExceptOf.throw] at h
  · split at h
    · simp [throw, throwThe, MonadExceptOf.throw] at h
    · simp only [pure, Except.pure, Except.ok.injEq] at h
      subst h
      exact ⟨rfl, rfl⟩

theorem forEach_link_frame :
    ∀ (bucket : List NodeAddr) (s s' : State),
      forEach (fun p st => linkPendingRegistrant st p) bucket s = .ok s' →
      s'.PerModuleBootstrapMap = s.PerModuleBootstrapMap ∧
        cellObjects s'.Nodes = cellObjects s.Nodes := by
  intro bucket
  induction bucket with
  | nil =>
    intro s s' h
    simp only [forEach, pure, Except.pure, Except.ok.injEq] at h
    subst h
    exact ⟨rfl, rfl⟩
  | cons q rest ih =>
    intro s s' h
    simp only [forEach] at h
    obtain ⟨s1, h1, h2⟩ := bind_ok.1 h
    obtain ⟨a1, b1⟩ := linkPendingRegistrant_frame h1
    obtain ⟨a2, b2⟩ := ih s1 s' h2
    exact ⟨by rw [a2, a1], by rw [b2, b1]⟩

theorem UObjectReleaseModuleRegistrants_absent {env : Env} {s : State} {Module : FName}
    (h : TMap.Find s.PerModuleBootstrapMap ("/Script/" ++ env.PackageNameFromModuleName Module)
      = none) : UObjectReleaseModuleRegistrants env s Module = .ok s := by
  unfold UObjectReleaseModuleRegistrants
  simp only [h]
  rfl

/-- Module release on a well-formed list and a bucket of held cells outside it. -/
theorem UObjectReleaseModuleRegistrants_globalList {env : Env} {s : State} {Module : FName}
    {addrs : List NodeAddr} {objs : List ObjId} {bucket : List NodeAddr} {bobjs : List ObjId}
    (hlist : GlobalList s addrs objs)
    (hfind : TMap.Find s.PerModuleBootstrapMap
      ("/Script/" ++ env.PackageNameFromModuleName Module) = some bucket)
    (hheld : Held s.Nodes bucket bobjs) (hnodup : (addrs ++ bucket).Nodup) :
    ∃ s', UObjectReleaseModuleRegistrants env s Module = .ok s' ∧
      GlobalList s' (addrs ++ bucket) (objs ++ bobjs) ∧
      s'.PerModuleBootstrapMap =
        TMap.Remove s.PerModuleBootstrapMap ("/Script/" ++ env.PackageNameFromModuleName Module) ∧
      (∀ a, a ∉ addrs ++ bucket → s'.Nodes[a]? = s.Nodes[a]?) := by
  obtain ⟨s1, h1, hg, hm, hk⟩ :=
    forEach_link_globalList bucket bobjs s addrs objs hlist hheld hnodup
  refine ⟨{ s1 with PerModuleBootstrapMap :=
      (TMap.Remove s1.PerModuleBootstrapMap
        ("/Script/" ++ env.PackageNameFromModuleName Module)) }, ?_, hg, by rw [hm], hk⟩
  unfold UObjectReleaseModuleRegistrants
  simp only [hfind, h1, bind, Except.bind]
  rfl

theorem forEach_append {α : Type} (body : α → State → Except Err State) :
    ∀ (xs ys : List α) (s : State),
      forEach body (xs ++ ys) s = forEach body xs s >>= forEach body ys := by
  intro xs
  induction xs with
  | nil => intro ys s; rfl
  | cons x xs ih =>
    intro ys s
    simp only [List.cons_append, forEach]
    cases body x s with
    | error e => rfl
    | ok s1 => simpa [bind, Except.bind] using ih ys s1

/-- The nested loops of `UObjectReleaseAllModuleRegistrants` visit the cells of the holding
map bucket after bucket. -/
theorem forEach_buckets (body : NodeAddr → State → Except Err State) :
    ∀ (m : TMap FName (List NodeAddr)) (s : State),
      forEach (fun (Pair : FName × List NodeAddr) st => forEach body Pair.2 st) m s =
        forEach body (heldNodes m) s := by
  intro m
  induction m with
  | nil => intro s; rfl
  | cons e m ih =>
    intro s
    have e1 : heldNodes (e :: m) = e.2 ++ heldNodes m := by simp [heldNodes]
    rw [e1, forEach_append]
    simp only [forEach]
    cases forEach body e.2 s with
    | error e => rfl
    | ok s1 => simpa [bind, Except.bind] using ih s1

/-! ### Forced registration with the recorded values -/

theorem Nat.or_and_self_right (x R : Nat) : (x ||| R) &&& R = R := by
  apply Nat.eq_of_testBit_eq
  intro i
  simp only [Nat.testBit_and, Nat.testBit_or]
  cases x.testBit i <;> cases R.testBit i <;> rfl

theorem Nat.or_or_and_self (x R N : Nat) : ((x ||| R) ||| N) &&& R = R := by
  apply Nat.eq_of_testBit_eq
  intro i
  simp only [Nat.testBit_and, Nat.testBit_or]
  cases x.testBit i <;> cases R.testBit i <;> cases N.testBit i <;> rfl

/-- The flags that `AddObject` sets contain `EInternalObjectFlags::RootSet` when the object
carries `RF_MarkAsRootSet`. -/
theorem addObjectFlags_rootSet (env : Env) (ObjectFlags fl : Nat)
    (h : ObjectFlags &&& env.RF_MarkAsRootSet ≠ 0) :
    (addObjectFlags env ObjectFlags fl).1 &&& env.InternalFlag_RootSet =
      env.InternalFlag_RootSet := by
  simp only [addObjectFlags, h, ne_eq, not_false_eq_true, decide_True, if_true]
  split_ifs <;>
    first
    | exact Nat.or_or_and_self _ _ _
    | exact Nat.or_and_self_right _ _

/-- The slot that `AddObject` allocates holds the object with exactly the flags set. -/
theorem allocated_slot (table : List FUObjectItem) (this : ObjId) (fl : Nat) :
    (if fl ≠ 0 then
        IndexToObject_SetFlags (AllocateUObjectIndex table this).1
          (AllocateUObjectIndex table this).2 fl
      else (AllocateUObjectIndex table this).1)[table.length]? = some ⟨this, fl⟩ := by
  by_cases h : fl = 0
  · simp [h, AllocateUObjectIndex]
  · simp [h, AllocateUObjectIndex, IndexToObject_SetFlags]

/-- What a successful `AddObject` did. -/
theorem AddObject_result {env : Env} {s s' : State} {this : ObjId} {InName : FName} {fl : Nat}
    (h : AddObject env s this InName fl = .ok s') :
    ∃ obj table, s.Objects[this]? = some obj ∧ InName ≠ NAME_None ∧
      table[s.ObjObjects.length]? = some ⟨this, (addObjectFlags env obj.ObjectFlags fl).1⟩ ∧
      s' = { s with
        Objects := s.Objects.set this { obj with
          NamePrivate := InName
          ObjectFlags := (addObjectFlags env obj.ObjectFlags fl).2
          InternalIndex := (s.ObjObjects.length : Int) }
        ObjObjects := table } := by
  unfold AddObject at h
  cases hobj : s.Objects[this]? with
  | none => simp only [hobj] at h; exact absurd h throw_ne_ok
  | some obj =>
    simp only [hobj] at h
    by_cases hn : InName = NAME_None
    · simp only [hn, true_or, if_true] at h
      exact absurd h throw_ne_ok
    · have hidx : ¬ ((AllocateUObjectIndex s.ObjObjects this).2 : Int) < 0 := by simp
      rw [if_neg (by simp only [hn, hidx, or_self, not_false_eq_true])] at h
      split_ifs at h
      all_goals
        cases h
        refine ⟨obj, _, rfl, hn, ?_, rfl⟩
        have hslot := allocated_slot s.ObjObjects this (addObjectFlags env obj.ObjectFlags fl).1
        simpa [*] using hslot

/-- On an object that has a class, and for a name other than `NAME_None`, `AddObject`
returns. -/
theorem AddObject_ok (env : Env) {s : State} {this : ObjId} {InName : FName} (fl : Nat)
    {obj : UObjectBase} (hobj : s.Objects[this]? = some obj) (hn : InName ≠ NAME_None)
    (hcls : obj.ClassPrivate.isNone = false) :
    ∃ s', AddObject env s this InName fl = .ok s' := by
  have hlt : this < s.Objects.length := (List.getElem?_eq_some_iff.1 hobj).1
  have hidx : ¬ ((AllocateUObjectIndex s.ObjObjects this).2 : Int) < 0 := by simp
  unfold AddObject
  simp only [hobj]
  rw [if_neg (by simp only [hn, hidx, or_self, not_false_eq_true])]
  rw [if_pos]
  · exact ⟨_, rfl⟩
  · have hslot := allocated_slot s.ObjObjects this (addObjectFlags env obj.ObjectFlags fl).1
    simp only [IsValidLowLevel, List.getElem?_set_self hlt, hcls, Bool.false_eq_true, if_false,
      GUObjectArray_IsValid]
    have e : ((AllocateUObjectIndex s.ObjObjects this).2 : Int).toNat = s.ObjObjects.length := by
      simp [AllocateUObjectIndex]
    rw [e, hslot]
    simp [AllocateUObjectIndex]

theorem exec_nil (env : Env) (fuel : Nat) (s : State) : exec env fuel [] s = .ok s := by
  cases fuel <;> rfl

/-- A `CreatePackage` that makes no call back into the file only logs the call and enters
the package. -/
theorem CreatePackage_quiet (env : Env) (run : List Action → State → Except Err State)
    (s : State) (PackageName : FName) (hrun : ∀ st, run [] st = .ok st)
    (hq : ∀ st, env.CreatePackage PackageName st = []) :
    ∃ pk, CreatePackage env run s PackageName =
      .ok { logCall s (Call.CreatePackage PackageName) with Packages := pk } := by
  unfold CreatePackage
  simp only [hq, invoke, hrun, bind, Except.bind, pure, Except.pure]
  split
  · exact ⟨s.Packages, rfl⟩
  · exact ⟨_, rfl⟩

/-- What a successful `DeferredRegister` leaves in the object and in the package table. -/
theorem DeferredRegister_result {env : Env} {run : List Action → State → Except Err State}
    {s s' : State} {this : ObjId} {cls : Option UObjectRef} {PackageName InName : FName}
    (h : DeferredRegister env run s this cls PackageName InName = .ok s') :
    ∃ obj', s'.Objects[this]? = some obj' ∧
      obj'.OuterPrivate = some (UObjectRef.package PackageName) ∧
      obj'.NamePrivate = InName ∧ obj'.ClassPrivate = cls ∧
      TMap.Find s'.Packages PackageName = some true ∧
      ∃ fl, s'.ObjObjects[obj'.InternalIndex.toNat]? = some ⟨this, fl⟩ := by
  unfold DeferredRegister at h
  by_cases hinit : (logCall s (Call.DeferredRegister this PackageName InName)).ObjInitialized
  swap
  · simp [hinit, bind, Except.bind, throw, throwThe, MonadExceptOf.throw] at h
  simp only [hinit, Bool.not_true, Bool.false_eq_true, if_false] at h
  obtain ⟨u, hu, h⟩ := bind_ok.1 h
  cases hu
  obtain ⟨s1, hcp, h⟩ := bind_ok.1 h
  cases hobj : s1.Objects[this]? with
  | none => simp only [hobj] at h; exact absurd h throw_ne_ok
  | some obj =>
    simp only [hobj] at h
    by_cases hcls : cls.isNone
    · simp [hcls, bind, Except.bind, throw, throwThe, MonadExceptOf.throw] at h
    simp only [hcls, Bool.false_eq_true, if_false] at h
    obtain ⟨u, hu, h⟩ := bind_ok.1 h
    cases hu
    by_cases hcp2 : obj.ClassPrivate.isSome
    · simp [hcp2, bind, Except.bind, throw, throwThe, MonadExceptOf.throw] at h
    simp only [hcp2, Bool.false_eq_true, if_false] at h
    obtain ⟨u, hu, h⟩ := bind_ok.1 h
    cases hu
    obtain ⟨s2, hadd, h⟩ := bind_ok.1 h
    have hlt : this < s1.Objects.length := (List.getElem?_eq_some_iff.1 hobj).1
    obtain ⟨objX, table, hX, _, hslot, hs2⟩ := AddObject_result hadd
    simp only [List.getElem?_set_self hlt, Option.some.injEq] at hX
    have d4 : s' = s2 := by
      cases hobj2 : s2.Objects[this]? with
      | none => simp only [hobj2] at h; exact absurd h throw_ne_ok
      | some obj2 =>
        simp only [hobj2] at h
        split_ifs at h
        exact (Except.ok.inj h).symm
    subst d4
    subst hs2
    subst hX
    refine ⟨_, List.getElem?_set_self (by rw [List.length_set]; exact hlt), rfl, rfl, rfl, ?_,
      (addObjectFlags env obj.ObjectFlags 0).1, ?_⟩
    · exact TMap.Find_Add_self _ _ _
    · simpa using hslot

theorem AddObject_ne_error {env : Env} {s : State} {this : ObjId} {InName : FName} {fl : Nat}
    {e : Err} {obj : UObjectBase} (h : AddObject env s this InName fl = .error e)
    (hobj : s.Objects[this]? = some obj) (hn : InName ≠ NAME_None)
    (hcls : obj.ClassPrivate.isNone = false) : False := by
  obtain ⟨s', h'⟩ := AddObject_ok env fl hobj hn hcls
  rw [h'] at h
  cases h

/-- With a `CreatePackage` that makes no call back, `DeferredRegister` returns on an
initialised object system for an object without class and a name other than `NAME_None`
that is outside the range disregarded for GC or marked for the root set; it touches
neither the dictionary nor the list nor the holding map. -/
theorem DeferredRegister_quiet (env : Env) (run : List Action → State → Except Err State)
    (s : State) (this : ObjId) (cls : UObjectRef) (PackageName InName : FName)
    {obj : UObjectBase} (hrun : ∀ st, run [] st = .ok st)
    (hq : ∀ st, env.CreatePackage PackageName st = [])
    (hinit : s.ObjInitialized = true) (hobj : s.Objects[this]? = some obj)
    (hnocls : obj.ClassPrivate = none) (hn : InName ≠ NAME_None)
    (hgc : env.IsDisregardForGC s.ObjObjects.length = false ∨
      (obj.ObjectFlags &&& env.RF_MarkAsRootSet ≠ 0 ∧ env.InternalFlag_RootSet ≠ 0)) :
    ∃ s', DeferredRegister env run s this (some cls) PackageName InName = .ok s' ∧
      s'.PendingRegistrantInfo = s.PendingRegistrantInfo ∧ s'.Nodes = s.Nodes ∧
      s'.GFirstPendingRegistrant = s.GFirstPendingRegistrant ∧
      s'.GLastPendingRegistrant = s.GLastPendingRegistrant ∧
      s'.PerModuleBootstrapMap = s.PerModuleBootstrapMap := by
  obtain ⟨pk, hcp⟩ := CreatePackage_quiet env run
    (logCall s (Call.DeferredRegister this PackageName InName)) PackageName hrun hq
  have hlt : this < s.Objects.length := (List.getElem?_eq_some_iff.1 hobj).1
  unfold DeferredRegister
  simp only [logCall, hinit, Bool.not_true, Bool.false_eq_true, if_false, bind, Except.bind,
    pure, Except.pure]
  simp only [logCall, hinit] at hcp
  rw [hcp]
  simp only [hobj, hnocls, Option.isNone_some, Option.isSome_none, Bool.false_eq_true, if_false]
  split
  · rename_i err heq
    exact absurd (AddObject_ne_error heq (List.getElem?_set_self hlt) hn rfl) id
  · rename_i v heq
    obtain ⟨objX, table, hX, _, hslot, hv⟩ := AddObject_result heq
    simp only [List.getElem?_set_self hlt, Option.some.injEq] at hX
    subst hX
    subst hv
    simp only at hslot
    simp only [List.getElem?_set_self, List.length_set, hlt, Int.toNat_ofNat, hslot]
    have hcond : (!env.IsDisregardForGC s.ObjObjects.length ||
        decide ((addObjectFlags env obj.ObjectFlags 0).1 &&& env.InternalFlag_RootSet ≠ 0))
        = true := by
      rcases hgc with h | ⟨h1, h2⟩
      · simp [h]
      · simp [addObjectFlags_rootSet env obj.ObjectFlags 0 h1, h2]
    simp only [hcond, if_true]
    exact ⟨_, rfl, rfl, rfl, rfl, rfl, rfl⟩

theorem linkPendingRegistrant_table {s s' : State} {p : NodeAddr}
    (h : linkPendingRegistrant s p = .ok s') : s'.ObjObjects = s.ObjObjects := by
  unfold linkPendingRegistrant at h
  split at h
  · split at h
    · cases h; rfl
    · exact absurd h throw_ne_ok
  · split at h
    · exact absurd h throw_ne_ok
    · cases h; rfl

theorem UObjectReleaseModuleRegistrants_table {env : Env} {s s' : State} {Module : FName}
    (h : UObjectReleaseModuleRegistrants env s Module = .ok s') :
    s'.ObjObjects = s.ObjObjects := by
  have hloop : ∀ (bucket : List NodeAddr) (st st' : State),
      forEach (fun p st => linkPendingRegistrant st p) bucket st = .ok st' →
      st'.ObjObjects = st.ObjObjects := by
    intro bucket
    induction bucket with
    | nil => intro st st' h; cases h; rfl
    | cons q rest ih =>
      intro st st' h
      simp only [forEach] at h
      obtain ⟨s1, h1, h2⟩ := bind_ok.1 h
      rw [ih s1 st' h2, linkPendingRegistrant_table h1]
  unfold UObjectReleaseModuleRegistrants at h
  simp only at h
  split at h
  · obtain ⟨s1, h1, h2⟩ := bind_ok.1 h
    cases h2
    exact hloop _ s s1 h1
  · cases h; rfl

/-- With a `CreatePackage` that makes no call back, a `DeferredRegister` that returns has
touched neither the dictionary nor the cells, the list or the holding map. -/
theorem DeferredRegister_frame {env : Env} {run : List Action → State → Except Err State}
    {s s' : State} {this : ObjId} {cls : Option UObjectRef} {PackageName InName : FName}
    (hrun : ∀ st, run [] st = .ok st) (hq : ∀ st, env.CreatePackage PackageName st = [])
    (h : DeferredRegister env run s this cls PackageName InName = .ok s') :
    s'.PendingRegistrantInfo = s.PendingRegistrantInfo ∧ s'.Nodes = s.Nodes ∧
      s'.GFirstPendingRegistrant = s.GFirstPendingRegistrant ∧
      s'.GLastPendingRegistrant = s.GLastPendingRegistrant ∧
      s'.PerModuleBootstrapMap = s.PerModuleBootstrapMap := by
  obtain ⟨pk, hcp'⟩ := CreatePackage_quiet env run
    (logCall s (Call.DeferredRegister this PackageName InName)) PackageName hrun hq
  unfold DeferredRegister at h
  by_cases hinit : (logCall s (Call.DeferredRegister this PackageName InName)).ObjInitialized
  swap
  · simp [hinit, bind, Except.bind, throw, throwThe, MonadExceptOf.throw] at h
  simp only [hinit, Bool.not_true, Bool.false_eq_true, if_false] at h
  obtain ⟨u, hu, h⟩ := bind_ok.1 h
  cases hu
  obtain ⟨s1, hcp, h⟩ := bind_ok.1 h
  rw [hcp'] at hcp
  cases hcp
  cases hobj : s.Objects[this]? with
  | none => simp only [logCall, hobj] at h; exact absurd h throw_ne_ok
  | some obj =>
    simp only [logCall, hobj] at h
    by_cases hcls : cls.isNone
    · simp [hcls, bind, Except.bind, throw, throwThe, MonadExceptOf.throw] at h
    simp only [hcls, Bool.false_eq_true, if_false] at h
    obtain ⟨u, hu, h⟩ := bind_ok.1 h
    cases hu
    by_cases hcp2 : obj.ClassPrivate.isSome
    · simp [hcp2, bind, Except.bind, throw, throwThe, MonadExceptOf.throw] at h
    simp only [hcp2, Bool.false_eq_true, if_false] at h
    obtain ⟨u, hu, h⟩ := bind_ok.1 h
    cases hu
    obtain ⟨s2, hadd, h⟩ := bind_ok.1 h
    obtain ⟨objX, table, _, _, _, hs2⟩ := AddObject_result hadd
    have d4 : s' = s2 := by
      cases hobj2 : s2.Objects[this]? with
      | none => simp only [hobj2] at h; exact absurd h throw_ne_ok
      | some obj2 =>
        simp only [hobj2] at h
        split_ifs at h
        exact (Except.ok.inj h).symm
    subst d4
    subst hs2
    exact ⟨rfl, rfl, rfl, rfl, rfl⟩

theorem UObjectReleaseModuleRegistrants_cells {env : Env} {s s' : State} {Module : FName}
    (h : UObjectReleaseModuleRegistrants env s Module = .ok s') :
    cellObjects s'.Nodes = cellObjects s.Nodes := by
  unfold UObjectReleaseModuleRegistrants at h
  simp only at h
  split at h
  · obtain ⟨s1, h1, h2⟩ := bind_ok.1 h
    cases h2
    exact (forEach_link_frame _ s s1 h1).2
  · cases h; rfl

theorem Register_cells {env : Env} {s s' : State} {this : ObjId} {PackageName InName : FName}
    (h : Register env s this PackageName InName = .ok s') :
    cellObjects s'.Nodes = cellObjects s.Nodes ++ [some this] := by
  unfold Register at h
  simp only at h
  split_ifs at h
  · cases h
    simp [cellObjects]
  · rw [(linkPendingRegistrant_frame h).2]
    simp [cellObjects]

/-! ### Phase 1 of a pass consumes the registrants it found -/

theorem UObjectProcessRegistrants_chain (env : Env)
    (run : List Action → State → Except Err State) {kind : Nat → DescriptorKind} (fuel : Nat)
    {s : State} {q : List FPendingEnumRegistrant × List FPendingStructRegistrant × List FnId}
    {n : Nat} (h : ChainInv kind s q n) :
    ∃ s', UObjectProcessRegistrants env run fuel s = .ok s' ∧ ChainInv kind s' q n := by
  refine ⟨{ s with GFirstPendingRegistrant := none, GLastPendingRegistrant := none }, ?_,
    ⟨h.initialized, rfl, h.depth, h.enums, h.structs, h.classes, h.log⟩⟩
  unfold UObjectProcessRegistrants
  simp only [h.initialized, Bool.not_true, Bool.false_eq_true, if_false,
    DequeuePendingAutoRegistrants, h.first, dequeueLoop, bind, Except.bind, pure, Except.pure]
  cases fuel <;> simp [processRegistrantsLoop, pure, Except.pure]

theorem factoryLog_append (s : State) (evs : List Event) :
    (directCalls 0 (s.Trace ++ evs)).filter Call.isFactory =
      factoryLog s ++ (directCalls 0 evs).filter Call.isFactory := by
  simp [factoryLog, directCalls_append]

/-- Materialising link `k` sets off the deferral of link `k + 1`, one level deeper. -/
theorem invoke_chainNext {N : Nat} {kind : Nat → DescriptorKind} {f : Nat} {st : State}
    {k : Nat} (h : ChainInv kind st ([], [], []) (k + 1)) :
    ∃ st', invoke (exec (chainEnv N kind) (f + 1)) (chainNext N kind k) st = .ok st' ∧
      ChainInv kind st' (chainQueues N kind (k + 1)) (k + 1) := by
  by_cases hk : k + 1 < N
  · cases hkind : kind (k + 1) with
    | Enum =>
      simp only [chainNext, hk, if_true, hkind, deferAction, invoke, exec,
        runActions, execAction, bind, Except.bind, pure, Except.pure]
      refine ⟨_, rfl, ?_⟩
      constructor
      · exact h.initialized
      · exact h.first
      · exact h.depth
      · simp [UObjectCompiledInDeferEnum, logCall, chainQueues, hk, hkind, h.enums]
      · simp [UObjectCompiledInDeferEnum, logCall, chainQueues, hk, hkind, h.structs]
      · simp [UObjectCompiledInDeferEnum, logCall, chainQueues, hk, hkind, h.classes]
      · simp only [UObjectCompiledInDeferEnum, logCall, Bool.not_false, if_true]
        rw [factoryLog, factoryLog_append, h.log]
        simp [directCalls, h.depth]
    | Struct =>
      simp only [chainNext, hk, if_true, hkind, deferAction, invoke, exec,
        runActions, execAction, bind, Except.bind, pure, Except.pure]
      refine ⟨_, rfl, ?_⟩
      constructor
      · exact h.initialized
      · exact h.first
      · exact h.depth
      · simp [UObjectCompiledInDeferStruct, logCall, chainQueues, hk, hkind, h.enums]
      · simp [UObjectCompiledInDeferStruct, logCall, chainQueues, hk, hkind, h.structs]
      · simp [UObjectCompiledInDeferStruct, logCall, chainQueues, hk, hkind, h.classes]
      · simp only [UObjectCompiledInDeferStruct, logCall, Bool.not_false, if_true]
        rw [factoryLog, factoryLog_append, h.log]
        simp [directCalls, h.depth]
    | Class =>
      simp only [chainNext, hk, if_true, hkind, deferAction, invoke, exec,
        runActions, execAction, UObjectCompiledInDefer, Bool.not_false, bind, Except.bind,
        pure, Except.pure]
      refine ⟨_, rfl, ?_⟩
      constructor
      · exact h.initialized
      · exact h.first
      · exact h.depth
      · simp [logCall, chainQueues, hk, hkind, h.enums]
      · simp [logCall, chainQueues, hk, hkind, h.structs]
      · simp [logCall, chainQueues, hk, hkind, h.classes]
      · simp only [logCall]
        rw [factoryLog, List.append_assoc, factoryLog_append, h.log]
        simp [directCalls, h.depth]
  · simp only [chainNext, hk, if_false, invoke, exec_nil, bind, Except.bind,
      pure, Except.pure]
    refine ⟨_, rfl, ?_⟩
    have hq : chainQueues N kind (k + 1) = ([], [], []) := by simp [chainQueues, hk]
    rw [hq]
    exact ⟨h.initialized, h.first, h.depth, h.enums, h.structs, h.classes, h.log⟩

theorem chainLog_succ (kind : Nat → DescriptorKind) (k : Nat) :
    chainLog kind (k + 1) = chainLog kind k ++ [factoryCall (kind k) k] := by
  simp [chainLog, List.range_succ]

theorem chainEnv_EnumRegisterFn (N : Nat) (kind : Nat → DescriptorKind) (k : FnId) (s : State) :
    (chainEnv N kind).EnumRegisterFn k s = chainNext N kind k := rfl

theorem chainEnv_StructRegisterFn (N : Nat) (kind : Nat → DescriptorKind) (k : FnId)
    (s : State) : (chainEnv N kind).StructRegisterFn k s = chainNext N kind k := rfl

theorem chainEnv_GetDefaultObject (N : Nat) (kind : Nat → DescriptorKind) (k : ObjId)
    (s : State) : (chainEnv N kind).GetDefaultObject k s = chainNext N kind k := rfl

theorem chainEnv_ClassRegistrant (N : Nat) (kind : Nat → DescriptorKind) (k : FnId)
    (s : State) : (chainEnv N kind).ClassRegistrant k s = ([], k) := rfl

/-- The function `UObjectLoadAllCompiledInStructs` on the chain: a pending enum or struct
link is materialised and sets off the next link; a pending class link is left alone. -/
theorem UObjectLoadAllCompiledInStructs_chain {N : Nat} {kind : Nat → DescriptorKind}
    {f : Nat} {s : State} {k : Nat} (h : ChainInv kind s (chainQueues N kind k) k) :
    ∃ s' k', UObjectLoadAllCompiledInStructs (chainEnv N kind)
        (exec (chainEnv N kind) (f + 1)) s = .ok s' ∧
      ChainInv kind s' (chainQueues N kind k') k' ∧
      k' = (if k < N ∧ kind k ≠ DescriptorKind.Class then k + 1 else k) := by
  by_cases hk : k < N
  · cases hkind : kind k with
    | Enum =>
      have he := h.enums
      have hs := h.structs
      have hc := h.classes
      simp only [chainQueues, hk, if_true, hkind] at he hs hc
      obtain ⟨pk, hcp⟩ := CreatePackage_quiet (chainEnv N kind)
        (exec (chainEnv N kind) (f + 1))
        { s with DeferredCompiledInEnumRegistration := []
                 DeferredCompiledInStructRegistration := [] }
        chainPackage (exec_nil _ _) (fun _ => rfl)
      have inv2 : ChainInv kind (logCall
          { logCall { s with DeferredCompiledInEnumRegistration := []
                             DeferredCompiledInStructRegistration := [] }
              (Call.CreatePackage chainPackage) with Packages := pk }
          (Call.EnumRegisterFn k)) ([], [], []) (k + 1) := by
        refine ⟨h.initialized, h.first, h.depth, rfl, rfl, hc, ?_⟩
        simp only [logCall]
        rw [factoryLog, List.append_assoc, factoryLog_append, h.log, chainLog_succ, hkind]
        simp [directCalls, h.depth, factoryCall, Call.isFactory]
      obtain ⟨s3, h3, inv3⟩ := invoke_chainNext (N := N) (f := f) inv2
      refine ⟨s3, k + 1, ?_, inv3, by simp [hk, hkind]⟩
      unfold UObjectLoadAllCompiledInStructs
      simp only [he, hs, forEach, bind, Except.bind, pure, Except.pure, hcp,
        chainEnv_EnumRegisterFn, h3]
    | Struct =>
      have he := h.enums
      have hs := h.structs
      have hc := h.classes
      simp only [chainQueues, hk, if_true, hkind] at he hs hc
      obtain ⟨pk, hcp⟩ := CreatePackage_quiet (chainEnv N kind)
        (exec (chainEnv N kind) (f + 1))
        { s with DeferredCompiledInEnumRegistration := []
                 DeferredCompiledInStructRegistration := [] }
        chainPackage (exec_nil _ _) (fun _ => rfl)
      have inv2 : ChainInv kind (logCall
          { logCall { s with DeferredCompiledInEnumRegistration := []
                             DeferredCompiledInStructRegistration := [] }
              (Call.CreatePackage chainPackage) with Packages := pk }
          (Call.StructRegisterFn k)) ([], [], []) (k + 1) := by
        refine ⟨h.initialized, h.first, h.depth, rfl, rfl, hc, ?_⟩
        simp only [logCall]
        rw [factoryLog, List.append_assoc, factoryLog_append, h.log, chainLog_succ, hkind]
        simp [directCalls, h.depth, factoryCall, Call.isFactory]
      obtain ⟨s3, h3, inv3⟩ := invoke_chainNext (N := N) (f := f) inv2
      refine ⟨s3, k + 1, ?_, inv3, by simp [hk, hkind]⟩
      unfold UObjectLoadAllCompiledInStructs
      simp only [he, hs, forEach, bind, Except.bind, pure, Except.pure, hcp,
        chainEnv_StructRegisterFn, h3]
    | Class =>
      have he := h.enums
      have hs := h.structs
      have hc := h.classes
      simp only [chainQueues, hk, if_true, hkind] at he hs hc
      refine ⟨{ s with DeferredCompiledInEnumRegistration := []
                       DeferredCompiledInStructRegistration := [] }, k, ?_, ?_,
        by simp [hkind]⟩
      · unfold UObjectLoadAllCompiledInStructs
        simp only [he, hs, forEach, bind, Except.bind, pure, Except.pure]
      · simp only [chainQueues, hk, if_true, hkind]
        exact ⟨h.initialized, h.first, h.depth, rfl, rfl, hc, h.log⟩
  · have he := h.enums
    have hs := h.structs
    have hc := h.classes
    simp only [chainQueues, hk, if_false] at he hs hc
    refine ⟨{ s with DeferredCompiledInEnumRegistration := []
                     DeferredCompiledInStructRegistration := [] }, k, ?_, ?_,
      by simp [hk]⟩
    · unfold UObjectLoadAllCompiledInStructs
      simp only [he, hs, forEach, bind, Except.bind, pure, Except.pure]
    · simp only [chainQueues, hk, if_false]
      exact ⟨h.initialized, h.first, h.depth, rfl, rfl, hc, h.log⟩

theorem chainPackage_ne_core : chainPackage ≠ coreUObjectPackage := by decide

theorem chainPackage_ne_engine : chainPackage ≠ LongEnginePackageName := by decide

theorem chainEnv_GetOutermostFName (N : Nat) (kind : Nat → DescriptorKind) (c : ObjId) :
    (chainEnv N kind).GetOutermostFName c = chainPackage := rfl

theorem chainEnv_GLongCoreUObjectPackageName (N : Nat) (kind : Nat → DescriptorKind) :
    (chainEnv N kind).GLongCoreUObjectPackageName = coreUObjectPackage := rfl

theorem invoke_nil (env : Env) (fuel : Nat) (s : State) :
    invoke (exec env fuel) [] s = .ok s := by
  simp only [invoke, exec_nil, bind, Except.bind, pure, Except.pure]

/-- The function `UObjectLoadAllCompiledInDefaultProperties` on the chain: a pending class
link is materialised, and building its default object sets off the next link. -/
theorem UObjectLoadAllCompiledInDefaultProperties_chain {N : Nat}
    {kind : Nat → DescriptorKind} {f : Nat} {s : State} {k : Nat}
    (h : ChainInv kind s (chainQueues N kind k) k) :
    ∃ s' k', UObjectLoadAllCompiledInDefaultProperties (chainEnv N kind)
        (exec (chainEnv N kind) (f + 1)) s = .ok s' ∧
      ChainInv kind s' (chainQueues N kind k') k' ∧
      k' = (if k < N ∧ kind k = DescriptorKind.Class then k + 1 else k) := by
  have he := h.enums
  have hs := h.structs
  have hc := h.classes
  by_cases hk : k < N
  · cases hkind : kind k with
    | Class =>
      simp only [chainQueues, hk, if_true, hkind] at he hs hc
      have inv2 : ChainInv kind (logCall
          (logCall { s with DeferredCompiledInRegistration := [] } (Call.ClassRegistrant k k))
          (Call.GetDefaultObject k)) ([], [], []) (k + 1) := by
        refine ⟨h.initialized, h.first, h.depth, he, hs, rfl, ?_⟩
        simp only [logCall]
        rw [factoryLog, List.append_assoc, factoryLog_append, h.log, chainLog_succ, hkind]
        simp [directCalls, h.depth, factoryCall, Call.isFactory]
      obtain ⟨s3, h3, inv3⟩ := invoke_chainNext (N := N) (f := f) inv2
      refine ⟨s3, k + 1, ?_, inv3, by simp [hk, hkind]⟩
      unfold UObjectLoadAllCompiledInDefaultProperties
      simp only [hc, List.length_singleton, ne_eq, one_ne_zero, not_false_eq_true, decide_True,
        if_true, registrantLoop, chainEnv_ClassRegistrant, invoke_nil,
        chainEnv_GetOutermostFName, chainEnv_GLongCoreUObjectPackageName, chainPackage_ne_core,
        chainPackage_ne_engine, if_false, forEach, GetDefaultObject, chainEnv_GetDefaultObject,
        List.nil_append, bind, Except.bind, pure, Except.pure, h3]
    | Enum =>
      simp only [chainQueues, hk, if_true, hkind] at he hs hc
      refine ⟨s, k, ?_, h, by simp [hkind]⟩
      unfold UObjectLoadAllCompiledInDefaultProperties
      simp only [hc, List.length_nil, ne_eq, not_true_eq_false, decide_False,
        Bool.false_eq_true, if_false]
      rfl
    | Struct =>
      simp only [chainQueues, hk, if_true, hkind] at he hs hc
      refine ⟨s, k, ?_, h, by simp [hkind]⟩
      unfold UObjectLoadAllCompiledInDefaultProperties
      simp only [hc, List.length_nil, ne_eq, not_true_eq_false, decide_False,
        Bool.false_eq_true, if_false]
      rfl
  · simp only [chainQueues, hk, if_false] at he hs hc
    refine ⟨s, k, ?_, h, by simp [hk]⟩
    unfold UObjectLoadAllCompiledInDefaultProperties
    simp only [hc, List.length_nil, ne_eq, not_true_eq_false, decide_False,
      Bool.false_eq_true, if_false]
    rfl

theorem hasPendingWork_chain {N : Nat} {kind : Nat → DescriptorKind} {s : State} {k : Nat}
    (h : ChainInv kind s (chainQueues N kind k) k) : hasPendingWork s = decide (k < N) := by
  have he := h.enums
  have hs := h.structs
  have hc := h.classes
  by_cases hk : k < N
  · cases hkind : kind k <;>
      simp only [chainQueues, hk, if_true, hkind] at he hs hc <;>
      simp [hasPendingWork, h.first, he, hs, hc, hk]
  · simp only [chainQueues, hk, if_false] at he hs hc
    simp [hasPendingWork, h.first, he, hs, hc, hk]

/-- One pass of the loop on the chain materialises at least the pending link. -/
theorem materializePass_chain {N : Nat} {kind : Nat → DescriptorKind} (f passFuel : Nat)
    {s : State} {k : Nat} (h : ChainInv kind s (chainQueues N kind k) k) (hk : k < N) :
    ∃ s' k', materializePass (chainEnv N kind) (exec (chainEnv N kind) (f + 1)) passFuel s
        = .ok s' ∧
      ChainInv kind s' (chainQueues N kind k') k' ∧ k < k' ∧ k' ≤ N := by
  obtain ⟨sA, hA, invA⟩ := UObjectProcessRegistrants_chain (chainEnv N kind)
    (exec (chainEnv N kind) (f + 1)) passFuel h
  obtain ⟨sB, k2, hB, invB, hk2⟩ := UObjectLoadAllCompiledInStructs_chain (f := f) invA
  obtain ⟨sC, k3, hC, invC, hk3⟩ :=
    UObjectLoadAllCompiledInDefaultProperties_chain (f := f) invB
  refine ⟨sC, k3, ?_, invC, ?_⟩
  · simp only [materializePass, hA, hB, bind, Except.bind]
    exact hC
  · subst hk3
    subst hk2
    by_cases hc : kind k = DescriptorKind.Class
    · simp only [hc, ne_eq, not_true_eq_false, and_false, if_false, hk, and_self, if_true]
      omega
    · simp only [hk, hc, ne_eq, not_false_eq_true, and_self, if_true]
      split_ifs <;> omega

/-- The loop on the chain runs until the chain is exhausted. -/
theorem materializeLoop_chain {N : Nat} {kind : Nat → DescriptorKind} (f passFuel : Nat) :
    ∀ (fuel : Nat) (s : State) (k : Nat) (b : Bool),
      ChainInv kind s (chainQueues N kind k) k → k ≤ N → N - k ≤ fuel →
      ∃ s' b', materializeLoop (chainEnv N kind) (exec (chainEnv N kind) (f + 1)) passFuel
          fuel s b = .ok (s', b') ∧
        ChainInv kind s' (chainQueues N kind N) N := by
  intro fuel
  induction fuel with
  | zero =>
    intro s k b h hkN hfuel
    have hk : k = N := by omega
    subst hk
    refine ⟨s, b, ?_, h⟩
    simp [materializeLoop, hasPendingWork_chain h]
    rfl
  | succ fuel ih =>
    intro s k b h hkN hfuel
    by_cases hk : k < N
    · obtain ⟨s1, k1, h1, inv1, hlt, hle⟩ :=
        materializePass_chain f passFuel h hk
      obtain ⟨s', b', h2, inv2⟩ := ih s1 k1 true inv1 hle (by omega)
      refine ⟨s', b', ?_, inv2⟩
      simp only [materializeLoop, hasPendingWork_chain h, hk, decide_True, if_true, h1, bind,
        Except.bind]
      exact h2
    · have hk' : k = N := by omega
      subst hk'
      refine ⟨s, b, ?_, h⟩
      simp [materializeLoop, hasPendingWork_chain h]
      rfl

/-! ### Well-formedness of the ledger is kept by every operation -/

theorem Held.of_forall {nodes : List (Option FPendingRegistrant)} :
    ∀ (bucket : List NodeAddr),
      (∀ a ∈ bucket, ∃ o, nodes[a]? = some (some (FPendingRegistrant.mk o none))) →
      ∃ bobjs, Held nodes bucket bobjs := by
  intro bucket
  induction bucket with
  | nil => intro _; exact ⟨[], trivial⟩
  | cons a bucket ih =>
    intro h
    obtain ⟨o, ho⟩ := h a (List.mem_cons_self _ _)
    obtain ⟨bobjs, hb⟩ := ih (fun b hb => h b (List.mem_cons_of_mem _ hb))
    exact ⟨o :: bobjs, ho, hb⟩

theorem TMap.Find_eq_none_of_not_mem {κ ν : Type} [DecidableEq κ] (m : TMap κ ν) (k : κ)
    (h : k ∉ m.map (·.1)) : TMap.Find m k = none := by
  induction m with
  | nil => rfl
  | cons e m ih =>
    obtain ⟨k0, v⟩ := e
    simp only [List.map_cons, List.mem_cons, not_or] at h
    have hk' : (k == k0) = false := by simpa using h.1
    simpa [TMap.Find, List.lookup_cons, hk'] using ih h.2

theorem TMap.mem_keys_of_Find {κ ν : Type} [DecidableEq κ] (m : TMap κ ν) (k : κ) (v : ν)
    (h : TMap.Find m k = some v) : k ∈ m.map (·.1) := by
  by_contra hn
  rw [TMap.Find_eq_none_of_not_mem m k hn] at h
  cases h

theorem TMap.Remove_of_not_mem {κ ν : Type} [DecidableEq κ] (m : TMap κ ν) (k : κ)
    (h : k ∉ m.map (·.1)) : TMap.Remove m k = m := by
  unfold TMap.Remove
  rw [List.filter_eq_self]
  intro e he
  have : e.1 ≠ k := fun hk => h (hk ▸ List.mem_map_of_mem _ he)
  simpa using this

theorem TMap.keys_Remove_nodup {κ ν : Type} [DecidableEq κ] (m : TMap κ ν) (k : κ)
    (h : (m.map (·.1)).Nodup) : ((TMap.Remove m k).map (·.1)).Nodup :=
  List.Nodup.sublist ((List.filter_sublist m).map _) h

/-- The cells of a map are those of the bucket of a key and those of the other buckets. -/
theorem heldNodes_Remove_perm :
    ∀ (m : TMap FName (List NodeAddr)) (k : FName) (bucket : List NodeAddr),
      TMap.Find m k = some bucket → (m.map (·.1)).Nodup →
      (heldNodes m).Perm (bucket ++ heldNodes (TMap.Remove m k)) := by
  intro m
  induction m with
  | nil => intro k bucket h; simp [TMap.Find] at h
  | cons e m ih =>
    intro k bucket h hnd
    obtain ⟨k0, v⟩ := e
    simp only [List.map_cons, List.nodup_cons] at hnd
    by_cases hk : k0 = k
    · subst hk
      simp only [TMap.Find, List.lookup_cons, beq_self_eq_true, Option.some.injEq] at h
      subst h
      have hr : TMap.Remove ((k0, v) :: m) k0 = m := by
        have := TMap.Remove_of_not_mem m k0 hnd.1
        simpa [TMap.Remove, List.filter_cons] using this
      rw [hr]
      simp [heldNodes]
    · have hk' : (k == k0) = false := by simpa using fun e => hk e.symm
      simp only [TMap.Find, List.lookup_cons, hk'] at h
      have hr : TMap.Remove ((k0, v) :: m) k = (k0, v) :: TMap.Remove m k := by
        simp [TMap.Remove, List.filter_cons, hk]
      rw [hr]
      have := ih k bucket h hnd.2
      have e1 : heldNodes ((k0, v) :: m) = v ++ heldNodes m := by simp [heldNodes]
      have e2 : heldNodes ((k0, v) :: TMap.Remove m k) = v ++ heldNodes (TMap.Remove m k) := by
        simp [heldNodes]
      rw [e1, e2]
      refine List.Perm.trans (List.Perm.append_left v this) ?_
      rw [← List.append_assoc, ← List.append_assoc]
      exact List.Perm.append_right _ List.perm_append_comm

theorem TMap.not_mem_keys_of_Find_none {κ ν : Type} [DecidableEq κ] (m : TMap κ ν) (k : κ)
    (h : TMap.Find m k = none) : k ∉ m.map (·.1) := by
  induction m with
  | nil => simp
  | cons e m ih =>
    obtain ⟨k0, v⟩ := e
    by_cases hk : k = k0
    · simp [TMap.Find, List.lookup_cons, hk] at h
    · have hk' : (k == k0) = false := by simpa using hk
      simp only [TMap.Find, List.lookup_cons, hk'] at h
      simp only [List.map_cons, List.mem_cons, not_or]
      exact ⟨hk, ih h⟩

theorem bucketAdd_keys_nodup (m : TMap FName (List NodeAddr)) (k : FName) (p : NodeAddr)
    (h : (m.map (·.1)).Nodup) : ((bucketAdd m k p).map (·.1)).Nodup := by
  unfold bucketAdd
  cases hf : TMap.Find m k with
  | none =>
    simp only [List.map_append, List.map_cons, List.map_nil]
    refine List.Nodup.append h (by simp) ?_
    intro x hx hx'
    simp only [List.mem_singleton] at hx'
    subst hx'
    exact TMap.not_mem_keys_of_Find_none m x hf hx
  | some b =>
    simp only
    have : (List.map (fun e : FName × List NodeAddr => if e.1 = k then (e.1, e.2 ++ [p]) else e)
        m).map (·.1) = m.map (·.1) := by
      rw [List.map_map]
      apply List.map_congr_left
      intro e _
      by_cases he : e.1 = k <;> simp [he]
    rw [this]
    exact h

/-- The cells of the map after `FindOrAdd(Key).Add(p)` are the old ones and `p`. -/
theorem heldNodes_bucketAdd_perm (m : TMap FName (List NodeAddr)) (k : FName) (p : NodeAddr)
    (h : (m.map (·.1)).Nodup) : (heldNodes (bucketAdd m k p)).Perm (p :: heldNodes m) := by
  unfold bucketAdd
  cases hf : TMap.Find m k with
  | none =>
    simp only [heldNodes, List.flatMap_append, List.flatMap_cons, List.flatMap_nil,
      List.append_nil]
    exact List.perm_append_singleton _ _
  | some b =>
    simp only
    induction m generalizing b with
    | nil => simp [TMap.Find] at hf
    | cons e m ih =>
      obtain ⟨k0, v⟩ := e
      simp only [List.map_cons, List.nodup_cons] at h
      by_cases hk : k0 = k
      · subst hk
        have hrest : List.map (fun e : FName × List NodeAddr =>
            if e.1 = k0 then (e.1, e.2 ++ [p]) else e) m = m := by
          have hid : List.map (fun e : FName × List NodeAddr =>
              if e.1 = k0 then (e.1, e.2 ++ [p]) else e) m = List.map id m := by
            apply List.map_congr_left
            intro e he
            have : e.1 ≠ k0 := fun hk => h.1 (hk ▸ List.mem_map_of_mem _ he)
            simp [this]
          rw [hid, List.map_id]
        simp only [List.map_cons, if_true, hrest, heldNodes, List.flatMap_cons]
        rw [List.append_assoc]
        exact List.perm_middle
      · have hk' : (k == k0) = false := by simpa using fun e => hk e.symm
        simp only [TMap.Find, List.lookup_cons, hk'] at hf
        have := ih h.2 b hf
        simp only [List.map_cons, hk, if_false, heldNodes, List.flatMap_cons] at this ⊢
        refine List.Perm.trans (List.Perm.append_left v this) ?_
        exact List.perm_middle

theorem LedgerOK.empty {s : State} (h1 : s.GFirstPendingRegistrant = none)
    (h2 : s.GLastPendingRegistrant = none) (h3 : s.PerModuleBootstrapMap = []) :
    LedgerOK s [] [] := by
  refine ⟨⟨by simp [IsChain, h1], by simp [h2]⟩, by simp [h3], ?_, by simp [h3, heldNodes]⟩
  intro a ha
  simp [h3, heldNodes] at ha

/-- In a well-formed ledger all held cells are as `Register` made them. -/
theorem LedgerOK.held {s : State} {addrs : List NodeAddr} {objs : List ObjId}
    (h : LedgerOK s addrs objs) :
    ∃ hobjs, Held s.Nodes (heldNodes s.PerModuleBootstrapMap) hobjs :=
  Held.of_forall _ h.2.2.1

/-- In a well-formed ledger every bucket meets the conditions of module release. -/
theorem LedgerOK.bucket {s : State} {addrs : List NodeAddr} {objs : List ObjId}
    {k : FName} {bucket : List NodeAddr} (h : LedgerOK s addrs objs)
    (hf : TMap.Find s.PerModuleBootstrapMap k = some bucket) :
    (∃ bobjs, Held s.Nodes bucket bobjs) ∧ (addrs ++ bucket).Nodup ∧
      (addrs ++ bucket ++ heldNodes (TMap.Remove s.PerModuleBootstrapMap k)).Nodup ∧
      ∀ a ∈ heldNodes (TMap.Remove s.PerModuleBootstrapMap k),
        a ∈ heldNodes s.PerModuleBootstrapMap := by
  obtain ⟨_, hkeys, hlive, hnd⟩ := h
  have hperm := heldNodes_Remove_perm _ k bucket hf hkeys
  have hnd2 : (addrs ++ bucket ++ heldNodes (TMap.Remove s.PerModuleBootstrapMap k)).Nodup := by
    rw [List.append_assoc]
    exact ((List.Perm.append_left addrs hperm).nodup_iff).1 hnd
  refine ⟨Held.of_forall _ (fun a ha => hlive a ?_), ?_, hnd2, fun a ha => ?_⟩
  · exact hperm.mem_iff.2 (List.mem_append_left _ ha)
  · exact List.Nodup.sublist (List.sublist_append_left _ _) hnd2
  · exact hperm.mem_iff.2 (List.mem_append_right _ ha)

/-- `Register` keeps the ledger well formed, on either route. -/
theorem Register_ledgerOK (env : Env) {s : State} {addrs : List NodeAddr} {objs : List ObjId}
    (this : ObjId) (PackageName InName : FName) (h : LedgerOK s addrs objs) :
    ∃ s' addrs' objs', Register env s this PackageName InName = .ok s' ∧
      LedgerOK s' addrs' objs' := by
  obtain ⟨hlist, hkeys, hlive, hnd⟩ := h
  have hlt : ∀ a ∈ addrs ++ heldNodes s.PerModuleBootstrapMap, a < s.Nodes.length := by
    intro a ha
    rcases List.mem_append.1 ha with ha | ha
    · exact IsChain.lt hlist.1 a ha
    · obtain ⟨o, ho⟩ := hlive a ha
      exact (List.getElem?_eq_some_iff.1 ho).1
  have hnew : s.Nodes.length ∉ addrs ++ heldNodes s.PerModuleBootstrapMap :=
    fun hm => Nat.lt_irrefl _ (hlt _ hm)
  by_cases hcond : (env.USE_PER_MODULE_UOBJECT_BOOTSTRAP &&
      PackageName != "/Script/CoreUObject") = true
  · refine ⟨{ s with
        PendingRegistrantInfo := TMap.Add s.PendingRegistrantInfo this ⟨InName, PackageName⟩
        Nodes := s.Nodes ++ [some ⟨this, none⟩]
        PerModuleBootstrapMap := bucketAdd s.PerModuleBootstrapMap PackageName s.Nodes.length },
      addrs, objs, by simp only [Register, hcond, if_true]; rfl, ?_⟩
    have hperm := heldNodes_bucketAdd_perm s.PerModuleBootstrapMap PackageName s.Nodes.length hkeys
    refine ⟨⟨IsChain.alloc _ hlist.1, hlist.2⟩, bucketAdd_keys_nodup _ _ _ hkeys, ?_, ?_⟩
    · intro a ha
      rcases List.mem_cons.1 (hperm.mem_iff.1 ha) with rfl | ha
      · exact ⟨this, by simp⟩
      · obtain ⟨o, ho⟩ := hlive a ha
        exact ⟨o, by
          rw [List.getElem?_append_left (hlt a (List.mem_append_right _ ha))]; exact ho⟩
    · refine ((List.Perm.append_left addrs hperm).nodup_iff).2 ?_
      refine (List.perm_middle.nodup_iff).2 (List.nodup_cons.2 ⟨hnew, hnd⟩)
  · have hcond' : (env.USE_PER_MODULE_UOBJECT_BOOTSTRAP &&
        PackageName != "/Script/CoreUObject") = false := by simpa using hcond
    have hg2 : GlobalList ({ s with
        PendingRegistrantInfo := TMap.Add s.PendingRegistrantInfo this ⟨InName, PackageName⟩
        Nodes := s.Nodes ++ [some ⟨this, none⟩] } : State) addrs objs :=
      ⟨IsChain.alloc _ hlist.1, hlist.2⟩
    obtain ⟨s', h', hg', hm', hk'⟩ := linkPendingRegistrant_globalList (q := s.Nodes.length)
      (o := this) hg2 (by simp) (fun hm => hnew (List.mem_append_left _ hm))
    refine ⟨s', addrs ++ [s.Nodes.length], objs ++ [this],
      by simp only [Register, hcond', Bool.false_eq_true, if_false]; exact h', hg', ?_, ?_, ?_⟩
    · rw [hm']; exact hkeys
    · rw [hm']
      intro a ha
      obtain ⟨o, ho⟩ := hlive a ha
      refine ⟨o, ?_⟩
      have hna : a ∉ addrs := fun hm =>
        (List.nodup_append.1 hnd).2.2 hm ha
      rw [hk' a hna]
      simp only
      rw [List.getElem?_append_left (hlt a (List.mem_append_right _ ha))]
      exact ho
    · rw [hm']
      simp only
      rw [List.append_assoc]
      refine (List.Perm.nodup_iff (List.Perm.append_left addrs ?_)).2
        ((List.perm_middle.nodup_iff).2 (List.nodup_cons.2 ⟨hnew, hnd⟩))
      exact List.Perm.refl _

/-- Module release keeps the ledger well formed, and it returns. -/
theorem UObjectReleaseModuleRegistrants_ledgerOK (env : Env) {s : State}
    {addrs : List NodeAddr} {objs : List ObjId} (Module : FName) (h : LedgerOK s addrs objs) :
    ∃ s' addrs' objs', UObjectReleaseModuleRegistrants env s Module = .ok s' ∧
      LedgerOK s' addrs' objs' := by
  cases hf : TMap.Find s.PerModuleBootstrapMap
      ("/Script/" ++ env.PackageNameFromModuleName Module) with
  | none => exact ⟨s, addrs, objs, UObjectReleaseModuleRegistrants_absent hf, h⟩
  | some bucket =>
    obtain ⟨⟨bobjs, hheld⟩, hnd1, hnd2, hsub⟩ := h.bucket hf
    obtain ⟨s', h', hg, hm, hk⟩ :=
      UObjectReleaseModuleRegistrants_globalList h.1 hf hheld hnd1
    refine ⟨s', addrs ++ bucket, objs ++ bobjs, h', hg, ?_, ?_, ?_⟩
    · rw [hm]; exact TMap.keys_Remove_nodup _ _ h.2.1
    · rw [hm]
      intro a ha
      obtain ⟨o, ho⟩ := h.2.2.1 a (hsub a ha)
      refine ⟨o, ?_⟩
      rw [hk a ?_]
      · exact ho
      · intro hmem
        exact (List.nodup_append.1 hnd2).2.2 hmem ha
    · rw [hm]; exact hnd2

/-- Dequeuing keeps the ledger well formed, and it returns. -/
theorem DequeuePendingAutoRegistrants_ledgerOK {s : State} {addrs : List NodeAddr}
    {objs : List ObjId} (out : List FPendingRegistrant) (h : LedgerOK s addrs objs) :
    ∃ s' out', DequeuePendingAutoRegistrants s out = .ok (s', out') ∧ LedgerOK s' [] [] := by
  have hlen : addrs.length ≤ s.Nodes.length + 1 := Nat.le_succ_of_le (IsChain.length_le h.1.1)
  obtain ⟨nodes1, out1, hd, _, _, _, hkeep⟩ := dequeueLoop_cells out h.1.1 hlen
  refine ⟨{ s with GFirstPendingRegistrant := none, GLastPendingRegistrant := none,
                   Nodes := nodes1 }, out ++ out1, ?_, ?_⟩
  · simp only [DequeuePendingAutoRegistrants, bind, Except.bind, pure, Except.pure]
    rw [hd]
  · refine ⟨⟨by simp [IsChain], by simp⟩, h.2.1, ?_, ?_⟩
    · intro a ha
      obtain ⟨o, ho⟩ := h.2.2.1 a ha
      refine ⟨o, ?_⟩
      simp only
      rw [hkeep a (fun hm => (List.nodup_append.1 h.2.2.2).2.2 hm ha)]
      exact ho
    · simpa using (List.nodup_append.1 h.2.2.2).2.1

/-! ## The claims on the ledger, the holding area and the passes of the loop -/

/-- C11: `DequeuePendingAutoRegistrants` detaches the whole chain. On a well-formed global
list it returns with `GFirstPendingRegistrant` and `GLastPendingRegistrant` null, the array
is its previous contents followed by one entry per cell of the chain, in chain order, every
cell of the chain is freed, and a second call right after returns the same state and the
same array. -/
theorem C11_dequeue_detaches_whole_chain (s : State) (addrs : List NodeAddr)
    (objs : List ObjId) (out : List FPendingRegistrant) (hlist : GlobalList s addrs objs) :
    ∃ s1 out1, DequeuePendingAutoRegistrants s out = .ok (s1, out ++ out1) ∧
      out1.map (·.Object) = objs ∧
      s1.GFirstPendingRegistrant = none ∧ s1.GLastPendingRegistrant = none ∧
      (∀ a ∈ addrs, s1.Nodes[a]? = some none) ∧
      DequeuePendingAutoRegistrants s1 (out ++ out1) = .ok (s1, out ++ out1) := by
  have hlen : addrs.length ≤ s.Nodes.length + 1 := Nat.le_succ_of_le (IsChain.length_le hlist.1)
  obtain ⟨nodes1, out1, hd, hobj, _, hfree, _⟩ := dequeueLoop_cells out hlist.1 hlen
  refine ⟨{ s with GFirstPendingRegistrant := none, GLastPendingRegistrant := none,
                   Nodes := nodes1 }, out1, ?_, hobj, rfl, rfl, hfree, ?_⟩
  · simp only [DequeuePendingAutoRegistrants, bind, Except.bind, pure, Except.pure]
    rw [hd]
  · simp only [DequeuePendingAutoRegistrants, bind, Except.bind, pure, Except.pure, dequeueLoop]

/-- Instance of C11: the two cells of `twoRegistered` are detached in order and freed. -/
theorem C11_dequeue_detaches_whole_chain_witness :
    GlobalList twoRegistered [0, 1] [0, 1] ∧
    (DequeuePendingAutoRegistrants twoRegistered []).toOption.map (fun r => (r.1.Nodes, r.2)) =
      some ([none, none], [⟨0, some 1⟩, ⟨1, none⟩]) ∧
    ∃ s1 out1, DequeuePendingAutoRegistrants twoRegistered [] = .ok (s1, [] ++ out1) ∧
      out1.map (·.Object) = [0, 1] ∧
      s1.GFirstPendingRegistrant = none ∧ s1.GLastPendingRegistrant = none ∧
      (∀ a ∈ [0, 1], s1.Nodes[a]? = some none) ∧
      DequeuePendingAutoRegistrants s1 ([] ++ out1) = .ok (s1, [] ++ out1) :=
  have hl : GlobalList twoRegistered [0, 1] [0, 1] :=
    ⟨⟨rfl, by decide, some 1, rfl, rfl, by decide, none, rfl, rfl⟩, rfl⟩
  ⟨hl, rfl, C11_dequeue_detaches_whole_chain twoRegistered [0, 1] [0, 1] [] hl⟩

/-- C12: forced registration consumes the entry and uses the recorded values. Let object
`o` exist and have the dictionary entry `Info`. Whenever `UObjectForceRegistration` returns,
`o` has no entry any more, its outer is the package of `Info.PackageName` (which is in the
package table, flagged `PKG_CompiledIn`), its name is `Info.Name` and its class is
`UClass::StaticClass()`. When moreover `CreatePackage` makes no call back into the file, the
object system is initialised, `o` has no class yet, the recorded name is not `NAME_None`,
`o` is outside the range disregarded for GC or marked for the root set, and the module
release of the call (if any) returns, then the call returns, and the dictionary it leaves is
the one it found without the entry of `o`: every other entry is unchanged. -/
theorem C12_force_registration_uses_recorded_values (env : Env) (fuel : Nat) (s : State)
    (o : ObjId) (b : Bool) (Info : FPendingRegistrantInfo) (obj : UObjectBase)
    (hfind : TMap.Find s.PendingRegistrantInfo o = some Info)
    (hobj : s.Objects[o]? = some obj) :
    (∀ s', UObjectForceRegistration env (exec env fuel) s o b = .ok s' →
      TMap.Find s'.PendingRegistrantInfo o = none ∧
      ∃ obj', s'.Objects[o]? = some obj' ∧
        obj'.OuterPrivate = some (UObjectRef.package Info.PackageName) ∧
        obj'.NamePrivate = Info.Name ∧
        obj'.ClassPrivate = some UObjectRef.UClassStaticClass ∧
        TMap.Find s'.Packages Info.PackageName = some true) ∧
    ((∀ st, env.CreatePackage Info.PackageName st = []) → s.ObjInitialized = true →
      obj.ClassPrivate = none → Info.Name ≠ NAME_None →
      (env.IsDisregardForGC s.ObjObjects.length = false ∨
        (obj.ObjectFlags &&& env.RF_MarkAsRootSet ≠ 0 ∧ env.InternalFlag_RootSet ≠ 0)) →
      ∀ sR,
        (if (env.USE_PER_MODULE_UOBJECT_BOOTSTRAP && b) = true then
          UObjectReleaseModuleRegistrants env s Info.PackageName
        else pure s) = .ok sR →
        ∃ s', UObjectForceRegistration env (exec env fuel) s o b = .ok s' ∧
          s'.PendingRegistrantInfo = TMap.Remove s.PendingRegistrantInfo o ∧
          ∀ o', o' ≠ o →
            TMap.Find s'.PendingRegistrantInfo o' = TMap.Find s.PendingRegistrantInfo o') := by
  have hlt : o < s.Objects.length := (List.getElem?_eq_some_iff.1 hobj).1
  constructor
  · intro s' h
    refine ⟨(UObjectForceRegistration_some (exec_runOK env fuel) hfind h).2 hlt, ?_⟩
    simp only [UObjectForceRegistration, hfind] at h
    obtain ⟨sA, _, h⟩ := bind_ok.1 h
    obtain ⟨obj', h1, h2, h3, h4, h5, _⟩ := DeferredRegister_result h
    exact ⟨obj', h1, h2, h3, h4, h5⟩
  · intro hq hinit hnocls hn hgc sR hrel
    have same : SameLedger s sR := by
      split_ifs at hrel
      · exact UObjectReleaseModuleRegistrants_same hrel
      · cases hrel; exact SameLedger.same s
    have htable : sR.ObjObjects = s.ObjObjects := by
      split_ifs at hrel
      · exact UObjectReleaseModuleRegistrants_table hrel
      · cases hrel; rfl
    obtain ⟨s', h, hinfo, _⟩ := DeferredRegister_quiet env (exec env fuel)
      { sR with PendingRegistrantInfo := TMap.Remove sR.PendingRegistrantInfo o }
      o UObjectRef.UClassStaticClass Info.PackageName Info.Name (exec_nil env fuel) hq
      (by simpa [same.initialized] using hinit) (by simpa [same.objects] using hobj) hnocls hn
      (by simpa [htable] using hgc)
    have hres : UObjectForceRegistration env (exec env fuel) s o b = .ok s' := by
      simp only [UObjectForceRegistration, hfind]
      rw [hrel]
      exact h
    have hdict : s'.PendingRegistrantInfo = TMap.Remove s.PendingRegistrantInfo o := by
      rw [hinfo]; simp only [same.info]
    refine ⟨s', hres, hdict, fun o' ho' => ?_⟩
    rw [hdict]
    exact TMap.Find_Remove_ne _ ho'

/-- Instance of C12: in `heldState`, object `1` is recorded as `G1` of `/Script/Game`; the
forced registration gives it this name and package and leaves the entries of the objects
`0`, `2` and `3`. -/
theorem C12_force_registration_uses_recorded_values_witness :
    TMap.Find heldState.PendingRegistrantInfo 1 = some ⟨"G1", "/Script/Game"⟩ ∧
    heldState.Objects[1]? = some ⟨0x84, -1, none, none, NAME_None⟩ ∧
    UObjectForceRegistration sampleEnv (exec sampleEnv 2) heldState 1 true = .ok heldForced ∧
    heldForced.PendingRegistrantInfo =
      [(0, ⟨"A", coreUObjectPackage⟩), (2, ⟨"E1", LongEnginePackageName⟩),
        (3, ⟨"G2", "/Script/Game"⟩)] ∧
    (TMap.Find heldForced.PendingRegistrantInfo 1 = none ∧
      ∃ obj', heldForced.Objects[1]? = some obj' ∧
        obj'.OuterPrivate = some (UObjectRef.package "/Script/Game") ∧
        obj'.NamePrivate = "G1" ∧
        obj'.ClassPrivate = some UObjectRef.UClassStaticClass ∧
        TMap.Find heldForced.Packages "/Script/Game" = some true) ∧
    ∃ s', UObjectForceRegistration sampleEnv (exec sampleEnv 2) heldState 1 true = .ok s' ∧
      s'.PendingRegistrantInfo = TMap.Remove heldState.PendingRegistrantInfo 1 ∧
      ∀ o', o' ≠ 1 →
        TMap.Find s'.PendingRegistrantInfo o' = TMap.Find heldState.PendingRegistrantInfo o' :=
  ⟨rfl, rfl, rfl, rfl,
    (C12_force_registration_uses_recorded_values sampleEnv 2 heldState 1 true
      ⟨"G1", "/Script/Game"⟩ ⟨0x84, -1, none, none, NAME_None⟩ rfl rfl).1 heldForced rfl,
    (C12_force_registration_uses_recorded_values sampleEnv 2 heldState 1 true
      ⟨"G1", "/Script/Game"⟩ ⟨0x84, -1, none, none, NAME_None⟩ rfl rfl).2
      (fun _ => rfl) rfl rfl (by decide) (Or.inl rfl) heldState rfl⟩

/-- C13, as stated, fails in both directions. In `oneRegistered` the one live cell and the
one dictionary entry correspond. `DequeuePendingAutoRegistrants` frees the cell and leaves
the entry: an entry without a live node. `UObjectForceRegistration` removes the entry and
leaves the cell, still linked as head of the list: a live node without an entry. -/
theorem C13_dequeue_keeps_entry_and_force_keeps_node :
    ledgerCorrespondence oneRegistered ∧
    DequeuePendingAutoRegistrants oneRegistered [] = .ok (oneDequeued, [⟨0, none⟩]) ∧
    oneDequeued.Nodes = [none] ∧
    oneDequeued.PendingRegistrantInfo = [(0, ⟨"A", coreUObjectPackage⟩)] ∧
    ¬ ledgerCorrespondence oneDequeued ∧
    UObjectForceRegistration sampleEnv (exec sampleEnv 2) oneRegistered 0 false
      = .ok oneForced ∧
    oneForced.PendingRegistrantInfo = [] ∧ oneForced.Nodes = [some ⟨0, none⟩] ∧
    oneForced.GFirstPendingRegistrant = some 0 ∧
    ¬ ledgerCorrespondence oneForced := by
  refine ⟨?_, rfl, rfl, rfl, ?_, rfl, rfl, rfl, rfl, ?_⟩
  · show List.Perm [0] [0]
    exact List.Perm.refl _
  · intro h
    have hl : List.Perm ([] : List ObjId) [0] := h
    simpa using hl.length_eq
  · intro h
    have hl : List.Perm ([0] : List ObjId) [] := h
    simpa using hl.length_eq

/-- C13, amended: the two representations are created together and removed separately.
`Register` enters the object in the dictionary and allocates one live cell for it.
`DequeuePendingAutoRegistrants` leaves the dictionary as it is and frees exactly the cells
of the list. `UObjectForceRegistration` of an object with an entry, with a `CreatePackage`
that makes no call back, removes exactly that entry and neither frees nor allocates a cell;
for an object without entry it does nothing. `UObjectReleaseModuleRegistrants` leaves the
dictionary as it is and neither frees nor allocates a cell. -/
theorem C13_representations_removed_separately (env : Env) (fuel : Nat) (s : State) :
    (∀ this PackageName InName s', Register env s this PackageName InName = .ok s' →
      s'.PendingRegistrantInfo = TMap.Add s.PendingRegistrantInfo this ⟨InName, PackageName⟩ ∧
      cellObjects s'.Nodes = cellObjects s.Nodes ++ [some this]) ∧
    (∀ out s' out', DequeuePendingAutoRegistrants s out = .ok (s', out') →
      s'.PendingRegistrantInfo = s.PendingRegistrantInfo ∧
      ∀ addrs objs, GlobalList s addrs objs →
        (∀ a ∈ addrs, s'.Nodes[a]? = some none) ∧
        (∀ a, a ∉ addrs → s'.Nodes[a]? = s.Nodes[a]?)) ∧
    (∀ o b Info s', TMap.Find s.PendingRegistrantInfo o = some Info →
      (∀ st, env.CreatePackage Info.PackageName st = []) →
      UObjectForceRegistration env (exec env fuel) s o b = .ok s' →
      s'.PendingRegistrantInfo = TMap.Remove s.PendingRegistrantInfo o ∧
      cellObjects s'.Nodes = cellObjects s.Nodes) ∧
    (∀ o b, TMap.Find s.PendingRegistrantInfo o = none →
      UObjectForceRegistration env (exec env fuel) s o b = .ok s) ∧
    (∀ Module s', UObjectReleaseModuleRegistrants env s Module = .ok s' →
      s'.PendingRegistrantInfo = s.PendingRegistrantInfo ∧
      cellObjects s'.Nodes = cellObjects s.Nodes) := by
  refine ⟨?_, ?_, ?_, fun o b h => UObjectForceRegistration_none b h, ?_⟩
  · intro this PackageName InName s' h
    exact ⟨(Register_fields h).info, Register_cells h⟩
  · intro out s' out' h
    refine ⟨(DequeuePendingAutoRegistrants_same h).info, fun addrs objs hl => ?_⟩
    have hlen : addrs.length ≤ s.Nodes.length + 1 := Nat.le_succ_of_le (IsChain.length_le hl.1)
    obtain ⟨nodes1, out1, hd, _, _, hfree, hkeep⟩ := dequeueLoop_cells out hl.1 hlen
    unfold DequeuePendingAutoRegistrants at h
    obtain ⟨⟨nodes, o⟩, h1, h2⟩ := bind_ok.1 h
    simp only at h1
    rw [hd] at h1
    cases h1
    cases h2
    exact ⟨hfree, hkeep⟩
  · intro o b Info s' hfind hq h
    simp only [UObjectForceRegistration, hfind] at h
    obtain ⟨sA, hA, h⟩ := bind_ok.1 h
    have hA' : sA.PendingRegistrantInfo = s.PendingRegistrantInfo ∧
        cellObjects sA.Nodes = cellObjects s.Nodes := by
      split_ifs at hA
      · exact ⟨(UObjectReleaseModuleRegistrants_same hA).info,
          UObjectReleaseModuleRegistrants_cells hA⟩
      · cases hA; exact ⟨rfl, rfl⟩
    obtain ⟨f1, f2, _⟩ := DeferredRegister_frame (exec_nil env fuel) hq h
    exact ⟨by rw [f1]; simp only [hA'.1], by rw [f2]; exact hA'.2⟩
  · intro Module s' h
    exact ⟨(UObjectReleaseModuleRegistrants_same h).info,
      UObjectReleaseModuleRegistrants_cells h⟩

/-- Instance of the amended C13: the second `Register`, the dequeue and the forced
registration of object `0` in `oneRegistered`, a forced registration without entry in
`idleState`, and the release of module `Game` in `heldState`. -/
theorem C13_representations_removed_separately_witness :
    (Register sampleEnv oneRegistered 0 coreUObjectPackage "B" = .ok registeredTwice ∧
      registeredTwice.PendingRegistrantInfo =
        TMap.Add oneRegistered.PendingRegistrantInfo 0 ⟨"B", coreUObjectPackage⟩ ∧
      cellObjects registeredTwice.Nodes = cellObjects oneRegistered.Nodes ++ [some 0]) ∧
    (DequeuePendingAutoRegistrants oneRegistered [] = .ok (oneDequeued, [⟨0, none⟩]) ∧
      GlobalList oneRegistered [0] [0] ∧
      oneDequeued.PendingRegistrantInfo = oneRegistered.PendingRegistrantInfo ∧
      (∀ a ∈ [0], oneDequeued.Nodes[a]? = some none) ∧
      (∀ a, a ∉ [0] → oneDequeued.Nodes[a]? = oneRegistered.Nodes[a]?)) ∧
    (TMap.Find oneRegistered.PendingRegistrantInfo 0 = some ⟨"A", coreUObjectPackage⟩ ∧
      UObjectForceRegistration sampleEnv (exec sampleEnv 2) oneRegistered 0 false
        = .ok oneForced ∧
      oneForced.PendingRegistrantInfo = TMap.Remove oneRegistered.PendingRegistrantInfo 0 ∧
      cellObjects oneForced.Nodes = cellObjects oneRegistered.Nodes) ∧
    (TMap.Find idleState.PendingRegistrantInfo 5 = none ∧
      UObjectForceRegistration sampleEnv (exec sampleEnv 2) idleState 5 true = .ok idleState) ∧
    (UObjectReleaseModuleRegistrants sampleEnv heldState "Game" = .ok heldReleased ∧
      heldReleased.PendingRegistrantInfo = heldState.PendingRegistrantInfo ∧
      cellObjects heldReleased.Nodes = cellObjects heldState.Nodes) :=
  have hl : GlobalList oneRegistered [0] [0] := ⟨⟨rfl, by simp, none, rfl, rfl⟩, rfl⟩
  have hd := (C13_representations_removed_separately sampleEnv 2 oneRegistered).2.1 []
    oneDequeued [⟨0, none⟩] rfl
  ⟨⟨rfl, (C13_representations_removed_separately sampleEnv 2 oneRegistered).1 0
      coreUObjectPackage "B" registeredTwice rfl⟩,
    ⟨rfl, hl, hd.1, hd.2 [0] [0] hl⟩,
    ⟨rfl, rfl, (C13_representations_removed_separately sampleEnv 2 oneRegistered).2.2.1 0 false
      ⟨"A", coreUObjectPackage⟩ oneForced rfl (fun _ => rfl) rfl⟩,
    ⟨rfl, (C13_representations_removed_separately sampleEnv 2 idleState).2.2.2.1 5 true rfl⟩,
    ⟨rfl, (C13_representations_removed_separately sampleEnv 2 heldState).2.2.2.2 "Game"
      heldReleased rfl⟩⟩

/-- C14: fixed-point convergence on a synthetic self-referential chain. For every depth
`N ≥ 1` (so for 1..100), every assignment of kinds to the links, and any budget of at least
`N`: when link `0` is enqueued and materialising link `k` enqueues link `k + 1` until `N`
links exist, `ProcessNewlyLoadedUObjects(NAME_None, true)` returns; no registrant is pending
then, the three descriptor queues are empty, and the factories it called are exactly those
of the links `0 .. N - 1`, once each, in chain order. -/
theorem C14_chain_converges (N : Nat) (kind : Nat → DescriptorKind) (fuel : Nat)
    (hN : 1 ≤ N) (hfuel : N ≤ fuel) :
    ∃ s', ProcessNewlyLoadedUObjects (chainEnv N kind) (exec (chainEnv N kind) fuel) fuel
        (chainStart N kind) NAME_None true = .ok s' ∧
      s'.GFirstPendingRegistrant = none ∧ s'.DeferredCompiledInEnumRegistration = [] ∧
      s'.DeferredCompiledInStructRegistration = [] ∧ s'.DeferredCompiledInRegistration = [] ∧
      (directCalls 0 (newEvents (chainStart N kind) s')).filter Call.isFactory =
        (List.range N).map (fun k => factoryCall (kind k) k) := by
  obtain ⟨f, rfl⟩ : ∃ f, fuel = f + 1 := ⟨fuel - 1, by omega⟩
  have inv0 : ChainInv kind ({ chainStart N kind with DeferredClassRegistration := [] } : State)
      (chainQueues N kind 0) 0 := ⟨rfl, rfl, rfl, rfl, rfl, rfl, rfl⟩
  obtain ⟨s1, b1, hloop, inv1⟩ := materializeLoop_chain f (f + 1) (f + 1)
    _ 0 false inv0 (Nat.zero_le _) (by omega)
  have hq : chainQueues N kind N = ([], [], []) := by simp [chainQueues]
  rw [hq] at inv1
  have hev : ∀ s' : State, newEvents (chainStart N kind) s' = s'.Trace := by
    intro s'
    simp [newEvents, chainStart, idleState]
  have hpre : UClassRegisterAllCompiledInClasses (chainEnv N kind)
      (exec (chainEnv N kind) (f + 1)) (chainStart N kind) =
      .ok { chainStart N kind with DeferredClassRegistration := [] } := rfl
  have hc : ((chainEnv N kind).USE_PER_MODULE_UOBJECT_BOOTSTRAP && NAME_None != NAME_None)
      = false := by simp
  unfold ProcessNewlyLoadedUObjects
  simp only [hc, Bool.false_eq_true, if_false, Bool.not_true, hpre, hloop, bind, Except.bind,
    pure, Except.pure]
  split_ifs
  · refine ⟨_, rfl, inv1.first, inv1.enums, inv1.structs, inv1.classes, ?_⟩
    rw [hev]
    simp only [logCall]
    have := factoryLog_append s1 [⟨s1.Depth, Call.AssembleReferenceTokenStreams⟩]
    rw [this, inv1.log]
    simp [directCalls, Call.isFactory, chainLog]
  · refine ⟨_, rfl, inv1.first, inv1.enums, inv1.structs, inv1.classes, ?_⟩
    rw [hev]
    exact inv1.log

/-- Instance of C14: the chain of depth 3 made of an enum, a class and a struct. -/
theorem C14_chain_converges_witness :
    1 ≤ 3 ∧ 3 ≤ 3 ∧
    ProcessNewlyLoadedUObjects (chainEnv 3 sampleKinds) (exec (chainEnv 3 sampleKinds) 3) 3
      (chainStart 3 sampleKinds) NAME_None true = .ok chainDone ∧
    directCalls 0 (newEvents (chainStart 3 sampleKinds) chainDone) =
      [Call.CreatePackage chainPackage, Call.EnumRegisterFn 0, Call.ClassRegistrant 1 1,
        Call.GetDefaultObject 1, Call.CreatePackage chainPackage, Call.StructRegisterFn 2,
        Call.AssembleReferenceTokenStreams] ∧
    ∃ s', ProcessNewlyLoadedUObjects (chainEnv 3 sampleKinds) (exec (chainEnv 3 sampleKinds) 3)
        3 (chainStart 3 sampleKinds) NAME_None true = .ok s' ∧
      s'.GFirstPendingRegistrant = none ∧ s'.DeferredCompiledInEnumRegistration = [] ∧
      s'.DeferredCompiledInStructRegistration = [] ∧ s'.DeferredCompiledInRegistration = [] ∧
      (directCalls 0 (newEvents (chainStart 3 sampleKinds) s')).filter Call.isFactory =
        (List.range 3).map (fun k => factoryCall (sampleKinds k) k) :=
  ⟨by decide, by decide, rfl, rfl, C14_chain_converges 3 sampleKinds 3 (by decide) (by decide)⟩

/-- C15: with `bCanProcessNewlyLoadedObjects = false`, `ProcessNewlyLoadedUObjects` is the
module release of its package and nothing else (not even that without per-module bootstrap
or for `NAME_None`). When it returns, the log is as before, so no factory, no class
`Register`, no `DeferredRegister`, no `GetDefaultObject` and no
`AssembleReferenceTokenStreams` was called, and the three descriptor queues, the array of
deferred class infos, the dictionary and the objects are unchanged. It returns the state
itself when there is nothing to release, and it returns, with the bucket linked behind the
list, when the bucket of the package is as `Register` made it. -/
theorem C15_only_release_when_not_allowed (env : Env)
    (run : List Action → State → Except Err State) (fuel : Nat) (s : State) (Package : FName) :
    ProcessNewlyLoadedUObjects env run fuel s Package false =
      (if (env.USE_PER_MODULE_UOBJECT_BOOTSTRAP && Package != NAME_None) = true then
        UObjectReleaseModuleRegistrants env s Package
      else pure s) ∧
    (∀ s', ProcessNewlyLoadedUObjects env run fuel s Package false = .ok s' →
      s'.Trace = s.Trace ∧
      s'.DeferredCompiledInEnumRegistration = s.DeferredCompiledInEnumRegistration ∧
      s'.DeferredCompiledInStructRegistration = s.DeferredCompiledInStructRegistration ∧
      s'.DeferredCompiledInRegistration = s.DeferredCompiledInRegistration ∧
      s'.DeferredClassRegistration = s.DeferredClassRegistration ∧
      s'.PendingRegistrantInfo = s.PendingRegistrantInfo ∧ s'.Objects = s.Objects) ∧
    ((env.USE_PER_MODULE_UOBJECT_BOOTSTRAP && Package != NAME_None) = false ∨
        TMap.Find s.PerModuleBootstrapMap
          ("/Script/" ++ env.PackageNameFromModuleName Package) = none →
      ProcessNewlyLoadedUObjects env run fuel s Package false = .ok s) ∧
    (∀ addrs objs bucket bobjs, GlobalList s addrs objs →
      TMap.Find s.PerModuleBootstrapMap
        ("/Script/" ++ env.PackageNameFromModuleName Package) = some bucket →
      Held s.Nodes bucket bobjs → (addrs ++ bucket).Nodup →
      ∃ s', ProcessNewlyLoadedUObjects env run fuel s Package false = .ok s') := by
  have heq : ProcessNewlyLoadedUObjects env run fuel s Package false =
      (if (env.USE_PER_MODULE_UOBJECT_BOOTSTRAP && Package != NAME_None) = true then
        UObjectReleaseModuleRegistrants env s Package
      else pure s) := by
    unfold ProcessNewlyLoadedUObjects
    cases hc : (env.USE_PER_MODULE_UOBJECT_BOOTSTRAP && Package != NAME_None)
    · rfl
    · simp only [if_true]
      cases UObjectReleaseModuleRegistrants env s Package <;> rfl
  have hsame : ∀ s', ProcessNewlyLoadedUObjects env run fuel s Package false = .ok s' →
      SameLedger s s' := by
    intro s' h
    rw [heq] at h
    split_ifs at h
    · exact UObjectReleaseModuleRegistrants_same h
    · cases h
      exact SameLedger.same s
  refine ⟨heq, fun s' h => ?_, fun h => ?_, fun addrs objs bucket bobjs hl hf hh hn => ?_⟩
  · have f := hsame s' h
    exact ⟨f.trace, f.enums, f.structs, f.classes, f.classInfos, f.info, f.objects⟩
  · rw [heq]
    rcases h with h | h
    · simp only [h, Bool.false_eq_true, if_false]
      rfl
    · split_ifs
      · exact UObjectReleaseModuleRegistrants_absent h
      · rfl
  · rw [heq]
    split_ifs
    · obtain ⟨s', h, _⟩ := UObjectReleaseModuleRegistrants_globalList hl hf hh hn
      exact ⟨s', h⟩
    · exact ⟨s, rfl⟩

/-- Instance of C15: in `heldBusy` descriptors of all kinds and four registrants wait. The
call for module `Game` links the bucket `[1, 3]` behind the list `[0]` and calls nothing;
the call for `NAME_None` returns the state as it is. -/
theorem C15_only_release_when_not_allowed_witness :
    ProcessNewlyLoadedUObjects sampleEnv (exec sampleEnv 4) 4 heldBusy "Game" false
      = .ok heldBusyReleased ∧
    heldBusyReleased.GLastPendingRegistrant = some 3 ∧
    heldBusyReleased.PerModuleBootstrapMap = [("/Script/Engine", [2])] ∧
    (heldBusyReleased.Trace = heldBusy.Trace ∧
      heldBusyReleased.DeferredCompiledInEnumRegistration =
        heldBusy.DeferredCompiledInEnumRegistration ∧
      heldBusyReleased.DeferredCompiledInStructRegistration =
        heldBusy.DeferredCompiledInStructRegistration ∧
      heldBusyReleased.DeferredCompiledInRegistration = heldBusy.DeferredCompiledInRegistration ∧
      heldBusyReleased.DeferredClassRegistration = heldBusy.DeferredClassRegistration ∧
      heldBusyReleased.PendingRegistrantInfo = heldBusy.PendingRegistrantInfo ∧
      heldBusyReleased.Objects = heldBusy.Objects) ∧
    ProcessNewlyLoadedUObjects sampleEnv (exec sampleEnv 4) 4 heldBusy NAME_None false
      = .ok heldBusy ∧
    (∃ s', ProcessNewlyLoadedUObjects sampleEnv (exec sampleEnv 4) 4 heldBusy "Game" false
      = .ok s') :=
  have hl : GlobalList heldBusy [0] [0] := ⟨⟨rfl, by simp, none, rfl, rfl⟩, rfl⟩
  have hh : Held heldBusy.Nodes [1, 3] [1, 3] := ⟨rfl, rfl, trivial⟩
  ⟨rfl, rfl, rfl,
    (C15_only_release_when_not_allowed sampleEnv (exec sampleEnv 4) 4 heldBusy "Game").2.1
      heldBusyReleased rfl,
    (C15_only_release_when_not_allowed sampleEnv (exec sampleEnv 4) 4 heldBusy
      NAME_None).2.2.1 (Or.inl rfl),
    (C15_only_release_when_not_allowed sampleEnv (exec sampleEnv 4) 4 heldBusy "Game").2.2.2
      [0] [0] [1, 3] [1, 3] hl rfl hh (by decide)⟩

/-- C16: with per-module bootstrap compiled in, `Register` under a package other than
`/Script/CoreUObject` allocates the node, puts it at the end of the bucket of that package
(a new bucket with just this node if there was none), changes no other bucket and leaves
`GFirstPendingRegistrant`, `GLastPendingRegistrant` and the chain as they were; `Register`
under `/Script/CoreUObject` links the node at the tail of the global list and leaves the
holding map as it was. -/
theorem C16_register_routes_by_package (env : Env) (s : State) (this : ObjId)
    (PackageName InName : FName) (hper : env.USE_PER_MODULE_UOBJECT_BOOTSTRAP = true) :
    (PackageName ≠ "/Script/CoreUObject" →
      ∃ s', Register env s this PackageName InName = .ok s' ∧
        s'.Nodes = s.Nodes ++ [some ⟨this, none⟩] ∧
        TMap.Find s'.PerModuleBootstrapMap PackageName =
          some ((TMap.Find s.PerModuleBootstrapMap PackageName).getD [] ++ [s.Nodes.length]) ∧
        (∀ k, k ≠ PackageName →
          TMap.Find s'.PerModuleBootstrapMap k = TMap.Find s.PerModuleBootstrapMap k) ∧
        s'.GFirstPendingRegistrant = s.GFirstPendingRegistrant ∧
        s'.GLastPendingRegistrant = s.GLastPendingRegistrant ∧
        ∀ addrs objs, GlobalList s addrs objs → GlobalList s' addrs objs) ∧
    (PackageName = "/Script/CoreUObject" →
      ∀ addrs objs, GlobalList s addrs objs →
        ∃ s', Register env s this PackageName InName = .ok s' ∧
          GlobalList s' (addrs ++ [s.Nodes.length]) (objs ++ [this]) ∧
          s'.PerModuleBootstrapMap = s.PerModuleBootstrapMap) := by
  constructor
  · intro hne
    have hcond : (env.USE_PER_MODULE_UOBJECT_BOOTSTRAP &&
        PackageName != "/Script/CoreUObject") = true := by simp [hper, hne]
    refine ⟨{ s with
        PendingRegistrantInfo := TMap.Add s.PendingRegistrantInfo this ⟨InName, PackageName⟩
        Nodes := s.Nodes ++ [some ⟨this, none⟩]
        PerModuleBootstrapMap := bucketAdd s.PerModuleBootstrapMap PackageName s.Nodes.length },
      by simp only [Register, hcond, if_true]; rfl, rfl, ?_, ?_, rfl, rfl, ?_⟩
    · exact bucketAdd_Find_self _ _ _
    · intro k hk
      exact bucketAdd_Find_ne _ _ hk
    · intro addrs objs hl
      exact ⟨IsChain.alloc _ hl.1, hl.2⟩
  · intro heq addrs objs hl
    obtain ⟨s1, h1, hg, _⟩ := Register_globalList this PackageName InName hl (Or.inr heq)
    refine ⟨s1, h1, hg, ?_⟩
    have hcond : (env.USE_PER_MODULE_UOBJECT_BOOTSTRAP &&
        PackageName != "/Script/CoreUObject") = false := by simp [heq]
    simp only [Register, hcond, Bool.false_eq_true, if_false] at h1
    exact (linkPendingRegistrant_frame h1).1

/-- Instance of C16: in `oneRegistered`, a `Register` under `/Script/Game` opens the bucket
`[1]` and leaves the list `[0]`; a `Register` under `/Script/CoreUObject` makes the
list `[0, 1]`. -/
theorem C16_register_routes_by_package_witness :
    sampleEnv.USE_PER_MODULE_UOBJECT_BOOTSTRAP = true ∧
    GlobalList oneRegistered [0] [0] ∧
    (∃ s', Register sampleEnv oneRegistered 1 "/Script/Game" "G" = .ok s' ∧
        s'.Nodes = oneRegistered.Nodes ++ [some ⟨1, none⟩] ∧
        TMap.Find s'.PerModuleBootstrapMap "/Script/Game" =
          some ((TMap.Find oneRegistered.PerModuleBootstrapMap "/Script/Game").getD [] ++
            [oneRegistered.Nodes.length]) ∧
        (∀ k, k ≠ "/Script/Game" →
          TMap.Find s'.PerModuleBootstrapMap k =
            TMap.Find oneRegistered.PerModuleBootstrapMap k) ∧
        s'.GFirstPendingRegistrant = oneRegistered.GFirstPendingRegistrant ∧
        s'.GLastPendingRegistrant = oneRegistered.GLastPendingRegistrant ∧
        ∀ addrs objs, GlobalList oneRegistered addrs objs → GlobalList s' addrs objs) ∧
    (∃ s', Register sampleEnv oneRegistered 1 "/Script/CoreUObject" "B" = .ok s' ∧
        GlobalList s' ([0] ++ [oneRegistered.Nodes.length]) ([0] ++ [1]) ∧
        s'.PerModuleBootstrapMap = oneRegistered.PerModuleBootstrapMap) :=
  have hl : GlobalList oneRegistered [0] [0] := ⟨⟨rfl, by simp, none, rfl, rfl⟩, rfl⟩
  ⟨rfl, hl,
    (C16_register_routes_by_package sampleEnv oneRegistered 1 "/Script/Game" "G" rfl).1
      (by decide),
    (C16_register_routes_by_package sampleEnv oneRegistered 1 "/Script/CoreUObject" "B" rfl).2
      rfl [0] [0] hl⟩

/-- C17: module release of an existing bucket. On a well-formed global list, with the cells
of the bucket as `Register` made them (live, with a null link) and distinct from each other
and from the cells of the list, `UObjectReleaseModuleRegistrants` returns; the global list
is then its previous cells followed by the cells of the bucket in bucket order, the bucket
is gone from the holding map and every other bucket, and every cell outside the list and
the bucket, is as before. -/
theorem C17_release_moves_bucket_to_list (env : Env) (s : State) (Module : FName)
    (addrs : List NodeAddr) (objs : List ObjId) (bucket : List NodeAddr) (bobjs : List ObjId)
    (hlist : GlobalList s addrs objs)
    (hfind : TMap.Find s.PerModuleBootstrapMap
      ("/Script/" ++ env.PackageNameFromModuleName Module) = some bucket)
    (hheld : Held s.Nodes bucket bobjs) (hnodup : (addrs ++ bucket).Nodup) :
    ∃ s', UObjectReleaseModuleRegistrants env s Module = .ok s' ∧
      GlobalList s' (addrs ++ bucket) (objs ++ bobjs) ∧
      TMap.Find s'.PerModuleBootstrapMap
        ("/Script/" ++ env.PackageNameFromModuleName Module) = none ∧
      (∀ k, k ≠ "/Script/" ++ env.PackageNameFromModuleName Module →
        TMap.Find s'.PerModuleBootstrapMap k = TMap.Find s.PerModuleBootstrapMap k) ∧
      (∀ a, a ∉ addrs ++ bucket → s'.Nodes[a]? = s.Nodes[a]?) := by
  obtain ⟨s', h, hg, hm, hk⟩ :=
    UObjectReleaseModuleRegistrants_globalList hlist hfind hheld hnodup
  refine ⟨s', h, hg, ?_, ?_, hk⟩
  · rw [hm]; exact TMap.Find_Remove_self _ _
  · intro k hk'
    rw [hm]; exact TMap.Find_Remove_ne _ hk'

/-- Instance of C17: in `heldState` the list is `[0]` and the bucket of `/Script/Game` is
`[1, 3]`; the release of module `Game` makes the list `[0, 1, 3]` and leaves the bucket
`[2]` of `/Script/Engine`. -/
theorem C17_release_moves_bucket_to_list_witness :
    GlobalList heldState [0] [0] ∧
    TMap.Find heldState.PerModuleBootstrapMap
      ("/Script/" ++ sampleEnv.PackageNameFromModuleName "Game") = some [1, 3] ∧
    Held heldState.Nodes [1, 3] [1, 3] ∧ ([0] ++ [1, 3] : List NodeAddr).Nodup ∧
    UObjectReleaseModuleRegistrants sampleEnv heldState "Game" = .ok heldReleased ∧
    heldReleased.PerModuleBootstrapMap = [("/Script/Engine", [2])] ∧
    ∃ s', UObjectReleaseModuleRegistrants sampleEnv heldState "Game" = .ok s' ∧
      GlobalList s' ([0] ++ [1, 3]) ([0] ++ [1, 3]) ∧
      TMap.Find s'.PerModuleBootstrapMap
        ("/Script/" ++ sampleEnv.PackageNameFromModuleName "Game") = none ∧
      (∀ k, k ≠ "/Script/" ++ sampleEnv.PackageNameFromModuleName "Game" →
        TMap.Find s'.PerModuleBootstrapMap k = TMap.Find heldState.PerModuleBootstrapMap k) ∧
      (∀ a, a ∉ [0] ++ [1, 3] → s'.Nodes[a]? = heldState.Nodes[a]?) :=
  have hl : GlobalList heldState [0] [0] := ⟨⟨rfl, by simp, none, rfl, rfl⟩, rfl⟩
  have hh : Held heldState.Nodes [1, 3] [1, 3] := ⟨rfl, rfl, trivial⟩
  have hn : ([0] ++ [1, 3] : List NodeAddr).Nodup := by decide
  ⟨hl, rfl, hh, hn, rfl, rfl,
    C17_release_moves_bucket_to_list sampleEnv heldState "Game" [0] [0] [1, 3] [1, 3] hl rfl
      hh hn⟩

/-- C18: module release is idempotent. Releasing a module that has no bucket returns the
state unchanged, and whenever a release has returned, releasing the same module again
returns the very same state: list, cells and holding map are untouched by the second
call. -/
theorem C18_release_idempotent (env : Env) (s : State) (Module : FName) :
    (TMap.Find s.PerModuleBootstrapMap ("/Script/" ++ env.PackageNameFromModuleName Module)
        = none →
      UObjectReleaseModuleRegistrants env s Module = .ok s) ∧
    (∀ s1, UObjectReleaseModuleRegistrants env s Module = .ok s1 →
      UObjectReleaseModuleRegistrants env s1 Module = .ok s1) := by
  refine ⟨fun h => UObjectReleaseModuleRegistrants_absent h, fun s1 h => ?_⟩
  apply UObjectReleaseModuleRegistrants_absent
  unfold UObjectReleaseModuleRegistrants at h
  simp only at h
  split at h
  · obtain ⟨s2, _, h2⟩ := bind_ok.1 h
    simp only [pure, Except.pure, Except.ok.injEq] at h2
    subst h2
    exact TMap.Find_Remove_self _ _
  · rename_i hnone
    simp only [pure, Except.pure, Except.ok.injEq] at h
    subst h
    exact hnone

/-- Instance of C18: `idleState` has no bucket for module `Game`; in `heldState` the module
is released once, and the second release changes nothing. -/
theorem C18_release_idempotent_witness :
    (TMap.Find idleState.PerModuleBootstrapMap
        ("/Script/" ++ sampleEnv.PackageNameFromModuleName "Game") = none ∧
      UObjectReleaseModuleRegistrants sampleEnv idleState "Game" = .ok idleState) ∧
    (UObjectReleaseModuleRegistrants sampleEnv heldState "Game" = .ok heldReleased ∧
      heldState.GLastPendingRegistrant = some 0 ∧
      heldReleased.GLastPendingRegistrant = some 3 ∧
      UObjectReleaseModuleRegistrants sampleEnv heldReleased "Game" = .ok heldReleased) :=
  ⟨⟨rfl, (C18_release_idempotent sampleEnv idleState "Game").1 rfl⟩,
    rfl, rfl, rfl, (C18_release_idempotent sampleEnv heldState "Game").2 heldReleased rfl⟩

/-- C19: `UObjectReleaseAllModuleRegistrants`. On a well-formed global list, with the cells
of all buckets as `Register` made them and distinct from each other and from the cells of
the list, the two nested loops link every cell of every bucket behind the list, bucket after
bucket and in bucket order inside each, so the list is then its previous cells followed by
all held cells, each once; the holding map is emptied; and what the function does from that
state on is one call of `ProcessNewlyLoadedUObjects` that is allowed to materialise. -/
theorem C19_release_all_then_one_epoch (env : Env) (s : State) (addrs : List NodeAddr)
    (objs hobjs : List ObjId) (hlist : GlobalList s addrs objs)
    (hheld : Held s.Nodes (heldNodes s.PerModuleBootstrapMap) hobjs)
    (hnodup : (addrs ++ heldNodes s.PerModuleBootstrapMap).Nodup) :
    ∃ sR, GlobalList sR (addrs ++ heldNodes s.PerModuleBootstrapMap) (objs ++ hobjs) ∧
      sR.PerModuleBootstrapMap = [] ∧ SameLedger s sR ∧
      ∀ (run : List Action → State → Except Err State) (fuel : Nat),
        UObjectReleaseAllModuleRegistrants env run fuel s =
          ProcessNewlyLoadedUObjects env run fuel sR NAME_None true := by
  obtain ⟨s1, h1, hg, _, _⟩ :=
    forEach_link_globalList _ hobjs s addrs objs hlist hheld hnodup
  have hsame := forEach_same (fun p st st' hp => linkPendingRegistrant_same hp) _ _ _ h1
  refine ⟨{ s1 with PerModuleBootstrapMap := [] }, hg, rfl, ?_, fun run fuel => ?_⟩
  · constructor
    · exact hsame.trace
    · exact hsame.depth
    · exact hsame.initialLoad
    · exact hsame.initialized
    · exact hsame.objects
    · exact hsame.info
    · exact hsame.enums
    · exact hsame.structs
    · exact hsame.classes
    · exact hsame.classInfos
  · unfold UObjectReleaseAllModuleRegistrants
    rw [forEach_buckets, h1]
    rfl

/-- Instance of C19: from `heldState`, with the list `[0]` and the buckets `[1, 3]` and
`[2]`, the list becomes `[0, 1, 3, 2]` and the objects are registered in this order. -/
theorem C19_release_all_then_one_epoch_witness :
    GlobalList heldState [0] [0] ∧
    Held heldState.Nodes (heldNodes heldState.PerModuleBootstrapMap) [1, 3, 2] ∧
    ([0] ++ heldNodes heldState.PerModuleBootstrapMap).Nodup ∧
    UObjectReleaseAllModuleRegistrants sampleEnv (exec sampleEnv 6) 6 heldState
      = .ok heldAllDone ∧
    directCalls 0 (newEvents heldState heldAllDone) =
      [Call.DeferredRegister 0 coreUObjectPackage "A", Call.CreatePackage coreUObjectPackage,
        Call.DeferredRegister 1 "/Script/Game" "G1", Call.CreatePackage "/Script/Game",
        Call.DeferredRegister 3 "/Script/Game" "G2", Call.CreatePackage "/Script/Game",
        Call.DeferredRegister 2 LongEnginePackageName "E1",
        Call.CreatePackage LongEnginePackageName, Call.AssembleReferenceTokenStreams] ∧
    heldAllDone.PerModuleBootstrapMap = [] ∧
    ∃ sR, GlobalList sR ([0] ++ heldNodes heldState.PerModuleBootstrapMap) ([0] ++ [1, 3, 2]) ∧
      sR.PerModuleBootstrapMap = [] ∧ SameLedger heldState sR ∧
      ∀ (run : List Action → State → Except Err State) (fuel : Nat),
        UObjectReleaseAllModuleRegistrants sampleEnv run fuel heldState =
          ProcessNewlyLoadedUObjects sampleEnv run fuel sR NAME_None true :=
  have hl : GlobalList heldState [0] [0] := ⟨⟨rfl, by simp, none, rfl, rfl⟩, rfl⟩
  have hh : Held heldState.Nodes (heldNodes heldState.PerModuleBootstrapMap) [1, 3, 2] :=
    show Held heldState.Nodes [1, 3, 2] [1, 3, 2] from ⟨rfl, rfl, rfl, trivial⟩
  have hn : ([0] ++ heldNodes heldState.PerModuleBootstrapMap).Nodup :=
    show ([0, 1, 3, 2] : List NodeAddr).Nodup from by decide
  ⟨hl, hh, hn, rfl, rfl, rfl,
    C19_release_all_then_one_epoch sampleEnv heldState [0] [0] [1, 3, 2] hl hh hn⟩

/-! ## Hot reload -/

theorem TMap.Find_Assign_self {κ ν : Type} [DecidableEq κ] (m : TMap κ ν) (k : κ) (v w : ν)
    (h : TMap.Find m k = some w) : TMap.Find (TMap.Assign m k v) k = some v := by
  induction m with
  | nil => simp [TMap.Find] at h
  | cons e m ih =>
    obtain ⟨k0, w0⟩ := e
    by_cases hk : k0 = k
    · subst hk
      simp [TMap.Assign, TMap.Find, List.lookup_cons]
    · have hk' : (k == k0) = false := by simpa using fun e => hk e.symm
      simp only [TMap.Find, List.lookup_cons, hk'] at h
      simpa [TMap.Assign, TMap.Find, List.lookup_cons, hk, hk'] using ih h

theorem TMap.Assign_of_forall {κ ν : Type} [DecidableEq κ] (m : TMap κ ν) (k : κ) (v : ν)
    (h : ∀ e ∈ m, e.1 = k → e.2 = v) : TMap.Assign m k v = m := by
  induction m with
  | nil => rfl
  | cons e m ih =>
    obtain ⟨k0, w0⟩ := e
    have ih1 := ih (fun e he => h e (List.mem_cons_of_mem _ he))
    simp only [TMap.Assign, List.map_cons] at ih1 ⊢
    rw [ih1]
    by_cases hk : k0 = k
    · have := h (k0, w0) (List.mem_cons_self _ _) hk
      simp only at this
      simp [hk, this]
    · simp [hk]

theorem TMap.Assign_values {κ ν : Type} [DecidableEq κ] (m : TMap κ ν) (k : κ) (v : ν) :
    ∀ e ∈ TMap.Assign m k v, e.1 = k → e.2 = v := by
  intro e he hk
  simp only [TMap.Assign, List.mem_map] at he
  obtain ⟨e0, _, rfl⟩ := he
  by_cases h0 : e0.1 = k
  · simp [h0]
  · simp [h0] at hk

theorem TMap.Add_values {κ ν : Type} [DecidableEq κ] (m : TMap κ ν) (k : κ) (v : ν) :
    ∀ e ∈ TMap.Add m k v, e.1 = k → e.2 = v := by
  intro e he hk
  simp only [TMap.Add, TMap.Remove, List.mem_append, List.mem_filter, List.mem_singleton,
    decide_eq_true_eq] at he
  rcases he with ⟨_, hne⟩ | rfl
  · exact absurd hk hne
  · rfl

theorem List.set_of_getElem? {α : Type} (l : List α) (i : Nat) (x : α) (h : l[i]? = some x) :
    l.set i x = l := by
  apply List.ext_getElem?
  intro j
  by_cases hj : i = j
  · subst hj
    rw [List.getElem?_set_self (List.getElem?_eq_some_iff.1 h).1, h]
  · rw [List.getElem?_set_ne hj]

/-- A method call changes the object it is called on and no other. -/
theorem callMethod_getElem? (s : HotReloadState) (o : ObjId) (f : UObject → UObject)
    (c : ObjectCall) (i : Nat) :
    (callMethod s o f c).UObjects[i]? =
      if i = o then s.UObjects[i]?.map f else s.UObjects[i]? := by
  simp only [callMethod]
  by_cases hi : i = o
  · subst hi
    cases h : s.UObjects[i]? with
    | none => simp [h]
    | some obj =>
      simp only [if_true, Option.map_some']
      rw [List.getElem?_set_self (List.getElem?_eq_some_iff.1 h).1]
  · simp only [hi, if_false]
    cases h : s.UObjects[o]? with
    | none => rfl
    | some obj =>
      simp only
      rw [List.getElem?_set_ne (fun e => hi e.symm)]

theorem callMethod_called (s : HotReloadState) (o : ObjId) (f : UObject → UObject)
    (c : ObjectCall) : MethodCalled s (callMethod s o f c) o f c :=
  ⟨rfl, rfl, rfl, rfl, rfl, rfl, rfl, callMethod_getElem? s o f c⟩

theorem RemoveFromRoot_called (s : HotReloadState) (o : ObjId) :
    MethodCalled s (RemoveFromRoot s o) o (fun obj => { obj with bRootSet := false })
      (ObjectCall.RemoveFromRoot o) := callMethod_called s o _ _

theorem AddToRoot_called (s : HotReloadState) (o : ObjId) :
    MethodCalled s (AddToRoot s o) o (fun obj => { obj with bRootSet := true })
      (ObjectCall.AddToRoot o) := callMethod_called s o _ _

theorem ClearFlags_called (s : HotReloadState) (o : ObjId) (Flags : Nat) :
    MethodCalled s (ClearFlags s o Flags) o
      (fun obj => { obj with ObjectFlags := clearFlags obj.ObjectFlags Flags })
      (ObjectCall.ClearFlags o Flags) := callMethod_called s o _ _

theorem SetFlags_called (s : HotReloadState) (o : ObjId) (Flags : Nat) :
    MethodCalled s (SetFlags s o Flags) o
      (fun obj => { obj with ObjectFlags := obj.ObjectFlags ||| Flags })
      (ObjectCall.SetFlags o Flags) := callMethod_called s o _ _

theorem Rename_called (s : HotReloadState) (o : ObjId) (NewName : FName)
    (NewOuter : UObjectRef) :
    MethodCalled s (Rename s o NewName NewOuter) o
      (fun obj => { obj with NamePrivate := NewName, OuterPrivate := NewOuter })
      (ObjectCall.Rename o NewName NewOuter) := callMethod_called s o _ _

/-- The loop over the subobjects of the retired class logs one call per enum among them and
changes no object. -/
theorem removeNames_foldl (env : HotReloadEnv) :
    ∀ (subs : List ObjId) (s : HotReloadState),
      let s' := subs.foldl
        (fun st sub => if env.IsEnum sub then RemoveNamesFromMasterList st sub else st) s
      s'.GIsHotReload = s.GIsHotReload ∧ s'.ClassInfos = s.ClassInfos ∧
      s'.DeferRegisterClassMap = s.DeferRegisterClassMap ∧
      s'.HotReloadClasses = s.HotReloadClasses ∧
      s'.DeferredClassRegistration = s.DeferredClassRegistration ∧
      s'.RegisteredInfo = s.RegisteredInfo ∧ s'.UObjects = s.UObjects ∧
      s'.ObjectCalls = s.ObjectCalls ++
        (subs.filter env.IsEnum).map ObjectCall.RemoveNamesFromMasterList := by
  intro subs
  induction subs with
  | nil => intro s; simp
  | cons x subs ih =>
    intro s
    simp only [List.foldl_cons]
    by_cases hx : env.IsEnum x = true
    · simp only [hx, if_true, List.filter_cons_of_pos, List.map_cons]
      obtain ⟨h1, h2, h3, h4, h5, h6, h7, h8⟩ := ih (RemoveNamesFromMasterList s x)
      refine ⟨h1, h2, h3, h4, h5, h6, ?_, ?_⟩
      · rw [h7]
        simp only [RemoveNamesFromMasterList, callMethod]
        cases h : s.UObjects[x]? with
        | none => rfl
        | some obj => exact List.set_of_getElem? _ _ _ h
      · rw [h8]
        simp [RemoveNamesFromMasterList, callMethod]
    · simp only [hx, Bool.false_eq_true, if_false]
      have hx' : env.IsEnum x = false := by simpa using hx
      rw [List.filter_cons_of_neg (by simp [hx'])]
      exact ih s

/-- What the retirement of a changed class did: the calls it made, in order, and the
members of the class object, of its default object and of every other object afterwards. -/
theorem retireChangedClass_result {env : HotReloadEnv} {s s' : HotReloadState} {C : ObjId}
    {n : String} (h : retireChangedClass env s C n = .ok s') :
    ∃ D table, env.ClassDefaultObject C = some D ∧
      s'.GIsHotReload = s.GIsHotReload ∧ s'.ClassInfos = s.ClassInfos ∧
      s'.DeferRegisterClassMap = s.DeferRegisterClassMap ∧
      s'.HotReloadClasses = s.HotReloadClasses ∧
      s'.DeferredClassRegistration = s.DeferredClassRegistration ∧
      s'.RegisteredInfo = s.RegisteredInfo ∧
      s'.ObjectCalls = s.ObjectCalls ++
        [ObjectCall.RemoveFromRoot C,
          ObjectCall.ClearFlags C (env.RF_Standalone ||| env.RF_Public),
          ObjectCall.RemoveFromRoot D,
          ObjectCall.ClearFlags D (env.RF_Standalone ||| env.RF_Public),
          ObjectCall.Rename C
            (env.MakeUniqueObjectName table env.TransientPackage ("HOTRELOADED_" ++ n))
            env.TransientPackage,
          ObjectCall.SetFlags C env.RF_Transient,
          ObjectCall.AddToRoot C] ++
        ((env.GetObjectsWithOuter s'.UObjects C).filter env.IsEnum).map
          ObjectCall.RemoveNamesFromMasterList ∧
      (C ≠ D → s'.UObjects[C]? = s.UObjects[C]?.map (fun obj =>
        ⟨env.MakeUniqueObjectName table env.TransientPackage ("HOTRELOADED_" ++ n),
          env.TransientPackage,
          clearFlags obj.ObjectFlags (env.RF_Standalone ||| env.RF_Public) ||| env.RF_Transient,
          true⟩)) ∧
      (C ≠ D → s'.UObjects[D]? = s.UObjects[D]?.map (fun obj =>
        { obj with
          ObjectFlags := clearFlags obj.ObjectFlags (env.RF_Standalone ||| env.RF_Public)
          bRootSet := false })) ∧
      (∀ i, i ≠ C → i ≠ D → s'.UObjects[i]? = s.UObjects[i]?) := by
  unfold retireChangedClass at h
  cases hD : env.ClassDefaultObject C with
  | none => simp only [hD] at h; exact absurd h throw_ne_ok
  | some D =>
    simp only [hD, pure, Except.pure, Except.ok.injEq] at h
    have f1 := RemoveFromRoot_called s C
    generalize RemoveFromRoot s C = s1 at h f1
    have f2 := ClearFlags_called s1 C (env.RF_Standalone ||| env.RF_Public)
    generalize ClearFlags s1 C (env.RF_Standalone ||| env.RF_Public) = s2 at h f2
    have f3 := RemoveFromRoot_called s2 D
    generalize RemoveFromRoot s2 D = s3 at h f3
    have f4 := ClearFlags_called s3 D (env.RF_Standalone ||| env.RF_Public)
    generalize ClearFlags s3 D (env.RF_Standalone ||| env.RF_Public) = s4 at h f4
    generalize hnm : env.MakeUniqueObjectName s4.UObjects env.TransientPackage
      ("HOTRELOADED_" ++ n) = newName at h
    have f5 := Rename_called s4 C newName env.TransientPackage
    generalize Rename s4 C newName env.TransientPackage = s5 at h f5
    have f6 := SetFlags_called s5 C env.RF_Transient
    generalize SetFlags s5 C env.RF_Transient = s6 at h f6
    have f7 := AddToRoot_called s6 C
    generalize AddToRoot s6 C = s7 at h f7
    have f8 := removeNames_foldl env (env.GetObjectsWithOuter s7.UObjects C) s7
    simp only [h] at f8
    obtain ⟨a1, b1, c1, d1, e1, r1, l1, g1⟩ := f1
    obtain ⟨a2, b2, c2, d2, e2, r2, l2, g2⟩ := f2
    obtain ⟨a3, b3, c3, d3, e3, r3, l3, g3⟩ := f3
    obtain ⟨a4, b4, c4, d4, e4, r4, l4, g4⟩ := f4
    obtain ⟨a5, b5, c5, d5, e5, r5, l5, g5⟩ := f5
    obtain ⟨a6, b6, c6, d6, e6, r6, l6, g6⟩ := f6
    obtain ⟨a7, b7, c7, d7, e7, r7, l7, g7⟩ := f7
    obtain ⟨a8, b8, c8, d8, e8, r8, u8, l8⟩ := f8
    refine ⟨D, s4.UObjects, rfl, ?_, ?_, ?_, ?_, ?_, ?_, ?_, ?_, ?_, ?_⟩
    · rw [a8, a7, a6, a5, a4, a3, a2, a1]
    · rw [b8, b7, b6, b5, b4, b3, b2, b1]
    · rw [c8, c7, c6, c5, c4, c3, c2, c1]
    · rw [d8, d7, d6, d5, d4, d3, d2, d1]
    · rw [e8, e7, e6, e5, e4, e3, e2, e1]
    · rw [r8, r7, r6, r5, r4, r3, r2, r1]
    · rw [l8, l7, l6, l5, l4, l3, l2, l1, u8, hnm]
      simp
    · intro hne
      rw [u8, g7, g6, g5, g4, g3, g2, g1, hnm]
      simp only [if_true, if_neg hne]
      cases s.UObjects[C]? <;> rfl
    · intro hne
      rw [u8, g7, g6, g5, g4, g3, g2, g1]
      simp only [if_true, if_neg (Ne.symm hne)]
      cases s.UObjects[D]? <;> rfl
    · intro i hC hD'
      rw [u8, g7, g6, g5, g4, g3, g2, g1]
      simp only [if_neg hC, if_neg hD']

/-- The two ways in which `UClassCompiledInDefer` returns: for a name without a record, and
for a name with a record during a hot reload when the existing class is found. -/
theorem UClassCompiledInDefer_cases {env : HotReloadEnv} {s s' : HotReloadState}
    {ClassInfo : FnId} {Name : String} {ClassSize Crc : Nat}
    (h : UClassCompiledInDefer env s ClassInfo Name ClassSize Crc = .ok s') :
    ∃ Info, s.ClassInfos[ClassInfo]? = some Info ∧
      ((TMap.Find s.DeferRegisterClassMap Name = none ∧
        s' = { s with
          ClassInfos := s.ClassInfos.set ClassInfo { Info with bHasChanged := true }
          DeferRegisterClassMap := TMap.Add s.DeferRegisterClassMap Name ClassInfo
          DeferredClassRegistration := s.DeferredClassRegistration ++ [ClassInfo] }) ∨
      (∃ e Existing C sR, TMap.Find s.DeferRegisterClassMap Name = some e ∧
        s.ClassInfos[e]? = some Existing ∧ s.GIsHotReload = true ∧
        env.FindObject s.UObjects none (RemoveClassPrefix env.toEnv Name) = some C ∧
        (if (decide (Existing.Size ≠ Info.Size) || decide (Existing.Crc ≠ Info.Crc)) = true then
            retireChangedClass env
              { s with ClassInfos := s.ClassInfos.set ClassInfo { Info with
                  bHasChanged :=
                    decide (Existing.Size ≠ Info.Size) || decide (Existing.Crc ≠ Info.Crc) } }
              C (RemoveClassPrefix env.toEnv Name)
          else pure { s with ClassInfos := s.ClassInfos.set ClassInfo { Info with
              bHasChanged :=
                decide (Existing.Size ≠ Info.Size) || decide (Existing.Crc ≠ Info.Crc) } })
          = .ok sR ∧
        s' = { sR with
          ClassInfos := sR.ClassInfos.set ClassInfo { Info with
            bHasChanged :=
              decide (Existing.Size ≠ Info.Size) || decide (Existing.Crc ≠ Info.Crc)
            OldClass := some C }
          HotReloadClasses := sR.HotReloadClasses ++ [ClassInfo]
          DeferRegisterClassMap := TMap.Assign sR.DeferRegisterClassMap Name ClassInfo
          DeferredClassRegistration := sR.DeferredClassRegistration ++ [ClassInfo] })) := by
  unfold UClassCompiledInDefer at h
  cases hI : s.ClassInfos[ClassInfo]? with
  | none => simp only [hI] at h; exact absurd h throw_ne_ok
  | some Info =>
    refine ⟨Info, rfl, ?_⟩
    simp only [hI] at h
    cases hF : TMap.Find s.DeferRegisterClassMap Name with
    | none =>
      simp only [hF, pure, Except.pure, Except.ok.injEq] at h
      exact Or.inl ⟨rfl, h.symm⟩
    | some e =>
      simp only [hF] at h
      cases hE : s.ClassInfos[e]? with
      | none => simp only [hE] at h; exact absurd h throw_ne_ok
      | some Existing =>
        simp only [hE] at h
        cases hG : s.GIsHotReload with
        | false => simp only [hG, Bool.not_false, if_true] at h; exact absurd h throw_ne_ok
        | true =>
          simp only [hG, Bool.not_true, Bool.false_eq_true, if_false] at h
          cases hC : env.FindObject s.UObjects none (RemoveClassPrefix env.toEnv Name) with
          | none => simp only [hC] at h; exact absurd h throw_ne_ok
          | some C =>
            simp only [hC] at h
            obtain ⟨sR, hR, h⟩ := bind_ok.1 h
            simp only [pure, Except.pure, Except.ok.injEq] at h
            exact Or.inr ⟨e, Existing, C, sR, rfl, hE, rfl, rfl, hR, h.symm⟩

/-! ## Properties that every run keeps -/

theorem invoke_keeps {env : Env} {I : State → Prop} (hI : Invariant env I)
    {run : List Action → State → Except Err State} (hrun : Keeps I run)
    {acts : List Action} {s s' : State} (h : invoke run acts s = .ok s') (hs : I s) : I s' := by
  unfold invoke at h
  obtain ⟨s1, h1, h⟩ := bind_ok.1 h
  simp only [pure, Except.pure, Except.ok.injEq] at h
  subst h
  have h0 : I { s with Depth := s.Depth + 1 } := hI.frame s _ hs rfl rfl rfl rfl rfl rfl rfl
  exact hI.frame s1 _ (hrun _ _ _ h1 h0) rfl rfl rfl rfl rfl rfl rfl

theorem forEach_keeps {α : Type} {I : State → Prop} {body : α → State → Except Err State}
    (hbody : ∀ x s s', body x s = .ok s' → I s → I s') :
    ∀ (xs : List α) (s s' : State), forEach body xs s = .ok s' → I s → I s' := by
  intro xs
  induction xs with
  | nil =>
    intro s s' h hs
    simp only [forEach, pure, Except.pure, Except.ok.injEq] at h
    subst h
    exact hs
  | cons x xs ih =>
    intro s s' h hs
    simp only [forEach] at h
    obtain ⟨s1, h1, h⟩ := bind_ok.1 h
    exact ih s1 s' h (hbody x s s1 h1 hs)

theorem CreatePackage_keeps {env : Env} {I : State → Prop} (hI : Invariant env I)
    {run : List Action → State → Except Err State} (hrun : Keeps I run)
    {s s' : State} {PackageName : FName}
    (h : CreatePackage env run s PackageName = .ok s') (hs : I s) : I s' := by
  unfold CreatePackage at h
  obtain ⟨s2, h2, h3⟩ := bind_ok.1 h
  have h1 : I (logCall s (Call.CreatePackage PackageName)) :=
    hI.log s _ hs (by intro o p n hc; cases hc)
  have hs2 : I s2 := invoke_keeps hI hrun h2 h1
  split at h3
  · simp only [pure, Except.pure, Except.ok.injEq] at h3
    subst h3; exact hs2
  · simp only [pure, Except.pure, Except.ok.injEq] at h3
    subst h3
    exact hI.frame s2 _ hs2 rfl rfl rfl rfl rfl rfl rfl

/-- From its first statement on, `DeferredRegister` keeps a property that holds once the
entry is logged. -/
theorem DeferredRegister_keeps {env : Env} {I : State → Prop} (hI : Invariant env I)
    {run : List Action → State → Except Err State} (hrun : Keeps I run)
    {s s' : State} {this : ObjId} {cls : Option UObjectRef} {PackageName InName : FName}
    (h : DeferredRegister env run s this cls PackageName InName = .ok s')
    (hs : I (logCall s (Call.DeferredRegister this PackageName InName))) : I s' := by
  unfold DeferredRegister at h
  by_cases hinit : (logCall s (Call.DeferredRegister this PackageName InName)).ObjInitialized
  swap
  · simp [hinit, bind, Except.bind, throw, throwThe, MonadExceptOf.throw] at h
  simp only [hinit, Bool.not_true, Bool.false_eq_true, if_false] at h
  obtain ⟨u, hu, h⟩ := bind_ok.1 h
  cases hu
  obtain ⟨s1, hcp, h⟩ := bind_ok.1 h
  have hs1 : I s1 := CreatePackage_keeps hI hrun hcp hs
  cases hobj : s1.Objects[this]? with
  | none => simp only [hobj] at h; exact absurd h throw_ne_ok
  | some obj =>
    simp only [hobj] at h
    by_cases hcls : cls.isNone
    · simp [hcls, bind, Except.bind, throw, throwThe, MonadExceptOf.throw] at h
    simp only [hcls, Bool.false_eq_true, if_false] at h
    obtain ⟨u, hu, h⟩ := bind_ok.1 h
    cases hu
    by_cases hcp2 : obj.ClassPrivate.isSome
    · simp [hcp2, bind, Except.bind, throw, throwThe, MonadExceptOf.throw] at h
    simp only [hcp2, Bool.false_eq_true, if_false] at h
    obtain ⟨u, hu, h⟩ := bind_ok.1 h
    cases hu
    obtain ⟨s2, hadd, h⟩ := bind_ok.1 h
    obtain ⟨obj2, table, _, _, _, hs2⟩ := AddObject_result hadd
    have d4 : s' = s2 := by
      cases hobj2 : s2.Objects[this]? with
      | none => simp only [hobj2] at h; exact absurd h throw_ne_ok
      | some obj2 =>
        simp only [hobj2] at h
        split_ifs at h
        exact (Except.ok.inj h).symm
    subst d4
    subst hs2
    exact hI.frame s1 _ hs1 rfl (by simp) rfl rfl rfl rfl rfl

theorem UObjectForceRegistration_keeps {env : Env} {I : State → Prop} (hI : Invariant env I)
    {run : List Action → State → Except Err State} (hrun : Keeps I run)
    {s s' : State} {Object : ObjId} {b : Bool}
    (h : UObjectForceRegistration env run s Object b = .ok s') (hs : I s) : I s' := by
  cases hfind : TMap.Find s.PendingRegistrantInfo Object with
  | none =>
    rw [UObjectForceRegistration_none b hfind] at h
    cases h
    exact hs
  | some Info =>
    simp only [UObjectForceRegistration, hfind] at h
    obtain ⟨sA, hA, h⟩ := bind_ok.1 h
    have hsA : I sA ∧ sA.PendingRegistrantInfo = s.PendingRegistrantInfo := by
      split_ifs at hA
      · exact ⟨hI.release _ _ _ hs hA, (UObjectReleaseModuleRegistrants_same hA).info⟩
      · cases hA; exact ⟨hs, rfl⟩
    exact DeferredRegister_keeps hI hrun h
      (hI.force sA Object Info hsA.1 (by rw [hsA.2]; exact hfind))

theorem processRegistrantsLoop_keeps {env : Env} {I : State → Prop} (hI : Invariant env I)
    {run : List Action → State → Except Err State} (hrun : Keeps I run) :
    ∀ (fuel : Nat) (s : State) (arr : List FPendingRegistrant) (i : Nat) (s' : State),
      processRegistrantsLoop env run fuel s arr i = .ok s' → I s → I s' := by
  intro fuel
  induction fuel with
  | zero =>
    intro s arr i s' h hs
    simp only [processRegistrantsLoop] at h
    split_ifs at h
    cases h
    exact hs
  | succ fuel ih =>
    intro s arr i s' h hs
    simp only [processRegistrantsLoop] at h
    cases hi : arr[i]? with
    | none => simp only [hi] at h; cases h; exact hs
    | some r =>
      simp only [hi] at h
      obtain ⟨s1, h1, h⟩ := bind_ok.1 h
      have hs1 := UObjectForceRegistration_keeps hI hrun h1 hs
      cases hobj : s1.Objects[r.Object]? with
      | none => simp only [hobj] at h; exact absurd h throw_ne_ok
      | some obj =>
        simp only [hobj] at h
        split_ifs at h
        · simp [bind, Except.bind, throw, throwThe, MonadExceptOf.throw] at h
        · obtain ⟨u, hu, h⟩ := bind_ok.1 h
          cases hu
          obtain ⟨⟨s2, arr2⟩, h2, h⟩ := bind_ok.1 h
          exact ih _ _ _ _ h (hI.dequeue _ _ _ _ hs1 h2)

theorem UObjectProcessRegistrants_keeps {env : Env} {I : State → Prop} (hI : Invariant env I)
    {run : List Action → State → Except Err State} (hrun : Keeps I run) {fuel : Nat}
    {s s' : State} (h : UObjectProcessRegistrants env run fuel s = .ok s') (hs : I s) :
    I s' := by
  unfold UObjectProcessRegistrants at h
  split_ifs at h
  · simp [bind, Except.bind, throw, throwThe, MonadExceptOf.throw] at h
  · obtain ⟨u, hu, h⟩ := bind_ok.1 h
    cases hu
    obtain ⟨⟨s1, arr⟩, h1, h⟩ := bind_ok.1 h
    exact processRegistrantsLoop_keeps hI hrun _ _ _ _ _ h (hI.dequeue _ _ _ _ hs h1)

/-- A logged call of a callback keeps the property. -/
theorem logged_invoke_keeps {env : Env} {I : State → Prop} (hI : Invariant env I)
    {run : List Action → State → Except Err State} (hrun : Keeps I run) (c : Call)
    (hc : ∀ o p n, c ≠ Call.DeferredRegister o p n) (acts : State → List Action)
    {s s' : State} (h : invoke run (acts (logCall s c)) (logCall s c) = .ok s') (hs : I s) :
    I s' :=
  invoke_keeps hI hrun h (hI.log s c hs hc)

theorem UClassRegisterAllCompiledInClasses_keeps {env : Env} {I : State → Prop}
    (hI : Invariant env I) {run : List Action → State → Except Err State} (hrun : Keeps I run)
    {s s' : State} (h : UClassRegisterAllCompiledInClasses env run s = .ok s') (hs : I s) :
    I s' := by
  unfold UClassRegisterAllCompiledInClasses at h
  obtain ⟨s1, h1, h⟩ := bind_ok.1 h
  cases h
  have hs1 : I s1 := forEach_keeps
    (fun Class st st' hb hst =>
      logged_invoke_keeps hI hrun (Call.ClassRegister Class)
        (by intro o p n hc; cases hc) (env.ClassRegister Class) hb hst) _ _ _ h1 hs
  exact hI.frame s1 _ hs1 rfl rfl rfl rfl rfl rfl rfl

theorem UObjectLoadAllCompiledInStructs_keeps {env : Env} {I : State → Prop}
    (hI : Invariant env I) {run : List Action → State → Except Err State} (hrun : Keeps I run)
    {s s' : State} (h : UObjectLoadAllCompiledInStructs env run s = .ok s') (hs : I s) :
    I s' := by
  unfold UObjectLoadAllCompiledInStructs at h
  obtain ⟨s1, h1, h⟩ := bind_ok.1 h
  obtain ⟨s2, h2, h⟩ := bind_ok.1 h
  obtain ⟨s3, h3, h⟩ := bind_ok.1 h
  have hs0 : I { s with
      DeferredCompiledInEnumRegistration := []
      DeferredCompiledInStructRegistration := [] } :=
    hI.frame s _ hs rfl rfl rfl rfl rfl rfl rfl
  have hs1 : I s1 := forEach_keeps
    (fun (r : FPendingEnumRegistrant) st st' hb hst => CreatePackage_keeps hI hrun hb hst)
    _ _ _ h1 hs0
  have hs2 : I s2 := forEach_keeps
    (fun (r : FPendingStructRegistrant) st st' hb hst => CreatePackage_keeps hI hrun hb hst)
    _ _ _ h2 hs1
  have hs3 : I s3 := forEach_keeps
    (fun (r : FPendingEnumRegistrant) st st' hb hst =>
      logged_invoke_keeps hI hrun (Call.EnumRegisterFn r.RegisterFn)
        (by intro o p n hc; cases hc) (env.EnumRegisterFn r.RegisterFn) hb hst)
    _ _ _ h3 hs2
  exact forEach_keeps
    (fun (r : FPendingStructRegistrant) st st' hb hst =>
      logged_invoke_keeps hI hrun (Call.StructRegisterFn r.RegisterFn)
        (by intro o p n hc; cases hc) (env.StructRegisterFn r.RegisterFn) hb hst)
    _ _ _ h hs3

theorem registrantLoop_keeps {env : Env} {I : State → Prop} (hI : Invariant env I)
    {run : List Action → State → Except Err State} (hrun : Keeps I run) :
    ∀ (fns : List FnId) (s : State) (a : NewClassArrays) (s' : State) (a' : NewClassArrays),
      registrantLoop env run fns s a = .ok (s', a') → I s → I s' := by
  intro fns
  induction fns with
  | nil =>
    intro s a s' a' h hs
    simp only [registrantLoop, pure, Except.pure, Except.ok.injEq, Prod.mk.injEq] at h
    rw [← h.1]; exact hs
  | cons fn fns ih =>
    intro s a s' a' h hs
    simp only [registrantLoop] at h
    obtain ⟨s2, h2, h⟩ := bind_ok.1 h
    have hs2 : I s2 := invoke_keeps hI hrun h2
      (hI.log s _ hs (by intro o p n hc; cases hc))
    exact ih _ _ _ _ h hs2

theorem GetDefaultObject_keeps {env : Env} {I : State → Prop} (hI : Invariant env I)
    {run : List Action → State → Except Err State} (hrun : Keeps I run) {Class : ObjId}
    {s s' : State} (h : GetDefaultObject env run Class s = .ok s') (hs : I s) : I s' :=
  logged_invoke_keeps hI hrun (Call.GetDefaultObject Class)
    (by intro o p n hc; cases hc) (env.GetDefaultObject Class) h hs

theorem UObjectLoadAllCompiledInDefaultProperties_keeps {env : Env} {I : State → Prop}
    (hI : Invariant env I) {run : List Action → State → Except Err State} (hrun : Keeps I run)
    {s s' : State} (h : UObjectLoadAllCompiledInDefaultProperties env run s = .ok s')
    (hs : I s) : I s' := by
  unfold UObjectLoadAllCompiledInDefaultProperties at h
  by_cases hq : s.DeferredCompiledInRegistration.length ≠ 0
  · have hdec : decide (s.DeferredCompiledInRegistration.length ≠ 0) = true := by
      simpa using hq
    simp only [hdec, if_true] at h
    obtain ⟨⟨s1, a⟩, h1, h⟩ := bind_ok.1 h
    obtain ⟨s2, h2, h⟩ := bind_ok.1 h
    obtain ⟨s3, h3, h⟩ := bind_ok.1 h
    have hs0 : I { s with DeferredCompiledInRegistration := [] } :=
      hI.frame s _ hs rfl rfl rfl rfl rfl rfl rfl
    have hs1 : I s1 := registrantLoop_keeps hI hrun _ _ _ _ _ h1 hs0
    have hg := fun (c : ObjId) st st' (hb : GetDefaultObject env run c st = .ok st')
      (hst : I st) => GetDefaultObject_keeps hI hrun hb hst
    exact forEach_keeps hg _ _ _ h (forEach_keeps hg _ _ _ h3 (forEach_keeps hg _ _ _ h2 hs1))
  · have hdec : decide (s.DeferredCompiledInRegistration.length ≠ 0) = false := by
      simpa using hq
    simp only [hdec, Bool.false_eq_true, if_false, pure, Except.pure, Except.ok.injEq] at h
    subst h
    exact hs

theorem materializePass_keeps {env : Env} {I : State → Prop} (hI : Invariant env I)
    {run : List Action → State → Except Err State} (hrun : Keeps I run) {fuel : Nat}
    {s s' : State} (h : materializePass env run fuel s = .ok s') (hs : I s) : I s' := by
  unfold materializePass at h
  obtain ⟨s1, h1, h⟩ := bind_ok.1 h
  obtain ⟨s2, h2, h⟩ := bind_ok.1 h
  exact UObjectLoadAllCompiledInDefaultProperties_keeps hI hrun h
    (UObjectLoadAllCompiledInStructs_keeps hI hrun h2
      (UObjectProcessRegistrants_keeps hI hrun h1 hs))

theorem materializeLoop_keeps {env : Env} {I : State → Prop} (hI : Invariant env I)
    {run : List Action → State → Except Err State} (hrun : Keeps I run) (passFuel : Nat) :
    ∀ (fuel : Nat) (s : State) (b : Bool) (s' : State) (b' : Bool),
      materializeLoop env run passFuel fuel s b = .ok (s', b') → I s → I s' := by
  intro fuel
  induction fuel with
  | zero =>
    intro s b s' b' h hs
    simp only [materializeLoop] at h
    split_ifs at h
    simp only [pure, Except.pure, Except.ok.injEq, Prod.mk.injEq] at h
    rw [← h.1]; exact hs
  | succ fuel ih =>
    intro s b s' b' h hs
    simp only [materializeLoop] at h
    split_ifs at h
    · obtain ⟨s1, h1, h⟩ := bind_ok.1 h
      exact ih _ _ _ _ h (materializePass_keeps hI hrun h1 hs)
    · simp only [pure, Except.pure, Except.ok.injEq, Prod.mk.injEq] at h
      rw [← h.1]; exact hs

theorem ProcessNewlyLoadedUObjects_keeps {env : Env} {I : State → Prop} (hI : Invariant env I)
    {run : List Action → State → Except Err State} (hrun : Keeps I run) {fuel : Nat}
    {s s' : State} {Package : FName} {bCan : Bool}
    (h : ProcessNewlyLoadedUObjects env run fuel s Package bCan = .ok s') (hs : I s) :
    I s' := by
  unfold ProcessNewlyLoadedUObjects at h
  obtain ⟨sA, hA, h⟩ := bind_ok.1 h
  have hsA : I sA := by
    split_ifs at hA
    · exact hI.release _ _ _ hs hA
    · cases hA; exact hs
  cases bCan with
  | false =>
    simp only [Bool.not_false, if_true, pure, Except.pure, Except.ok.injEq] at h
    subst h
    exact hsA
  | true =>
    simp only [Bool.not_true, Bool.false_eq_true, if_false] at h
    obtain ⟨sB, hB, h⟩ := bind_ok.1 h
    obtain ⟨⟨sC, bNew⟩, hC, h⟩ := bind_ok.1 h
    have hsC : I sC := materializeLoop_keeps hI hrun fuel _ _ _ _ _ hC
      (UClassRegisterAllCompiledInClasses_keeps hI hrun hB hsA)
    split_ifs at h
    · simp only [pure, Except.pure, Except.ok.injEq] at h
      subst h
      exact hI.log sC _ hsC (by intro o p n hc; cases hc)
    · simp only [pure, Except.pure, Except.ok.injEq] at h
      subst h
      exact hsC

theorem execAction_keeps {env : Env} {I : State → Prop} (hI : Invariant env I)
    {run : List Action → State → Except Err State} (hrun : Keeps I run) {fuel : Nat}
    {a : Action} {s s' : State} (h : execAction env run fuel a s = .ok s') (hs : I s) :
    I s' := by
  cases a with
  | ConstructAndRegister InFlags PackageName InName =>
    exact hI.register s InFlags PackageName InName s' hs h
  | UObjectCompiledInDeferEnum fn pkg name dyn path =>
    simp only [execAction, pure, Except.pure, Except.ok.injEq] at h
    subst h
    unfold UObjectCompiledInDeferEnum
    refine hI.log _ _ ?_ (by intro o p n hc; cases hc)
    split_ifs <;> exact hI.frame s _ hs rfl rfl rfl rfl rfl rfl rfl
  | UObjectCompiledInDeferStruct fn pkg name dyn path =>
    simp only [execAction, pure, Except.pure, Except.ok.injEq] at h
    subst h
    unfold UObjectCompiledInDeferStruct
    refine hI.log _ _ ?_ (by intro o p n hc; cases hc)
    split_ifs <;> exact hI.frame s _ hs rfl rfl rfl rfl rfl rfl rfl
  | UObjectCompiledInDefer fn sc name pkg dyn path =>
    simp only [execAction] at h
    unfold UObjectCompiledInDefer at h
    cases dyn with
    | false =>
      simp only [Bool.not_false, if_true, pure, Except.pure, Except.ok.injEq] at h
      subst h
      refine hI.frame (logCall (logCall s _) _) _ ?_ rfl rfl rfl rfl rfl rfl rfl
      exact hI.log _ _ (hI.log s _ hs (by intro o p n hc; cases hc))
        (by intro o p n hc; cases hc)
    | true =>
      simp only [Bool.not_true, Bool.false_eq_true, if_false] at h
      split_ifs at h
      simp only [pure, Except.pure, Except.ok.injEq] at h
      subst h
      refine hI.log _ _ (hI.log _ _ ?_ (by intro o p n hc; cases hc))
        (by intro o p n hc; cases hc)
      exact hI.frame s _ hs rfl rfl rfl rfl rfl rfl rfl
  | UClassCompiledInDefer ClassInfo =>
    simp only [execAction, pure, Except.pure, Except.ok.injEq] at h
    subst h
    exact hI.frame s _ hs rfl rfl rfl rfl rfl rfl rfl
  | UObjectForceRegistration Object b =>
    exact UObjectForceRegistration_keeps hI hrun h hs
  | ProcessNewlyLoadedUObjects Package bCan =>
    exact ProcessNewlyLoadedUObjects_keeps hI hrun h hs

theorem runActions_keeps {I : State → Prop} {step : Action → State → Except Err State}
    (hstep : ∀ a s s', step a s = .ok s' → I s → I s') :
    ∀ (acts : List Action) (s s' : State), runActions step acts s = .ok s' → I s → I s' := by
  intro acts
  induction acts with
  | nil =>
    intro s s' h hs
    simp only [runActions, pure, Except.pure, Except.ok.injEq] at h
    subst h
    exact hs
  | cons a acts ih =>
    intro s s' h hs
    simp only [runActions] at h
    obtain ⟨s1, h1, h⟩ := bind_ok.1 h
    exact ih s1 s' h (hstep a s s1 h1 hs)

/-- Every run of callbacks keeps a property that the steps of the file keep. -/
theorem exec_keeps {env : Env} {I : State → Prop} (hI : Invariant env I) :
    ∀ fuel : Nat, Keeps I (exec env fuel) := by
  intro fuel
  induction fuel with
  | zero =>
    intro acts s s' h hs
    simp only [exec] at h
    split_ifs at h
    cases h
    exact hs
  | succ fuel ih =>
    intro acts s s' h hs
    simp only [exec] at h
    exact runActions_keeps (fun a st st' ha hst => execAction_keeps hI ih ha hst) acts s s' h hs

/-! ## The claims on hot reload -/

/-- C21: `UClassCompiledInDefer` sets `bHasChanged` to true exactly when no prior record
exists for the name or the size or the checksum of the prior record differs. For a prior
record with identical size and checksum `bHasChanged` is false and no method is called on
any object, so neither the existing class nor its default instance has flags cleared, its
root-set membership changed, is renamed or is marked transient. The function returns for a
name without a record, and for an identical record during a hot reload when the existing
class is found. -/
theorem C21_bHasChanged_iff_new_or_differs (env : HotReloadEnv) (s : HotReloadState)
    (ClassInfo : FnId) (Name : String) (ClassSize Crc : Nat) :
    (∀ s', UClassCompiledInDefer env s ClassInfo Name ClassSize Crc = .ok s' →
      ∃ Info Info', s.ClassInfos[ClassInfo]? = some Info ∧
        s'.ClassInfos[ClassInfo]? = some Info' ∧
        (Info'.bHasChanged = true ↔
          (TMap.Find s.DeferRegisterClassMap Name = none ∨
            ∃ e Existing, TMap.Find s.DeferRegisterClassMap Name = some e ∧
              s.ClassInfos[e]? = some Existing ∧
              (Existing.Size ≠ Info.Size ∨ Existing.Crc ≠ Info.Crc))) ∧
        (∀ e Existing, TMap.Find s.DeferRegisterClassMap Name = some e →
          s.ClassInfos[e]? = some Existing → Existing.Size = Info.Size →
          Existing.Crc = Info.Crc →
          Info'.bHasChanged = false ∧ s'.ObjectCalls = s.ObjectCalls ∧
            s'.UObjects = s.UObjects)) ∧
    (∀ Info, s.ClassInfos[ClassInfo]? = some Info →
      TMap.Find s.DeferRegisterClassMap Name = none →
      ∃ s', UClassCompiledInDefer env s ClassInfo Name ClassSize Crc = .ok s') ∧
    (∀ Info e Existing C, s.ClassInfos[ClassInfo]? = some Info →
      TMap.Find s.DeferRegisterClassMap Name = some e → s.ClassInfos[e]? = some Existing →
      s.GIsHotReload = true →
      env.FindObject s.UObjects none (RemoveClassPrefix env.toEnv Name) = some C →
      Existing.Size = Info.Size → Existing.Crc = Info.Crc →
      ∃ s', UClassCompiledInDefer env s ClassInfo Name ClassSize Crc = .ok s') := by
  refine ⟨?_, ?_, ?_⟩
  · intro s' h
    obtain ⟨Info, hI, hcase⟩ := UClassCompiledInDefer_cases h
    have hlt : ClassInfo < s.ClassInfos.length := (List.getElem?_eq_some_iff.1 hI).1
    rcases hcase with ⟨hF, hs'⟩ | ⟨e, Existing, C, sR, hF, hE, hG, hC, hR, hs'⟩
    · subst hs'
      refine ⟨Info, { Info with bHasChanged := true }, hI, List.getElem?_set_self hlt, ?_, ?_⟩
      · simp [hF]
      · intro e Existing he
        rw [hF] at he
        cases he
    · have hb : (decide (Existing.Size ≠ Info.Size) || decide (Existing.Crc ≠ Info.Crc)) = true ↔
          (Existing.Size ≠ Info.Size ∨ Existing.Crc ≠ Info.Crc) := by simp
      have hlen : ClassInfo < sR.ClassInfos.length := by
        split_ifs at hR
        · obtain ⟨_, _, _, _, hci, _⟩ := retireChangedClass_result hR
          rw [hci]
          simpa using hlt
        · cases hR
          simpa using hlt
      subst hs'
      refine ⟨Info, _, hI, List.getElem?_set_self hlen, ?_, ?_⟩
      · rw [hb, hF]
        constructor
        · intro hd
          exact Or.inr ⟨e, Existing, rfl, hE, hd⟩
        · rintro (hn | ⟨e', Existing', he', hE', hd⟩)
          · cases hn
          · cases he'
            rw [hE] at hE'
            cases hE'
            exact hd
      · intro e' Existing' he' hE' hsize hcrc
        rw [hF] at he'
        cases he'
        rw [hE] at hE'
        cases hE'
        have hbf : (decide (Existing.Size ≠ Info.Size) ||
            decide (Existing.Crc ≠ Info.Crc)) = false := by simp [hsize, hcrc]
        simp only [hbf, Bool.false_eq_true, if_false, pure, Except.pure, Except.ok.injEq] at hR
        subst hR
        exact ⟨hbf, rfl, rfl⟩
  · intro Info hI hF
    simp only [UClassCompiledInDefer, hI, hF]
    exact ⟨_, rfl⟩
  · intro Info e Existing C hI hF hE hG hC hsize hcrc
    have hbf : (decide (Existing.Size ≠ Info.Size) ||
        decide (Existing.Crc ≠ Info.Crc)) = false := by simp [hsize, hcrc]
    simp only [UClassCompiledInDefer, hI, hF, hE, hG, hC, hbf, Bool.not_true,
      Bool.false_eq_true, if_false]
    exact ⟨_, rfl⟩

/-- The recompiled class `UMyClass` with an unchanged fingerprint, and a class that is
deferred for the first time. -/
theorem C21_bHasChanged_iff_new_or_differs_witness :
    UClassCompiledInDefer hotReloadEnv reloadingState 2 "UMyClass" 16 7 = .ok unchangedDeferred ∧
    unchangedDeferred.ObjectCalls = reloadingState.ObjectCalls ∧
    unchangedDeferred.UObjects = reloadingState.UObjects ∧
    unchangedDeferred.ClassInfos[2]? = some ⟨16, 7, false, some 0⟩ ∧
    (∃ s', UClassCompiledInDefer hotReloadEnv reloadingState 1 "UOther" 24 9 = .ok s') := by
  obtain ⟨Info, Info', h1, _, _, h4⟩ :=
    (C21_bHasChanged_iff_new_or_differs hotReloadEnv reloadingState 2 "UMyClass" 16 7).1
      unchangedDeferred rfl
  cases h1
  obtain ⟨_, hc, ho⟩ := h4 0 ⟨16, 7, true, none⟩ rfl rfl rfl rfl
  exact ⟨rfl, hc, ho, rfl,
    (C21_bHasChanged_iff_new_or_differs hotReloadEnv reloadingState 1 "UOther" 24 9).2.1
      ⟨24, 9, false, none⟩ rfl rfl⟩

/-- C22 as stated fails for the default instance. After the class `UMyClass` is deferred with
a changed fingerprint, the calls on the default object `1` are `RemoveFromRoot` and
`ClearFlags` only: neither `SetFlags(RF_Transient)` nor `AddToRoot` is called on it, it does
not carry `RF_Transient` and it is not in the root set, so it is not true that both the class
and its default instance are marked transient and re-added to the root set. -/
theorem C22_default_instance_not_transient_nor_rooted :
    UClassCompiledInDefer hotReloadEnv reloadingState 1 "UMyClass" 24 9 = .ok changedDeferred ∧
    changedDeferred.ObjectCalls =
      [ObjectCall.RemoveFromRoot 0, ObjectCall.ClearFlags 0 3, ObjectCall.RemoveFromRoot 1,
        ObjectCall.ClearFlags 1 3,
        ObjectCall.Rename 0 "HOTRELOADED_MyClass_0" (UObjectRef.package "/Engine/Transient"),
        ObjectCall.SetFlags 0 0x40, ObjectCall.AddToRoot 0,
        ObjectCall.RemoveNamesFromMasterList 2] ∧
    changedDeferred.UObjects.map (fun obj => (obj.ObjectFlags, obj.bRootSet)) =
      [(0x40, true), (0x10, false), (0x01, false), (0x03, true), (0x03, true)] ∧
    ¬ (∀ o ∈ [0, 1],
        ObjectCall.SetFlags o hotReloadEnv.RF_Transient ∈ changedDeferred.ObjectCalls ∧
          ObjectCall.AddToRoot o ∈ changedDeferred.ObjectCalls) ∧
    ¬ (∀ o ∈ [0, 1], ∃ obj, changedDeferred.UObjects[o]? = some obj ∧
        obj.ObjectFlags &&& hotReloadEnv.RF_Transient ≠ 0 ∧ obj.bRootSet = true) := by
  refine ⟨rfl, by decide, by decide, by decide, ?_⟩
  intro hall
  obtain ⟨obj, h1, _, h3⟩ := hall 1 (by simp)
  have h : changedDeferred.UObjects[1]? = some ⟨"Default__MyClass", gamePackage, 0x10, false⟩ := by
    decide
  rw [h] at h1
  cases h1
  simp at h3

/-- C22 (amended): when the fingerprint of a recompiled class differs from the recorded one,
`UClassCompiledInDefer` removes the existing class object and its default instance from the
root set and clears `RF_Standalone` and `RF_Public` on both; it calls `Rename`,
`SetFlags(RF_Transient)` and `AddToRoot` on the class object only, which is moved into the
transient package under the name that `MakeUniqueObjectName` makes of `HOTRELOADED_` followed
by the class name without its prefix, so that the new name contains that name whenever the
unique name contains its base name; the enums among the subobjects of the class de-register
their names; and the old class is recorded for re-instancing in `OldClass` and in the list of
hot-reload classes. The function returns during a hot reload when the existing class and its
default object are found. -/
theorem C22_changed_class_retired (env : HotReloadEnv) (s : HotReloadState)
    (ClassInfo : FnId) (Name : String) (ClassSize Crc : Nat) (Info : FFieldCompiledInInfo)
    (e : FnId) (Existing : FFieldCompiledInInfo)
    (hI : s.ClassInfos[ClassInfo]? = some Info)
    (hF : TMap.Find s.DeferRegisterClassMap Name = some e)
    (hE : s.ClassInfos[e]? = some Existing)
    (hchanged : Existing.Size ≠ Info.Size ∨ Existing.Crc ≠ Info.Crc) :
    (∀ s', UClassCompiledInDefer env s ClassInfo Name ClassSize Crc = .ok s' →
      ∃ C D table,
        env.FindObject s.UObjects none (RemoveClassPrefix env.toEnv Name) = some C ∧
        env.ClassDefaultObject C = some D ∧
        s'.ObjectCalls = s.ObjectCalls ++
          [ObjectCall.RemoveFromRoot C,
            ObjectCall.ClearFlags C (env.RF_Standalone ||| env.RF_Public),
            ObjectCall.RemoveFromRoot D,
            ObjectCall.ClearFlags D (env.RF_Standalone ||| env.RF_Public),
            ObjectCall.Rename C
              (env.MakeUniqueObjectName table env.TransientPackage
                ("HOTRELOADED_" ++ RemoveClassPrefix env.toEnv Name))
              env.TransientPackage,
            ObjectCall.SetFlags C env.RF_Transient,
            ObjectCall.AddToRoot C] ++
          ((env.GetObjectsWithOuter s'.UObjects C).filter env.IsEnum).map
            ObjectCall.RemoveNamesFromMasterList ∧
        (C ≠ D → s'.UObjects[C]? = s.UObjects[C]?.map (fun obj =>
          ⟨env.MakeUniqueObjectName table env.TransientPackage
              ("HOTRELOADED_" ++ RemoveClassPrefix env.toEnv Name),
            env.TransientPackage,
            clearFlags obj.ObjectFlags (env.RF_Standalone ||| env.RF_Public) |||
              env.RF_Transient,
            true⟩)) ∧
        (C ≠ D → s'.UObjects[D]? = s.UObjects[D]?.map (fun obj =>
          { obj with
            ObjectFlags := clearFlags obj.ObjectFlags (env.RF_Standalone ||| env.RF_Public)
            bRootSet := false })) ∧
        (∀ i, i ≠ C → i ≠ D → s'.UObjects[i]? = s.UObjects[i]?) ∧
        s'.ClassInfos[ClassInfo]? =
          some { Info with bHasChanged := true, OldClass := some C } ∧
        s'.HotReloadClasses = s.HotReloadClasses ++ [ClassInfo] ∧
        ((∀ tbl outer base, base.data <:+: (env.MakeUniqueObjectName tbl outer base).data) →
          (RemoveClassPrefix env.toEnv Name).data <:+:
            (env.MakeUniqueObjectName table env.TransientPackage
              ("HOTRELOADED_" ++ RemoveClassPrefix env.toEnv Name)).data)) ∧
    (∀ C D, s.GIsHotReload = true →
      env.FindObject s.UObjects none (RemoveClassPrefix env.toEnv Name) = some C →
      env.ClassDefaultObject C = some D →
      ∃ s', UClassCompiledInDefer env s ClassInfo Name ClassSize Crc = .ok s') := by
  have hb : (decide (Existing.Size ≠ Info.Size) || decide (Existing.Crc ≠ Info.Crc)) = true := by
    simpa using hchanged
  have hlt : ClassInfo < s.ClassInfos.length := (List.getElem?_eq_some_iff.1 hI).1
  refine ⟨?_, ?_⟩
  · intro s' h
    obtain ⟨Info', hI', hcase⟩ := UClassCompiledInDefer_cases h
    rw [hI] at hI'
    cases hI'
    rcases hcase with ⟨hF', _⟩ | ⟨e', Existing', C, sR, hF', hE', hG, hC, hR, hs'⟩
    · rw [hF] at hF'
      cases hF'
    · rw [hF] at hF'
      cases hF'
      rw [hE] at hE'
      cases hE'
      simp only [hb, if_true] at hR hs'
      obtain ⟨D, table, hD, _, hci, _, hhc, _, _, hcalls, hCobj, hDobj, hrest⟩ :=
        retireChangedClass_result hR
      have hlen : ClassInfo < sR.ClassInfos.length := by
        rw [hci]
        simpa using hlt
      subst hs'
      refine ⟨C, D, table, hC, hD, hcalls, hCobj, hDobj, hrest,
        List.getElem?_set_self hlen, by simp only [hhc], ?_⟩
      intro hname
      refine List.IsInfix.trans ?_ (hname table env.TransientPackage _)
      rw [String.data_append]
      exact (List.suffix_append _ _).isInfix
  · intro C D hG hC hD
    simp only [UClassCompiledInDefer, hI, hF, hE, hG, hC, hb, Bool.not_true,
      Bool.false_eq_true, if_false, if_true, retireChangedClass, hD, bind, Except.bind, pure,
      Except.pure]
    exact ⟨_, rfl⟩

/-- The recompiled class `UMyClass` with a changed fingerprint. -/
theorem C22_changed_class_retired_witness :
    reloadingState.ClassInfos[1]? = some ⟨24, 9, false, none⟩ ∧
    TMap.Find reloadingState.DeferRegisterClassMap "UMyClass" = some 0 ∧
    reloadingState.ClassInfos[0]? = some ⟨16, 7, true, none⟩ ∧
    (∃ s', UClassCompiledInDefer hotReloadEnv reloadingState 1 "UMyClass" 24 9 = .ok s') ∧
    changedDeferred.UObjects[0]? =
      some ⟨"HOTRELOADED_MyClass_0", UObjectRef.package "/Engine/Transient", 0x40, true⟩ ∧
    changedDeferred.ClassInfos[1]? = some ⟨24, 9, true, some 0⟩ ∧
    changedDeferred.HotReloadClasses = [1] :=
  ⟨rfl, rfl, rfl,
    (C22_changed_class_retired hotReloadEnv reloadingState 1 "UMyClass" 24 9
      ⟨24, 9, false, none⟩ 0 ⟨16, 7, true, none⟩ rfl rfl rfl (Or.inl (by decide))).2 0 1 rfl
      (by decide) rfl,
    by decide, by decide, by decide⟩

/-- What `FindExistingObjectIfHotReload` does to the registry, whatever else it does. -/
theorem FindExistingObjectIfHotReload_registry (env : HotReloadEnv) (s : HotReloadState)
    (Outer : UObjectRef) (Name : String) (Size Crc : Nat) :
    (FindExistingObjectIfHotReload env s Outer Name Size Crc).1.RegisteredInfo =
      (match TMap.Find s.RegisteredInfo (Outer, Name) with
      | some _ => TMap.Assign s.RegisteredInfo (Outer, Name) ⟨Size, Crc⟩
      | none => TMap.Add s.RegisteredInfo (Outer, Name) ⟨Size, Crc⟩) ∧
    (FindExistingObjectIfHotReload env s Outer Name Size Crc).1.GIsHotReload =
      s.GIsHotReload := by
  simp only [FindExistingObjectIfHotReload]
  cases s.GIsHotReload
  · exact ⟨rfl, rfl⟩
  · cases env.FindObject s.UObjects (some Outer) Name with
    | none => exact ⟨rfl, rfl⟩
    | some X =>
      simp only [Bool.not_true, Bool.false_eq_true, if_false]
      split_ifs <;> exact ⟨rfl, rfl⟩

/-- C23 as stated fails when an object of the name exists during a hot reload. The struct
`Orphan` has no record in the registry; `FindExistingObjectIfHotReload` clears its flags,
removes it from the root set and renames it into the transient package. -/
theorem C23_unrecorded_existing_object_retired :
    TMap.Find reloadingState.RegisteredInfo (gamePackage, "Orphan") = none ∧
    reloadingState.UObjects[4]? = some ⟨"Orphan", gamePackage, 0x03, true⟩ ∧
    (FindExistingObjectIfHotReload hotReloadEnv reloadingState gamePackage "Orphan"
        8 3).1.ObjectCalls =
      [ObjectCall.ClearFlags 4 3, ObjectCall.RemoveFromRoot 4,
        ObjectCall.Rename 4 "HOTRELOADED_Orphan_0" (UObjectRef.package "/Engine/Transient")] ∧
    (FindExistingObjectIfHotReload hotReloadEnv reloadingState gamePackage "Orphan"
        8 3).1.UObjects[4]? =
      some ⟨"HOTRELOADED_Orphan_0", UObjectRef.package "/Engine/Transient", 0x00, false⟩ ∧
    ¬ ((FindExistingObjectIfHotReload hotReloadEnv reloadingState gamePackage "Orphan"
          8 3).1.ObjectCalls = reloadingState.ObjectCalls ∧
        (FindExistingObjectIfHotReload hotReloadEnv reloadingState gamePackage "Orphan"
          8 3).1.UObjects = reloadingState.UObjects) := by
  refine ⟨by decide, by decide, by decide, by decide, ?_⟩
  rintro ⟨h, _⟩
  revert h
  decide

/-- C23 (amended): for a key absent from the fingerprint registry,
`FindExistingObjectIfHotReload` records the fingerprint and returns null. It calls no method
of any object, so it clears no flag, removes nothing from the root set and renames nothing,
when hot reload is not active or no object of the name exists under the outer. When hot
reload is active and such an object exists, the type counts as changed and that object is
retired: its flags `RF_Standalone` and `RF_Public` are cleared, it is removed from the root
set and renamed into the transient package. -/
theorem C23_new_key_recorded (env : HotReloadEnv) (s : HotReloadState)
    (Outer : UObjectRef) (Name : String) (Size Crc : Nat)
    (hnew : TMap.Find s.RegisteredInfo (Outer, Name) = none) :
    TMap.Find (FindExistingObjectIfHotReload env s Outer Name Size Crc).1.RegisteredInfo
      (Outer, Name) = some ⟨Size, Crc⟩ ∧
    (FindExistingObjectIfHotReload env s Outer Name Size Crc).2 = none ∧
    (s.GIsHotReload = false ∨ env.FindObject s.UObjects (some Outer) Name = none →
      (FindExistingObjectIfHotReload env s Outer Name Size Crc).1.ObjectCalls = s.ObjectCalls ∧
      (FindExistingObjectIfHotReload env s Outer Name Size Crc).1.UObjects = s.UObjects) ∧
    (∀ Existing, s.GIsHotReload = true →
      env.FindObject s.UObjects (some Outer) Name = some Existing →
      ∃ table,
        (FindExistingObjectIfHotReload env s Outer Name Size Crc).1.ObjectCalls =
          s.ObjectCalls ++
            [ObjectCall.ClearFlags Existing (env.RF_Standalone ||| env.RF_Public),
              ObjectCall.RemoveFromRoot Existing,
              ObjectCall.Rename Existing
                (env.MakeUniqueObjectName table env.TransientPackage ("HOTRELOADED_" ++ Name))
                env.TransientPackage] ∧
        (FindExistingObjectIfHotReload env s Outer Name Size Crc).1.UObjects[Existing]? =
          s.UObjects[Existing]?.map (fun obj =>
            ⟨env.MakeUniqueObjectName table env.TransientPackage ("HOTRELOADED_" ++ Name),
              env.TransientPackage,
              clearFlags obj.ObjectFlags (env.RF_Standalone ||| env.RF_Public), false⟩)) := by
  refine ⟨?_, ?_, ?_, ?_⟩
  · rw [(FindExistingObjectIfHotReload_registry env s Outer Name Size Crc).1, hnew]
    exact TMap.Find_Add_self _ _ _
  · unfold FindExistingObjectIfHotReload
    simp only [hnew]
    split_ifs
    · rfl
    · split <;> rfl
  · intro hq
    unfold FindExistingObjectIfHotReload
    simp only [hnew]
    rcases hq with hG | hX
    · simp [hG]
    · simp only [hX]
      split_ifs <;> exact ⟨rfl, rfl⟩
  · intro Existing hG hX
    unfold FindExistingObjectIfHotReload
    simp only [hnew, hG, hX, Bool.not_true, Bool.false_eq_true, if_false, if_true,
      retireChangedObject]
    refine ⟨(RemoveFromRoot (ClearFlags s Existing (env.RF_Standalone ||| env.RF_Public))
      Existing).UObjects, ?_, ?_⟩
    · simp only [Rename, RemoveFromRoot, ClearFlags, callMethod, List.append_assoc,
        List.singleton_append]
      rfl
    · simp only [Rename, RemoveFromRoot, ClearFlags, callMethod_getElem?, if_true]
      cases s.UObjects[Existing]? <;> rfl

/-- The struct `Fresh`, which has no record and does not exist, during a hot reload. -/
theorem C23_new_key_recorded_witness :
    TMap.Find reloadingState.RegisteredInfo (gamePackage, "Fresh") = none ∧
    TMap.Find (FindExistingObjectIfHotReload hotReloadEnv reloadingState gamePackage "Fresh"
      8 3).1.RegisteredInfo (gamePackage, "Fresh") = some ⟨8, 3⟩ ∧
    (FindExistingObjectIfHotReload hotReloadEnv reloadingState gamePackage "Fresh" 8 3).2 =
      none ∧
    (FindExistingObjectIfHotReload hotReloadEnv reloadingState gamePackage "Fresh"
      8 3).1.ObjectCalls = [] :=
  ⟨by decide,
    (C23_new_key_recorded hotReloadEnv reloadingState gamePackage "Fresh" 8 3
      (by decide)).1,
    (C23_new_key_recorded hotReloadEnv reloadingState gamePackage "Fresh" 8 3
      (by decide)).2.1,
    ((C23_new_key_recorded hotReloadEnv reloadingState gamePackage "Fresh" 8 3
      (by decide)).2.2.1 (Or.inr (by decide))).1⟩

/-! ## The claims on forced registration and on draining -/

/-- Before `UObjectBaseInit` the first statement of `DeferredRegister` is a failing
`check`, whatever the callbacks would do. -/
theorem DeferredRegister_uninitialized (env : Env)
    (run : List Action → State → Except Err State) (s : State) (this : ObjId)
    (cls : Option UObjectRef) (PackageName InName : FName) (hinit : s.ObjInitialized = false) :
    DeferredRegister env run s this cls PackageName InName = .error Err.check := by
  simp only [DeferredRegister, logCall, hinit, Bool.not_false, if_true]
  rfl

/-- C24: `UObjectForceRegistration` called while `UObjectInitialized()` is false, for an
object with a pending entry, ends in the fatal assertion at the head of `DeferredRegister`:
it never returns a state, so the object is assigned no name, outer, class or index; the
result does not depend on the callbacks, none of which is reached. The result is the failed
`check` whenever the module release in front of it returns, as it does in a well-formed
ledger. -/
theorem C24_force_registration_before_init_aborts (env : Env)
    (run : List Action → State → Except Err State) (s : State) (Object : ObjId) (b : Bool)
    (Info : FPendingRegistrantInfo)
    (hfind : TMap.Find s.PendingRegistrantInfo Object = some Info)
    (hinit : s.ObjInitialized = false) :
    (∀ s', UObjectForceRegistration env run s Object b ≠ .ok s') ∧
    (∀ sA, (if (env.USE_PER_MODULE_UOBJECT_BOOTSTRAP && b) = true then
          UObjectReleaseModuleRegistrants env s Info.PackageName else pure s) = .ok sA →
      UObjectForceRegistration env run s Object b = .error Err.check) ∧
    (∀ addrs objs, LedgerOK s addrs objs →
      UObjectForceRegistration env run s Object b = .error Err.check) := by
  have key : ∀ sA, (if (env.USE_PER_MODULE_UOBJECT_BOOTSTRAP && b) = true then
        UObjectReleaseModuleRegistrants env s Info.PackageName else pure s) = .ok sA →
      UObjectForceRegistration env run s Object b = .error Err.check := by
    intro sA hA
    have same : SameLedger s sA := by
      split_ifs at hA
      · exact UObjectReleaseModuleRegistrants_same hA
      · cases hA; exact SameLedger.same s
    simp only [UObjectForceRegistration, hfind, hA, bind, Except.bind]
    exact DeferredRegister_uninitialized env run _ Object _ _ _
      (by simp only [same.initialized, hinit])
  refine ⟨?_, key, ?_⟩
  · intro s' h
    cases hA : (if (env.USE_PER_MODULE_UOBJECT_BOOTSTRAP && b) = true then
        UObjectReleaseModuleRegistrants env s Info.PackageName else pure s) with
    | error e =>
      simp only [UObjectForceRegistration, hfind, hA, bind, Except.bind] at h
      cases h
    | ok sA =>
      rw [key sA hA] at h
      cases h
  · intro addrs objs hok
    by_cases hb : (env.USE_PER_MODULE_UOBJECT_BOOTSTRAP && b) = true
    · obtain ⟨sA, _, _, hA, _⟩ :=
        UObjectReleaseModuleRegistrants_ledgerOK env Info.PackageName hok
      exact key sA (by rw [if_pos hb]; exact hA)
    · exact key s (by rw [if_neg hb]; rfl)

/-- One registered object, before `UObjectBaseInit`. -/
theorem C24_force_registration_before_init_aborts_witness :
    TMap.Find uninitializedState.PendingRegistrantInfo 0 = some ⟨"A", coreUObjectPackage⟩ ∧
    uninitializedState.ObjInitialized = false ∧
    UObjectForceRegistration sampleEnv (exec sampleEnv 2) uninitializedState 0 true =
      .error Err.check :=
  ⟨rfl, rfl,
    (C24_force_registration_before_init_aborts sampleEnv (exec sampleEnv 2) uninitializedState 0
      true ⟨"A", coreUObjectPackage⟩ rfl rfl).2.1 uninitializedState rfl⟩

theorem dequeueLoop_shift :
    ∀ (fuel : Nat) (nodes : List (Option FPendingRegistrant)) (p : Option NodeAddr)
      (out : List FPendingRegistrant) (nodes' : List (Option FPendingRegistrant))
      (out' : List FPendingRegistrant),
      dequeueLoop fuel nodes p out = .ok (nodes', out') →
      ∃ more, out' = out ++ more ∧
        ∀ out2, dequeueLoop fuel nodes p out2 = .ok (nodes', out2 ++ more) := by
  intro fuel
  induction fuel with
  | zero =>
    intro nodes p out nodes' out' h
    cases p with
    | none =>
      simp only [dequeueLoop, pure, Except.pure, Except.ok.injEq, Prod.mk.injEq] at h
      exact ⟨[], by simp [h.2], fun out2 => by simp [dequeueLoop, pure, Except.pure, h.1]⟩
    | some a => simp only [dequeueLoop] at h; exact absurd h throw_ne_ok
  | succ fuel ih =>
    intro nodes p out nodes' out' h
    cases p with
    | none =>
      simp only [dequeueLoop, pure, Except.pure, Except.ok.injEq, Prod.mk.injEq] at h
      exact ⟨[], by simp [h.2], fun out2 => by simp [dequeueLoop, pure, Except.pure, h.1]⟩
    | some a =>
      simp only [dequeueLoop] at h
      cases hn : nodes[a]? with
      | none => simp only [hn] at h; exact absurd h throw_ne_ok
      | some c =>
        cases c with
        | none => simp only [hn] at h; exact absurd h throw_ne_ok
        | some r =>
          simp only [hn] at h
          obtain ⟨more, hm, hall⟩ := ih _ _ _ _ _ h
          refine ⟨r :: more, by simpa using hm, fun out2 => ?_⟩
          simp only [dequeueLoop, hn]
          rw [hall (out2 ++ [r])]
          simp

/-- Dequeuing onto an array appends what dequeuing onto an empty array returns. -/
theorem DequeuePendingAutoRegistrants_shift {s s' : State} {out out' : List FPendingRegistrant}
    (h : DequeuePendingAutoRegistrants s out = .ok (s', out')) :
    ∃ arrived, out' = out ++ arrived ∧
      DequeuePendingAutoRegistrants s [] = .ok (s', arrived) := by
  unfold DequeuePendingAutoRegistrants at h
  obtain ⟨⟨nodes, o⟩, h1, h2⟩ := bind_ok.1 h
  simp only [pure, Except.pure, Except.ok.injEq, Prod.mk.injEq] at h2
  obtain ⟨more, hm, hall⟩ := dequeueLoop_shift _ _ _ _ _ _ h1
  refine ⟨more, by rw [← h2.2]; exact hm, ?_⟩
  simp only [DequeuePendingAutoRegistrants, bind, Except.bind, pure, Except.pure]
  have := hall []
  simp only [List.nil_append] at this
  rw [this, ← h2.1]

/-- The registrants processed at the end are those processed so far, then those waiting,
then later arrivals. -/
theorem Drains.all_eq {env : Env} {run : List Action → State → Except Err State}
    {s s' : State} {processed todo all : List FPendingRegistrant}
    (h : Drains env run s processed todo s' all) : ∃ later, all = processed ++ todo ++ later := by
  induction h with
  | finished s processed => exact ⟨[], by simp⟩
  | @step _ _ _ _ _ _ arrived _ r _ _ _ ih =>
    obtain ⟨later, hl⟩ := ih
    exact ⟨arrived ++ later, by simp [hl]⟩

/-- The loop of `UObjectProcessRegistrants` works in the order of `Drains`. -/
theorem processRegistrantsLoop_drains {env : Env}
    {run : List Action → State → Except Err State} :
    ∀ (fuel : Nat) (s : State) (arr : List FPendingRegistrant) (i : Nat) (s' : State),
      i ≤ arr.length → processRegistrantsLoop env run fuel s arr i = .ok s' →
      s.GFirstPendingRegistrant = none → s.GLastPendingRegistrant = none →
      (∃ all, Drains env run s (arr.take i) (arr.drop i) s' all) ∧
        s'.GFirstPendingRegistrant = none ∧ s'.GLastPendingRegistrant = none := by
  intro fuel
  induction fuel with
  | zero =>
    intro s arr i s' hi h hf hl
    simp only [processRegistrantsLoop] at h
    split_ifs at h with hlt
    cases h
    have hi' : i = arr.length := Nat.le_antisymm hi (Nat.le_of_not_lt hlt)
    subst hi'
    refine ⟨⟨arr, ?_⟩, hf, hl⟩
    simpa using @Drains.finished env run s arr
  | succ fuel ih =>
    intro s arr i s' hi h hf hl
    simp only [processRegistrantsLoop] at h
    cases hr : arr[i]? with
    | none =>
      simp only [hr, pure, Except.pure, Except.ok.injEq] at h
      subst h
      have hi' : i = arr.length := Nat.le_antisymm hi (List.getElem?_eq_none_iff.1 hr)
      subst hi'
      refine ⟨⟨arr, ?_⟩, hf, hl⟩
      simpa using @Drains.finished env run s arr
    | some r =>
      simp only [hr] at h
      obtain ⟨s1, h1, h⟩ := bind_ok.1 h
      cases hobj1 : s1.Objects[r.Object]? with
      | none => simp only [hobj1] at h; exact absurd h throw_ne_ok
      | some obj =>
        simp only [hobj1] at h
        split_ifs at h
        · simp [bind, Except.bind, throw, throwThe, MonadExceptOf.throw] at h
        · obtain ⟨u, hu, h⟩ := bind_ok.1 h
          cases hu
          obtain ⟨⟨s2, arr2⟩, h2, hloop⟩ := bind_ok.1 h
          obtain ⟨arrived, harr, hd⟩ := DequeuePendingAutoRegistrants_shift h2
          obtain ⟨hf2, hl2⟩ := DequeuePendingAutoRegistrants_first h2
          have hlt : i < arr.length := (List.getElem?_eq_some_iff.1 hr).1
          have hget : arr[i] = r := by
            have := List.getElem?_eq_getElem hlt
            rw [hr] at this
            exact (Option.some.inj this).symm
          obtain ⟨⟨all, hdr⟩, hf', hl'⟩ := ih s2 arr2 (i + 1) s'
            (by rw [harr, List.length_append]; omega) hloop hf2 hl2
          refine ⟨⟨all, ?_⟩, hf', hl'⟩
          have htake : arr2.take (i + 1) = arr.take i ++ [r] := by
            rw [harr, List.take_append_of_le_length (by omega), List.take_succ, hr]
            rfl
          have hdrop : arr2.drop (i + 1) = arr.drop (i + 1) ++ arrived := by
            rw [harr, List.drop_append_of_le_length (by omega)]
          rw [htake, hdrop] at hdr
          have hcons : arr.drop i = r :: arr.drop (i + 1) := by
            rw [List.drop_eq_getElem_cons hlt, hget]
          rw [hcons]
          exact Drains.step r h1 hd hdr

/-- C25: `UObjectProcessRegistrants` drains re-entrantly. For every initial list and every
behaviour of forced registration, with callbacks that register further objects, it dequeues
the list and then works in the order of `Drains`: each dequeued registrant is force-registered
exactly once, the initial contents of the list first, in the order of the list, and then the
registrants enqueued during processing in the order of their arrival; and when the function
returns the global list is empty. -/
theorem C25_process_registrants_drains (env : Env)
    (run : List Action → State → Except Err State) (fuel : Nat) (s s' : State)
    (h : UObjectProcessRegistrants env run fuel s = .ok s') :
    ∃ s0 initial later,
      DequeuePendingAutoRegistrants s [] = .ok (s0, initial) ∧
      Drains env run s0 [] initial s' (initial ++ later) ∧
      (∀ addrs objs, GlobalList s addrs objs → initial.map (·.Object) = objs) ∧
      s'.GFirstPendingRegistrant = none ∧ s'.GLastPendingRegistrant = none := by
  unfold UObjectProcessRegistrants at h
  split_ifs at h
  · simp [bind, Except.bind, throw, throwThe, MonadExceptOf.throw] at h
  · obtain ⟨u, hu, h⟩ := bind_ok.1 h
    cases hu
    obtain ⟨⟨s0, initial⟩, h1, hloop⟩ := bind_ok.1 h
    obtain ⟨hf, hl⟩ := DequeuePendingAutoRegistrants_first h1
    obtain ⟨⟨all, hdr⟩, hf', hl'⟩ :=
      processRegistrantsLoop_drains fuel s0 initial 0 s' (Nat.zero_le _) hloop hf hl
    simp only [List.take_zero, List.drop_zero] at hdr
    obtain ⟨later, hall⟩ := hdr.all_eq
    simp only [List.nil_append] at hall
    subst hall
    refine ⟨s0, initial, later, h1, hdr, ?_, hf', hl'⟩
    intro addrs objs hlist
    have hlen : addrs.length ≤ s.Nodes.length + 1 :=
      Nat.le_succ_of_le (IsChain.length_le hlist.1)
    obtain ⟨nodes1, out1, hd, hobjs, _⟩ := dequeueLoop_cells [] hlist.1 hlen
    unfold DequeuePendingAutoRegistrants at h1
    obtain ⟨⟨nodes, o1⟩, g1, g2⟩ := bind_ok.1 h1
    simp only at g1
    rw [hd] at g1
    cases g1
    cases g2
    simpa using hobjs

/-- One registered object whose registration makes a second object register itself: the
second is processed after the first, in the same call. -/
theorem C25_process_registrants_drains_witness :
    UObjectProcessRegistrants reentrantEnv (exec reentrantEnv 3) 3 oneRegistered =
      .ok reentrantDone ∧
    reentrantDone.PendingRegistrantInfo = [] ∧
    (reentrantDone.Objects.map (·.NamePrivate)) = ["A", "B"] ∧
    ∃ s0 initial later,
      DequeuePendingAutoRegistrants oneRegistered [] = .ok (s0, initial) ∧
      Drains reentrantEnv (exec reentrantEnv 3) s0 [] initial reentrantDone
        (initial ++ later) ∧
      (∀ addrs objs, GlobalList oneRegistered addrs objs → initial.map (·.Object) = objs) ∧
      reentrantDone.GFirstPendingRegistrant = none ∧
      reentrantDone.GLastPendingRegistrant = none :=
  ⟨rfl, rfl, rfl,
    C25_process_registrants_drains reentrantEnv (exec reentrantEnv 3) 3 oneRegistered
      reentrantDone rfl⟩

theorem registrations_append (o : ObjId) (tr evs : List Event) :
    registrations o (tr ++ evs) = registrations o tr + registrations o evs := by
  simp [registrations, List.countP_append]

theorem registrations_other (o : ObjId) (d : Nat) (c : Call)
    (hc : ∀ p n, c ≠ Call.DeferredRegister o p n) : registrations o [⟨d, c⟩] = 0 := by
  cases c <;> simp [registrations, List.countP_cons]
  rename_i o' p n
  intro ho
  exact hc p n (by rw [ho])

theorem registrations_self (o : ObjId) (d : Nat) (p n : FName) :
    registrations o [⟨d, Call.DeferredRegister o p n⟩] = 1 := by
  simp [registrations, List.countP_cons]

/-- That an object is settled, with a fixed number of registrations, is kept by every step
of the file. -/
theorem Settled_invariant (env : Env) (o : ObjId) (n : Nat) : Invariant env (Settled o n) where
  frame := by
    rintro s s' ⟨h1, h2, h3⟩ ht ho hp _ _ _ _
    exact ⟨by rw [ho]; exact h1, by rw [hp]; exact h2, by rw [ht]; exact h3⟩
  log := by
    rintro s c ⟨h1, h2, h3⟩ hc
    refine ⟨h1, h2, ?_⟩
    simp only [logCall]
    rw [registrations_append, registrations_other o _ c (fun p n => hc o p n), h3]
    rfl
  register := by
    rintro s InFlags PackageName InName s' ⟨h1, h2, h3⟩ h
    have f := Register_fields h
    simp only [constructUObjectBase] at f
    refine ⟨?_, ?_, ?_⟩
    · rw [f.objects]
      exact Nat.lt_of_lt_of_le h1 (by simp)
    · rw [f.info]
      simp only
      rw [TMap.Find_Add_ne _ _ (Nat.ne_of_lt h1)]
      exact h2
    · rw [f.trace]; exact h3
  release := by
    rintro s Module s' ⟨h1, h2, h3⟩ h
    have f := UObjectReleaseModuleRegistrants_same h
    exact ⟨by rw [f.objects]; exact h1, by rw [f.info]; exact h2, by rw [f.trace]; exact h3⟩
  dequeue := by
    rintro s out s' out' ⟨h1, h2, h3⟩ h
    have f := DequeuePendingAutoRegistrants_same h
    exact ⟨by rw [f.objects]; exact h1, by rw [f.info]; exact h2, by rw [f.trace]; exact h3⟩
  force := by
    rintro s Object Info ⟨h1, h2, h3⟩ hfind
    have hne : Object ≠ o := by
      intro e
      rw [e, h2] at hfind
      cases hfind
    refine ⟨h1, TMap.Find_Remove_none _ h2, ?_⟩
    simp only [logCall]
    rw [registrations_append, registrations_other o _ _ (fun p n hc => by
      cases hc
      exact hne rfl), h3]
    rfl

/-- C26: `UObjectForceRegistration` removes the entry of the object from the dictionary
before it invokes `DeferredRegister`. The state that `DeferredRegister` starts from has no
entry for the object, and neither has any state that the callbacks reach from the point where
`DeferredRegister` calls out, whatever calls into the file they make; in each of these states
a nested `UObjectForceRegistration` on the object does nothing. Over the whole call,
callbacks at every depth of nesting included, `DeferredRegister` is entered on the object
exactly once, and afterwards the object has no entry, so that forcing it again registers
nothing. -/
theorem C26_registered_once (env : Env) (fuel : Nat) (s s' : State)
    (Object : ObjId) (b : Bool) (Info : FPendingRegistrantInfo)
    (hfind : TMap.Find s.PendingRegistrantInfo Object = some Info)
    (hobj : Object < s.Objects.length)
    (h : UObjectForceRegistration env (exec env fuel) s Object b = .ok s') :
    (∃ sA, (if (env.USE_PER_MODULE_UOBJECT_BOOTSTRAP && b) = true then
          UObjectReleaseModuleRegistrants env s Info.PackageName else pure s) = .ok sA ∧
      TMap.Find (TMap.Remove sA.PendingRegistrantInfo Object) Object = none ∧
      DeferredRegister env (exec env fuel)
        { sA with PendingRegistrantInfo := TMap.Remove sA.PendingRegistrantInfo Object }
        Object (some UObjectRef.UClassStaticClass) Info.PackageName Info.Name = .ok s' ∧
      ∀ acts mid,
        exec env fuel acts
          { logCall (logCall
              { sA with PendingRegistrantInfo := TMap.Remove sA.PendingRegistrantInfo Object }
              (Call.DeferredRegister Object Info.PackageName Info.Name))
              (Call.CreatePackage Info.PackageName) with Depth := sA.Depth + 1 } = .ok mid →
        TMap.Find mid.PendingRegistrantInfo Object = none ∧
          registrations Object mid.Trace = registrations Object s.Trace + 1 ∧
          ∀ b', UObjectForceRegistration env (exec env fuel) mid Object b' = .ok mid) ∧
    registrations Object s'.Trace = registrations Object s.Trace + 1 ∧
    TMap.Find s'.PendingRegistrantInfo Object = none ∧
    (∀ b', UObjectForceRegistration env (exec env fuel) s' Object b' = .ok s') := by
  have hI := Settled_invariant env Object (registrations Object s.Trace + 1)
  simp only [UObjectForceRegistration, hfind] at h
  obtain ⟨sA, hA, h⟩ := bind_ok.1 h
  have same : SameLedger s sA := by
    split_ifs at hA
    · exact UObjectReleaseModuleRegistrants_same hA
    · cases hA; exact SameLedger.same s
  have hlog : Settled Object (registrations Object s.Trace + 1)
      (logCall { sA with PendingRegistrantInfo := TMap.Remove sA.PendingRegistrantInfo Object }
        (Call.DeferredRegister Object Info.PackageName Info.Name)) := by
    refine ⟨by simpa [logCall, same.objects] using hobj, TMap.Find_Remove_self _ _, ?_⟩
    simp only [logCall]
    rw [registrations_append, registrations_self, same.trace]
  obtain ⟨_, hnone, hcount⟩ := DeferredRegister_keeps hI (exec_keeps hI fuel) h hlog
  refine ⟨⟨sA, hA, TMap.Find_Remove_self _ _, h, ?_⟩, hcount, hnone,
    fun b' => UObjectForceRegistration_none b' hnone⟩
  intro acts mid hmid
  have hentry : Settled Object (registrations Object s.Trace + 1)
      { logCall (logCall
          { sA with PendingRegistrantInfo := TMap.Remove sA.PendingRegistrantInfo Object }
          (Call.DeferredRegister Object Info.PackageName Info.Name))
          (Call.CreatePackage Info.PackageName) with Depth := sA.Depth + 1 } :=
    hI.frame _ _ (hI.log _ _ hlog (by intro o p n hc; cases hc)) rfl rfl rfl rfl rfl rfl rfl
  obtain ⟨_, hn, hc⟩ := exec_keeps hI fuel acts _ mid hmid hentry
  exact ⟨hn, hc, fun b' => UObjectForceRegistration_none b' hn⟩

/-- A registered object whose `DeferredRegister` force-registers it again, through the
creation of its package: it is registered once. -/
theorem C26_registered_once_witness :
    TMap.Find oneRegistered.PendingRegistrantInfo 0 = some ⟨"A", coreUObjectPackage⟩ ∧
    0 < oneRegistered.Objects.length ∧
    UObjectForceRegistration nestedEnv (exec nestedEnv 2) oneRegistered 0 true =
      .ok nestedForced ∧
    registrations 0 nestedForced.Trace = registrations 0 oneRegistered.Trace + 1 ∧
    nestedForced.Trace.map (·.call) =
      [Call.DeferredRegister 0 coreUObjectPackage "A", Call.CreatePackage coreUObjectPackage] :=
  ⟨rfl, by decide, rfl,
    (C26_registered_once nestedEnv 2 oneRegistered nestedForced 0 true
      ⟨"A", coreUObjectPackage⟩ rfl (by decide) rfl).2.1,
    rfl⟩

/-! ## The claims on single functions -/

/-- C27, counterexample: the claim reads "starts with `DEPRECATED_`" literally, so that
`Udeprecated_Foo`, whose remainder `deprecated_Foo` does not start with `DEPRECATED_`
character by character, would lose only its first character. The call
`NameWithoutPrefix.StartsWith(DeprecatedPrefix)` ignores case, and the result is `Foo`. -/
theorem C27_lower_case_deprecated_removed :
    ("Udeprecated_Foo".data.drop 1 = "deprecated_Foo".data ∧
      List.isPrefixOf "DEPRECATED_".data "deprecated_Foo".data = false) ∧
    RemoveClassPrefix sampleEnv "Udeprecated_Foo" = "Foo" ∧
    RemoveClassPrefix sampleEnv "Udeprecated_Foo" ≠ ⟨"Udeprecated_Foo".data.drop 1⟩ := by
  decide

/-- C27, amended: `RemoveClassPrefix` returns the name without its first character and, when
the remainder starts with `DEPRECATED_` written in any mixture of upper and lower case,
without those eleven characters as well; `FString::StartsWith` with one argument ignores the
case of the letters `A` to `Z`. The prefix is removed at most once: of
`UDEPRECATED_DEPRECATED_X` the result is `DEPRECATED_X`; a name whose remainder does not start
with the prefix in any case loses only its first character, and the empty name gives the
empty string. -/
theorem C27_class_prefix_removed_ignoring_case (env : Env)
    (hsw : ∀ text : String, env.FString_StartsWith text "DEPRECATED_" =
      List.isPrefixOf "deprecated_".data (text.data.map Char.toLower)) :
    (∀ name : String, RemoveClassPrefix env name =
      if List.isPrefixOf "deprecated_".data ((name.data.drop 1).map Char.toLower) then
        ⟨name.data.drop 12⟩
      else ⟨name.data.drop 1⟩) ∧
    (∀ (c : Char) (p rest : List Char), p.map Char.toLower = "deprecated_".data →
      RemoveClassPrefix env ⟨c :: (p ++ rest)⟩ = ⟨rest⟩) ∧
    RemoveClassPrefix env "UDEPRECATED_DEPRECATED_X" = "DEPRECATED_X" ∧
    (∀ name : String,
      List.isPrefixOf "deprecated_".data ((name.data.drop 1).map Char.toLower) = false →
      RemoveClassPrefix env name = ⟨name.data.drop 1⟩) ∧
    RemoveClassPrefix env "" = "" := by
  have key : ∀ name : String, RemoveClassPrefix env name =
      if List.isPrefixOf "deprecated_".data ((name.data.drop 1).map Char.toLower) then
        ⟨name.data.drop 12⟩
      else ⟨name.data.drop 1⟩ := by
    intro name
    have hlen : "DEPRECATED_".length = 11 := by decide
    simp only [RemoveClassPrefix, hsw, String.drop_eq, hlen, List.drop_drop]
  refine ⟨key, ?_, ?_, ?_, ?_⟩
  · intro c p rest hp
    rw [key]
    have h1 : List.isPrefixOf "deprecated_".data
        ((List.drop 1 (c :: (p ++ rest))).map Char.toLower) = true := by
      simp only [List.drop_succ_cons, List.drop_zero, List.map_append, hp]
      exact List.isPrefixOf_iff_prefix.2 (List.prefix_append _ _)
    rw [if_pos h1]
    have hl : p.length = 11 := by
      have := congrArg List.length hp
      simpa using this
    have h2 : List.drop 12 (c :: (p ++ rest)) = rest := by
      show List.drop 11 (p ++ rest) = rest
      exact List.drop_left' hl
    rw [h2]
  · rw [key]; decide
  · intro name hn
    rw [key, hn]
    rfl
  · rw [key]; decide

/-- In `sampleEnv` the test for a prefix is the one that ignores case; `UDeprecated_Actor`
loses twelve characters, `UObject` one. -/
theorem C27_class_prefix_removed_ignoring_case_witness :
    (∀ text : String, sampleEnv.FString_StartsWith text "DEPRECATED_" =
      List.isPrefixOf "deprecated_".data (text.data.map Char.toLower)) ∧
    RemoveClassPrefix sampleEnv "UDEPRECATED_DEPRECATED_X" = "DEPRECATED_X" ∧
    RemoveClassPrefix sampleEnv "UDeprecated_Actor" = "Actor" ∧
    RemoveClassPrefix sampleEnv "UObject" = "Object" ∧
    RemoveClassPrefix sampleEnv "" = "" :=
  ⟨fun _ => rfl,
    (C27_class_prefix_removed_ignoring_case sampleEnv (fun _ => rfl)).2.2.1,
    (C27_class_prefix_removed_ignoring_case sampleEnv (fun _ => rfl)).2.1 'U'
      "Deprecated_".data "Actor".data (by decide),
    ((C27_class_prefix_removed_ignoring_case sampleEnv (fun _ => rfl)).2.2.2.1 "UObject"
      (by decide)).trans (by decide),
    (C27_class_prefix_removed_ignoring_case sampleEnv (fun _ => rfl)).2.2.2.2⟩

theorem clearFlags_testBit (a b i : Nat) :
    (clearFlags a b).testBit i = (a.testBit i && !b.testBit i) := by
  simp only [clearFlags, Nat.testBit_xor, Nat.testBit_and]
  cases a.testBit i <;> cases b.testBit i <;> rfl

theorem clearFlags_of_and_eq_zero {a b : Nat} (h : a &&& b = 0) : clearFlags a b = a := by
  simp [clearFlags, h]

/-- Clearing one marker does not change the test for a marker on other bits. -/
theorem clearFlags_and_disjoint (F : Nat) {R N : Nat} (h : R &&& N = 0) :
    clearFlags F R &&& N = F &&& N := by
  apply Nat.eq_of_testBit_eq
  intro i
  have hi : (R &&& N).testBit i = false := by rw [h]; exact Nat.zero_testBit i
  rw [Nat.testBit_and] at hi
  simp only [Nat.testBit_and, clearFlags_testBit]
  cases hF : F.testBit i <;> cases hR : R.testBit i <;> cases hN : N.testBit i <;>
    simp_all

/-- The flag translation of `AddObject` in closed form. -/
theorem addObjectFlags_eq (env : Env) (F fl : Nat)
    (hdisj : env.RF_MarkAsRootSet &&& env.RF_MarkAsNative = 0) :
    addObjectFlags env F fl =
      (fl ||| (if F &&& env.RF_MarkAsRootSet ≠ 0 then env.InternalFlag_RootSet else 0) |||
          (if F &&& env.RF_MarkAsNative ≠ 0 then env.InternalFlag_Native else 0) |||
          (if env.IsInGameThread = false then env.InternalFlag_Async else 0),
        clearFlags (clearFlags F env.RF_MarkAsRootSet) env.RF_MarkAsNative) := by
  have hN := clearFlags_and_disjoint F hdisj
  by_cases hR : F &&& env.RF_MarkAsRootSet = 0 <;>
    by_cases hNat : F &&& env.RF_MarkAsNative = 0 <;>
    cases hT : env.IsInGameThread <;>
    simp [addObjectFlags, hR, hNat, hN, hT, clearFlags_of_and_eq_zero] <;>
    ac_rfl

/-- C28: `AddObject` translates the marker flags. The internal flags of the slot it allocates
are the requested flags, plus `RootSet` exactly when `RF_MarkAsRootSet` was set, plus `Native`
exactly when `RF_MarkAsNative` was set, plus `Async` exactly when the caller is not on the game
thread; afterwards `RF_MarkAsRootSet` and `RF_MarkAsNative` are cleared from `ObjectFlags`
and every other bit is as before, and the name of the object is the given name. The two
markers are distinct flags. On an object that has a class and for a name other than
`NAME_None` the function returns. -/
theorem C28_add_object_translates_markers (env : Env) (s : State) (this : ObjId)
    (InName : FName) (fl : Nat) (hdisj : env.RF_MarkAsRootSet &&& env.RF_MarkAsNative = 0) :
    (∀ s', AddObject env s this InName fl = .ok s' →
      ∃ obj obj' item, s.Objects[this]? = some obj ∧ s'.Objects[this]? = some obj' ∧
        0 ≤ obj'.InternalIndex ∧ s'.ObjObjects[obj'.InternalIndex.toNat]? = some item ∧
        item.Object = this ∧
        item.Flags =
          fl ||| (if obj.ObjectFlags &&& env.RF_MarkAsRootSet ≠ 0 then env.InternalFlag_RootSet
              else 0) |||
            (if obj.ObjectFlags &&& env.RF_MarkAsNative ≠ 0 then env.InternalFlag_Native
              else 0) |||
            (if env.IsInGameThread = false then env.InternalFlag_Async else 0) ∧
        (∀ i, obj'.ObjectFlags.testBit i =
          (obj.ObjectFlags.testBit i && !env.RF_MarkAsRootSet.testBit i &&
            !env.RF_MarkAsNative.testBit i)) ∧
        obj'.NamePrivate = InName ∧ obj'.ClassPrivate = obj.ClassPrivate ∧
        obj'.OuterPrivate = obj.OuterPrivate) ∧
    (∀ obj, s.Objects[this]? = some obj → InName ≠ NAME_None →
      obj.ClassPrivate.isNone = false → ∃ s', AddObject env s this InName fl = .ok s') := by
  refine ⟨?_, fun obj hobj hn hcls => AddObject_ok env fl hobj hn hcls⟩
  intro s' h
  obtain ⟨obj, table, hobj, _, hslot, hs'⟩ := AddObject_result h
  have hlt : this < s.Objects.length := (List.getElem?_eq_some_iff.1 hobj).1
  subst hs'
  refine ⟨obj, _, ⟨this, (addObjectFlags env obj.ObjectFlags fl).1⟩, hobj, List.getElem?_set_self hlt, by simp, ?_, rfl, ?_, ?_, rfl,
    rfl, rfl⟩
  · simpa using hslot
  · rw [addObjectFlags_eq env _ _ hdisj]
  · intro i
    rw [addObjectFlags_eq env _ _ hdisj]
    simp only [clearFlags_testBit]

/-- An object carrying both markers, added off the game thread with no requested flag. -/
theorem C28_add_object_translates_markers_witness :
    offThreadEnv.RF_MarkAsRootSet &&& offThreadEnv.RF_MarkAsNative = 0 ∧
    (∃ s', AddObject offThreadEnv markedState 0 "A" 0 = .ok s') ∧
    (resultState (AddObject offThreadEnv markedState 0 "A" 0)).ObjObjects =
      [⟨0, 0x40000000 ||| 0x02000000 ||| 0x04000000⟩] ∧
    ((resultState (AddObject offThreadEnv markedState 0 "A" 0)).Objects.map
      (fun o => (o.ObjectFlags, o.NamePrivate))) = [(0x01, "A")] :=
  ⟨by decide,
    (C28_add_object_translates_markers offThreadEnv markedState 0 "A" 0 (by decide)).2 _ rfl
      (by decide) rfl,
    rfl, rfl⟩

/-! ## The claim on the shape of the list -/

theorem LedgerOK.sameFields {s s' : State} {addrs : List NodeAddr} {objs : List ObjId}
    (h : LedgerOK s addrs objs) (hn : s'.Nodes = s.Nodes)
    (hf : s'.GFirstPendingRegistrant = s.GFirstPendingRegistrant)
    (hl : s'.GLastPendingRegistrant = s.GLastPendingRegistrant)
    (hm : s'.PerModuleBootstrapMap = s.PerModuleBootstrapMap) : LedgerOK s' addrs objs := by
  unfold LedgerOK GlobalList at *
  rw [hn, hf, hl, hm]
  exact h

/-- The last cell of a chain has a null link. -/
theorem IsChain.last_null {nodes : List (Option FPendingRegistrant)} :
    ∀ {addrs : List NodeAddr} {p : Option NodeAddr} {objs : List ObjId} {last : NodeAddr},
      IsChain nodes p addrs objs → addrs.getLast? = some last →
      ∃ o, nodes[last]? = some (some ⟨o, none⟩) := by
  intro addrs
  induction addrs with
  | nil => intro p objs last _ hl; simp at hl
  | cons a addrs ih =>
    intro p objs last h hl
    cases objs with
    | nil => simp [IsChain] at h
    | cons o objs =>
      obtain ⟨_, _, nxt, ha, hrest⟩ := h
      cases addrs with
      | nil =>
        cases objs with
        | cons _ _ => simp [IsChain] at hrest
        | nil =>
          simp only [IsChain] at hrest
          simp only [List.getLast?_singleton, Option.some.injEq] at hl
          subst hl
          subst hrest
          exact ⟨o, ha⟩
      | cons b rest =>
        exact ih hrest (by simpa using hl)

/-- The head of a well-formed list is null exactly when its tail is. -/
theorem GlobalList.first_iff_last {s : State} {addrs : List NodeAddr} {objs : List ObjId}
    (h : GlobalList s addrs objs) :
    s.GFirstPendingRegistrant = none ↔ s.GLastPendingRegistrant = none := by
  obtain ⟨hc, hl⟩ := h
  cases addrs with
  | nil =>
    cases objs with
    | nil =>
      simp only [IsChain] at hc
      simp [hc, hl]
    | cons _ _ => simp [IsChain] at hc
  | cons a addrs =>
    cases objs with
    | nil => simp [IsChain] at hc
    | cons o objs =>
      obtain ⟨hp, _, _⟩ := hc
      have : (a :: addrs).getLast? ≠ none := by simp
      rw [hl, hp]
      simp

/-- The two loops at the head of `UObjectReleaseAllModuleRegistrants` return on a
well-formed ledger and leave a well-formed ledger with an empty holding map. -/
theorem releaseAll_link_wellFormed {s : State} (h : WellFormed s) :
    ∃ s1, forEach (fun (Pair : FName × List NodeAddr) st =>
        forEach (fun PendingRegistration st1 => linkPendingRegistrant st1 PendingRegistration)
          Pair.2 st) s.PerModuleBootstrapMap s = .ok s1 ∧
      WellFormed { s1 with PerModuleBootstrapMap := [] } := by
  obtain ⟨addrs, objs, hok⟩ := h
  obtain ⟨hobjs, hheld⟩ := hok.held
  obtain ⟨s1, h1, hg, _, _⟩ :=
    forEach_link_globalList _ hobjs s addrs objs hok.1 hheld hok.2.2.2
  refine ⟨s1, by rw [forEach_buckets]; exact h1, addrs ++ heldNodes s.PerModuleBootstrapMap,
    objs ++ hobjs, ?_⟩
  refine ⟨hg, by simp, ?_, ?_⟩
  · intro a ha
    simp [heldNodes] at ha
  · simpa [heldNodes] using hok.2.2.2

/-- Well-formedness of the ledger is kept by every step of the file. -/
theorem WellFormed_invariant (env : Env) : Invariant env WellFormed where
  frame := by
    rintro s s' ⟨addrs, objs, h⟩ _ _ _ hn hf hl hm
    exact ⟨addrs, objs, h.sameFields hn hf hl hm⟩
  log := by
    rintro s c ⟨addrs, objs, h⟩ _
    exact ⟨addrs, objs, h.sameFields rfl rfl rfl rfl⟩
  register := by
    rintro s InFlags PackageName InName s' ⟨addrs, objs, h⟩ hr
    have h0 : LedgerOK (constructUObjectBase s InFlags).1 addrs objs := h.sameFields rfl rfl rfl rfl
    obtain ⟨s1, addrs1, objs1, h1, hok⟩ :=
      Register_ledgerOK env (constructUObjectBase s InFlags).2 PackageName InName h0
    rw [h1] at hr
    cases hr
    exact ⟨addrs1, objs1, hok⟩
  release := by
    rintro s Module s' ⟨addrs, objs, h⟩ hr
    obtain ⟨s1, addrs1, objs1, h1, hok⟩ := UObjectReleaseModuleRegistrants_ledgerOK env Module h
    rw [h1] at hr
    cases hr
    exact ⟨addrs1, objs1, hok⟩
  dequeue := by
    rintro s out s' out' ⟨addrs, objs, h⟩ hr
    obtain ⟨s1, out1, h1, hok⟩ := DequeuePendingAutoRegistrants_ledgerOK out h
    rw [h1] at hr
    cases hr
    exact ⟨[], [], hok⟩
  force := by
    rintro s Object Info ⟨addrs, objs, h⟩ _
    exact ⟨addrs, objs, h.sameFields rfl rfl rfl rfl⟩

/-- Every reachable state has a well-formed ledger. -/
theorem Reachable.wellFormed {env : Env} {s : State} (h : Reachable env s) : WellFormed s := by
  induction h with
  | start s hf hl hm => exact ⟨[], [], LedgerOK.empty hf hl hm⟩
  | register this PackageName InName _ h ih =>
    obtain ⟨addrs, objs, hok⟩ := ih
    obtain ⟨s1, addrs1, objs1, h1, hok1⟩ := Register_ledgerOK env this PackageName InName hok
    rw [h1] at h
    cases h
    exact ⟨addrs1, objs1, hok1⟩
  | releaseModule Module _ h ih => exact (WellFormed_invariant env).release _ _ _ ih h
  | releaseAll fuel passFuel _ h ih =>
    obtain ⟨s1, h1, hw⟩ := releaseAll_link_wellFormed ih
    unfold UObjectReleaseAllModuleRegistrants at h
    rw [h1] at h
    exact ProcessNewlyLoadedUObjects_keeps (WellFormed_invariant env)
      (exec_keeps (WellFormed_invariant env) fuel) h hw
  | dequeue out out' _ h ih => exact (WellFormed_invariant env).dequeue _ _ _ _ ih h
  | calls fuel acts _ h ih => exact exec_keeps (WellFormed_invariant env) fuel acts _ _ h ih

/-- C29: in every state reachable through `Register`, `UObjectReleaseModuleRegistrants`,
`UObjectReleaseAllModuleRegistrants` and `DequeuePendingAutoRegistrants`, with calls into the
other entry points of the file in between, the head of the list is null exactly when the tail
is null, and the tail is the last cell reachable from the head and has a null link. Hence the
assertion `check(!GFirstPendingRegistrant)` on the branch of an empty tail never fails: linking
a node does not end in a failed `check`, and `Register`, module release, the linking loops of
`UObjectReleaseAllModuleRegistrants` and dequeuing all return. -/
theorem C29_reachable_list_shape (env : Env) (s : State) (h : Reachable env s) :
    (s.GFirstPendingRegistrant = none ↔ s.GLastPendingRegistrant = none) ∧
    (∃ addrs objs, IsChain s.Nodes s.GFirstPendingRegistrant addrs objs ∧
      s.GLastPendingRegistrant = addrs.getLast? ∧
      ∀ last, s.GLastPendingRegistrant = some last →
        ∃ o, s.Nodes[last]? = some (some ⟨o, none⟩)) ∧
    (∀ p, linkPendingRegistrant s p ≠ .error Err.check) ∧
    (∀ this PackageName InName, ∃ s', Register env s this PackageName InName = .ok s') ∧
    (∀ Module, ∃ s', UObjectReleaseModuleRegistrants env s Module = .ok s') ∧
    (∃ s1, forEach (fun (Pair : FName × List NodeAddr) st =>
        forEach (fun PendingRegistration st1 => linkPendingRegistrant st1 PendingRegistration)
          Pair.2 st) s.PerModuleBootstrapMap s = .ok s1) ∧
    (∀ out, ∃ s' out', DequeuePendingAutoRegistrants s out = .ok (s', out')) := by
  have hw := h.wellFormed
  obtain ⟨addrs, objs, hok⟩ := hw
  have hiff := hok.1.first_iff_last
  refine ⟨hiff, ⟨addrs, objs, hok.1.1, hok.1.2, ?_⟩, ?_, ?_, ?_, ?_, ?_⟩
  · intro last hl
    exact IsChain.last_null hok.1.1 (by rw [← hok.1.2]; exact hl)
  · intro p hp
    unfold linkPendingRegistrant at hp
    cases hl : s.GLastPendingRegistrant with
    | none =>
      have hf := hiff.2 hl
      simp [hl, hf, pure, Except.pure] at hp
    | some last =>
      simp only [hl] at hp
      split at hp
      · cases hp
      · cases hp
  · intro this PackageName InName
    obtain ⟨s', _, _, h', _⟩ := Register_ledgerOK env this PackageName InName hok
    exact ⟨s', h'⟩
  · intro Module
    obtain ⟨s', _, _, h', _⟩ := UObjectReleaseModuleRegistrants_ledgerOK env Module hok
    exact ⟨s', h'⟩
  · obtain ⟨s1, h1, _⟩ := releaseAll_link_wellFormed ⟨addrs, objs, hok⟩
    exact ⟨s1, h1⟩
  · intro out
    obtain ⟨s', out', h', _⟩ := DequeuePendingAutoRegistrants_ledgerOK out hok
    exact ⟨s', out', h'⟩

/-- The state with one object in the list and three in the holding map, after every module
was released and the objects were registered. -/
theorem C29_reachable_list_shape_witness :
    Reachable sampleEnv heldAllDone ∧
    (heldAllDone.GFirstPendingRegistrant = none ↔ heldAllDone.GLastPendingRegistrant = none) ∧
    heldAllDone.GFirstPendingRegistrant = none :=
  have hr : Reachable sampleEnv heldAllDone :=
    Reachable.releaseAll 6 6
      (Reachable.calls 1
        [Action.ConstructAndRegister 0x84 coreUObjectPackage "A",
          Action.ConstructAndRegister 0x84 "/Script/Game" "G1",
          Action.ConstructAndRegister 0x84 LongEnginePackageName "E1",
          Action.ConstructAndRegister 0x84 "/Script/Game" "G2"]
        (Reachable.start idleState rfl rfl rfl) (show _ = Except.ok heldState from rfl))
      (show _ = Except.ok heldAllDone from rfl)
  ⟨hr, (C29_reachable_list_shape sampleEnv heldAllDone hr).1, rfl⟩

/-! ## The claim on the fingerprint registry -/

/-- The pointer that `FindExistingObjectIfHotReload` returns. -/
theorem FindExistingObjectIfHotReload_returns (env : HotReloadEnv) (s : HotReloadState)
    (Outer : UObjectRef) (Name : String) (Size Crc : Nat) (X : ObjId) :
    (FindExistingObjectIfHotReload env s Outer Name Size Crc).2 = some X ↔
      (s.GIsHotReload = true ∧ env.FindObject s.UObjects (some Outer) Name = some X ∧
        TMap.Find s.RegisteredInfo (Outer, Name) = some ⟨Size, Crc⟩) := by
  cases hG : s.GIsHotReload
  · simp [FindExistingObjectIfHotReload, hG]
  · cases hX : env.FindObject s.UObjects (some Outer) Name with
    | none => simp [FindExistingObjectIfHotReload, hG, hX]
    | some Y =>
      cases hF : TMap.Find s.RegisteredInfo (Outer, Name) with
      | none => simp [FindExistingObjectIfHotReload, hG, hX, hF]
      | some Info =>
        obtain ⟨sz, crc⟩ := Info
        by_cases h1 : sz = Size <;> by_cases h2 : crc = Crc <;>
          simp [FindExistingObjectIfHotReload, hG, hX, hF, h1, h2]

/-- A call with the fingerprint that the registry holds already changes nothing. -/
theorem FindExistingObjectIfHotReload_same (env : HotReloadEnv) (s : HotReloadState)
    (Outer : UObjectRef) (Name : String) (Size Crc : Nat)
    (hF : TMap.Find s.RegisteredInfo (Outer, Name) = some ⟨Size, Crc⟩)
    (hall : ∀ e ∈ s.RegisteredInfo, e.1 = (Outer, Name) → e.2 = ⟨Size, Crc⟩) :
    FindExistingObjectIfHotReload env s Outer Name Size Crc =
      (s, if s.GIsHotReload = true then env.FindObject s.UObjects (some Outer) Name
        else none) := by
  have hA := TMap.Assign_of_forall s.RegisteredInfo (Outer, Name) ⟨Size, Crc⟩ hall
  obtain ⟨g, ci, dm, hc, dc, ri, uo, oc⟩ := s
  simp only at hF hA
  cases g
  · simp only [FindExistingObjectIfHotReload, hF, hA, Bool.not_false, if_true,
      Bool.false_eq_true, if_false]
  · cases hX : env.FindObject uo (some Outer) Name <;>
      simp [FindExistingObjectIfHotReload, hF, hA, hX]

/-- C30: `FindExistingObjectIfHotReload` always leaves the fingerprint registry mapping
`(Outer, Name)` to exactly the size and checksum passed in, whether or not hot reload is
active. It returns a non-null existing object exactly when hot reload is active, an object of
that name exists under the outer, and the prior record had the same size and checksum. So a
second call with the same size and checksum treats the type as unchanged: it changes nothing,
retires no object, and returns the object of that name if hot reload is active and there is
one. -/
theorem C30_fingerprint_recorded (env : HotReloadEnv) (s : HotReloadState)
    (Outer : UObjectRef) (Name : String) (Size Crc : Nat) :
    TMap.Find (FindExistingObjectIfHotReload env s Outer Name Size Crc).1.RegisteredInfo
      (Outer, Name) = some ⟨Size, Crc⟩ ∧
    (∀ X, (FindExistingObjectIfHotReload env s Outer Name Size Crc).2 = some X ↔
      (s.GIsHotReload = true ∧ env.FindObject s.UObjects (some Outer) Name = some X ∧
        TMap.Find s.RegisteredInfo (Outer, Name) = some ⟨Size, Crc⟩)) ∧
    FindExistingObjectIfHotReload env
        (FindExistingObjectIfHotReload env s Outer Name Size Crc).1 Outer Name Size Crc =
      ((FindExistingObjectIfHotReload env s Outer Name Size Crc).1,
        if s.GIsHotReload = true then
          env.FindObject (FindExistingObjectIfHotReload env s Outer Name Size Crc).1.UObjects
            (some Outer) Name
        else none) := by
  obtain ⟨hreg, hhot⟩ := FindExistingObjectIfHotReload_registry env s Outer Name Size Crc
  have hfind : TMap.Find (FindExistingObjectIfHotReload env s Outer Name Size Crc).1.RegisteredInfo
      (Outer, Name) = some ⟨Size, Crc⟩ := by
    rw [hreg]
    cases hF : TMap.Find s.RegisteredInfo (Outer, Name) with
    | none => exact TMap.Find_Add_self _ _ _
    | some Info => exact TMap.Find_Assign_self _ _ _ Info hF
  refine ⟨hfind, FindExistingObjectIfHotReload_returns env s Outer Name Size Crc, ?_⟩
  rw [FindExistingObjectIfHotReload_same env _ Outer Name Size Crc hfind, hhot]
  rw [hreg]
  cases TMap.Find s.RegisteredInfo (Outer, Name) with
  | none => exact TMap.Add_values _ _ _
  | some Info => exact TMap.Assign_values _ _ _

/-! ## Runs without re-entry -/

theorem Phase_refl (s : State) : Phase s s [] := by
  constructor <;> simp [enumsDeferred, structsDeferred, classesDeferred]

theorem Phase_comp {s s1 s2 : State} {e1 e2 : List Event} (h1 : Phase s s1 e1)
    (h2 : Phase s1 s2 e2) : Phase s s2 (e1 ++ e2) where
  trace := by rw [h2.trace, h1.trace, List.append_assoc]
  depth := by rw [h2.depth, h1.depth]
  own := by
    intro e he hm
    rcases List.mem_append.1 he with h | h
    · exact h1.own e h hm
    · rw [← h1.depth]; exact h2.own e h hm
  enums := by
    rw [h2.enums, h1.enums, List.append_assoc]
    simp [enumsDeferred, List.filterMap_append]
  structs := by
    rw [h2.structs, h1.structs, List.append_assoc]
    simp [structsDeferred, List.filterMap_append]
  classes := by
    rw [h2.classes, h1.classes, List.append_assoc]
    simp [classesDeferred, List.filterMap_append]

theorem Quiet_comp {e1 e2 : List Event} (h1 : Quiet e1) (h2 : Quiet e2) : Quiet (e1 ++ e2) := by
  intro e he
  rcases List.mem_append.1 he with h | h
  · exact h1 e h
  · exact h2 e h

theorem Quiet_nil : Quiet [] := by
  intro e he
  simp at he

/-- A step that leaves the log, the depth and the three descriptor queues alone. -/
theorem Phase_silent {s s' : State} (ht : s'.Trace = s.Trace) (hd : s'.Depth = s.Depth)
    (he : s'.DeferredCompiledInEnumRegistration = s.DeferredCompiledInEnumRegistration)
    (hs : s'.DeferredCompiledInStructRegistration = s.DeferredCompiledInStructRegistration)
    (hc : s'.DeferredCompiledInRegistration = s.DeferredCompiledInRegistration) :
    Phase s s' [] := by
  constructor <;> simp [ht, hd, he, hs, hc, enumsDeferred, structsDeferred, classesDeferred]

theorem Phase_of_sameLedger {s s' : State} (h : SameLedger s s') : Phase s s' [] :=
  Phase_silent h.trace h.depth h.enums h.structs h.classes

/-- A logged call that is no notification of an enqueued descriptor. -/
theorem Phase_logged (s : State) (c : Call)
    (hc : ∀ p n t f d, c ≠ Call.NotifyAdded p n t f d) :
    Phase s (logCall s c) [⟨s.Depth, c⟩] := by
  constructor
  · rfl
  · rfl
  · intro e he _
    simp only [List.mem_singleton] at he
    rw [he]
  · cases c <;> first | exact absurd rfl (hc _ _ _ _ _) | simp [logCall, enumsDeferred]
  · cases c <;> first | exact absurd rfl (hc _ _ _ _ _) | simp [logCall, structsDeferred]
  · cases c <;> first | exact absurd rfl (hc _ _ _ _ _) | simp [logCall, classesDeferred]

theorem Quiet_single (d : Nat) (c : Call) (hc : c.isMaterialization = false) :
    Quiet [⟨d, c⟩] := by
  intro e he
  simp only [List.mem_singleton] at he
  rw [he]
  exact hc

theorem invoke_calm {run : List Action → State → Except Err State} (hcalm : Calm run)
    {acts : List Action} (hacts : ∀ a ∈ acts, a.isEpoch = false) {s s' : State}
    (h : invoke run acts s = .ok s') : ∃ evs, Phase s s' evs ∧ Quiet evs := by
  unfold invoke at h
  obtain ⟨s1, h1, h⟩ := bind_ok.1 h
  simp only [pure, Except.pure, Except.ok.injEq] at h
  subst h
  obtain ⟨evs, hp, hq⟩ := hcalm _ _ _ hacts h1
  refine ⟨evs, ?_, hq⟩
  exact {
    trace := hp.trace
    depth := rfl
    own := by
      intro e he hm
      rw [hq e he] at hm
      cases hm
    enums := hp.enums
    structs := hp.structs
    classes := hp.classes }

theorem CreatePackage_calm {env : Env} (henv : NoReentry env)
    {run : List Action → State → Except Err State} (hcalm : Calm run)
    {s s' : State} {PackageName : FName}
    (h : CreatePackage env run s PackageName = .ok s') :
    ∃ evs, Phase s s' evs ∧ Quiet evs := by
  unfold CreatePackage at h
  obtain ⟨s2, h2, h3⟩ := bind_ok.1 h
  have p1 := Phase_logged s (Call.CreatePackage PackageName) (by intro p n t f d hc; cases hc)
  obtain ⟨e2, p2, q2⟩ := invoke_calm hcalm (henv.1 PackageName _) h2
  have p3 : Phase s2 s' [] := by
    split at h3
    · simp only [pure, Except.pure, Except.ok.injEq] at h3
      subst h3; exact Phase_refl _
    · simp only [pure, Except.pure, Except.ok.injEq] at h3
      subst h3
      exact Phase_silent rfl rfl rfl rfl rfl
  exact ⟨_, Phase_comp (Phase_comp p1 p2) p3,
    Quiet_comp (Quiet_comp (Quiet_single _ _ (by rfl)) q2) Quiet_nil⟩

theorem DeferredRegister_calm {env : Env} (henv : NoReentry env)
    {run : List Action → State → Except Err State} (hcalm : Calm run)
    {s s' : State} {this : ObjId} {cls : Option UObjectRef} {PackageName InName : FName}
    (h : DeferredRegister env run s this cls PackageName InName = .ok s') :
    ∃ evs, Phase s s' evs ∧ Quiet evs := by
  unfold DeferredRegister at h
  have p1 := Phase_logged s (Call.DeferredRegister this PackageName InName)
    (by intro p n t f d hc; cases hc)
  by_cases hinit : (logCall s (Call.DeferredRegister this PackageName InName)).ObjInitialized
  swap
  · simp [hinit, bind, Except.bind, throw, throwThe, MonadExceptOf.throw] at h
  simp only [hinit, Bool.not_true, Bool.false_eq_true, if_false] at h
  obtain ⟨u, hu, h⟩ := bind_ok.1 h
  cases hu
  obtain ⟨s1, hcp, h⟩ := bind_ok.1 h
  obtain ⟨e2, p2, q2⟩ := CreatePackage_calm henv hcalm hcp
  cases hobj : s1.Objects[this]? with
  | none => simp only [hobj] at h; exact absurd h throw_ne_ok
  | some obj =>
    simp only [hobj] at h
    by_cases hcls : cls.isNone
    · simp [hcls, bind, Except.bind, throw, throwThe, MonadExceptOf.throw] at h
    simp only [hcls, Bool.false_eq_true, if_false] at h
    obtain ⟨u, hu, h⟩ := bind_ok.1 h
    cases hu
    by_cases hcp2 : obj.ClassPrivate.isSome
    · simp [hcp2, bind, Except.bind, throw, throwThe, MonadExceptOf.throw] at h
    simp only [hcp2, Bool.false_eq_true, if_false] at h
    obtain ⟨u, hu, h⟩ := bind_ok.1 h
    cases hu
    obtain ⟨s2, hadd, h⟩ := bind_ok.1 h
    obtain ⟨obj2, table, _, _, _, hs2⟩ := AddObject_result hadd
    have d4 : s' = s2 := by
      cases hobj2 : s2.Objects[this]? with
      | none => simp only [hobj2] at h; exact absurd h throw_ne_ok
      | some obj2 =>
        simp only [hobj2] at h
        split_ifs at h
        exact (Except.ok.inj h).symm
    subst d4
    have p3 : Phase s1 s' [] := by
      subst hs2
      exact Phase_silent rfl rfl rfl rfl rfl
    exact ⟨_, Phase_comp (Phase_comp p1 p2) p3,
      Quiet_comp (Quiet_comp (Quiet_single _ _ (by rfl)) q2) Quiet_nil⟩

theorem UObjectForceRegistration_calm {env : Env} (henv : NoReentry env)
    {run : List Action → State → Except Err State} (hcalm : Calm run)
    {s s' : State} {Object : ObjId} {b : Bool}
    (h : UObjectForceRegistration env run s Object b = .ok s') :
    ∃ evs, Phase s s' evs ∧ Quiet evs := by
  cases hfind : TMap.Find s.PendingRegistrantInfo Object with
  | none =>
    rw [UObjectForceRegistration_none b hfind] at h
    cases h
    exact ⟨[], Phase_refl s, Quiet_nil⟩
  | some Info =>
    simp only [UObjectForceRegistration, hfind] at h
    obtain ⟨sA, hA, h⟩ := bind_ok.1 h
    have same : SameLedger s sA := by
      split_ifs at hA
      · exact UObjectReleaseModuleRegistrants_same hA
      · cases hA; exact SameLedger.same s
    have pA := Phase_of_sameLedger same
    have pB : Phase sA
        { sA with PendingRegistrantInfo := TMap.Remove sA.PendingRegistrantInfo Object } [] :=
      Phase_silent rfl rfl rfl rfl rfl
    obtain ⟨e3, p3, q3⟩ := DeferredRegister_calm henv hcalm h
    exact ⟨_, Phase_comp (Phase_comp pA pB) p3, Quiet_comp (Quiet_comp Quiet_nil Quiet_nil) q3⟩

theorem UObjectCompiledInDeferEnum_calm (s : State) (fn : FnId) (pkg name : FName) (dyn : Bool)
    (path : FName) :
    Phase s (UObjectCompiledInDeferEnum s fn pkg name dyn path)
        [⟨s.Depth, Call.NotifyAdded pkg name .NRT_Enum fn dyn⟩] ∧
      Quiet [⟨s.Depth, Call.NotifyAdded pkg name .NRT_Enum fn dyn⟩] := by
  refine ⟨?_, Quiet_single _ _ rfl⟩
  cases dyn <;> constructor <;>
    simp [UObjectCompiledInDeferEnum, logCall, enumsDeferred, structsDeferred, classesDeferred,
      Call.isMaterialization]

theorem UObjectCompiledInDeferStruct_calm (s : State) (fn : FnId) (pkg name : FName)
    (dyn : Bool) (path : FName) :
    Phase s (UObjectCompiledInDeferStruct s fn pkg name dyn path)
        [⟨s.Depth, Call.NotifyAdded pkg name .NRT_Struct fn dyn⟩] ∧
      Quiet [⟨s.Depth, Call.NotifyAdded pkg name .NRT_Struct fn dyn⟩] := by
  refine ⟨?_, Quiet_single _ _ rfl⟩
  cases dyn <;> constructor <;>
    simp [UObjectCompiledInDeferStruct, logCall, enumsDeferred, structsDeferred,
      classesDeferred, Call.isMaterialization]

theorem UObjectCompiledInDefer_calm {env : Env} {s s' : State} {fn sc : FnId}
    {name pkg : FName} {dyn : Bool} {path : FName}
    (h : UObjectCompiledInDefer env s fn sc name pkg dyn path = .ok s') :
    ∃ evs, Phase s s' evs ∧ Quiet evs := by
  unfold UObjectCompiledInDefer at h
  cases dyn with
  | false =>
    simp only [Bool.not_false, if_true, pure, Except.pure, Except.ok.injEq] at h
    subst h
    refine ⟨[⟨s.Depth, Call.NotifyAdded pkg (RemoveClassPrefix env name) .NRT_Class fn false⟩,
      ⟨s.Depth, Call.NotifyAdded pkg (env.DEFAULT_OBJECT_PREFIX ++ RemoveClassPrefix env name)
        .NRT_ClassCDO fn false⟩], ?_, ?_⟩
    · constructor <;>
        simp [logCall, enumsDeferred, structsDeferred, classesDeferred, Call.isMaterialization]
    · intro e he
      simp only [List.mem_cons, List.mem_singleton, List.not_mem_nil, or_false] at he
      rcases he with rfl | rfl <;> rfl
  | true =>
    simp only [Bool.not_true, Bool.false_eq_true, if_false] at h
    split_ifs at h
    simp only [pure, Except.pure, Except.ok.injEq] at h
    subst h
    refine ⟨[⟨s.Depth, Call.NotifyAdded ((path.dropRight name.length).dropRight 1) name
        .NRT_Class fn true⟩,
      ⟨s.Depth, Call.NotifyAdded ((path.dropRight name.length).dropRight 1)
        (env.DEFAULT_OBJECT_PREFIX ++ name) .NRT_ClassCDO fn true⟩], ?_, ?_⟩
    · constructor <;>
        simp [logCall, enumsDeferred, structsDeferred, classesDeferred, Call.isMaterialization]
    · intro e he
      simp only [List.mem_cons, List.mem_singleton, List.not_mem_nil, or_false] at he
      rcases he with rfl | rfl <;> rfl

theorem execAction_calm {env : Env} (henv : NoReentry env)
    {run : List Action → State → Except Err State} (hcalm : Calm run) {fuel : Nat}
    {a : Action} (ha : a.isEpoch = false) {s s' : State}
    (h : execAction env run fuel a s = .ok s') : ∃ evs, Phase s s' evs ∧ Quiet evs := by
  cases a with
  | ConstructAndRegister InFlags PackageName InName =>
    have f := Register_fields h
    simp only [constructUObjectBase] at f
    exact ⟨[], Phase_silent f.trace f.depth f.enums f.structs f.classes, Quiet_nil⟩
  | UObjectCompiledInDeferEnum fn pkg name dyn path =>
    simp only [execAction, pure, Except.pure, Except.ok.injEq] at h
    subst h
    exact ⟨_, UObjectCompiledInDeferEnum_calm s fn pkg name dyn path⟩
  | UObjectCompiledInDeferStruct fn pkg name dyn path =>
    simp only [execAction, pure, Except.pure, Except.ok.injEq] at h
    subst h
    exact ⟨_, UObjectCompiledInDeferStruct_calm s fn pkg name dyn path⟩
  | UObjectCompiledInDefer fn sc name pkg dyn path =>
    exact UObjectCompiledInDefer_calm h
  | UClassCompiledInDefer ClassInfo =>
    simp only [execAction, pure, Except.pure, Except.ok.injEq] at h
    subst h
    exact ⟨[], Phase_silent rfl rfl rfl rfl rfl, Quiet_nil⟩
  | UObjectForceRegistration Object b =>
    exact UObjectForceRegistration_calm henv hcalm h
  | ProcessNewlyLoadedUObjects Package bCan =>
    simp only [Action.isEpoch] at ha
    subst ha
    simp only [execAction] at h
    unfold ProcessNewlyLoadedUObjects at h
    obtain ⟨sA, hA, h⟩ := bind_ok.1 h
    simp only [Bool.not_false, if_true, pure, Except.pure, Except.ok.injEq] at h
    subst h
    have same : SameLedger s sA := by
      split_ifs at hA
      · exact UObjectReleaseModuleRegistrants_same hA
      · cases hA; exact SameLedger.same s
    exact ⟨[], Phase_of_sameLedger same, Quiet_nil⟩

theorem runActions_calm {step : Action → State → Except Err State}
    (hstep : ∀ a s s', a.isEpoch = false → step a s = .ok s' →
      ∃ evs, Phase s s' evs ∧ Quiet evs) :
    ∀ (acts : List Action) (s s' : State), (∀ a ∈ acts, a.isEpoch = false) →
      runActions step acts s = .ok s' → ∃ evs, Phase s s' evs ∧ Quiet evs := by
  intro acts
  induction acts with
  | nil =>
    intro s s' _ h
    simp only [runActions, pure, Except.pure, Except.ok.injEq] at h
    subst h
    exact ⟨[], Phase_refl s, Quiet_nil⟩
  | cons a acts ih =>
    intro s s' hacts h
    simp only [runActions] at h
    obtain ⟨s1, h1, h⟩ := bind_ok.1 h
    obtain ⟨e1, p1, q1⟩ := hstep a s s1 (hacts a (List.mem_cons_self _ _)) h1
    obtain ⟨e2, p2, q2⟩ := ih s1 s' (fun x hx => hacts x (List.mem_cons_of_mem _ hx)) h
    exact ⟨_, Phase_comp p1 p2, Quiet_comp q1 q2⟩

/-- In a configuration without re-entry the callbacks, at any depth, enqueue only. -/
theorem exec_calm {env : Env} (henv : NoReentry env) : ∀ fuel : Nat, Calm (exec env fuel) := by
  intro fuel
  induction fuel with
  | zero =>
    intro acts s s' _ h
    simp only [exec] at h
    split_ifs at h
    cases h
    exact ⟨[], Phase_refl s, Quiet_nil⟩
  | succ fuel ih =>
    intro acts s s' hacts h
    simp only [exec] at h
    exact runActions_calm (fun a st st' ha hst => execAction_calm henv ih ha hst)
      acts s s' hacts h

/-! ## The loop when no callback re-enters it -/

theorem logged_invoke_phase {run : List Action → State → Except Err State} (hcalm : Calm run)
    (s : State) (c : Call) (hc : ∀ p n t f d, c ≠ Call.NotifyAdded p n t f d)
    {acts : List Action} (hacts : ∀ a ∈ acts, a.isEpoch = false) {s' : State}
    (h : invoke run acts (logCall s c) = .ok s') : ∃ evs, Phase s s' evs := by
  obtain ⟨e2, p2, _⟩ := invoke_calm hcalm hacts h
  exact ⟨_, Phase_comp (Phase_logged s c hc) p2⟩

theorem logged_invoke_calm {run : List Action → State → Except Err State} (hcalm : Calm run)
    (s : State) (c : Call) (hc : ∀ p n t f d, c ≠ Call.NotifyAdded p n t f d)
    (hq : c.isMaterialization = false)
    {acts : List Action} (hacts : ∀ a ∈ acts, a.isEpoch = false) {s' : State}
    (h : invoke run acts (logCall s c) = .ok s') : ∃ evs, Phase s s' evs ∧ Quiet evs := by
  obtain ⟨e2, p2, q2⟩ := invoke_calm hcalm hacts h
  exact ⟨_, Phase_comp (Phase_logged s c hc) p2, Quiet_comp (Quiet_single _ _ hq) q2⟩

theorem forEach_phase {α : Type} {body : α → State → Except Err State}
    (hbody : ∀ x st st', body x st = .ok st' → ∃ evs, Phase st st' evs) :
    ∀ (l : List α) (s s' : State), forEach body l s = .ok s' → ∃ evs, Phase s s' evs := by
  intro l
  induction l with
  | nil =>
    intro s s' h
    simp only [forEach, pure, Except.pure, Except.ok.injEq] at h
    subst h
    exact ⟨[], Phase_refl s⟩
  | cons x l ih =>
    intro s s' h
    simp only [forEach] at h
    obtain ⟨s1, h1, h⟩ := bind_ok.1 h
    obtain ⟨e1, p1⟩ := hbody x s s1 h1
    obtain ⟨e2, p2⟩ := ih s1 s' h
    exact ⟨_, Phase_comp p1 p2⟩

theorem forEach_calm {α : Type} {body : α → State → Except Err State}
    (hbody : ∀ x st st', body x st = .ok st' → ∃ evs, Phase st st' evs ∧ Quiet evs) :
    ∀ (l : List α) (s s' : State), forEach body l s = .ok s' →
      ∃ evs, Phase s s' evs ∧ Quiet evs := by
  intro l
  induction l with
  | nil =>
    intro s s' h
    simp only [forEach, pure, Except.pure, Except.ok.injEq] at h
    subst h
    exact ⟨[], Phase_refl s, Quiet_nil⟩
  | cons x l ih =>
    intro s s' h
    simp only [forEach] at h
    obtain ⟨s1, h1, h⟩ := bind_ok.1 h
    obtain ⟨e1, p1, q1⟩ := hbody x s s1 h1
    obtain ⟨e2, p2, q2⟩ := ih s1 s' h
    exact ⟨_, Phase_comp p1 p2, Quiet_comp q1 q2⟩

theorem processRegistrantsLoop_calm {env : Env} (henv : NoReentry env)
    {run : List Action → State → Except Err State} (hcalm : Calm run) :
    ∀ (fuel : Nat) (s : State) (arr : List FPendingRegistrant) (i : Nat) (s' : State),
      processRegistrantsLoop env run fuel s arr i = .ok s' →
      ∃ evs, Phase s s' evs ∧ Quiet evs := by
  intro fuel
  induction fuel with
  | zero =>
    intro s arr i s' h
    simp only [processRegistrantsLoop] at h
    split_ifs at h
    cases h
    exact ⟨[], Phase_refl _, Quiet_nil⟩
  | succ fuel ih =>
    intro s arr i s' h
    simp only [processRegistrantsLoop] at h
    cases hi : arr[i]? with
    | none => simp only [hi] at h; cases h; exact ⟨[], Phase_refl _, Quiet_nil⟩
    | some r =>
      simp only [hi] at h
      obtain ⟨s1, h1, h⟩ := bind_ok.1 h
      obtain ⟨e1, p1, q1⟩ := UObjectForceRegistration_calm henv hcalm h1
      cases hobj : s1.Objects[r.Object]? with
      | none => simp only [hobj] at h; exact absurd h throw_ne_ok
      | some obj =>
        simp only [hobj] at h
        split_ifs at h
        · simp [bind, Except.bind, throw, throwThe, MonadExceptOf.throw] at h
        · obtain ⟨u, hu, h⟩ := bind_ok.1 h
          cases hu
          obtain ⟨⟨s2, arr2⟩, h2, h⟩ := bind_ok.1 h
          have p2 := Phase_of_sameLedger (DequeuePendingAutoRegistrants_same h2)
          obtain ⟨e3, p3, q3⟩ := ih _ _ _ _ h
          exact ⟨_, Phase_comp (Phase_comp p1 p2) p3, Quiet_comp (Quiet_comp q1 Quiet_nil) q3⟩

/-- Without re-entry `UObjectProcessRegistrants` materialises nothing, at any depth. -/
theorem UObjectProcessRegistrants_calm {env : Env} (henv : NoReentry env)
    {run : List Action → State → Except Err State} (hcalm : Calm run) {fuel : Nat}
    {s s' : State} (h : UObjectProcessRegistrants env run fuel s = .ok s') :
    ∃ evs, Phase s s' evs ∧ Quiet evs := by
  unfold UObjectProcessRegistrants at h
  split_ifs at h
  · simp [bind, Except.bind, throw, throwThe, MonadExceptOf.throw] at h
  · obtain ⟨u, hu, h⟩ := bind_ok.1 h
    cases hu
    obtain ⟨⟨s1, arr⟩, h1, h⟩ := bind_ok.1 h
    have p1 := Phase_of_sameLedger (DequeuePendingAutoRegistrants_same h1)
    obtain ⟨e2, p2, q2⟩ := processRegistrantsLoop_calm henv hcalm _ _ _ _ _ h
    exact ⟨_, Phase_comp p1 p2, Quiet_comp Quiet_nil q2⟩

theorem UClassRegisterAllCompiledInClasses_calm {env : Env} (henv : NoReentry env)
    {run : List Action → State → Except Err State} (hcalm : Calm run) {s s' : State}
    (h : UClassRegisterAllCompiledInClasses env run s = .ok s') :
    ∃ evs, Phase s s' evs ∧ Quiet evs := by
  unfold UClassRegisterAllCompiledInClasses at h
  obtain ⟨s1, h1, h⟩ := bind_ok.1 h
  cases h
  obtain ⟨e1, p1, q1⟩ := forEach_calm
    (fun Class st st' hb =>
      logged_invoke_calm hcalm st (Call.ClassRegister Class) (by intro p n t f d hc; cases hc)
        rfl (henv.2.2.2.2.2 Class _) hb) _ _ _ h1
  have p2 : Phase s1 { s1 with DeferredClassRegistration := [] } [] :=
    Phase_silent rfl rfl rfl rfl rfl
  exact ⟨_, Phase_comp p1 p2, Quiet_comp q1 Quiet_nil⟩

theorem UObjectLoadAllCompiledInStructs_phase {env : Env} (henv : NoReentry env)
    {run : List Action → State → Except Err State} (hcalm : Calm run) {s s' : State}
    (h : UObjectLoadAllCompiledInStructs env run s = .ok s') :
    ∃ evs, Phase { s with
        DeferredCompiledInEnumRegistration := []
        DeferredCompiledInStructRegistration := [] } s' evs := by
  unfold UObjectLoadAllCompiledInStructs at h
  obtain ⟨s1, h1, h⟩ := bind_ok.1 h
  obtain ⟨s2, h2, h⟩ := bind_ok.1 h
  obtain ⟨s3, h3, h⟩ := bind_ok.1 h
  obtain ⟨e1, p1⟩ := forEach_phase
    (fun (r : FPendingEnumRegistrant) st st' hb =>
      (CreatePackage_calm henv hcalm hb).imp (fun _ hx => hx.1)) _ _ _ h1
  obtain ⟨e2, p2⟩ := forEach_phase
    (fun (r : FPendingStructRegistrant) st st' hb =>
      (CreatePackage_calm henv hcalm hb).imp (fun _ hx => hx.1)) _ _ _ h2
  obtain ⟨e3, p3⟩ := forEach_phase
    (fun (r : FPendingEnumRegistrant) st st' hb =>
      logged_invoke_phase hcalm st (Call.EnumRegisterFn r.RegisterFn)
        (by intro p n t f d hc; cases hc) (henv.2.1 r.RegisterFn _) hb) _ _ _ h3
  obtain ⟨e4, p4⟩ := forEach_phase
    (fun (r : FPendingStructRegistrant) st st' hb =>
      logged_invoke_phase hcalm st (Call.StructRegisterFn r.RegisterFn)
        (by intro p n t f d hc; cases hc) (henv.2.2.1 r.RegisterFn _) hb) _ _ _ h
  exact ⟨_, Phase_comp (Phase_comp (Phase_comp p1 p2) p3) p4⟩

theorem registrantLoop_phase {env : Env} (henv : NoReentry env)
    {run : List Action → State → Except Err State} (hcalm : Calm run) :
    ∀ (fns : List FnId) (s : State) (a : NewClassArrays) (s' : State) (a' : NewClassArrays),
      registrantLoop env run fns s a = .ok (s', a') → ∃ evs, Phase s s' evs := by
  intro fns
  induction fns with
  | nil =>
    intro s a s' a' h
    simp only [registrantLoop, pure, Except.pure, Except.ok.injEq, Prod.mk.injEq] at h
    obtain ⟨rfl, rfl⟩ := h
    exact ⟨[], Phase_refl _⟩
  | cons fn fns ih =>
    intro s a s' a' h
    simp only [registrantLoop] at h
    obtain ⟨s2, h2, h⟩ := bind_ok.1 h
    obtain ⟨e1, p1⟩ := logged_invoke_phase hcalm s
      (Call.ClassRegistrant fn (env.ClassRegistrant fn s).2)
      (by intro p n t f d hc; cases hc) (henv.2.2.2.1 fn s) h2
    obtain ⟨e2, p2⟩ := ih _ _ _ _ h
    exact ⟨_, Phase_comp p1 p2⟩

theorem GetDefaultObject_phase {env : Env} (henv : NoReentry env)
    {run : List Action → State → Except Err State} (hcalm : Calm run) {Class : ObjId}
    {s s' : State} (h : GetDefaultObject env run Class s = .ok s') :
    ∃ evs, Phase s s' evs :=
  logged_invoke_phase hcalm s (Call.GetDefaultObject Class)
    (by intro p n t f d hc; cases hc) (henv.2.2.2.2.1 Class _) h

theorem UObjectLoadAllCompiledInDefaultProperties_phase {env : Env} (henv : NoReentry env)
    {run : List Action → State → Except Err State} (hcalm : Calm run) {s s' : State}
    (h : UObjectLoadAllCompiledInDefaultProperties env run s = .ok s') :
    ∃ evs, Phase { s with DeferredCompiledInRegistration := [] } s' evs := by
  unfold UObjectLoadAllCompiledInDefaultProperties at h
  by_cases hq : s.DeferredCompiledInRegistration.length ≠ 0
  · have hdec : decide (s.DeferredCompiledInRegistration.length ≠ 0) = true := by
      simpa using hq
    simp only [hdec, if_true] at h
    obtain ⟨⟨s1, a⟩, h1, h⟩ := bind_ok.1 h
    obtain ⟨s2, h2, h⟩ := bind_ok.1 h
    obtain ⟨s3, h3, h⟩ := bind_ok.1 h
    obtain ⟨e1, p1⟩ := registrantLoop_phase henv hcalm _ _ _ _ _ h1
    obtain ⟨e2, p2⟩ := forEach_phase
      (fun c st st' hb => GetDefaultObject_phase henv hcalm hb) _ _ _ h2
    obtain ⟨e3, p3⟩ := forEach_phase
      (fun c st st' hb => GetDefaultObject_phase henv hcalm hb) _ _ _ h3
    obtain ⟨e4, p4⟩ := forEach_phase
      (fun c st st' hb => GetDefaultObject_phase henv hcalm hb) _ _ _ h
    exact ⟨_, Phase_comp (Phase_comp (Phase_comp p1 p2) p3) p4⟩
  · have hdec : decide (s.DeferredCompiledInRegistration.length ≠ 0) = false := by
      simpa using hq
    simp only [hdec, Bool.false_eq_true, if_false, pure, Except.pure, Except.ok.injEq] at h
    subst h
    have hnil : s.DeferredCompiledInRegistration = [] := by
      simpa using hq
    refine ⟨[], ?_⟩
    constructor <;> simp [hnil, enumsDeferred, structsDeferred, classesDeferred]

/-! ### From own calls to all calls -/

theorem filter_allCalls_of_own {d : Nat} {evs : List Event}
    (h : ∀ e ∈ evs, e.call.isMaterialization = true → e.depth = d) :
    (allCalls evs).filter Call.isMaterialization =
      (directCalls d evs).filter Call.isMaterialization := by
  induction evs with
  | nil => rfl
  | cons e evs ih =>
    have ih2 := ih (fun x hx => h x (List.mem_cons_of_mem _ hx))
    simp only [allCalls, directCalls] at ih2 ⊢
    by_cases hm : e.call.isMaterialization = true
    · have hd := h e (List.mem_cons_self _ _) hm
      simp [List.filter_cons, hm, hd, ih2]
    · by_cases hd : e.depth = d
      · simp [List.filter_cons, hm, hd, ih2]
      · simp [List.filter_cons, hm, hd, ih2]

theorem enumFactoryCalls_filter (calls : List Call) :
    enumFactoryCalls (calls.filter Call.isMaterialization) = enumFactoryCalls calls := by
  induction calls with
  | nil => rfl
  | cons c calls ih =>
    simp only [enumFactoryCalls] at ih ⊢
    cases c <;> simp [List.filter_cons, Call.isMaterialization, List.filterMap_cons, ih]

theorem structFactoryCalls_filter (calls : List Call) :
    structFactoryCalls (calls.filter Call.isMaterialization) = structFactoryCalls calls := by
  induction calls with
  | nil => rfl
  | cons c calls ih =>
    simp only [structFactoryCalls] at ih ⊢
    cases c <;> simp [List.filter_cons, Call.isMaterialization, List.filterMap_cons, ih]

theorem classFactoryCalls_filter (calls : List Call) :
    classFactoryCalls (calls.filter Call.isMaterialization) = classFactoryCalls calls := by
  induction calls with
  | nil => rfl
  | cons c calls ih =>
    simp only [classFactoryCalls] at ih ⊢
    cases c <;> simp [List.filter_cons, Call.isMaterialization, List.filterMap_cons, ih]

theorem enumFactoryCalls_append (a b : List Call) :
    enumFactoryCalls (a ++ b) = enumFactoryCalls a ++ enumFactoryCalls b := by
  simp [enumFactoryCalls, List.filterMap_append]

theorem structFactoryCalls_append (a b : List Call) :
    structFactoryCalls (a ++ b) = structFactoryCalls a ++ structFactoryCalls b := by
  simp [structFactoryCalls, List.filterMap_append]

theorem classFactoryCalls_append (a b : List Call) :
    classFactoryCalls (a ++ b) = classFactoryCalls a ++ classFactoryCalls b := by
  simp [classFactoryCalls, List.filterMap_append]

theorem allCalls_append (a b : List Event) : allCalls (a ++ b) = allCalls a ++ allCalls b := by
  simp [allCalls]

theorem factoryCalls_of_quiet {evs : List Event} (h : Quiet evs) :
    enumFactoryCalls (allCalls evs) = [] ∧ structFactoryCalls (allCalls evs) = [] ∧
      classFactoryCalls (allCalls evs) = [] := by
  have hf : (allCalls evs).filter Call.isMaterialization = [] := by
    simp only [allCalls, List.filter_eq_nil_iff, List.mem_map]
    rintro c ⟨e, he, rfl⟩
    simp [h e he]
  refine ⟨?_, ?_, ?_⟩
  · rw [← enumFactoryCalls_filter, hf]; rfl
  · rw [← structFactoryCalls_filter, hf]; rfl
  · rw [← classFactoryCalls_filter, hf]; rfl

theorem factoryCalls_structsCalls (enums : List FPendingEnumRegistrant)
    (structs : List FPendingStructRegistrant) :
    enumFactoryCalls (structsCalls enums structs) = enums.map (·.RegisterFn) ∧
      structFactoryCalls (structsCalls enums structs) = structs.map (·.RegisterFn) ∧
      classFactoryCalls (structsCalls enums structs) = [] := by
  have hn : ∀ {α β : Type} (l : List α), l.filterMap (fun _ => (none : Option β)) = [] := by
    intro α β l
    induction l <;> simp_all
  have hm : ∀ {α β : Type} (f : α → β) (l : List α),
      l.filterMap (fun x => some (f x)) = l.map f := by
    intro α β f l
    induction l <;> simp_all
  simp [structsCalls, enumFactoryCalls, structFactoryCalls, classFactoryCalls,
    List.filterMap_append, List.filterMap_map, Function.comp_def, hn, hm]

theorem classFactoryCalls_zipWith : ∀ (fns : List FnId) (classes : List ObjId),
    classes.length = fns.length →
    classFactoryCalls (List.zipWith Call.ClassRegistrant fns classes) = fns
  | [], [], _ => rfl
  | [], _ :: _, h => by simp at h
  | _ :: _, [], h => by simp at h
  | fn :: fns, c :: classes, h => by
    have ih := classFactoryCalls_zipWith fns classes (by simpa using h)
    simp only [classFactoryCalls] at ih ⊢
    simp [List.filterMap_cons, ih]

theorem factoryCalls_defaultPropertiesCalls (env : Env) (fns : List FnId)
    (classes : List ObjId) (hlen : classes.length = fns.length) :
    enumFactoryCalls (defaultPropertiesCalls env fns classes) = [] ∧
      structFactoryCalls (defaultPropertiesCalls env fns classes) = [] ∧
      classFactoryCalls (defaultPropertiesCalls env fns classes) = fns := by
  refine ⟨?_, ?_, ?_⟩
  · simp only [defaultPropertiesCalls, enumFactoryCalls, List.filterMap_append,
      List.append_eq_nil, List.filterMap_eq_nil_iff]
    constructor
    · intro c hc
      obtain ⟨fn, cls, rfl⟩ := mem_zipWith_classRegistrant hc
      rfl
    · intro c hc
      obtain ⟨x, _, rfl⟩ := List.mem_map.1 hc
      rfl
  · simp only [defaultPropertiesCalls, structFactoryCalls, List.filterMap_append,
      List.append_eq_nil, List.filterMap_eq_nil_iff]
    constructor
    · intro c hc
      obtain ⟨fn, cls, rfl⟩ := mem_zipWith_classRegistrant hc
      rfl
    · intro c hc
      obtain ⟨x, _, rfl⟩ := List.mem_map.1 hc
      rfl
  · rw [defaultPropertiesCalls, classFactoryCalls_append, classFactoryCalls_zipWith _ _ hlen]
    have : classFactoryCalls ((classesInCoreUObject env classes ++ classesInEngine env classes ++
        classesElsewhere env classes).map Call.GetDefaultObject) = [] := by
      simp only [classFactoryCalls, List.filterMap_eq_nil_iff]
      intro c hc
      obtain ⟨x, _, rfl⟩ := List.mem_map.1 hc
      rfl
    rw [this, List.append_nil]

/-- A run that is a phase from a state with the same log shares its events with any
account of the own calls of the run. -/
theorem Phase.events_eq {s0 s s' : State} {evs evs' : List Event} (hp : Phase s0 s' evs)
    (h0 : s0.Trace = s.Trace) (hs : Steps s s' evs') : evs = evs' := by
  have h1 := hp.trace
  rw [hs.trace, h0] at h1
  exact (List.append_cancel_left h1).symm

/-! ### The balance of factories called against descriptors enqueued -/

theorem Balanced_of_quiet {s s' : State} {evs : List Event} (hp : Phase s s' evs)
    (hq : Quiet evs) : Balanced s s' evs := by
  obtain ⟨h1, h2, h3⟩ := factoryCalls_of_quiet hq
  exact {
    trace := hp.trace
    depth := hp.depth
    own := hp.own
    enums := by rw [h1, hp.enums]; rfl
    structs := by rw [h2, hp.structs]; rfl
    classes := by rw [h3, hp.classes]; rfl }

theorem Balanced_comp {s s1 s2 : State} {e1 e2 : List Event} (h1 : Balanced s s1 e1)
    (h2 : Balanced s1 s2 e2) : Balanced s s2 (e1 ++ e2) where
  trace := by rw [h2.trace, h1.trace, List.append_assoc]
  depth := by rw [h2.depth, h1.depth]
  own := by
    intro e he hm
    rcases List.mem_append.1 he with h | h
    · exact h1.own e h hm
    · rw [← h1.depth]; exact h2.own e h hm
  enums := by
    have a := h1.enums
    have b := h2.enums
    simp only [List.map_append] at a b
    rw [allCalls_append, enumFactoryCalls_append, List.append_assoc, b, ← List.append_assoc, a]
    simp [enumsDeferred, List.filterMap_append]
  structs := by
    have a := h1.structs
    have b := h2.structs
    simp only [List.map_append] at a b
    rw [allCalls_append, structFactoryCalls_append, List.append_assoc, b, ← List.append_assoc, a]
    simp [structsDeferred, List.filterMap_append]
  classes := by
    have a := h1.classes
    have b := h2.classes
    rw [allCalls_append, classFactoryCalls_append, List.append_assoc, b, ← List.append_assoc, a]
    simp [classesDeferred, List.filterMap_append]

theorem UObjectLoadAllCompiledInStructs_balanced {env : Env} (henv : NoReentry env)
    {run : List Action → State → Except Err State} (hrun : RunOK run) (hcalm : Calm run)
    {s s' : State} (h : UObjectLoadAllCompiledInStructs env run s = .ok s') :
    ∃ evs, Balanced s s' evs := by
  obtain ⟨evs, hp⟩ := UObjectLoadAllCompiledInStructs_phase henv hcalm h
  obtain ⟨evs', hs, hd⟩ := UObjectLoadAllCompiledInStructs_direct hrun h
  have he := hp.events_eq (s := s) rfl hs
  subst he
  have hf := filter_allCalls_of_own (d := s.Depth) hp.own
  rw [hd] at hf
  obtain ⟨f1, f2, f3⟩ := factoryCalls_structsCalls s.DeferredCompiledInEnumRegistration
    s.DeferredCompiledInStructRegistration
  refine ⟨evs, ?_⟩
  exact {
    trace := hp.trace
    depth := hp.depth
    own := hp.own
    enums := by
      rw [← enumFactoryCalls_filter, hf, enumFactoryCalls_filter, f1, hp.enums]
      simp
    structs := by
      rw [← structFactoryCalls_filter, hf, structFactoryCalls_filter, f2, hp.structs]
      simp
    classes := by
      rw [← classFactoryCalls_filter, hf, classFactoryCalls_filter, f3, hp.classes]
      simp }

theorem UObjectLoadAllCompiledInDefaultProperties_balanced {env : Env} (henv : NoReentry env)
    {run : List Action → State → Except Err State} (hrun : RunOK run) (hcalm : Calm run)
    {s s' : State} (h : UObjectLoadAllCompiledInDefaultProperties env run s = .ok s') :
    ∃ evs, Balanced s s' evs := by
  obtain ⟨evs, hp⟩ := UObjectLoadAllCompiledInDefaultProperties_phase henv hcalm h
  obtain ⟨classes, hlen, evs', hs, hd⟩ :=
    UObjectLoadAllCompiledInDefaultProperties_direct hrun h
  have he := hp.events_eq (s := s) rfl hs
  subst he
  have hf := filter_allCalls_of_own (d := s.Depth) hp.own
  rw [hd] at hf
  obtain ⟨f1, f2, f3⟩ := factoryCalls_defaultPropertiesCalls env
    s.DeferredCompiledInRegistration classes hlen
  refine ⟨evs, ?_⟩
  exact {
    trace := hp.trace
    depth := hp.depth
    own := hp.own
    enums := by
      rw [← enumFactoryCalls_filter, hf, enumFactoryCalls_filter, f1, hp.enums]
      simp
    structs := by
      rw [← structFactoryCalls_filter, hf, structFactoryCalls_filter, f2, hp.structs]
      simp
    classes := by
      rw [← classFactoryCalls_filter, hf, classFactoryCalls_filter, f3, hp.classes]
      simp }

theorem materializePass_balanced {env : Env} (henv : NoReentry env)
    {run : List Action → State → Except Err State} (hrun : RunOK run) (hcalm : Calm run)
    {fuel : Nat} {s s' : State} (h : materializePass env run fuel s = .ok s') :
    ∃ evs, Balanced s s' evs := by
  unfold materializePass at h
  obtain ⟨s1, h1, h⟩ := bind_ok.1 h
  obtain ⟨s2, h2, h⟩ := bind_ok.1 h
  obtain ⟨e1, p1, q1⟩ := UObjectProcessRegistrants_calm henv hcalm h1
  obtain ⟨e2, b2⟩ := UObjectLoadAllCompiledInStructs_balanced henv hrun hcalm h2
  obtain ⟨e3, b3⟩ := UObjectLoadAllCompiledInDefaultProperties_balanced henv hrun hcalm h
  exact ⟨_, Balanced_comp (Balanced_comp (Balanced_of_quiet p1 q1) b2) b3⟩

theorem materializeLoop_balanced {env : Env} (henv : NoReentry env)
    {run : List Action → State → Except Err State} (hrun : RunOK run) (hcalm : Calm run)
    (passFuel : Nat) :
    ∀ (fuel : Nat) (s : State) (b : Bool) (s' : State) (b' : Bool),
      materializeLoop env run passFuel fuel s b = .ok (s', b') →
      ∃ evs, Balanced s s' evs := by
  intro fuel
  induction fuel with
  | zero =>
    intro s b s' b' h
    simp only [materializeLoop] at h
    split_ifs at h
    simp only [pure, Except.pure, Except.ok.injEq, Prod.mk.injEq] at h
    obtain ⟨rfl, rfl⟩ := h
    exact ⟨[], Balanced_of_quiet (Phase_refl _) Quiet_nil⟩
  | succ fuel ih =>
    intro s b s' b' h
    simp only [materializeLoop] at h
    split_ifs at h
    · obtain ⟨s1, h1, h⟩ := bind_ok.1 h
      obtain ⟨e1, b1⟩ := materializePass_balanced henv hrun hcalm h1
      obtain ⟨e2, b2⟩ := ih _ _ _ _ h
      exact ⟨_, Balanced_comp b1 b2⟩
    · simp only [pure, Except.pure, Except.ok.injEq, Prod.mk.injEq] at h
      obtain ⟨rfl, rfl⟩ := h
      exact ⟨[], Balanced_of_quiet (Phase_refl _) Quiet_nil⟩

/-- Without re-entry a run of `ProcessNewlyLoadedUObjects` is balanced: over all depths
the factories it called are, in order, those of the descriptors it found and of the ones
enqueued while it ran. -/
theorem ProcessNewlyLoadedUObjects_balanced {env : Env} (henv : NoReentry env)
    {run : List Action → State → Except Err State} (hrun : RunOK run) (hcalm : Calm run)
    {fuel : Nat} {s s' : State} {Package : FName}
    (h : ProcessNewlyLoadedUObjects env run fuel s Package true = .ok s') :
    ∃ evs, Balanced s s' evs := by
  unfold ProcessNewlyLoadedUObjects at h
  obtain ⟨sA, hA, h⟩ := bind_ok.1 h
  have same : SameLedger s sA := by
    split_ifs at hA
    · exact UObjectReleaseModuleRegistrants_same hA
    · cases hA; exact SameLedger.same s
  simp only [Bool.not_true, Bool.false_eq_true, if_false] at h
  obtain ⟨sB, hB, h⟩ := bind_ok.1 h
  obtain ⟨⟨sC, b⟩, hC, h⟩ := bind_ok.1 h
  obtain ⟨eB, pB, qB⟩ := UClassRegisterAllCompiledInClasses_calm henv hcalm hB
  obtain ⟨eC, bC⟩ := materializeLoop_balanced henv hrun hcalm fuel fuel sB false sC b hC
  have bAC := Balanced_comp (Balanced_comp
    (Balanced_of_quiet (Phase_of_sameLedger same) Quiet_nil) (Balanced_of_quiet pB qB)) bC
  simp only at h
  split_ifs at h
  · simp only [pure, Except.pure, Except.ok.injEq] at h
    subst h
    have pD := Phase_logged sC Call.AssembleReferenceTokenStreams
      (by intro p n t f d hc; cases hc)
    exact ⟨_, Balanced_comp bAC (Balanced_of_quiet pD (Quiet_single _ _ rfl))⟩
  · simp only [pure, Except.pure, Except.ok.injEq] at h
    subst h
    exact ⟨_, bAC⟩

theorem newEvents_of_trace {s s' : State} {evs : List Event} (h : s'.Trace = s.Trace ++ evs) :
    newEvents s s' = evs := by
  simp [newEvents, h]

/-- In `sampleEnv` no callback re-enters the loop: the only call a callback makes defers an
enum descriptor. -/
theorem sampleEnv_noReentry : NoReentry sampleEnv := by
  refine ⟨?_, ?_, ?_, ?_, ?_, ?_⟩
  · intro p st a ha
    simp [sampleEnv] at ha
  · intro fn st a ha
    simp [sampleEnv] at ha
  · intro fn st a ha
    simp [sampleEnv] at ha
  · intro fn st a ha
    simp [sampleEnv] at ha
  · intro c st a ha
    simp only [sampleEnv] at ha
    split_ifs at ha
    · simp only [List.mem_singleton] at ha
      rw [ha]
      rfl
    · simp at ha
  · intro c st a ha
    simp [sampleEnv] at ha

/-! ## Every descriptor once, whatever the callbacks do -/

theorem perm_account {α : Type} {F1 Q1 E1 Q0 D1 F2 Q2 E2 D2 : List α}
    (a : (F1 ++ Q1).Perm (E1 ++ (Q0 ++ D1))) (b : (F2 ++ Q2).Perm (E2 ++ (Q1 ++ D2))) :
    ((F1 ++ F2) ++ Q2).Perm ((E1 ++ E2) ++ (Q0 ++ (D1 ++ D2))) := by
  rw [← Multiset.coe_eq_coe] at a b ⊢
  simp only [← Multiset.coe_add] at a b ⊢
  calc (↑F1 + ↑F2 + ↑Q2 : Multiset α) = ↑F1 + (↑F2 + ↑Q2) := by rw [add_assoc]
    _ = ↑F1 + (↑E2 + (↑Q1 + ↑D2)) := by rw [b]
    _ = (↑F1 + ↑Q1) + (↑E2 + ↑D2) := by abel
    _ = (↑E1 + (↑Q0 + ↑D1)) + (↑E2 + ↑D2) := by rw [a]
    _ = ↑E1 + ↑E2 + (↑Q0 + (↑D1 + ↑D2)) := by abel

theorem Tally_refl (s : State) : Tally s s [] [] [] [] := by
  constructor <;> simp [allCalls, enumFactoryCalls, structFactoryCalls, classFactoryCalls,
    enumsDeferred, structsDeferred, classesDeferred]

theorem Tally_comp {s s1 s2 : State} {e1 e2 : List Event} {E1 S1 C1 E2 S2 C2 : List FnId}
    (h1 : Tally s s1 e1 E1 S1 C1) (h2 : Tally s1 s2 e2 E2 S2 C2) :
    Tally s s2 (e1 ++ e2) (E1 ++ E2) (S1 ++ S2) (C1 ++ C2) where
  trace := by rw [h2.trace, h1.trace, List.append_assoc]
  enums := by
    have h := perm_account h1.enums h2.enums
    simpa [allCalls_append, enumFactoryCalls_append, enumsDeferred, List.filterMap_append]
      using h
  structs := by
    have h := perm_account h1.structs h2.structs
    simpa [allCalls_append, structFactoryCalls_append, structsDeferred, List.filterMap_append]
      using h
  classes := by
    have h := perm_account h1.classes h2.classes
    simpa [allCalls_append, classFactoryCalls_append, classesDeferred, List.filterMap_append]
      using h

theorem Tally_silent {s s' : State} (ht : s'.Trace = s.Trace)
    (he : s'.DeferredCompiledInEnumRegistration = s.DeferredCompiledInEnumRegistration)
    (hs : s'.DeferredCompiledInStructRegistration = s.DeferredCompiledInStructRegistration)
    (hc : s'.DeferredCompiledInRegistration = s.DeferredCompiledInRegistration) :
    Tally s s' [] [] [] [] := by
  constructor <;> simp [ht, he, hs, hc, allCalls, enumFactoryCalls, structFactoryCalls,
    classFactoryCalls, enumsDeferred, structsDeferred, classesDeferred]

theorem Tally_of_sameLedger {s s' : State} (h : SameLedger s s') : Tally s s' [] [] [] [] :=
  Tally_silent h.trace h.enums h.structs h.classes

/-- A logged call that is no notification: a factory call is one more factory owed. -/
theorem Tally_logged (s : State) (c : Call)
    (hc : ∀ p n t f d, c ≠ Call.NotifyAdded p n t f d) :
    Tally s (logCall s c) [⟨s.Depth, c⟩] (enumFactoryCalls [c]) (structFactoryCalls [c])
      (classFactoryCalls [c]) := by
  constructor
  · rfl
  · cases c <;> first | exact absurd rfl (hc _ _ _ _ _) |
      simp [logCall, allCalls, enumFactoryCalls, enumsDeferred]
  · cases c <;> first | exact absurd rfl (hc _ _ _ _ _) |
      simp [logCall, allCalls, structFactoryCalls, structsDeferred]
  · cases c <;> first | exact absurd rfl (hc _ _ _ _ _) |
      simp [logCall, allCalls, classFactoryCalls, classesDeferred]

theorem invoke_tally {run : List Action → State → Except Err State} (hrun : Accounted run)
    {acts : List Action} {s s' : State} (h : invoke run acts s = .ok s') :
    ∃ evs, Tally s s' evs [] [] [] := by
  unfold invoke at h
  obtain ⟨s1, h1, h⟩ := bind_ok.1 h
  simp only [pure, Except.pure, Except.ok.injEq] at h
  subst h
  obtain ⟨evs, ht⟩ := hrun _ _ _ h1
  exact ⟨evs, ⟨ht.trace, ht.enums, ht.structs, ht.classes⟩⟩

theorem logged_invoke_tally {run : List Action → State → Except Err State}
    (hrun : Accounted run) (s : State) (c : Call)
    (hc : ∀ p n t f d, c ≠ Call.NotifyAdded p n t f d) {acts : List Action} {s' : State}
    (h : invoke run acts (logCall s c) = .ok s') :
    ∃ evs, Tally s s' evs (enumFactoryCalls [c]) (structFactoryCalls [c])
      (classFactoryCalls [c]) := by
  obtain ⟨e2, t2⟩ := invoke_tally hrun h
  have t := Tally_comp (Tally_logged s c hc) t2
  simp only [List.append_nil] at t
  exact ⟨_, t⟩

theorem CreatePackage_tally {env : Env}
    {run : List Action → State → Except Err State} (hrun : Accounted run)
    {s s' : State} {PackageName : FName}
    (h : CreatePackage env run s PackageName = .ok s') :
    ∃ evs, Tally s s' evs [] [] [] := by
  unfold CreatePackage at h
  obtain ⟨s2, h2, h3⟩ := bind_ok.1 h
  obtain ⟨e2, t2⟩ := logged_invoke_tally hrun s (Call.CreatePackage PackageName)
    (by intro p n t f d hc; cases hc) h2
  have t3 : Tally s2 s' [] [] [] [] := by
    split at h3
    · simp only [pure, Except.pure, Except.ok.injEq] at h3
      subst h3; exact Tally_refl _
    · simp only [pure, Except.pure, Except.ok.injEq] at h3
      subst h3
      exact Tally_silent rfl rfl rfl rfl
  exact ⟨_, Tally_comp t2 t3⟩

theorem DeferredRegister_tally {env : Env}
    {run : List Action → State → Except Err State} (hrun : Accounted run)
    {s s' : State} {this : ObjId} {cls : Option UObjectRef} {PackageName InName : FName}
    (h : DeferredRegister env run s this cls PackageName InName = .ok s') :
    ∃ evs, Tally s s' evs [] [] [] := by
  unfold DeferredRegister at h
  have t1 := Tally_logged s (Call.DeferredRegister this PackageName InName)
    (by intro p n t f d hc; cases hc)
  by_cases hinit : (logCall s (Call.DeferredRegister this PackageName InName)).ObjInitialized
  swap
  · simp [hinit, bind, Except.bind, throw, throwThe, MonadExceptOf.throw] at h
  simp only [hinit, Bool.not_true, Bool.false_eq_true, if_false] at h
  obtain ⟨u, hu, h⟩ := bind_ok.1 h
  cases hu
  obtain ⟨s1, hcp, h⟩ := bind_ok.1 h
  obtain ⟨e2, t2⟩ := CreatePackage_tally hrun hcp
  cases hobj : s1.Objects[this]? with
  | none => simp only [hobj] at h; exact absurd h throw_ne_ok
  | some obj =>
    simp only [hobj] at h
    by_cases hcls : cls.isNone
    · simp [hcls, bind, Except.bind, throw, throwThe, MonadExceptOf.throw] at h
    simp only [hcls, Bool.false_eq_true, if_false] at h
    obtain ⟨u, hu, h⟩ := bind_ok.1 h
    cases hu
    by_cases hcp2 : obj.ClassPrivate.isSome
    · simp [hcp2, bind, Except.bind, throw, throwThe, MonadExceptOf.throw] at h
    simp only [hcp2, Bool.false_eq_true, if_false] at h
    obtain ⟨u, hu, h⟩ := bind_ok.1 h
    cases hu
    obtain ⟨s2, hadd, h⟩ := bind_ok.1 h
    obtain ⟨obj2, table, _, _, _, hs2⟩ := AddObject_result hadd
    have d4 : s' = s2 := by
      cases hobj2 : s2.Objects[this]? with
      | none => simp only [hobj2] at h; exact absurd h throw_ne_ok
      | some obj2 =>
        simp only [hobj2] at h
        split_ifs at h
        exact (Except.ok.inj h).symm
    subst d4
    have t3 : Tally s1 s' [] [] [] [] := by
      subst hs2
      exact Tally_silent rfl rfl rfl rfl
    exact ⟨_, Tally_comp (Tally_comp t1 t2) t3⟩

theorem UObjectForceRegistration_tally {env : Env}
    {run : List Action → State → Except Err State} (hrun : Accounted run)
    {s s' : State} {Object : ObjId} {b : Bool}
    (h : UObjectForceRegistration env run s Object b = .ok s') :
    ∃ evs, Tally s s' evs [] [] [] := by
  cases hfind : TMap.Find s.PendingRegistrantInfo Object with
  | none =>
    rw [UObjectForceRegistration_none b hfind] at h
    cases h
    exact ⟨[], Tally_refl s⟩
  | some Info =>
    simp only [UObjectForceRegistration, hfind] at h
    obtain ⟨sA, hA, h⟩ := bind_ok.1 h
    have same : SameLedger s sA := by
      split_ifs at hA
      · exact UObjectReleaseModuleRegistrants_same hA
      · cases hA; exact SameLedger.same s
    have tA := Tally_of_sameLedger same
    have tB : Tally sA
        { sA with PendingRegistrantInfo := TMap.Remove sA.PendingRegistrantInfo Object }
        [] [] [] [] :=
      Tally_silent rfl rfl rfl rfl
    obtain ⟨e3, t3⟩ := DeferredRegister_tally hrun h
    exact ⟨_, Tally_comp (Tally_comp tA tB) t3⟩

theorem UObjectCompiledInDeferEnum_tally (s : State) (fn : FnId) (pkg name : FName)
    (dyn : Bool) (path : FName) :
    Tally s (UObjectCompiledInDeferEnum s fn pkg name dyn path)
      [⟨s.Depth, Call.NotifyAdded pkg name .NRT_Enum fn dyn⟩] [] [] [] := by
  cases dyn <;> constructor <;>
    simp [UObjectCompiledInDeferEnum, logCall, allCalls, enumFactoryCalls, structFactoryCalls,
      classFactoryCalls, enumsDeferred, structsDeferred, classesDeferred]

theorem UObjectCompiledInDeferStruct_tally (s : State) (fn : FnId) (pkg name : FName)
    (dyn : Bool) (path : FName) :
    Tally s (UObjectCompiledInDeferStruct s fn pkg name dyn path)
      [⟨s.Depth, Call.NotifyAdded pkg name .NRT_Struct fn dyn⟩] [] [] [] := by
  cases dyn <;> constructor <;>
    simp [UObjectCompiledInDeferStruct, logCall, allCalls, enumFactoryCalls,
      structFactoryCalls, classFactoryCalls, enumsDeferred, structsDeferred, classesDeferred]

theorem UObjectCompiledInDefer_tally {env : Env} {s s' : State} {fn sc : FnId}
    {name pkg : FName} {dyn : Bool} {path : FName}
    (h : UObjectCompiledInDefer env s fn sc name pkg dyn path = .ok s') :
    ∃ evs, Tally s s' evs [] [] [] := by
  unfold UObjectCompiledInDefer at h
  cases dyn with
  | false =>
    simp only [Bool.not_false, if_true, pure, Except.pure, Except.ok.injEq] at h
    subst h
    refine ⟨[⟨s.Depth, Call.NotifyAdded pkg (RemoveClassPrefix env name) .NRT_Class fn false⟩,
      ⟨s.Depth, Call.NotifyAdded pkg (env.DEFAULT_OBJECT_PREFIX ++ RemoveClassPrefix env name)
        .NRT_ClassCDO fn false⟩], ?_⟩
    constructor <;>
      simp [logCall, allCalls, enumFactoryCalls, structFactoryCalls, classFactoryCalls,
        enumsDeferred, structsDeferred, classesDeferred]
  | true =>
    simp only [Bool.not_true, Bool.false_eq_true, if_false] at h
    split_ifs at h
    simp only [pure, Except.pure, Except.ok.injEq] at h
    subst h
    refine ⟨[⟨s.Depth, Call.NotifyAdded ((path.dropRight name.length).dropRight 1) name
        .NRT_Class fn true⟩,
      ⟨s.Depth, Call.NotifyAdded ((path.dropRight name.length).dropRight 1)
        (env.DEFAULT_OBJECT_PREFIX ++ name) .NRT_ClassCDO fn true⟩], ?_⟩
    constructor <;>
      simp [logCall, allCalls, enumFactoryCalls, structFactoryCalls, classFactoryCalls,
        enumsDeferred, structsDeferred, classesDeferred]

theorem forEach_tally {α : Type} {body : α → State → Except Err State}
    (fE fS fC : α → List FnId)
    (hbody : ∀ x st st', body x st = .ok st' → ∃ evs, Tally st st' evs (fE x) (fS x) (fC x)) :
    ∀ (l : List α) (s s' : State), forEach body l s = .ok s' →
      ∃ evs, Tally s s' evs (l.flatMap fE) (l.flatMap fS) (l.flatMap fC) := by
  intro l
  induction l with
  | nil =>
    intro s s' h
    simp only [forEach, pure, Except.pure, Except.ok.injEq] at h
    subst h
    exact ⟨[], Tally_refl s⟩
  | cons x l ih =>
    intro s s' h
    simp only [forEach] at h
    obtain ⟨s1, h1, h⟩ := bind_ok.1 h
    obtain ⟨e1, t1⟩ := hbody x s s1 h1
    obtain ⟨e2, t2⟩ := ih s1 s' h
    exact ⟨_, by simpa [List.flatMap_cons] using Tally_comp t1 t2⟩

theorem flatMap_nil_fn {α β : Type} (l : List α) :
    l.flatMap (fun _ => ([] : List β)) = [] := by
  induction l with
  | nil => rfl
  | cons x l ih => simp [List.flatMap_cons, ih]

theorem processRegistrantsLoop_tally {env : Env}
    {run : List Action → State → Except Err State} (hrun : Accounted run) :
    ∀ (fuel : Nat) (s : State) (arr : List FPendingRegistrant) (i : Nat) (s' : State),
      processRegistrantsLoop env run fuel s arr i = .ok s' →
      ∃ evs, Tally s s' evs [] [] [] := by
  intro fuel
  induction fuel with
  | zero =>
    intro s arr i s' h
    simp only [processRegistrantsLoop] at h
    split_ifs at h
    cases h
    exact ⟨[], Tally_refl _⟩
  | succ fuel ih =>
    intro s arr i s' h
    simp only [processRegistrantsLoop] at h
    cases hi : arr[i]? with
    | none => simp only [hi] at h; cases h; exact ⟨[], Tally_refl _⟩
    | some r =>
      simp only [hi] at h
      obtain ⟨s1, h1, h⟩ := bind_ok.1 h
      obtain ⟨e1, t1⟩ := UObjectForceRegistration_tally hrun h1
      cases hobj : s1.Objects[r.Object]? with
      | none => simp only [hobj] at h; exact absurd h throw_ne_ok
      | some obj =>
        simp only [hobj] at h
        split_ifs at h
        · simp [bind, Except.bind, throw, throwThe, MonadExceptOf.throw] at h
        · obtain ⟨u, hu, h⟩ := bind_ok.1 h
          cases hu
          obtain ⟨⟨s2, arr2⟩, h2, h⟩ := bind_ok.1 h
          have t2 := Tally_of_sameLedger (DequeuePendingAutoRegistrants_same h2)
          obtain ⟨e3, t3⟩ := ih _ _ _ _ h
          exact ⟨_, Tally_comp (Tally_comp t1 t2) t3⟩

theorem UObjectProcessRegistrants_tally {env : Env}
    {run : List Action → State → Except Err State} (hrun : Accounted run) {fuel : Nat}
    {s s' : State} (h : UObjectProcessRegistrants env run fuel s = .ok s') :
    ∃ evs, Tally s s' evs [] [] [] := by
  unfold UObjectProcessRegistrants at h
  split_ifs at h
  · simp [bind, Except.bind, throw, throwThe, MonadExceptOf.throw] at h
  · obtain ⟨u, hu, h⟩ := bind_ok.1 h
    cases hu
    obtain ⟨⟨s1, arr⟩, h1, h⟩ := bind_ok.1 h
    have t1 := Tally_of_sameLedger (DequeuePendingAutoRegistrants_same h1)
    obtain ⟨e2, t2⟩ := processRegistrantsLoop_tally hrun _ _ _ _ _ h
    exact ⟨_, Tally_comp t1 t2⟩

theorem UClassRegisterAllCompiledInClasses_tally {env : Env}
    {run : List Action → State → Except Err State} (hrun : Accounted run) {s s' : State}
    (h : UClassRegisterAllCompiledInClasses env run s = .ok s') :
    ∃ evs, Tally s s' evs [] [] [] := by
  unfold UClassRegisterAllCompiledInClasses at h
  obtain ⟨s1, h1, h⟩ := bind_ok.1 h
  cases h
  obtain ⟨e1, t1⟩ := forEach_tally (fun _ => []) (fun _ => []) (fun _ => [])
    (fun Class st st' hb =>
      logged_invoke_tally hrun st (Call.ClassRegister Class) (by intro p n t f d hc; cases hc)
        hb) _ _ _ h1
  have t2 : Tally s1 { s1 with DeferredClassRegistration := [] } [] [] [] [] :=
    Tally_silent rfl rfl rfl rfl
  have t := Tally_comp t1 t2
  simp only [flatMap_nil_fn, List.append_nil] at t
  exact ⟨_, t⟩

/-- Whatever the callbacks do, a call of `UObjectLoadAllCompiledInStructs` that returns
has called the factory of every descriptor it took. -/
theorem UObjectLoadAllCompiledInStructs_tally {env : Env}
    {run : List Action → State → Except Err State} (hrun : Accounted run) {s s' : State}
    (h : UObjectLoadAllCompiledInStructs env run s = .ok s') :
    ∃ evs, Tally s s' evs [] [] [] := by
  unfold UObjectLoadAllCompiledInStructs at h
  obtain ⟨s1, h1, h⟩ := bind_ok.1 h
  obtain ⟨s2, h2, h⟩ := bind_ok.1 h
  obtain ⟨s3, h3, h⟩ := bind_ok.1 h
  obtain ⟨e1, t1⟩ := forEach_tally (fun _ => []) (fun _ => []) (fun _ => [])
    (fun (r : FPendingEnumRegistrant) st st' hb => CreatePackage_tally hrun hb) _ _ _ h1
  obtain ⟨e2, t2⟩ := forEach_tally (fun _ => []) (fun _ => []) (fun _ => [])
    (fun (r : FPendingStructRegistrant) st st' hb => CreatePackage_tally hrun hb) _ _ _ h2
  obtain ⟨e3, t3⟩ := forEach_tally
    (fun (r : FPendingEnumRegistrant) => [r.RegisterFn]) (fun _ => [])
    (fun _ => [])
    (fun (r : FPendingEnumRegistrant) st st' hb =>
      logged_invoke_tally hrun st (Call.EnumRegisterFn r.RegisterFn)
        (by intro p n t f d hc; cases hc) hb) _ _ _ h3
  obtain ⟨e4, t4⟩ := forEach_tally
    (fun _ => []) (fun (r : FPendingStructRegistrant) => [r.RegisterFn])
    (fun _ => [])
    (fun (r : FPendingStructRegistrant) st st' hb =>
      logged_invoke_tally hrun st (Call.StructRegisterFn r.RegisterFn)
        (by intro p n t f d hc; cases hc) hb) _ _ _ h
  have t := Tally_comp (Tally_comp (Tally_comp t1 t2) t3) t4
  simp only [flatMap_nil_fn, flatMap_single, List.append_nil, List.nil_append] at t
  refine ⟨_, ⟨t.trace, ?_, ?_, ?_⟩⟩
  · have := t.enums
    simpa using this
  · have := t.structs
    simpa using this
  · have := t.classes
    simpa using this

theorem registrantLoop_tally {env : Env}
    {run : List Action → State → Except Err State} (hrun : Accounted run) :
    ∀ (fns : List FnId) (s : State) (a : NewClassArrays) (s' : State) (a' : NewClassArrays),
      registrantLoop env run fns s a = .ok (s', a') → ∃ evs, Tally s s' evs [] [] fns := by
  intro fns
  induction fns with
  | nil =>
    intro s a s' a' h
    simp only [registrantLoop, pure, Except.pure, Except.ok.injEq, Prod.mk.injEq] at h
    obtain ⟨rfl, rfl⟩ := h
    exact ⟨[], Tally_refl _⟩
  | cons fn fns ih =>
    intro s a s' a' h
    simp only [registrantLoop] at h
    obtain ⟨s2, h2, h⟩ := bind_ok.1 h
    obtain ⟨e1, t1⟩ := logged_invoke_tally hrun s
      (Call.ClassRegistrant fn (env.ClassRegistrant fn s).2)
      (by intro p n t f d hc; cases hc) h2
    obtain ⟨e2, t2⟩ := ih _ _ _ _ h
    exact ⟨_, by simpa [enumFactoryCalls, structFactoryCalls, classFactoryCalls]
      using Tally_comp t1 t2⟩

theorem GetDefaultObject_tally {env : Env}
    {run : List Action → State → Except Err State} (hrun : Accounted run) {Class : ObjId}
    {s s' : State} (h : GetDefaultObject env run Class s = .ok s') :
    ∃ evs, Tally s s' evs [] [] [] :=
  logged_invoke_tally hrun s (Call.GetDefaultObject Class)
    (by intro p n t f d hc; cases hc) h

/-- Whatever the callbacks do, a call of `UObjectLoadAllCompiledInDefaultProperties` that
returns has called the factory of every descriptor it took. -/
theorem UObjectLoadAllCompiledInDefaultProperties_tally {env : Env}
    {run : List Action → State → Except Err State} (hrun : Accounted run) {s s' : State}
    (h : UObjectLoadAllCompiledInDefaultProperties env run s = .ok s') :
    ∃ evs, Tally s s' evs [] [] [] := by
  unfold UObjectLoadAllCompiledInDefaultProperties at h
  by_cases hq : s.DeferredCompiledInRegistration.length ≠ 0
  · have hdec : decide (s.DeferredCompiledInRegistration.length ≠ 0) = true := by
      simpa using hq
    simp only [hdec, if_true] at h
    obtain ⟨⟨s1, a⟩, h1, h⟩ := bind_ok.1 h
    obtain ⟨s2, h2, h⟩ := bind_ok.1 h
    obtain ⟨s3, h3, h⟩ := bind_ok.1 h
    obtain ⟨e1, t1⟩ := registrantLoop_tally hrun _ _ _ _ _ h1
    obtain ⟨e2, t2⟩ := forEach_tally (fun _ => []) (fun _ => [])
      (fun _ => []) (fun c st st' hb => GetDefaultObject_tally hrun hb) _ _ _ h2
    obtain ⟨e3, t3⟩ := forEach_tally (fun _ => []) (fun _ => [])
      (fun _ => []) (fun c st st' hb => GetDefaultObject_tally hrun hb) _ _ _ h3
    obtain ⟨e4, t4⟩ := forEach_tally (fun _ => []) (fun _ => [])
      (fun _ => []) (fun c st st' hb => GetDefaultObject_tally hrun hb) _ _ _ h
    have t := Tally_comp (Tally_comp (Tally_comp t1 t2) t3) t4
    simp only [flatMap_nil_fn, List.append_nil, List.nil_append] at t
    refine ⟨_, ⟨t.trace, ?_, ?_, ?_⟩⟩
    · have := t.enums
      simpa using this
    · have := t.structs
      simpa using this
    · have := t.classes
      simpa using this
  · have hdec : decide (s.DeferredCompiledInRegistration.length ≠ 0) = false := by
      simpa using hq
    simp only [hdec, Bool.false_eq_true, if_false, pure, Except.pure, Except.ok.injEq] at h
    subst h
    exact ⟨[], Tally_refl s⟩

theorem materializePass_tally {env : Env}
    {run : List Action → State → Except Err State} (hrun : Accounted run)
    {fuel : Nat} {s s' : State} (h : materializePass env run fuel s = .ok s') :
    ∃ evs, Tally s s' evs [] [] [] := by
  unfold materializePass at h
  obtain ⟨s1, h1, h⟩ := bind_ok.1 h
  obtain ⟨s2, h2, h⟩ := bind_ok.1 h
  obtain ⟨e1, t1⟩ := UObjectProcessRegistrants_tally hrun h1
  obtain ⟨e2, t2⟩ := UObjectLoadAllCompiledInStructs_tally hrun h2
  obtain ⟨e3, t3⟩ := UObjectLoadAllCompiledInDefaultProperties_tally hrun h
  exact ⟨_, Tally_comp (Tally_comp t1 t2) t3⟩

theorem materializeLoop_tally {env : Env}
    {run : List Action → State → Except Err State} (hrun : Accounted run) (passFuel : Nat) :
    ∀ (fuel : Nat) (s : State) (b : Bool) (s' : State) (b' : Bool),
      materializeLoop env run passFuel fuel s b = .ok (s', b') →
      ∃ evs, Tally s s' evs [] [] [] := by
  intro fuel
  induction fuel with
  | zero =>
    intro s b s' b' h
    simp only [materializeLoop] at h
    split_ifs at h
    simp only [pure, Except.pure, Except.ok.injEq, Prod.mk.injEq] at h
    obtain ⟨rfl, rfl⟩ := h
    exact ⟨[], Tally_refl _⟩
  | succ fuel ih =>
    intro s b s' b' h
    simp only [materializeLoop] at h
    split_ifs at h
    · obtain ⟨s1, h1, h⟩ := bind_ok.1 h
      obtain ⟨e1, t1⟩ := materializePass_tally hrun h1
      obtain ⟨e2, t2⟩ := ih _ _ _ _ h
      exact ⟨_, Tally_comp t1 t2⟩
    · simp only [pure, Except.pure, Except.ok.injEq, Prod.mk.injEq] at h
      obtain ⟨rfl, rfl⟩ := h
      exact ⟨[], Tally_refl _⟩

theorem ProcessNewlyLoadedUObjects_tally {env : Env}
    {run : List Action → State → Except Err State} (hrun : Accounted run)
    {fuel : Nat} {s s' : State} {Package : FName} {bCan : Bool}
    (h : ProcessNewlyLoadedUObjects env run fuel s Package bCan = .ok s') :
    ∃ evs, Tally s s' evs [] [] [] := by
  unfold ProcessNewlyLoadedUObjects at h
  obtain ⟨sA, hA, h⟩ := bind_ok.1 h
  have same : SameLedger s sA := by
    split_ifs at hA
    · exact UObjectReleaseModuleRegistrants_same hA
    · cases hA; exact SameLedger.same s
  have tA := Tally_of_sameLedger same
  cases bCan with
  | false =>
    simp only [Bool.not_false, if_true, pure, Except.pure, Except.ok.injEq] at h
    subst h
    exact ⟨[], tA⟩
  | true =>
    simp only [Bool.not_true, Bool.false_eq_true, if_false] at h
    obtain ⟨sB, hB, h⟩ := bind_ok.1 h
    obtain ⟨⟨sC, b⟩, hC, h⟩ := bind_ok.1 h
    obtain ⟨eB, tB⟩ := UClassRegisterAllCompiledInClasses_tally hrun hB
    obtain ⟨eC, tC⟩ := materializeLoop_tally hrun fuel fuel sB false sC b hC
    have tAC := Tally_comp (Tally_comp tA tB) tC
    simp only at h
    split_ifs at h
    · simp only [pure, Except.pure, Except.ok.injEq] at h
      subst h
      have tD := Tally_logged sC Call.AssembleReferenceTokenStreams
        (by intro p n t f d hc; cases hc)
      exact ⟨_, Tally_comp tAC tD⟩
    · simp only [pure, Except.pure, Except.ok.injEq] at h
      subst h
      exact ⟨_, tAC⟩

theorem execAction_tally {env : Env}
    {run : List Action → State → Except Err State} (hrun : Accounted run) {fuel : Nat}
    {a : Action} {s s' : State}
    (h : execAction env run fuel a s = .ok s') : ∃ evs, Tally s s' evs [] [] [] := by
  cases a with
  | ConstructAndRegister InFlags PackageName InName =>
    have f := Register_fields h
    simp only [constructUObjectBase] at f
    exact ⟨[], Tally_silent f.trace f.enums f.structs f.classes⟩
  | UObjectCompiledInDeferEnum fn pkg name dyn path =>
    simp only [execAction, pure, Except.pure, Except.ok.injEq] at h
    subst h
    exact ⟨_, UObjectCompiledInDeferEnum_tally s fn pkg name dyn path⟩
  | UObjectCompiledInDeferStruct fn pkg name dyn path =>
    simp only [execAction, pure, Except.pure, Except.ok.injEq] at h
    subst h
    exact ⟨_, UObjectCompiledInDeferStruct_tally s fn pkg name dyn path⟩
  | UObjectCompiledInDefer fn sc name pkg dyn path =>
    exact UObjectCompiledInDefer_tally h
  | UClassCompiledInDefer ClassInfo =>
    simp only [execAction, pure, Except.pure, Except.ok.injEq] at h
    subst h
    exact ⟨[], Tally_silent rfl rfl rfl rfl⟩
  | UObjectForceRegistration Object b =>
    exact UObjectForceRegistration_tally hrun h
  | ProcessNewlyLoadedUObjects Package bCan =>
    exact ProcessNewlyLoadedUObjects_tally hrun h

theorem runActions_tally {step : Action → State → Except Err State}
    (hstep : ∀ a s s', step a s = .ok s' → ∃ evs, Tally s s' evs [] [] []) :
    ∀ (acts : List Action) (s s' : State),
      runActions step acts s = .ok s' → ∃ evs, Tally s s' evs [] [] [] := by
  intro acts
  induction acts with
  | nil =>
    intro s s' h
    simp only [runActions, pure, Except.pure, Except.ok.injEq] at h
    subst h
    exact ⟨[], Tally_refl s⟩
  | cons a acts ih =>
    intro s s' h
    simp only [runActions] at h
    obtain ⟨s1, h1, h⟩ := bind_ok.1 h
    obtain ⟨e1, t1⟩ := hstep a s s1 h1
    obtain ⟨e2, t2⟩ := ih s1 s' h
    exact ⟨_, Tally_comp t1 t2⟩

/-- Whatever the callbacks do, nested runs of the loop included, every run of callback
code that returns has called the factory of each descriptor it took out of a queue. -/
theorem exec_accounted (env : Env) : ∀ fuel : Nat, Accounted (exec env fuel) := by
  intro fuel
  induction fuel with
  | zero =>
    intro acts s s' h
    simp only [exec] at h
    split_ifs at h
    cases h
    exact ⟨[], Tally_refl s⟩
  | succ fuel ih =>
    intro acts s s' h
    simp only [exec] at h
    exact runActions_tally (fun a st st' hst => execAction_tally ih hst) acts s s' h

/-! ## The claims on the order of materialisation, over every depth of nesting -/

/-- C5, counterexample: the enum descriptors `1` and `2` are deferred in this order, and the
factory of `1` loads a module that defers enum descriptor `3` and ends in a nested
`ProcessNewlyLoadedUObjects`. The descriptors were enqueued in the order `1`, `2`, `3`; the
materialisation loop invokes the factories in the order `1`, `3`, `2`. -/
theorem C5_reentrant_factory_breaks_enqueue_order :
    ProcessNewlyLoadedUObjects reenteringEnumEnv (exec reenteringEnumEnv 4) 4 twoEnumsDeferred
      NAME_None true = .ok twoEnumsDone ∧
    (enumsDeferred twoEnumsDone.Trace).map (·.RegisterFn) = [1, 2, 3] ∧
    enumFactoryCalls (allCalls twoEnumsDone.Trace) = [1, 3, 2] ∧
    allCalls (newEvents twoEnumsDeferred twoEnumsDone) =
      [Call.CreatePackage "/Script/Game", Call.CreatePackage "/Script/Game",
        Call.EnumRegisterFn 1, Call.NotifyAdded "/Script/Game" "E3" .NRT_Enum 3 false,
        Call.CreatePackage "/Script/Game", Call.EnumRegisterFn 3,
        Call.AssembleReferenceTokenStreams, Call.EnumRegisterFn 2,
        Call.AssembleReferenceTokenStreams] :=
  ⟨rfl, rfl, rfl, rfl⟩

/-- C5, amended: a run of `ProcessNewlyLoadedUObjects` that may materialise and returns
leaves the three queues empty, and within each kind the factories invoked during the run, at
whatever depth of nesting, are up to order exactly those of the descriptors found in the
queue and of the descriptors enqueued during the run by the non-dynamic `Defer` functions:
every descriptor has its factory invoked exactly once. Each call of
`UObjectLoadAllCompiledInStructs` and of `UObjectLoadAllCompiledInDefaultProperties` invokes
the factories of the queue it found in queue order. When no callback re-enters
`ProcessNewlyLoadedUObjects`, the factories of each kind are invoked over the whole run in
the order in which the descriptors were enqueued. -/
theorem C5_each_descriptor_once_and_in_order_without_reentry (env : Env) (fuel n : Nat)
    (s s' : State) (Package : FName)
    (h : ProcessNewlyLoadedUObjects env (exec env fuel) n s Package true = .ok s') :
    ((∀ (st : State) (fn : FnId) (pkg name path : FName),
        (UObjectCompiledInDeferEnum st fn pkg name false path).DeferredCompiledInEnumRegistration
            = st.DeferredCompiledInEnumRegistration ++ [⟨fn, pkg⟩] ∧
          enumsDeferred (newEvents st (UObjectCompiledInDeferEnum st fn pkg name false path))
            = [⟨fn, pkg⟩]) ∧
      (∀ (st : State) (fn : FnId) (pkg name path : FName),
        (UObjectCompiledInDeferStruct st fn pkg name false
            path).DeferredCompiledInStructRegistration
            = st.DeferredCompiledInStructRegistration ++ [⟨fn, pkg⟩] ∧
          structsDeferred (newEvents st (UObjectCompiledInDeferStruct st fn pkg name false path))
            = [⟨fn, pkg⟩]) ∧
      (∀ (st : State) (fn sc : FnId) (name pkg path : FName),
        ∃ st', UObjectCompiledInDefer env st fn sc name pkg false path = .ok st' ∧
          st'.DeferredCompiledInRegistration = st.DeferredCompiledInRegistration ++ [fn] ∧
          classesDeferred (newEvents st st') = [fn])) ∧
    (s'.DeferredCompiledInEnumRegistration = [] ∧
      s'.DeferredCompiledInStructRegistration = [] ∧
      s'.DeferredCompiledInRegistration = []) ∧
    ((enumFactoryCalls (allCalls (newEvents s s'))).Perm
        ((s.DeferredCompiledInEnumRegistration ++ enumsDeferred (newEvents s s')).map
          (·.RegisterFn)) ∧
      (structFactoryCalls (allCalls (newEvents s s'))).Perm
        ((s.DeferredCompiledInStructRegistration ++ structsDeferred (newEvents s s')).map
          (·.RegisterFn)) ∧
      (classFactoryCalls (allCalls (newEvents s s'))).Perm
        (s.DeferredCompiledInRegistration ++ classesDeferred (newEvents s s'))) ∧
    ((∀ st st' : State, UObjectLoadAllCompiledInStructs env (exec env fuel) st = .ok st' →
        (directCalls st.Depth (newEvents st st')).filter Call.isFactory =
          st.DeferredCompiledInEnumRegistration.map (fun r => Call.EnumRegisterFn r.RegisterFn) ++
            st.DeferredCompiledInStructRegistration.map
              (fun r => Call.StructRegisterFn r.RegisterFn)) ∧
      (∀ st st' : State,
        UObjectLoadAllCompiledInDefaultProperties env (exec env fuel) st = .ok st' →
        ∃ classes : List ObjId, classes.length = st.DeferredCompiledInRegistration.length ∧
          (directCalls st.Depth (newEvents st st')).filter Call.isFactory =
            List.zipWith Call.ClassRegistrant st.DeferredCompiledInRegistration classes)) ∧
    (NoReentry env →
      enumFactoryCalls (allCalls (newEvents s s')) =
          (s.DeferredCompiledInEnumRegistration ++ enumsDeferred (newEvents s s')).map
            (·.RegisterFn) ∧
        structFactoryCalls (allCalls (newEvents s s')) =
          (s.DeferredCompiledInStructRegistration ++ structsDeferred (newEvents s s')).map
            (·.RegisterFn) ∧
        classFactoryCalls (allCalls (newEvents s s')) =
          s.DeferredCompiledInRegistration ++ classesDeferred (newEvents s s')) := by
  have hrun := exec_runOK env fuel
  have hw := (ProcessNewlyLoadedUObjects_direct hrun h).1
  simp only [hasPendingWork, Bool.or_eq_false_iff, decide_eq_false_iff_not, ne_eq,
    List.length_eq_zero, Decidable.not_not] at hw
  obtain ⟨⟨⟨_, hC⟩, hS⟩, hE⟩ := hw
  refine ⟨⟨?_, ?_, ?_⟩, ⟨hE, hS, hC⟩, ?_, ⟨?_, ?_⟩, ?_⟩
  · intro st fn pkg name path
    exact ⟨rfl, by simp [newEvents, UObjectCompiledInDeferEnum, logCall, enumsDeferred]⟩
  · intro st fn pkg name path
    exact ⟨rfl, by simp [newEvents, UObjectCompiledInDeferStruct, logCall, structsDeferred]⟩
  · intro st fn sc name pkg path
    exact ⟨_, rfl, rfl, by simp [newEvents, logCall, classesDeferred]⟩
  · obtain ⟨evs, t⟩ := ProcessNewlyLoadedUObjects_tally (exec_accounted env fuel) h
    rw [newEvents_of_trace t.trace]
    have t1 := t.enums
    have t2 := t.structs
    have t3 := t.classes
    rw [hE] at t1
    rw [hS] at t2
    rw [hC] at t3
    exact ⟨by simpa using t1, by simpa using t2, by simpa using t3⟩
  · intro st st' hA
    rw [(UObjectLoadAllCompiledInStructs_direct hrun hA).newEvents,
      filter_isFactory_structsCalls]
  · intro st st' hB
    obtain ⟨classes, evs, hlen, hs, hd⟩ :=
      UObjectLoadAllCompiledInDefaultProperties_steps hrun hB
    refine ⟨classes, hlen, ?_⟩
    have e : newEvents st st' = evs := by
      simpa [newEvents] using congrArg (List.drop st.Trace.length) hs.trace
    rw [e, hd, filter_isFactory_defaultPropertiesCalls]
  · intro henv
    obtain ⟨evs, b⟩ := ProcessNewlyLoadedUObjects_balanced henv hrun (exec_calm henv fuel) h
    rw [newEvents_of_trace b.trace]
    have b1 := b.enums
    have b2 := b.structs
    have b3 := b.classes
    rw [hE] at b1
    rw [hS] at b2
    rw [hC] at b3
    exact ⟨by simpa using b1, by simpa using b2, by simpa using b3⟩

/-- Instance of C5: the run from `busyState` in `sampleEnv`, where no callback re-enters the
loop. The enum descriptor `3` was found in the queue and the enum descriptor `7` is deferred
during the run, one level down, by the default object of class `2`; the enum factories
invoked are `3` and then `7`, the struct factory is `4`, and the class factories are `2`,
`1`, `0`. -/
theorem C5_each_descriptor_once_and_in_order_without_reentry_witness :
    ProcessNewlyLoadedUObjects sampleEnv (exec sampleEnv 4) 4 busyState NAME_None true
      = .ok busyDone ∧
    NoReentry sampleEnv ∧
    (busyState.DeferredCompiledInEnumRegistration ++
      enumsDeferred (newEvents busyState busyDone)).map (·.RegisterFn) = [3, 7] ∧
    enumFactoryCalls (allCalls (newEvents busyState busyDone)) = [3, 7] ∧
    structFactoryCalls (allCalls (newEvents busyState busyDone)) = [4] ∧
    classFactoryCalls (allCalls (newEvents busyState busyDone)) = [2, 1, 0] ∧
    (enumFactoryCalls (allCalls (newEvents busyState busyDone)) =
        (busyState.DeferredCompiledInEnumRegistration ++
          enumsDeferred (newEvents busyState busyDone)).map (·.RegisterFn) ∧
      structFactoryCalls (allCalls (newEvents busyState busyDone)) =
        (busyState.DeferredCompiledInStructRegistration ++
          structsDeferred (newEvents busyState busyDone)).map (·.RegisterFn) ∧
      classFactoryCalls (allCalls (newEvents busyState busyDone)) =
        busyState.DeferredCompiledInRegistration ++
          classesDeferred (newEvents busyState busyDone)) :=
  ⟨rfl, sampleEnv_noReentry, rfl, rfl, rfl, rfl,
    (C5_each_descriptor_once_and_in_order_without_reentry sampleEnv 4 4 busyState busyDone
      NAME_None rfl).2.2.2.2 sampleEnv_noReentry⟩

end UObjectBootstrap
